import Mathlib

/-!
CSS-SFML-lib: a shallow embedding of the styling pipeline.

The C++ sources under `src/` are embedded as pure Lean functions.

* `std::string` is a list of characters (`Str`), one `Char` per C++ `char`.
* `float` is modelled by `ℚ`: arithmetic is exact, there is no rounding, no
  overflow and there are no infinities or NaNs.
* C++ exceptions (`std::invalid_argument`, `std::out_of_range`) and undefined
  behaviour are results in `Except Error`.
* The drawable SFML objects live in a `Scene`, a map from handles to element
  states; a `Styleable` is a handle into it, so that two handles may alias.
-/

set_option maxRecDepth 100000

/-- The C++ `std::string`, as the list of its characters. -/
abbrev Str := List Char

/-- A string literal of the source, as a `Str`. -/
def lit (s : String) : Str := s.toList

/-- What a call can raise: the two exceptions of the `std::sto*` family,
undefined behaviour (reading `front`/`back` of an empty container), a numeric
spelling (`inf`, `nan`) that exact arithmetic cannot represent, and the
`std::runtime_error` of a `CSS::Style` call before `CSS::init`. -/
inductive Error where
  | invalidArgument
  | outOfRange
  | undefinedBehaviour
  | notRepresentable
  | notInitialised
  deriving DecidableEq

instance instDecidableEqExceptError {α : Type} [DecidableEq α] : DecidableEq (Except Error α) :=
  fun a b =>
    match a, b with
    | .ok x, .ok y => if h : x = y then isTrue (by rw [h]) else isFalse (by intro e; cases e; exact h rfl)
    | .error x, .error y =>
        if h : x = y then isTrue (by rw [h]) else isFalse (by intro e; cases e; exact h rfl)
    | .ok _, .error _ => isFalse (by intro e; cases e)
    | .error _, .ok _ => isFalse (by intro e; cases e)

/-! ## C library character classes -/

namespace cstd

/-- The C locale `isspace`: space, `\t`, `\n`, `\v`, `\f`, `\r`. -/
def isspace (c : Char) : Bool :=
  c = ' ' || c = '\t' || c = '\n' || c = Char.ofNat 11 || c = Char.ofNat 12 || c = '\r'

/-- The C `isdigit`: `'0'` to `'9'`. -/
def isdigit (c : Char) : Bool := 48 ≤ c.toNat && c.toNat ≤ 57

/-- The C `isxdigit`. -/
def isxdigit (c : Char) : Bool :=
  isdigit c || (97 ≤ c.toNat && c.toNat ≤ 102) || (65 ≤ c.toNat && c.toNat ≤ 70)

/-- The C locale `tolower`: only `'A'` to `'Z'` change. -/
def tolower (c : Char) : Char :=
  if 65 ≤ c.toNat && c.toNat ≤ 90 then Char.ofNat (c.toNat + 32) else c

/-- Value of one digit character in bases up to 16 (0 for any other character). -/
def digitVal (c : Char) : Nat :=
  if isdigit c then c.toNat - 48
  else if 97 ≤ c.toNat && c.toNat ≤ 102 then c.toNat - 87
  else if 65 ≤ c.toNat && c.toNat ≤ 70 then c.toNat - 55
  else 0

/-- Value of a digit string in the given base, most significant digit first. -/
def natOfDigits (base : Nat) (ds : Str) : Nat :=
  ds.foldl (fun acc c => acc * base + digitVal c) 0

/-- Leading sign of a numeric string: `(negative, rest)`. -/
def takeSign (s : Str) : Bool × Str :=
  if s.head? = some '-' then (true, s.tail)
  else if s.head? = some '+' then (false, s.tail)
  else (false, s)

/-- Embedding of `std::stoi(str)`: `strtol` in base 10 on the longest numeric prefix, leading
white space skipped; no digits raise `invalid_argument`, a value outside the
32-bit `int` raises `out_of_range`. -/
def stoi (s : Str) : Except Error Int :=
  let p := takeSign (s.dropWhile isspace)
  let ds := p.2.takeWhile isdigit
  if ds = [] then .error .invalidArgument
  else
    let v : Int := if p.1 then -(natOfDigits 10 ds : Int) else (natOfDigits 10 ds : Int)
    if v < -2147483648 ∨ 2147483647 < v then .error .outOfRange else .ok v

/-- Skips the `0x`/`0X` prefix of a hexadecimal numeral when a hex digit follows. -/
def skipHexPrefix (s : Str) : Str :=
  match s with
  | c0 :: c1 :: c2 :: rest =>
      if c0 = '0' && (c1 = 'x' || c1 = 'X') && isxdigit c2 then c2 :: rest else s
  | _ => s

/-- Embedding of `std::stoul(str, nullptr, 16)`: `strtoul` in base 16 on the longest numeric
prefix, with leading white space, an optional sign and an optional `0x` prefix;
a negative numeral is negated in the 64-bit `unsigned long`. -/
def stoul16 (s : Str) : Except Error Nat :=
  let p := takeSign (s.dropWhile isspace)
  let ds := (skipHexPrefix p.2).takeWhile isxdigit
  if ds = [] then .error .invalidArgument
  else
    let v := natOfDigits 16 ds
    if 2 ^ 64 ≤ v then .error .outOfRange
    else .ok (if p.1 then (2 ^ 64 - v) % 2 ^ 64 else v)

/-- Optional exponent part of a floating literal: after the marker characters
`e1`/`e2`, an optional sign and a non-empty digit run; `0` when absent. -/
def exponentOf (e1 e2 : Char) (s : Str) : Int :=
  match s with
  | c :: rest =>
      if c = e1 || c = e2 then
        let p := takeSign rest
        let ds := p.2.takeWhile isdigit
        if ds = [] then 0
        else if p.1 then -(natOfDigits 10 ds : Int) else (natOfDigits 10 ds : Int)
      else 0
  | [] => 0

/-- Magnitude of a decimal floating literal `digits[.digits][e[±]digits]` at the
start of `s`; `none` when there is no digit. -/
def decimalMagnitude (s : Str) : Option ℚ :=
  let ip := s.takeWhile isdigit
  let r1 := s.dropWhile isdigit
  let fp := if r1.head? = some '.' then r1.tail.takeWhile isdigit else []
  let r2 := if r1.head? = some '.' then r1.tail.dropWhile isdigit else r1
  if ip = [] ∧ fp = [] then none
  else some ((natOfDigits 10 (ip ++ fp) : ℚ) / (10 : ℚ) ^ fp.length * (10 : ℚ) ^ exponentOf 'e' 'E' r2)

/-- Magnitude of a hexadecimal floating literal, the part after `0x`:
`hexdigits[.hexdigits][p[±]digits]`; `none` when there is no hex digit. -/
def hexMagnitude (s : Str) : Option ℚ :=
  let ip := s.takeWhile isxdigit
  let r1 := s.dropWhile isxdigit
  let fp := if r1.head? = some '.' then r1.tail.takeWhile isxdigit else []
  let r2 := if r1.head? = some '.' then r1.tail.dropWhile isxdigit else r1
  if ip = [] ∧ fp = [] then none
  else some ((natOfDigits 16 (ip ++ fp) : ℚ) / (16 : ℚ) ^ fp.length * (2 : ℚ) ^ exponentOf 'p' 'P' r2)

/-- Whether the text starts, in any letter case, with `inf` or `nan`. -/
def startsNonFinite (s : Str) : Bool :=
  (s.take 3).map tolower = lit "inf" || (s.take 3).map tolower = lit "nan"

/-- The value of a hexadecimal floating literal `0x...` at the start of `s`, if
there is one. -/
def hexFloat (s : Str) : Option ℚ :=
  match s with
  | c0 :: c1 :: rest => if c0 = '0' && (c1 = 'x' || c1 = 'X') then hexMagnitude rest else none
  | _ => none

/-- The least magnitude that `strtof` rounds to infinity: `2^128 - 2^103`, half a
unit in the last place above `FLT_MAX`. -/
def floatOverflow : ℚ := 2 ^ 128 - 2 ^ 103

/-- The least positive normal `float`: `FLT_MIN = 2^-126`. -/
def floatMinNormal : ℚ := 1 / 2 ^ 126

/-- Whether `strtof` sets `ERANGE` on a literal of magnitude `q`: the value
rounds to infinity, or it is not zero and lies under the normal range (where
the C standard leaves the report of an underflow to the implementation; the
embedding takes it that it is reported). -/
def outOfFloatRange (q : ℚ) : Bool :=
  decide (floatOverflow ≤ q) || decide (0 < q ∧ q < floatMinNormal)

/-- Embedding of `std::stof(str)`: `strtof` on the longest prefix that is a floating literal,
leading white space skipped. A literal out of the range of `float` raises
`out_of_range`; within the range the value is the exact value of the literal,
not rounded to the nearest `float`. No literal raises `invalid_argument`; `inf`
and `nan`, for which `strtof` returns a non-finite `float` that no rational
denotes, are reported as `notRepresentable`. -/
def stof (s : Str) : Except Error ℚ :=
  let p := takeSign (s.dropWhile isspace)
  let mag : Option ℚ :=
    match hexFloat p.2 with
    | some q => some q
    | none => decimalMagnitude p.2
  match mag with
  | some q => if outOfFloatRange q then .error .outOfRange else .ok (if p.1 then -q else q)
  | none => if startsNonFinite p.2 then .error .notRepresentable else .error .invalidArgument

end cstd

/-! ## utilities/StringUtils.hpp -/

namespace StringUtils

/-- The characters `trim` removes: `" \t\r\n"`. -/
def isTrimChar (c : Char) : Bool := c = ' ' || c = '\t' || c = '\r' || c = '\n'

/-- Embedding of `StringUtils::trim`: the substring from the first to the last character that
is not in `" \t\r\n"`; empty when there is none. -/
def trim (s : Str) : Str := (s.dropWhile isTrimChar).rdropWhile isTrimChar

/-- Embedding of `StringUtils::toLower`. -/
def toLower (s : Str) : Str := s.map cstd.tolower

/-- The `tokenize` step on a finished token: one trailing comma is removed. -/
def stripComma (tok : Str) : Str :=
  if tok.getLast? = some ',' then tok.dropLast else tok

/-- The reading loop of `tokenize`: `cur` is the token being read by `iss >> tok`. -/
def tokenizeLoop : Str → Str → List Str
  | [], cur => if cur = [] then [] else [stripComma cur]
  | c :: cs, cur =>
      if cstd.isspace c then
        if cur = [] then tokenizeLoop cs [] else stripComma cur :: tokenizeLoop cs []
      else tokenizeLoop cs (cur ++ [c])

/-- Embedding of `StringUtils::tokenize`: white-space separated tokens, a trailing comma of
each token removed. -/
def tokenize (s : Str) : List Str := tokenizeLoop s []

/-- The loop of `extractIntegers`: `cur` is the digit run being read, `nums` the
values pushed so far. -/
def extractIntegersLoop : Str → Str → List Int → Except Error (List Int)
  | [], cur, nums =>
      if cur = [] then .ok nums
      else match cstd.stoi cur with
        | .ok v => .ok (nums ++ [v])
        | .error e => .error e
  | c :: cs, cur, nums =>
      if cstd.isdigit c then extractIntegersLoop cs (cur ++ [c]) nums
      else if cur = [] then extractIntegersLoop cs [] nums
      else match cstd.stoi cur with
        | .ok v => extractIntegersLoop cs [] (nums ++ [v])
        | .error e => .error e

/-- Embedding of `StringUtils::extractIntegers`: the digit runs of `s`, each read by `stoi`. -/
def extractIntegers (s : Str) : Except Error (List Int) := extractIntegersLoop s [] []

/-- The alias table of `normaliseProperty`. -/
def aliases : List (Str × Str) :=
  [ (lit "backgroundcolor", lit "background-color"),
    (lit "backgroundcolour", lit "background-color"),
    (lit "fillcolor", lit "fill-color"),
    (lit "bordercolor", lit "border-color"),
    (lit "bordercolour", lit "border-color"),
    (lit "outlinecolor", lit "outline-color"),
    (lit "outlinecolour", lit "outline-color"),
    (lit "borderwidth", lit "border-width"),
    (lit "outlinethickness", lit "border-width"),
    (lit "borderradius", lit "border-radius"),
    (lit "fontsize", lit "font-size"),
    (lit "fontfamily", lit "font-family"),
    (lit "fontstyle", lit "font-style"),
    (lit "textdecoration", lit "text-decoration"),
    (lit "letterspacing", lit "letter-spacing"),
    (lit "linespacing", lit "line-spacing"),
    (lit "marginleft", lit "margin-left"),
    (lit "margintop", lit "margin-top"),
    (lit "marginright", lit "margin-right"),
    (lit "marginbottom", lit "margin-bottom"),
    (lit "paddingleft", lit "padding-left"),
    (lit "paddingtop", lit "padding-top"),
    (lit "paddingright", lit "padding-right"),
    (lit "paddingbottom", lit "padding-bottom"),
    (lit "minwidth", lit "min-width"),
    (lit "maxwidth", lit "max-width"),
    (lit "minheight", lit "min-height"),
    (lit "maxheight", lit "max-height"),
    (lit "flexdirection", lit "flex-direction"),
    (lit "justifycontent", lit "justify-content"),
    (lit "alignitems", lit "align-items"),
    (lit "rowgap", lit "row-gap"),
    (lit "columngap", lit "column-gap"),
    (lit "scalex", lit "scale-x"),
    (lit "scaley", lit "scale-y"),
    (lit "backgroundimage", lit "background-image"),
    (lit "pointcount", lit "point-count") ]

/-- Embedding of `StringUtils::normaliseProperty`: trim, lowercase, look the hyphen-free form
up in the alias table, fall back to the lowercase text. -/
def normaliseProperty (prop : Str) : Str :=
  let lower := toLower (trim prop)
  let noHyphen := lower.filter (fun c => c != '-')
  match aliases.lookup noHyphen with
  | some v => v
  | none => lower

end StringUtils

/-! ## SFML value types -/

/-- The SFML `sf::Vector2f`. -/
structure Vec2 where
  x : ℚ
  y : ℚ
  deriving DecidableEq

/-- The SFML `sf::Color`: four 8-bit channels. -/
structure Color where
  r : Nat
  g : Nat
  b : Nat
  a : Nat
  deriving DecidableEq

namespace Color

/-- The SFML constant `sf::Color::White`. -/
def White : Color := ⟨255, 255, 255, 255⟩
/-- The SFML constant `sf::Color::Black`. -/
def Black : Color := ⟨0, 0, 0, 255⟩
/-- The SFML constant `sf::Color::Red`. -/
def Red : Color := ⟨255, 0, 0, 255⟩
/-- The SFML constant `sf::Color::Green`. -/
def Green : Color := ⟨0, 255, 0, 255⟩
/-- The SFML constant `sf::Color::Blue`. -/
def Blue : Color := ⟨0, 0, 255, 255⟩
/-- The SFML constant `sf::Color::Yellow`. -/
def Yellow : Color := ⟨255, 255, 0, 255⟩
/-- The SFML constant `sf::Color::Magenta`. -/
def Magenta : Color := ⟨255, 0, 255, 255⟩
/-- The SFML constant `sf::Color::Cyan`. -/
def Cyan : Color := ⟨0, 255, 255, 255⟩
/-- The SFML constant `sf::Color::Transparent`. -/
def Transparent : Color := ⟨0, 0, 0, 0⟩
/-- The three-channel constructor `sf::Color(r, g, b)`, alpha 255. -/
def rgb (r g b : Nat) : Color := ⟨r, g, b, 255⟩

end Color

/-! ## utilities/ColorParser.hpp -/

namespace ColorParser

/-- Embedding of `ColorParser::clamp8`: `std::clamp(v, 0, 255)` cast to `uint8_t`. -/
def clamp8 (v : Int) : Nat := (max 0 (min v 255)).toNat

/-- The shorthand step of `fromHex`: every character written twice. -/
def doubled (hex : Str) : Str := hex.flatMap (fun c => [c, c])

/-- Embedding of `ColorParser::fromHex`, on the text after `#`. -/
def fromHex (hex : Str) : Color :=
  let hex1 := if hex.length = 3 then doubled hex else hex
  let hex2 := if hex1.length = 4 then doubled hex1 else hex1
  let hex3 := if hex2.length = 6 then hex2 ++ lit "ff" else hex2
  if hex3.length = 8 then
    match cstd.stoul16 hex3 with
    | .ok val => ⟨val / 2 ^ 24 % 256, val / 2 ^ 16 % 256, val / 2 ^ 8 % 256, val % 256⟩
    | .error _ => Color.White
  else Color.White

/-- Embedding of `ColorParser::fromRGB`: the integers of the text, in order, as R, G, B, A.
An exception of `extractIntegers` is not caught here. -/
def fromRGB (s : Str) : Except Error Color :=
  match StringUtils.extractIntegers s with
  | .error e => .error e
  | .ok nums =>
      .ok ⟨(nums.get? 0).elim 0 clamp8, (nums.get? 1).elim 0 clamp8,
           (nums.get? 2).elim 0 clamp8, (nums.get? 3).elim 255 clamp8⟩

/-- The named-colour table of `fromNamed`. -/
def table : List (Str × Color) :=
  [ (lit "transparent", Color.Transparent),
    (lit "black", Color.Black),
    (lit "white", Color.White),
    (lit "red", Color.Red),
    (lit "green", Color.Green),
    (lit "blue", Color.Blue),
    (lit "yellow", Color.Yellow),
    (lit "magenta", Color.Magenta),
    (lit "cyan", Color.Cyan),
    (lit "gray", Color.rgb 128 128 128),
    (lit "grey", Color.rgb 128 128 128),
    (lit "darkgray", Color.rgb 64 64 64),
    (lit "lightgray", Color.rgb 211 211 211),
    (lit "orange", Color.rgb 255 165 0),
    (lit "darkorange", Color.rgb 255 140 0),
    (lit "pink", Color.rgb 255 192 203),
    (lit "hotpink", Color.rgb 255 105 180),
    (lit "purple", Color.rgb 128 0 128),
    (lit "violet", Color.rgb 238 130 238),
    (lit "indigo", Color.rgb 75 0 130),
    (lit "brown", Color.rgb 165 42 42),
    (lit "lime", Color.rgb 50 205 50),
    (lit "navy", Color.rgb 0 0 128),
    (lit "teal", Color.rgb 0 128 128),
    (lit "silver", Color.rgb 192 192 192),
    (lit "gold", Color.rgb 255 215 0),
    (lit "coral", Color.rgb 255 127 80),
    (lit "salmon", Color.rgb 250 128 114),
    (lit "crimson", Color.rgb 220 20 60),
    (lit "turquoise", Color.rgb 64 224 208),
    (lit "skyblue", Color.rgb 135 206 235),
    (lit "steelblue", Color.rgb 70 130 180),
    (lit "chocolate", Color.rgb 210 105 30),
    (lit "tomato", Color.rgb 255 99 71),
    (lit "orchid", Color.rgb 218 112 214),
    (lit "plum", Color.rgb 221 160 221),
    (lit "khaki", Color.rgb 240 230 140),
    (lit "beige", Color.rgb 245 245 220),
    (lit "ivory", Color.rgb 255 255 240),
    (lit "lavender", Color.rgb 230 230 250),
    (lit "linen", Color.rgb 250 240 230),
    (lit "mintcream", Color.rgb 245 255 250),
    (lit "snow", Color.rgb 255 250 250),
    (lit "wheat", Color.rgb 245 222 179) ]

/-- Embedding of `ColorParser::fromNamed`: table lookup, white when the name is unknown. -/
def fromNamed (name : Str) : Color :=
  match table.lookup name with
  | some c => c
  | none => Color.White

/-- Embedding of `ColorParser::parse`. -/
def parse (raw : Str) : Except Error Color :=
  let s := StringUtils.trim raw
  if s.head? = some '#' then .ok (fromHex s.tail)
  else
    let lower := StringUtils.toLower s
    if lower.take 4 = lit "rgba" ∨ lower.take 3 = lit "rgb" then fromRGB s
    else .ok (fromNamed lower)

end ColorParser

/-! ## utilities/LengthResolver.hpp -/

namespace LengthResolver

/-- Embedding of `LengthResolver::parseNumber`: `std::stof` of the trimmed text, `0` when it
throws, as it does without a literal and on a literal out of the range of
`float`. On the spellings of infinity and NaN the code returns the non-finite
`float`; the rationals have no such number, and the `0` the embedding gives
there is not the value of the code. -/
def parseNumber (s : Str) : ℚ :=
  match cstd.stof (StringUtils.trim s) with
  | .ok v => v
  | .error _ => 0

/-- The test `pos != npos && pos == s.size() - strlen(unit)` on `low.rfind(unit)`:
the text ends with the unit. -/
def endsWithUnit (low unit : Str) : Bool :=
  unit.length ≤ low.length && low.drop (low.length - unit.length) = unit

/-- The unit loop of `parseAbsolute`: the first unit of the list that ends the
lowercased text is cut off, then the loop stops. -/
def stripUnit : List Str → Str → Str
  | [], s => s
  | unit :: units, s =>
      if endsWithUnit (StringUtils.toLower s) unit then s.take (s.length - unit.length)
      else stripUnit units s

/-- The units `parseAbsolute` knows, in the order it tries them. -/
def units : List Str := [lit "px", lit "em", lit "rem", lit "pt", lit "dp"]

/-- Embedding of `LengthResolver::parseAbsolute`. -/
def parseAbsolute (val : Str) : ℚ :=
  parseNumber (stripUnit units (StringUtils.trim val))

/-- Embedding of `LengthResolver::resolve`. -/
def resolve (val : Str) (reference : ℚ) (windowSize : Vec2) : ℚ :=
  let s := StringUtils.trim val
  if s = [] ∨ s = lit "auto" then 0
  else if s.getLast? = some '%' then reference * parseNumber s.dropLast / 100
  else if 2 ≤ s.length ∧ StringUtils.toLower (s.drop (s.length - 2)) = lit "vw" then
    windowSize.x * parseNumber (s.take (s.length - 2)) / 100
  else if 2 ≤ s.length ∧ StringUtils.toLower (s.drop (s.length - 2)) = lit "vh" then
    windowSize.y * parseNumber (s.take (s.length - 2)) / 100
  else parseAbsolute s

/-- The `std::array<float, 4>` returned by `parseFourSides`: `[top, right, bottom, left]`. -/
structure FourSides where
  top : ℚ
  right : ℚ
  bottom : ℚ
  left : ℚ
  deriving DecidableEq

/-- Embedding of `LengthResolver::parseFourSides`: the switch on the number of tokens. -/
def parseFourSides (val : Str) (reference : ℚ) (windowSize : Vec2) : FourSides :=
  let r := fun (v : Str) => resolve v reference windowSize
  match StringUtils.tokenize val with
  | [] => ⟨0, 0, 0, 0⟩
  | [a] => ⟨r a, r a, r a, r a⟩
  | [v, h] => ⟨r v, r h, r v, r h⟩
  | [t, rt, b] => ⟨r t, r rt, r b, r rt⟩
  | t :: rt :: b :: l :: _ => ⟨r t, r rt, r b, r l⟩

end LengthResolver

/-! ## contracts/IStyleable.hpp and the adapters -/

/-- Which adapter wraps the SFML object: `RectAdapter`, `CircleAdapter`,
`ConvexAdapter`, `TextAdapter` or `SpriteAdapter`. -/
inductive Kind where
  | rectangle
  | circle
  | convex
  | text
  | sprite
  deriving DecidableEq

/-- State of one SFML drawable as the adapters see it. `size` is the size of a
`sf::RectangleShape`, `radius` the radius of a `sf::CircleShape`, and
`localBounds` the size of the local bounding box SFML reports for convex
shapes, texts and sprites; SFML computes those bounds from data outside this
repository and the model holds them fixed. `textStyle` is the `sf::Text::Style`
bit mask (bold 1, italic 2, underlined 4, strike-through 8). -/
structure Element where
  kind : Kind
  position : Vec2
  origin : Vec2
  scale : Vec2
  rotation : ℚ
  size : Vec2
  radius : ℚ
  localBounds : Vec2
  fillColor : Color
  outlineColor : Color
  outlineThickness : ℚ
  characterSize : Nat
  letterSpacing : ℚ
  lineSpacing : ℚ
  textStyle : Nat
  deriving DecidableEq

namespace Element

/-- Embedding of `IStyleable::getPosition`. -/
def getPosition (e : Element) : Vec2 := e.position

/-- Embedding of `IStyleable::getScale`. -/
def getScale (e : Element) : Vec2 := e.scale

/-- Embedding of `IStyleable::getFillColor`. -/
def getFillColor (e : Element) : Color := e.fillColor

/-- Embedding of `IStyleable::getSize`, per adapter: the rectangle size, the circle diameter
on both axes, the local bounds, or for sprites the local bounds times the scale. -/
def getSize (e : Element) : Vec2 :=
  match e.kind with
  | .rectangle => e.size
  | .circle => ⟨e.radius * 2, e.radius * 2⟩
  | .convex => e.localBounds
  | .text => e.localBounds
  | .sprite => ⟨e.localBounds.x * e.scale.x, e.localBounds.y * e.scale.y⟩

/-- Embedding of `IStyleable::setSize`, per adapter: rectangles store the size, circles take
`min(w, h) / 2` as radius, convex shapes and sprites rescale when their current
extent is positive on both axes, texts ignore it. -/
def setSize (e : Element) (sz : Vec2) : Element :=
  match e.kind with
  | .rectangle => { e with size := sz }
  | .circle => { e with radius := min sz.x sz.y / 2 }
  | .convex =>
      if 0 < e.getSize.x ∧ 0 < e.getSize.y then
        { e with scale := ⟨sz.x / e.getSize.x, sz.y / e.getSize.y⟩ }
      else e
  | .text => e
  | .sprite =>
      if 0 < e.localBounds.x ∧ 0 < e.localBounds.y then
        { e with scale := ⟨sz.x / e.localBounds.x, sz.y / e.localBounds.y⟩ }
      else e

/-- Embedding of `IStyleable::setPosition`. -/
def setPosition (e : Element) (p : Vec2) : Element := { e with position := p }

/-- Embedding of `IStyleable::move`. -/
def move (e : Element) (d : Vec2) : Element :=
  { e with position := ⟨e.position.x + d.x, e.position.y + d.y⟩ }

/-- Embedding of `IStyleable::setOrigin`. -/
def setOrigin (e : Element) (o : Vec2) : Element := { e with origin := o }

/-- Embedding of `IStyleable::setScale`. -/
def setScale (e : Element) (s : Vec2) : Element := { e with scale := s }

/-- Embedding of `IStyleable::setRotation`. -/
def setRotation (e : Element) (deg : ℚ) : Element := { e with rotation := deg }

/-- Embedding of `IStyleable::setFillColor` (the tint of a sprite). -/
def setFillColor (e : Element) (c : Color) : Element := { e with fillColor := c }

/-- Embedding of `IStyleable::setOutlineColor`: not supported by sprites. -/
def setOutlineColor (e : Element) (c : Color) : Element :=
  if e.kind = .sprite then e else { e with outlineColor := c }

/-- Embedding of `IStyleable::setOutlineThickness`: not supported by sprites. -/
def setOutlineThickness (e : Element) (t : ℚ) : Element :=
  if e.kind = .sprite then e else { e with outlineThickness := t }

/-- Embedding of `IStyleable::setCharacterSize`: only texts override the empty default. -/
def setCharacterSize (e : Element) (sz : Nat) : Element :=
  if e.kind = .text then { e with characterSize := sz } else e

/-- Embedding of `IStyleable::setLetterSpacing`: only texts override the empty default. -/
def setLetterSpacing (e : Element) (f : ℚ) : Element :=
  if e.kind = .text then { e with letterSpacing := f } else e

/-- Embedding of `IStyleable::setLineSpacing`: only texts override the empty default. -/
def setLineSpacing (e : Element) (f : ℚ) : Element :=
  if e.kind = .text then { e with lineSpacing := f } else e

/-- Embedding of `IStyleable::setTextStyle`: only texts override the empty default. -/
def setTextStyle (e : Element) (st : Nat) : Element :=
  if e.kind = .text then { e with textStyle := st } else e

/-- Embedding of `IStyleable::isText`. -/
def isText (e : Element) : Bool := e.kind = .text

/-- Embedding of `IStyleable::isSprite`. -/
def isSprite (e : Element) : Bool := e.kind = .sprite

/-- A default-constructed SFML drawable of the given kind: at the origin, zero
size, unit scale, white fill and outline. -/
def fresh (k : Kind) : Element :=
  { kind := k, position := ⟨0, 0⟩, origin := ⟨0, 0⟩, scale := ⟨1, 1⟩, rotation := 0,
    size := ⟨0, 0⟩, radius := 0, localBounds := ⟨0, 0⟩, fillColor := Color.White,
    outlineColor := Color.White, outlineThickness := 0, characterSize := 30,
    letterSpacing := 1, lineSpacing := 1, textStyle := 0 }

end Element

/-! ## contracts/Types.hpp -/

/-- A `Styleable` handle: the identity of the SFML object it wraps. -/
abbrev Handle := Nat

/-- The SFML objects of a program, by handle. -/
abbrev Scene := Handle → Element

/-- Embedding of `contracts::Declaration`. -/
structure Declaration where
  property : Str
  value : Str
  deriving DecidableEq

/-- Embedding of `contracts::BoxModel`. -/
structure BoxModel where
  paddingTop : ℚ
  paddingRight : ℚ
  paddingBottom : ℚ
  paddingLeft : ℚ
  marginTop : ℚ
  marginRight : ℚ
  marginBottom : ℚ
  marginLeft : ℚ
  deriving DecidableEq

/-- Embedding of `contracts::FlexLayout::Justify`. -/
inductive Justify where
  | Start
  | End
  | Center
  | SpaceBetween
  | SpaceAround
  | SpaceEvenly
  deriving DecidableEq

/-- Embedding of `contracts::FlexLayout::Align`. -/
inductive Align where
  | Start
  | End
  | Center
  | Stretch
  deriving DecidableEq

/-- Embedding of `contracts::FlexLayout`: the layout intent. -/
structure FlexIntent where
  enabled : Bool
  column : Bool
  gap : ℚ
  justify : Justify
  align : Align
  deriving DecidableEq

/-- Embedding of `contracts::PositionMode`. -/
inductive PositionMode where
  | Default
  | Relative
  | Absolute
  | Center
  deriving DecidableEq

/-- Embedding of `contracts::StyleContext`; the element behind `self` is kept in the scene. -/
structure StyleContext where
  self : Handle
  parentSize : Vec2
  parentPos : Vec2
  windowSize : Vec2
  box : BoxModel
  flex : FlexIntent
  positionMode : PositionMode
  deferredTranslateXPct : Option ℚ
  deferredTranslateYPct : Option ℚ
  deriving DecidableEq

/-- The pair a dispatcher step works on: the context and the element behind
`ctx.self`. -/
abbrev Styled := StyleContext × Element

namespace StyleContext

/-- The assignment `ctx.box = { s[0], s[1], s[2], s[3], margins as before }` of the
`padding` branch. -/
def setPadding (ctx : StyleContext) (s : LengthResolver.FourSides) : StyleContext :=
  { ctx with box := ⟨s.top, s.right, s.bottom, s.left, ctx.box.marginTop, ctx.box.marginRight,
      ctx.box.marginBottom, ctx.box.marginLeft⟩ }

/-- The four assignments `ctx.box.marginTop = s[0]` to `ctx.box.marginLeft = s[3]` of
the `margin` branch. -/
def setMargin (ctx : StyleContext) (s : LengthResolver.FourSides) : StyleContext :=
  { ctx with box := ⟨ctx.box.paddingTop, ctx.box.paddingRight, ctx.box.paddingBottom,
      ctx.box.paddingLeft, s.top, s.right, s.bottom, s.left⟩ }

/-- The assignment `ctx.box.paddingTop = v`. -/
def setPaddingTop (ctx : StyleContext) (v : ℚ) : StyleContext :=
  { ctx with box := { ctx.box with paddingTop := v } }

/-- The assignment `ctx.box.paddingRight = v`. -/
def setPaddingRight (ctx : StyleContext) (v : ℚ) : StyleContext :=
  { ctx with box := { ctx.box with paddingRight := v } }

/-- The assignment `ctx.box.paddingBottom = v`. -/
def setPaddingBottom (ctx : StyleContext) (v : ℚ) : StyleContext :=
  { ctx with box := { ctx.box with paddingBottom := v } }

/-- The assignment `ctx.box.paddingLeft = v`. -/
def setPaddingLeft (ctx : StyleContext) (v : ℚ) : StyleContext :=
  { ctx with box := { ctx.box with paddingLeft := v } }

/-- The assignment `ctx.box.marginTop = v`. -/
def setMarginTop (ctx : StyleContext) (v : ℚ) : StyleContext :=
  { ctx with box := { ctx.box with marginTop := v } }

/-- The assignment `ctx.box.marginRight = v`. -/
def setMarginRight (ctx : StyleContext) (v : ℚ) : StyleContext :=
  { ctx with box := { ctx.box with marginRight := v } }

/-- The assignment `ctx.box.marginBottom = v`. -/
def setMarginBottom (ctx : StyleContext) (v : ℚ) : StyleContext :=
  { ctx with box := { ctx.box with marginBottom := v } }

/-- The assignment `ctx.box.marginLeft = v`. -/
def setMarginLeft (ctx : StyleContext) (v : ℚ) : StyleContext :=
  { ctx with box := { ctx.box with marginLeft := v } }

end StyleContext

/-- C++ `static_cast<int>(float)`: truncation toward zero, undefined when the
result does not fit the 32-bit `int`. -/
def truncToInt (q : ℚ) : Except Error Int :=
  let t : Int := if 0 ≤ q then ⌊q⌋ else -⌊-q⌋
  if t < -2147483648 ∨ 2147483647 < t then .error .undefinedBehaviour else .ok t

/-- C++ `static_cast<unsigned>(float)`: truncation toward zero, undefined when
the result does not fit the 32-bit `unsigned`. -/
def truncToUnsigned (q : ℚ) : Except Error Nat :=
  let t : Int := if 0 ≤ q then ⌊q⌋ else -⌊-q⌋
  if t < 0 ∨ 4294967295 < t then .error .undefinedBehaviour else .ok t.toNat

/-! ## utilities/TransformParser.hpp -/

namespace TransformParser

/-- Embedding of `TransformParser::applyFunction`: one `name(arg)` of a transform value. -/
def applyFunction (ctx : StyleContext) (el : Element) (fn arg : Str) : Except Error Styled :=
  if fn = lit "translatex" then
    if arg ≠ [] ∧ arg.getLast? = some '%' then
      match cstd.stof arg with
      | .ok v => .ok ({ ctx with deferredTranslateXPct := some v }, el)
      | .error e => .error e
    else .ok (ctx, el.move ⟨LengthResolver.parseAbsolute arg, 0⟩)
  else if fn = lit "translatey" then
    if arg ≠ [] ∧ arg.getLast? = some '%' then
      match cstd.stof arg with
      | .ok v => .ok ({ ctx with deferredTranslateYPct := some v }, el)
      | .error e => .error e
    else .ok (ctx, el.move ⟨0, LengthResolver.parseAbsolute arg⟩)
  else if fn = lit "translate" then
    match StringUtils.tokenize arg with
    | p0 :: p1 :: _ =>
        if p0 = [] then .error .undefinedBehaviour
        else
          let dx : Except Error ℚ :=
            if p0.getLast? = some '%' then
              match cstd.stof p0 with
              | .ok v => .ok (el.getSize.x * v / 100)
              | .error e => .error e
            else .ok (LengthResolver.parseAbsolute p0)
          match dx with
          | .error e => .error e
          | .ok x =>
              if p1 = [] then .error .undefinedBehaviour
              else
                let dy : Except Error ℚ :=
                  if p1.getLast? = some '%' then
                    match cstd.stof p1 with
                    | .ok v => .ok (el.getSize.y * v / 100)
                    | .error e => .error e
                  else .ok (LengthResolver.parseAbsolute p1)
                match dy with
                | .error e => .error e
                | .ok y => .ok (ctx, el.move ⟨x, y⟩)
    | _ => .ok (ctx, el)
  else if fn = lit "rotate" then
    match cstd.stof arg with
    | .ok v => .ok (ctx, el.setRotation v)
    | .error e => .error e
  else if fn = lit "scale" then
    match StringUtils.tokenize arg with
    | [] => .error .undefinedBehaviour
    | p0 :: rest =>
        match cstd.stof p0 with
        | .error e => .error e
        | .ok sx =>
            match rest with
            | [] => .ok (ctx, el.setScale ⟨sx, sx⟩)
            | p1 :: _ =>
                match cstd.stof p1 with
                | .error e => .error e
                | .ok sy => .ok (ctx, el.setScale ⟨sx, sy⟩)
  else if fn = lit "scalex" then
    match cstd.stof arg with
    | .ok v => .ok (ctx, el.setScale ⟨v, el.getScale.y⟩)
    | .error e => .error e
  else if fn = lit "scaley" then
    match cstd.stof arg with
    | .ok v => .ok (ctx, el.setScale ⟨el.getScale.x, v⟩)
    | .error e => .error e
  else .ok (ctx, el)

/-- The scanning loop of `TransformParser::apply` on `rest`, the text from the
cursor `pos` on; each round needs one unit of `fuel`. -/
def applyLoop : Nat → StyleContext → Element → Str → Except Error Styled
  | 0, ctx, el, _ => .ok (ctx, el)
  | fuel + 1, ctx, el, rest =>
      if rest = [] then .ok (ctx, el)
      else
        let name := rest.takeWhile (fun c => c != '(')
        if name.length = rest.length then .ok (ctx, el)
        else
          let after := rest.drop (name.length + 1)
          let inner := after.takeWhile (fun c => c != ')')
          if inner.length = after.length then .ok (ctx, el)
          else
            match applyFunction ctx el (StringUtils.toLower (StringUtils.trim name))
                (StringUtils.trim inner) with
            | .error e => .error e
            | .ok r => applyLoop fuel r.1 r.2 (after.drop (inner.length + 1))

/-- Embedding of `TransformParser::apply`: the loop from cursor 0, with one unit of fuel per
character of the value. -/
def apply (ctx : StyleContext) (el : Element) (val : Str) : Except Error Styled :=
  applyLoop val.length ctx el val

end TransformParser

/-! ## core/PropertyDispatcher.hpp -/

namespace PropertyDispatcher

/-- Embedding of `PropertyDispatcher::resolveH`. -/
def resolveH (v : Str) (ctx : StyleContext) : ℚ :=
  LengthResolver.resolve v ctx.parentSize.x ctx.windowSize

/-- Embedding of `PropertyDispatcher::resolveV`. -/
def resolveV (v : Str) (ctx : StyleContext) : ℚ :=
  LengthResolver.resolve v ctx.parentSize.y ctx.windowSize

/-- Embedding of `PropertyDispatcher::parseJustify`. -/
def parseJustify (v : Str) : Justify :=
  if v = lit "flex-end" ∨ v = lit "end" then .End
  else if v = lit "center" then .Center
  else if v = lit "space-between" then .SpaceBetween
  else if v = lit "space-around" then .SpaceAround
  else if v = lit "space-evenly" then .SpaceEvenly
  else .Start

/-- Embedding of `PropertyDispatcher::parseAlign`. -/
def parseAlign (v : Str) : Align :=
  if v = lit "flex-end" ∨ v = lit "end" then .End
  else if v = lit "center" then .Center
  else if v = lit "stretch" then .Stretch
  else .Start

/-- The test `val.find(sub) != std::string::npos`. -/
def contains : Str → Str → Bool
  | [], sub => sub = []
  | c :: cs, sub => (c :: cs).take sub.length = sub || contains cs sub

/-- Embedding of `PropertyDispatcher::parseTextStyle`: the `sf::Text::Style` bit mask. -/
def parseTextStyle (val : Str) : Nat :=
  (if contains val (lit "bold") then 1 else 0) ||| (if contains val (lit "italic") then 2 else 0)
    ||| (if contains val (lit "underline") then 4 else 0)
    ||| (if contains val (lit "strike") then 8 else 0)

/-- Runs `f` on the value `std::stof(val)`; the exception passes through. -/
def withStof (val : Str) (f : ℚ → Styled) : Except Error Styled :=
  match cstd.stof val with
  | .ok v => .ok (f v)
  | .error e => .error e

/-- The `position` branch of `pass1`, the end of its `else if` chain. -/
def pass1Position (ctx : StyleContext) (el : Element) (prop val : Str) : Except Error Styled :=
  if prop = lit "position" then
    if val = lit "absolute" then .ok ({ ctx with positionMode := .Absolute }, el)
    else if val = lit "relative" then .ok ({ ctx with positionMode := .Relative }, el)
    else if val = lit "center" then .ok ({ ctx with positionMode := .Center }, el)
    else .ok ({ ctx with positionMode := .Default }, el)
  else .ok (ctx, el)

/-- The flex branches of `pass1`; the chain goes on with `pass1Position`. -/
def pass1Flex (ctx : StyleContext) (el : Element) (prop val : Str) : Except Error Styled :=
  if prop = lit "display" then
    .ok ({ ctx with flex := { ctx.flex with
            enabled := decide (val = lit "flex" ∨ val = lit "grid") } }, el)
  else if prop = lit "flex-direction" then
    .ok ({ ctx with flex := { ctx.flex with
            column := decide (val = lit "column" ∨ val = lit "column-reverse") } }, el)
  else if prop = lit "gap" ∨ prop = lit "row-gap" ∨ prop = lit "column-gap" then
    .ok ({ ctx with flex := { ctx.flex with gap := resolveH val ctx } }, el)
  else if prop = lit "justify-content" then
    .ok ({ ctx with flex := { ctx.flex with justify := parseJustify val } }, el)
  else if prop = lit "align-items" then
    .ok ({ ctx with flex := { ctx.flex with align := parseAlign val } }, el)
  else pass1Position ctx el prop val

/-- The box-model branches of `pass1`; the chain goes on with `pass1Flex`. -/
def pass1Box (ctx : StyleContext) (el : Element) (prop val : Str) : Except Error Styled :=
  if prop = lit "padding" then
    .ok (ctx.setPadding (LengthResolver.parseFourSides val ctx.parentSize.x ctx.windowSize), el)
  else if prop = lit "padding-top" then .ok (ctx.setPaddingTop (resolveV val ctx), el)
  else if prop = lit "padding-right" then .ok (ctx.setPaddingRight (resolveH val ctx), el)
  else if prop = lit "padding-bottom" then .ok (ctx.setPaddingBottom (resolveV val ctx), el)
  else if prop = lit "padding-left" then .ok (ctx.setPaddingLeft (resolveH val ctx), el)
  else if prop = lit "margin" then
    .ok (ctx.setMargin (LengthResolver.parseFourSides val ctx.parentSize.x ctx.windowSize), el)
  else if prop = lit "margin-top" then .ok (ctx.setMarginTop (resolveV val ctx), el)
  else if prop = lit "margin-right" then .ok (ctx.setMarginRight (resolveH val ctx), el)
  else if prop = lit "margin-bottom" then .ok (ctx.setMarginBottom (resolveV val ctx), el)
  else if prop = lit "margin-left" then .ok (ctx.setMarginLeft (resolveH val ctx), el)
  else pass1Flex ctx el prop val

/-- The transform branches of `pass1`; the chain goes on with `pass1Box`. -/
def pass1Transform (ctx : StyleContext) (el : Element) (prop val : Str) : Except Error Styled :=
  if prop = lit "transform" then
    TransformParser.apply ctx el val
  else if prop = lit "rotation" then
    withStof val (fun v => (ctx, el.setRotation v))
  else if prop = lit "scale" then
    match StringUtils.tokenize val with
    | p0 :: p1 :: _ =>
        match cstd.stof p0, cstd.stof p1 with
        | .ok sx, .ok sy => .ok (ctx, el.setScale ⟨sx, sy⟩)
        | .error e, _ => .error e
        | .ok _, .error e => .error e
    | _ => withStof val (fun v => (ctx, el.setScale ⟨v, v⟩))
  else if prop = lit "scale-x" then
    withStof val (fun v => (ctx, el.setScale ⟨v, el.getScale.y⟩))
  else if prop = lit "scale-y" then
    withStof val (fun v => (ctx, el.setScale ⟨el.getScale.x, v⟩))
  else if prop = lit "origin" then
    match StringUtils.tokenize val with
    | p0 :: p1 :: _ =>
        .ok (ctx, el.setOrigin ⟨LengthResolver.parseAbsolute p0, LengthResolver.parseAbsolute p1⟩)
    | _ => .ok (ctx, el)
  else pass1Box ctx el prop val

/-- The text branches of `pass1`; the chain goes on with `pass1Transform`. -/
def pass1Text (ctx : StyleContext) (el : Element) (prop val : Str) : Except Error Styled :=
  if prop = lit "font-size" then
    match truncToUnsigned (LengthResolver.resolve val ctx.parentSize.y ctx.windowSize) with
    | .ok sz => .ok (ctx, el.setCharacterSize sz)
    | .error e => .error e
  else if prop = lit "letter-spacing" then
    withStof val (fun v => (ctx, el.setLetterSpacing v))
  else if prop = lit "line-spacing" then
    withStof val (fun v => (ctx, el.setLineSpacing v))
  else if prop = lit "font-style" ∨ prop = lit "text-decoration" then
    .ok (ctx, el.setTextStyle (parseTextStyle val))
  else pass1Transform ctx el prop val

/-- The colour branches of `pass1`; the chain goes on with `pass1Text`. -/
def pass1Colors (ctx : StyleContext) (el : Element) (prop val : Str) : Except Error Styled :=
  if prop = lit "background-color" ∨ prop = lit "fill" ∨ prop = lit "fill-color" then
    match ColorParser.parse val with
    | .ok c => .ok (ctx, el.setFillColor c)
    | .error e => .error e
  else if prop = lit "color" then
    match ColorParser.parse val with
    | .ok c => .ok (ctx, if el.isText then el.setFillColor c else el.setOutlineColor c)
    | .error e => .error e
  else if prop = lit "border-color" ∨ prop = lit "outline-color" then
    match ColorParser.parse val with
    | .ok c => .ok (ctx, el.setOutlineColor c)
    | .error e => .error e
  else if prop = lit "border-width" then
    .ok (ctx, el.setOutlineThickness (LengthResolver.parseAbsolute val))
  else if prop = lit "opacity" then
    match cstd.stof val with
    | .error e => .error e
    | .ok v =>
        match truncToInt (if v ≤ 1 then v * 255 else v) with
        | .error e => .error e
        | .ok i => .ok (ctx, el.setFillColor { el.getFillColor with a := ColorParser.clamp8 i })
  else if prop = lit "tint" then
    match ColorParser.parse val with
    | .ok c => .ok (ctx, el.setFillColor c)
    | .error e => .error e
  else pass1Text ctx el prop val

/-- Embedding of `PropertyDispatcher::pass1`: the intrinsic properties. The one `else if`
chain of the source is cut at its section comments: the sizing branches are
here, and the chain goes on with `pass1Colors`, `pass1Text`, `pass1Transform`,
`pass1Box`, `pass1Flex` and `pass1Position`. -/
def pass1 (ctx : StyleContext) (el : Element) (prop val : Str) : Except Error Styled :=
  if prop = lit "width" then
    .ok (ctx, el.setSize ⟨resolveH val ctx, el.getSize.y⟩)
  else if prop = lit "height" then
    .ok (ctx, el.setSize ⟨el.getSize.x, resolveV val ctx⟩)
  else if prop = lit "size" then
    match StringUtils.tokenize val with
    | p0 :: p1 :: _ => .ok (ctx, el.setSize ⟨resolveH p0 ctx, resolveV p1 ctx⟩)
    | [p0] =>
        let v := LengthResolver.resolve p0 (min ctx.parentSize.x ctx.parentSize.y) ctx.windowSize
        .ok (ctx, el.setSize ⟨v, v⟩)
    | [] => .ok (ctx, el)
  else if prop = lit "min-width" then
    .ok (ctx, if el.getSize.x < resolveH val ctx then el.setSize ⟨resolveH val ctx, el.getSize.y⟩ else el)
  else if prop = lit "max-width" then
    .ok (ctx, if el.getSize.x > resolveH val ctx then el.setSize ⟨resolveH val ctx, el.getSize.y⟩ else el)
  else if prop = lit "min-height" then
    .ok (ctx, if el.getSize.y < resolveV val ctx then el.setSize ⟨el.getSize.x, resolveV val ctx⟩ else el)
  else if prop = lit "max-height" then
    .ok (ctx, if el.getSize.y > resolveV val ctx then el.setSize ⟨el.getSize.x, resolveV val ctx⟩ else el)
  else if prop = lit "radius" then
    let r := LengthResolver.resolve val (min ctx.parentSize.x ctx.parentSize.y) ctx.windowSize
    .ok (ctx, el.setSize ⟨r * 2, r * 2⟩)
  else pass1Colors ctx el prop val

/-- The reference origin of pass 2: the window origin for `Absolute`, else the
containing block's. -/
def refOrigin (ctx : StyleContext) : Vec2 :=
  if ctx.positionMode = .Absolute then ⟨0, 0⟩ else ctx.parentPos

/-- The reference size of pass 2: the window for `Absolute`, else the
containing block. -/
def refSize (ctx : StyleContext) : Vec2 :=
  if ctx.positionMode = .Absolute then ctx.windowSize else ctx.parentSize

/-- Embedding of `PropertyDispatcher::pass2`: the positional properties. The context is only
read. -/
def pass2 (ctx : StyleContext) (el : Element) (prop val : Str) : Element :=
  let pos := el.getPosition
  let elSize := el.getSize
  if prop = lit "left" ∨ prop = lit "x" then
    let x := LengthResolver.resolve val (refSize ctx).x ctx.windowSize
    el.setPosition ⟨(refOrigin ctx).x + x + ctx.box.marginLeft, pos.y⟩
  else if prop = lit "right" then
    let x := LengthResolver.resolve val (refSize ctx).x ctx.windowSize
    el.setPosition ⟨(refOrigin ctx).x + (refSize ctx).x - x - elSize.x - ctx.box.marginRight, pos.y⟩
  else if prop = lit "top" ∨ prop = lit "y" then
    let y := LengthResolver.resolve val (refSize ctx).y ctx.windowSize
    el.setPosition ⟨pos.x, (refOrigin ctx).y + y + ctx.box.marginTop⟩
  else if prop = lit "bottom" then
    let y := LengthResolver.resolve val (refSize ctx).y ctx.windowSize
    el.setPosition ⟨pos.x, (refOrigin ctx).y + (refSize ctx).y - y - elSize.y - ctx.box.marginBottom⟩
  else if prop = lit "position" then
    if val = lit "center" then
      el.setPosition ⟨(refOrigin ctx).x + ((refSize ctx).x - elSize.x) / 2,
        (refOrigin ctx).y + ((refSize ctx).y - elSize.y) / 2⟩
    else el
  else el

/-- Embedding of `PropertyDispatcher::flushDeferredTransforms`. -/
def flushDeferredTransforms (ctx : StyleContext) (el : Element) : Element :=
  if ctx.deferredTranslateXPct = none ∧ ctx.deferredTranslateYPct = none then el
  else
    let size := el.getSize
    let pos := el.getPosition
    let x := match ctx.deferredTranslateXPct with
      | some p => pos.x + size.x * (p / 100)
      | none => pos.x
    let y := match ctx.deferredTranslateYPct with
      | some p => pos.y + size.y * (p / 100)
      | none => pos.y
    el.setPosition ⟨x, y⟩

/-- The first loop of `apply`: `pass1` over the declarations, in order; an
exception stops it. -/
def runPass1 : List Declaration → StyleContext → Element → Except Error Styled
  | [], ctx, el => .ok (ctx, el)
  | d :: ds, ctx, el =>
      match pass1 ctx el d.property d.value with
      | .error e => .error e
      | .ok r => runPass1 ds r.1 r.2

/-- The second loop of `apply`: `pass2` over the declarations, in order. -/
def runPass2 (ctx : StyleContext) : List Declaration → Element → Element
  | [], el => el
  | d :: ds, el => runPass2 ctx ds (pass2 ctx el d.property d.value)

/-- Embedding of `PropertyDispatcher::apply`: pass 1 over all declarations, pass 2 over all
declarations, then the deferred transforms. -/
def apply (ctx : StyleContext) (el : Element) (decls : List Declaration) : Except Error Styled :=
  match runPass1 decls ctx el with
  | .error e => .error e
  | .ok r => .ok (r.1, flushDeferredTransforms r.1 (runPass2 r.1 decls r.2))

end PropertyDispatcher

/-! ## core/RuleParser.hpp -/

namespace RuleParser

/-- Embedding of `RuleParser::parse`: one declaration per rule that has a colon and a
non-empty normalised property. -/
def parse : List Str → List Declaration
  | [] => []
  | rule :: rules =>
      let before := rule.takeWhile (fun c => c != ':')
      if before.length = rule.length then parse rules
      else
        let d : Declaration :=
          ⟨StringUtils.normaliseProperty before, StringUtils.trim (rule.drop (before.length + 1))⟩
        if d.property ≠ [] then d :: parse rules else parse rules

end RuleParser

/-! ## core/ContextBuilder.hpp -/

/-- The size of the `sf::RenderWindow`, in pixels. -/
structure Window where
  width : Nat
  height : Nat
  deriving DecidableEq

namespace ContextBuilder

/-- Embedding of `ContextBuilder::build`: the containing block is the parent when a valid one
is given and the window otherwise; the rest of the context has its default
member values. -/
def build (self : Handle) (parent : Option Handle) (window : Window) (sc : Scene) : StyleContext :=
  let windowSize : Vec2 := ⟨window.width, window.height⟩
  { self := self
    parentSize := match parent with
      | some p => (sc p).getSize
      | none => windowSize
    parentPos := match parent with
      | some p => (sc p).getPosition
      | none => ⟨0, 0⟩
    windowSize := windowSize
    box := ⟨0, 0, 0, 0, 0, 0, 0, 0⟩
    flex := ⟨false, false, 0, .Start, .Start⟩
    positionMode := .Default
    deferredTranslateXPct := none
    deferredTranslateYPct := none }

end ContextBuilder

/-! ## core/FlexLayout.hpp -/

namespace FlexLayout

/-- The content box of the container and the layout parameters that the loop of
`applyFlex` reads. -/
structure Frame where
  innerX : ℚ
  innerY : ℚ
  innerW : ℚ
  innerH : ℚ
  isColumn : Bool
  gap : ℚ
  between : ℚ
  align : Align

/-- Body of the placing loop of `applyFlex` for the child behind `h`: the scene
with the child placed, and the advanced cursor. -/
def placeChild (f : Frame) (h : Handle) (cursor : ℚ) (sc : Scene) : Scene × ℚ :=
  let sz := (sc h).getSize
  let crossAvail := if f.isColumn then f.innerW else f.innerH
  let crossStart := if f.isColumn then f.innerX else f.innerY
  let crossEl := if f.isColumn then sz.x else sz.y
  let crossPos :=
    match f.align with
    | .Start => crossStart
    | .End => crossStart + crossAvail - crossEl
    | .Center => crossStart + (crossAvail - crossEl) / 2
    | .Stretch => crossStart
  let sc1 : Scene :=
    match f.align with
    | .Stretch =>
        if f.isColumn then Function.update sc h ((sc h).setSize ⟨f.innerW, sz.y⟩)
        else Function.update sc h ((sc h).setSize ⟨sz.x, f.innerH⟩)
    | _ => sc
  let sz1 := (sc1 h).getSize
  let sc2 : Scene :=
    if f.isColumn then Function.update sc1 h ((sc1 h).setPosition ⟨crossPos, cursor⟩)
    else Function.update sc1 h ((sc1 h).setPosition ⟨cursor, crossPos⟩)
  let mainEl := if f.isColumn then sz1.y else sz1.x
  (sc2, cursor + (mainEl + f.gap + f.between))

/-- The placing loop of `applyFlex`, children in list order. -/
def placeChildren (f : Frame) : List Handle → ℚ → Scene → Scene
  | [], _, sc => sc
  | h :: hs, cursor, sc =>
      placeChildren f hs (placeChild f h cursor sc).2 (placeChild f h cursor sc).1

/-- The first loop of `applyFlex`: the sum of the main-axis extents. -/
def totalMain (isColumn : Bool) (children : List Handle) (sc : Scene) : ℚ :=
  children.foldl (fun acc h => acc + (if isColumn then (sc h).getSize.y else (sc h).getSize.x)) 0

/-- The leading offset chosen by the `justify-content` switch. -/
def justifyOffset (j : Justify) (n : Nat) (remaining : ℚ) : ℚ :=
  match j with
  | .Start => 0
  | .End => remaining
  | .Center => remaining / 2
  | .SpaceBetween => 0
  | .SpaceAround => (if 0 < n then remaining / (n : ℚ) else 0) / 2
  | .SpaceEvenly => if 0 < n then remaining / ((n + 1 : Nat) : ℚ) else 0

/-- The extra spacing per item chosen by the `justify-content` switch. -/
def justifyBetween (j : Justify) (n : Nat) (remaining : ℚ) : ℚ :=
  match j with
  | .Start => 0
  | .End => 0
  | .Center => 0
  | .SpaceBetween => if 1 < n then remaining / ((n - 1 : Nat) : ℚ) else 0
  | .SpaceAround => if 0 < n then remaining / (n : ℚ) else 0
  | .SpaceEvenly => if 0 < n then remaining / ((n + 1 : Nat) : ℚ) else 0

/-- Embedding of `FlexLayout::applyFlex`. -/
def applyFlex (ctx : StyleContext) (children : List Handle) (sc : Scene) : Scene :=
  let containerPos := (sc ctx.self).getPosition
  let containerSize := (sc ctx.self).getSize
  let innerX := containerPos.x + ctx.box.paddingLeft
  let innerY := containerPos.y + ctx.box.paddingTop
  let innerW := containerSize.x - ctx.box.paddingLeft - ctx.box.paddingRight
  let innerH := containerSize.y - ctx.box.paddingTop - ctx.box.paddingBottom
  let isColumn := ctx.flex.column
  let gap := ctx.flex.gap
  let total := totalMain isColumn children sc
  let mainAvail := if isColumn then innerH else innerW
  let gapTotal := gap * ((max 0 ((children.length : Int) - 1) : Int) : ℚ)
  let remaining := mainAvail - total - gapTotal
  let offset := justifyOffset ctx.flex.justify children.length remaining
  let between := justifyBetween ctx.flex.justify children.length remaining
  let cursor := (if isColumn then innerY else innerX) + offset
  placeChildren ⟨innerX, innerY, innerW, innerH, isColumn, gap, between, ctx.flex.align⟩
    children cursor sc

/-- The loop of `applyPaddingOffset`. -/
def offsetChildren (origin : Vec2) : List Handle → Scene → Scene
  | [], sc => sc
  | h :: hs, sc =>
      offsetChildren origin hs
        (Function.update sc h
          ((sc h).setPosition ⟨origin.x + (sc h).getPosition.x, origin.y + (sc h).getPosition.y⟩))

/-- Embedding of `FlexLayout::applyPaddingOffset`. -/
def applyPaddingOffset (ctx : StyleContext) (children : List Handle) (sc : Scene) : Scene :=
  offsetChildren
    ⟨(sc ctx.self).getPosition.x + ctx.box.paddingLeft,
     (sc ctx.self).getPosition.y + ctx.box.paddingTop⟩ children sc

/-- Embedding of `FlexLayout::apply`. -/
def apply (ctx : StyleContext) (children : List Handle) (sc : Scene) : Scene :=
  if children = [] then sc
  else if ctx.flex.enabled then applyFlex ctx children sc
  else applyPaddingOffset ctx children sc

end FlexLayout

/-! ## CSS.hpp -/

namespace CSS

/-- The four `CSS::Style` overloads: `window` is the static `s_window` (`none`
before `CSS::init`), `parent` and `children` are absent in the overloads that
do not take them. The styled scene is returned. -/
def Style (window : Option Window) (sc : Scene) (element : Handle) (rules : List Str)
    (parent : Option Handle) (children : Option (List Handle)) : Except Error Scene :=
  match window with
  | none => .error .notInitialised
  | some w =>
      let ctx := ContextBuilder.build element parent w sc
      let decls := RuleParser.parse rules
      match PropertyDispatcher.apply ctx (sc element) decls with
      | .error e => .error e
      | .ok r =>
          let sc1 := Function.update sc element r.2
          match children with
          | none => .ok sc1
          | some cs => .ok (FlexLayout.apply r.1 cs sc1)

end CSS

/-! ## Vocabulary of the specification -/

namespace PropertyDispatcher

/-- The properties only pass 2 handles: `left`, `x`, `right`, `top`, `y`, `bottom`. -/
def pass2Only : List Str :=
  [lit "left", lit "x", lit "right", lit "top", lit "y", lit "bottom"]

/-- The positional properties: every property pass 2 handles. -/
def positional : List Str := pass2Only ++ [lit "position"]

end PropertyDispatcher

/-! ## Scenes of the end-to-end scenarios -/

namespace Scenario

/-- A rectangle of the given size, otherwise as default-constructed. -/
def rect (w h : ℚ) : Element := { Element.fresh .rectangle with size := ⟨w, h⟩ }

/-- A scene in which every handle is a default-constructed rectangle. -/
def scene : Scene := fun _ => Element.fresh .rectangle

/-- The context `ContextBuilder::build` gives element 0 without a parent in a
window of the given size. -/
def viewportContext (w h : Nat) : StyleContext := ContextBuilder.build 0 none ⟨w, h⟩ scene

/-- One declaration from its two texts. -/
def decl (p v : String) : Declaration := ⟨lit p, lit v⟩

end Scenario

/-! ## Decimal literals -/

/-- The character of a decimal digit. -/
def digitChar (d : Fin 10) : Char := Char.ofNat (48 + d.val)

/-- The number a digit sequence denotes, most significant digit first. -/
def natValue (ds : List (Fin 10)) : Nat := ds.foldl (fun acc d => acc * 10 + d.val) 0

/-- A decimal numeric literal: an optional minus sign, one or more integer
digits, and optionally a point followed by fraction digits. -/
structure Decimal where
  negative : Bool
  first : Fin 10
  more : List (Fin 10)
  frac : List (Fin 10)

namespace Decimal

/-- The text of the literal. -/
def text (L : Decimal) : Str :=
  (if L.negative then ['-'] else []) ++ ((L.first :: L.more).map digitChar ++
    (if L.frac = [] then [] else '.' :: L.frac.map digitChar))

/-- The number the literal denotes. -/
def value (L : Decimal) : ℚ :=
  (if L.negative then -1 else 1) *
    ((natValue (L.first :: L.more ++ L.frac) : ℚ) / (10 : ℚ) ^ L.frac.length)

/-- The literal of a natural number given by its digits. -/
def ofDigits (d : Fin 10) (ds : List (Fin 10)) : Decimal := ⟨false, d, ds, []⟩

/-- The magnitude of the literal: its value without the sign. -/
def magnitude (L : Decimal) : ℚ :=
  (natValue (L.first :: L.more ++ L.frac) : ℚ) / (10 : ℚ) ^ L.frac.length

/-- The literal is in the range of `float`: it is zero, or its magnitude is at
least `FLT_MIN = 2^-126` and rounds to a finite `float` (it is below
`2^128 - 2^103`), so that `std::stof` does not raise `out_of_range` on it. -/
def InRange (L : Decimal) : Prop := cstd.outOfFloatRange L.magnitude = false

instance (L : Decimal) : Decidable L.InRange := by
  unfold InRange
  infer_instance

/-- The literal is too large for a `float`: its magnitude rounds to infinity,
and `std::stof` raises `out_of_range` on it. -/
def Overflows (L : Decimal) : Prop := cstd.floatOverflow ≤ L.magnitude

instance (L : Decimal) : Decidable L.Overflows := by
  unfold Overflows
  infer_instance

end Decimal

/-- Whether a character could extend a floating literal read by `strtof`: a
digit, the point, an exponent marker or the `x` of a hexadecimal prefix. -/
def continuesLiteral (c : Char) : Bool :=
  cstd.isdigit c || c = '.' || c = 'e' || c = 'E' || c = 'x' || c = 'X'

/-- Tokens written one after the other with a single space between them. -/
def joinSpaces : List Str → Str
  | [] => []
  | [t] => t
  | t :: u :: ts => t ++ ' ' :: joinSpaces (u :: ts)

namespace FlexLayout

/-- The main-axis coordinate of an element: y in a column, x in a row. -/
def mainPos (column : Bool) (e : Element) : ℚ :=
  if column then e.getPosition.y else e.getPosition.x

/-- The main-axis extent of an element: height in a column, width in a row. -/
def mainExtent (column : Bool) (e : Element) : ℚ :=
  if column then e.getSize.y else e.getSize.x

/-- The start of the content box on the main axis: the parent position plus the
leading padding. -/
def contentStart (ctx : StyleContext) (sc : Scene) : ℚ :=
  mainPos ctx.flex.column (sc ctx.self) +
    (if ctx.flex.column then ctx.box.paddingTop else ctx.box.paddingLeft)

/-- The main-axis size of the content box: the parent size minus both paddings
of that axis. -/
def contentExtent (ctx : StyleContext) (sc : Scene) : ℚ :=
  if ctx.flex.column then (sc ctx.self).getSize.y - ctx.box.paddingTop - ctx.box.paddingBottom
  else (sc ctx.self).getSize.x - ctx.box.paddingLeft - ctx.box.paddingRight

/-- The cross-axis coordinate of an element: x in a column, y in a row. -/
def crossPos (column : Bool) (e : Element) : ℚ :=
  if column then e.getPosition.x else e.getPosition.y

/-- The cross-axis extent of an element: width in a column, height in a row. -/
def crossExtent (column : Bool) (e : Element) : ℚ :=
  if column then e.getSize.x else e.getSize.y

/-- The near edge of the content box on the cross axis: the parent position plus
the leading padding of that axis. -/
def crossStart (ctx : StyleContext) (sc : Scene) : ℚ :=
  crossPos ctx.flex.column (sc ctx.self) +
    (if ctx.flex.column then ctx.box.paddingLeft else ctx.box.paddingTop)

/-- The cross-axis size of the content box: the parent size minus both paddings
of that axis. -/
def crossAvail (ctx : StyleContext) (sc : Scene) : ℚ :=
  if ctx.flex.column then (sc ctx.self).getSize.x - ctx.box.paddingLeft - ctx.box.paddingRight
  else (sc ctx.self).getSize.y - ctx.box.paddingTop - ctx.box.paddingBottom

/-- Where a policy of `align-items` puts a child of the given size on the cross
axis of a frame. -/
def crossTarget (f : Frame) (sz : Vec2) : ℚ :=
  match f.align with
  | .Start => if f.isColumn then f.innerX else f.innerY
  | .End =>
      (if f.isColumn then f.innerX else f.innerY) + (if f.isColumn then f.innerW else f.innerH) -
        (if f.isColumn then sz.x else sz.y)
  | .Center =>
      (if f.isColumn then f.innerX else f.innerY) +
        ((if f.isColumn then f.innerW else f.innerH) - (if f.isColumn then sz.x else sz.y)) / 2
  | .Stretch => if f.isColumn then f.innerX else f.innerY

/-- The size a policy of `align-items` gives a resizable child of the given size:
stretched to the content box on the cross axis for `stretch`, unchanged
otherwise. -/
def sizeTarget (f : Frame) (sz : Vec2) : Vec2 :=
  match f.align with
  | .Stretch => if f.isColumn then ⟨f.innerW, sz.y⟩ else ⟨sz.x, f.innerH⟩
  | _ => sz

/-- An element that placing will treat as an element of size `s0`: it is the
element itself or an earlier placement of it, and a rectangle when the policy
is `stretch`. -/
def CrossReady (f : Frame) (s0 : Vec2) (e : Element) : Prop :=
  crossTarget f e.getSize = crossTarget f s0 ∧ sizeTarget f e.getSize = sizeTarget f s0 ∧
    (f.align = .Stretch → e.kind = .rectangle)

/-- An element of original size `s0` that has been placed on the cross axis. -/
def CrossPlaced (f : Frame) (s0 : Vec2) (e : Element) : Prop :=
  crossPos f.isColumn e = crossTarget f s0 ∧ e.getSize = sizeTarget f s0

/-- The free space of the main axis, by the specification: what the content box
has left after the main extents of the children and the gaps between them. -/
def remaining (ctx : StyleContext) (children : List Handle) (sc : Scene) : ℚ :=
  contentExtent ctx sc - (children.map (fun h => mainExtent ctx.flex.column (sc h))).sum -
    ctx.flex.gap * ((children.length : ℚ) - 1)

/-- The leading offset and the extra spacing per item of a justify policy for `n`
children, by the specification. -/
def spacing (j : Justify) (n : Nat) (rem : ℚ) : ℚ × ℚ :=
  match j with
  | .Start => (0, 0)
  | .End => (rem, 0)
  | .Center => (rem / 2, 0)
  | .SpaceBetween => (0, if n ≤ 1 then 0 else rem / ((n : ℚ) - 1))
  | .SpaceAround => (rem / (2 * (n : ℚ)), rem / (n : ℚ))
  | .SpaceEvenly => (rem / ((n : ℚ) + 1), rem / ((n : ℚ) + 1))

end FlexLayout

/-! ## Colour notations -/

/-- The two-digit lowercase hexadecimal text of a channel value. -/
def hex2 (n : Nat) : Str := [Nat.digitChar (n / 16), Nat.digitChar (n % 16)]

/-- The text `rgb(r,g,b)` with the channels in decimal. -/
def rgbText (r g b : Nat) : Str :=
  lit "rgb(" ++ (Nat.toDigits 10 r ++ (',' :: (Nat.toDigits 10 g ++
    (',' :: (Nat.toDigits 10 b ++ [')'])))))

/-- The text `#rrggbb` with the channels in two-digit hexadecimal. -/
def hexText (r g b : Nat) : Str := '#' :: (hex2 r ++ (hex2 g ++ hex2 b))

/-- The maximal runs of decimal digits of a text, in order: the text split at
every character that is not a digit, the empty pieces dropped. -/
def digitRuns (s : Str) : List Str :=
  (s.splitOnP (fun c => !cstd.isdigit c)).filter (fun run => run ≠ [])

/-- The colour channel number `i` read from digit runs: the value of run `i` capped
at 255, or the default when there is no such run. -/
def channelOf (runs : List Str) (i : Nat) (dflt : Nat) : Nat :=
  (runs.get? i).elim dflt (fun run => min (cstd.natOfDigits 10 run) 255)

namespace StringUtils

/-- The digit runs that remain to be pushed when the loop of `extractIntegers`
stands before `s` with the run `cur` open. -/
def pendingRuns (s cur : Str) : List Str :=
  ((s.splitOnP (fun c => !cstd.isdigit c)).modifyHead (fun run => cur ++ run)).filter
    (fun run => run ≠ [])

end StringUtils

namespace PropertyDispatcher

/-- What one `pass1` call keeps of the context: the frame always, the position
mode unless the property is `position`, the deferred offsets unless it is
`transform`. -/
def Keeps (prop : Str) (a b : StyleContext) : Prop :=
  b.self = a.self ∧ b.parentSize = a.parentSize ∧ b.parentPos = a.parentPos ∧
    b.windowSize = a.windowSize ∧
    (prop ≠ lit "position" → b.positionMode = a.positionMode) ∧
    (prop ≠ lit "transform" → b.deferredTranslateXPct = a.deferredTranslateXPct ∧
      b.deferredTranslateYPct = a.deferredTranslateYPct)

end PropertyDispatcher

/-! ## Vocabulary of the later claims -/

/-- Whether a text begins, after C white space and an optional sign, with what
`strtof` can read: a digit, a point followed by a digit, or a spelling of
infinity or NaN. -/
def startsLiteral (s : Str) : Bool :=
  match (cstd.takeSign (s.dropWhile cstd.isspace)).2 with
  | [] => false
  | c :: rest =>
      cstd.isdigit c || (c = '.' && (match rest with
        | [] => false
        | d :: _ => cstd.isdigit d)) || cstd.startsNonFinite (c :: rest)

/-- An uppercase ASCII letter. -/
def isUpperAscii (c : Char) : Bool := 65 ≤ c.toNat && c.toNat ≤ 90

/-- A character of a lowercase-kebab name: a lowercase ASCII letter, a digit or a
hyphen. -/
def isLowerKebab (c : Char) : Bool :=
  (97 ≤ c.toNat && c.toNat ≤ 122) || cstd.isdigit c || c = '-'

/-- A character of a kebab or camel-case name as it is written in a rule: an
ASCII letter, a digit or a hyphen. -/
def isNameChar (c : Char) : Bool := isLowerKebab c || isUpperAscii c

namespace StringUtils

/-- The form `normaliseProperty` looks up in the alias table: trimmed, lowercased,
hyphens deleted. -/
def stripped (p : Str) : Str := (toLower (trim p)).filter (fun c => c != '-')

end StringUtils

namespace RuleParser

/-- What one rule contributes to the result of `parse`, by the specification: the
rule is cut at its colons; a rule without a colon, or whose normalised property is
empty, contributes nothing; another rule contributes the declaration of the piece
before the first colon and of the remaining pieces joined by colons again. -/
def declOf (rule : Str) : Option Declaration :=
  match rule.splitOn ':' with
  | before :: after :: more =>
      if StringUtils.normaliseProperty before = [] then none
      else some ⟨StringUtils.normaliseProperty before,
        StringUtils.trim ([':'].intercalate (after :: more))⟩
  | _ => none

end RuleParser

namespace PropertyDispatcher

/-- Every property name one of the two passes compares with. -/
def recognised : List Str :=
  [lit "width", lit "height", lit "size", lit "min-width", lit "max-width", lit "min-height",
   lit "max-height", lit "radius", lit "background-color", lit "fill", lit "fill-color",
   lit "color", lit "border-color", lit "outline-color", lit "border-width", lit "opacity",
   lit "tint", lit "font-size", lit "letter-spacing", lit "line-spacing", lit "font-style",
   lit "text-decoration", lit "transform", lit "rotation", lit "scale", lit "scale-x",
   lit "scale-y", lit "origin", lit "padding", lit "padding-top", lit "padding-right",
   lit "padding-bottom", lit "padding-left", lit "margin", lit "margin-top", lit "margin-right",
   lit "margin-bottom", lit "margin-left", lit "display", lit "flex-direction", lit "gap",
   lit "row-gap", lit "column-gap", lit "justify-content", lit "align-items", lit "position",
   lit "left", lit "x", lit "right", lit "top", lit "y", lit "bottom"]

end PropertyDispatcher

/-! ## Vocabulary of the box-model claims -/

/-- All eight values of a box model are non-negative. -/
def BoxModel.NonNeg (b : BoxModel) : Prop :=
  0 ≤ b.paddingTop ∧ 0 ≤ b.paddingRight ∧ 0 ≤ b.paddingBottom ∧ 0 ≤ b.paddingLeft ∧
    0 ≤ b.marginTop ∧ 0 ≤ b.marginRight ∧ 0 ≤ b.marginBottom ∧ 0 ≤ b.marginLeft

namespace PropertyDispatcher

/-- The ten box-model properties: the two shorthands and the eight longhands. -/
def boxProperties : List Str :=
  [lit "padding", lit "padding-top", lit "padding-right", lit "padding-bottom",
   lit "padding-left", lit "margin", lit "margin-top", lit "margin-right", lit "margin-bottom",
   lit "margin-left"]

/-- The lengths a declaration asks to store in the box model: the four sides of
a shorthand, the one length of a longhand (a percentage of the width of the
containing block for the shorthands and for left and right, of its height for
top and bottom), nothing for another property. -/
def boxWrites (ctx : StyleContext) (d : Declaration) : List ℚ :=
  if d.property = lit "padding" ∨ d.property = lit "margin" then
    [(LengthResolver.parseFourSides d.value ctx.parentSize.x ctx.windowSize).top,
     (LengthResolver.parseFourSides d.value ctx.parentSize.x ctx.windowSize).right,
     (LengthResolver.parseFourSides d.value ctx.parentSize.x ctx.windowSize).bottom,
     (LengthResolver.parseFourSides d.value ctx.parentSize.x ctx.windowSize).left]
  else if d.property ∈ [lit "padding-top", lit "padding-bottom", lit "margin-top",
      lit "margin-bottom"] then
    [LengthResolver.resolve d.value ctx.parentSize.y ctx.windowSize]
  else if d.property ∈ [lit "padding-right", lit "padding-left", lit "margin-right",
      lit "margin-left"] then
    [LengthResolver.resolve d.value ctx.parentSize.x ctx.windowSize]
  else []

end PropertyDispatcher

/-! ## Vocabulary of the transform claims -/

/-- A run of white space between two arguments: one or more C white-space
characters. -/
def isBlank (ws : Str) : Prop := ws ≠ [] ∧ ∀ c ∈ ws, cstd.isspace c = true

/-- A length as the claims write it: a decimal literal followed by a unit. -/
structure Length where
  number : Decimal
  unit : Str

namespace Length

/-- The unit is the percent sign or one of the absolute units in any letter case. -/
def Valid (l : Length) : Prop :=
  l.unit = lit "%" ∨ StringUtils.toLower l.unit ∈ LengthResolver.units

/-- The text of the length. -/
def text (l : Length) : Str := l.number.text ++ l.unit

/-- The displacement the length stands for on an axis where the element has the
given extent: that percentage of the extent, or the number itself. -/
def value (l : Length) (extent : ℚ) : ℚ :=
  if l.unit = lit "%" then extent * l.number.value / 100 else l.number.value

end Length

/-! ## Vocabulary of the opacity claim -/

/-- The number is a finite `float` (IEEE binary32) exactly: an integer of
magnitude below `2^24` times a power of two with an exponent from -149 to 104.
On such a value no rounding takes place where the code stores it in a `float`. -/
def cstd.IsFloat (q : ℚ) : Prop :=
  ∃ (m e : ℤ), q = (m : ℚ) * (2 : ℚ) ^ e ∧ |m| < 2 ^ 24 ∧ -149 ≤ e ∧ e ≤ 104

/-- Truncation toward zero. -/
def truncate (q : ℚ) : Int := if 0 ≤ q then ⌊q⌋ else ⌈q⌉

/-- The alpha that the specification gives `opacity: v`: the value, taken as a
fraction of 255 when it is at most 1, truncated and clamped into `0..255`. -/
def opacityAlpha (v : ℚ) : Nat :=
  (max 0 (min (truncate (if v ≤ 1 then v * 255 else v)) 255)).toNat

/-! ## Vocabulary of the overwritten translation -/

namespace PropertyDispatcher

/-- The properties with which pass 2 writes the x coordinate: `left`, `x`,
`right` and `position`. -/
def horizontal : List Str := [lit "left", lit "x", lit "right", lit "position"]

end PropertyDispatcher

/-! ## Vocabulary of the layout symmetries -/

namespace FlexLayout

/-- The element the placing loop makes of a child `e` at the cursor `c`: the
body of the loop run on a scene that holds `e`. -/
def placed (f : Frame) (c : ℚ) (e : Element) : Element := (placeChild f 0 c (fun _ => e)).1 0

end FlexLayout

/-- The vector with x and y exchanged. -/
def Vec2.swap (v : Vec2) : Vec2 := ⟨v.y, v.x⟩

/-- The element with x and y exchanged in its position and in its size: in the
stored size of a rectangle, in the local bounds of a text, and in the local
bounds and the scale of a convex shape or a sprite; the diameter of a circle is
the same on both axes. -/
def Element.transpose (e : Element) : Element :=
  match e.kind with
  | .rectangle => { e with position := e.position.swap, size := e.size.swap }
  | .circle => { e with position := e.position.swap }
  | .convex =>
      { e with position := e.position.swap, localBounds := e.localBounds.swap,
               scale := e.scale.swap }
  | .text => { e with position := e.position.swap, localBounds := e.localBounds.swap }
  | .sprite =>
      { e with position := e.position.swap, localBounds := e.localBounds.swap,
               scale := e.scale.swap }

namespace FlexLayout

/-- The context with the flex direction flipped and the paddings of the two
axes exchanged: left with top, right with bottom. -/
def transposeContext (ctx : StyleContext) : StyleContext :=
  { ctx with
    flex := { ctx.flex with column := !ctx.flex.column }
    box := { ctx.box with
      paddingTop := ctx.box.paddingLeft
      paddingLeft := ctx.box.paddingTop
      paddingRight := ctx.box.paddingBottom
      paddingBottom := ctx.box.paddingRight } }

/-- The frame with the two axes exchanged. -/
def Frame.transpose (f : Frame) : Frame :=
  ⟨f.innerY, f.innerX, f.innerH, f.innerW, !f.isColumn, f.gap, f.between, f.align⟩

end FlexLayout

/-! ## Lemmas on the dispatcher -/

namespace PropertyDispatcher

theorem pass1_of_pass2Only (ctx : StyleContext) (el : Element) (prop val : Str)
    (h : prop ∈ pass2Only) : pass1 ctx el prop val = .ok (ctx, el) := by
  simp only [pass2Only, List.mem_cons, List.mem_singleton, List.not_mem_nil, or_false] at h
  rcases h with h | h | h | h | h | h <;> subst h <;> rfl

theorem pass2_of_not_positional (ctx : StyleContext) (el : Element) (prop val : Str)
    (h : prop ∉ positional) : pass2 ctx el prop val = el := by
  simp only [positional, pass2Only, List.mem_cons, List.mem_singleton, List.not_mem_nil, or_false,
    List.cons_append, List.nil_append, not_or] at h
  obtain ⟨h1, h2, h3, h4, h5, h6, h7⟩ := h
  simp only [pass2, h1, h2, h3, h4, h5, h6, h7, or_self, if_false]

theorem runPass1_append (a b : List Declaration) (ctx : StyleContext) (el : Element) :
    runPass1 (a ++ b) ctx el =
      match runPass1 a ctx el with
      | .error e => .error e
      | .ok r => runPass1 b r.1 r.2 := by
  induction a generalizing ctx el with
  | nil => rfl
  | cons d ds ih =>
      simp only [List.cons_append, runPass1]
      cases pass1 ctx el d.property d.value with
      | error e => rfl
      | ok r => exact ih r.1 r.2

theorem runPass2_append (ctx : StyleContext) (a b : List Declaration) (el : Element) :
    runPass2 ctx (a ++ b) el = runPass2 ctx b (runPass2 ctx a el) := by
  induction a generalizing el with
  | nil => rfl
  | cons d ds ih =>
      show runPass2 ctx (ds ++ b) (pass2 ctx el d.property d.value) = _
      rw [ih]
      rfl

theorem runPass2_of_not_positional (ctx : StyleContext) (ds : List Declaration) (el : Element)
    (h : ∀ d ∈ ds, d.property ∉ positional) : runPass2 ctx ds el = el := by
  induction ds generalizing el with
  | nil => rfl
  | cons d ds ih =>
      simp only [runPass2]
      rw [pass2_of_not_positional ctx el _ _ (h d (List.mem_cons_self _ _))]
      exact ih el (fun x hx => h x (List.mem_cons_of_mem _ hx))

/-- C1. `PropertyDispatcher::apply` does not depend on how positional declarations
are interleaved with the others: a declaration of a pass-2-only property (`left`,
`x`, `right`, `top`, `y`, `bottom`) can be moved across a neighbouring declaration
of a property that pass 2 does not handle, anywhere in the list, and the call
returns the same context and element (or raises the same exception). -/
theorem apply_swap_positional (ctx : StyleContext) (el : Element) (pre post : List Declaration)
    (p q : Declaration) (hp : p.property ∈ pass2Only) (hq : q.property ∉ positional) :
    apply ctx el (pre ++ p :: q :: post) = apply ctx el (pre ++ q :: p :: post) := by
  have h1 : ∀ (c : StyleContext) (e : Element),
      runPass1 (p :: q :: post) c e = runPass1 (q :: p :: post) c e := by
    intro c e
    simp only [runPass1]
    rw [pass1_of_pass2Only c e _ _ hp]
    show (match pass1 c e q.property q.value with
      | Except.error err => Except.error err
      | Except.ok r => runPass1 post r.1 r.2) = _
    cases hq1 : pass1 c e q.property q.value with
    | error err => rfl
    | ok r => simp only [pass1_of_pass2Only r.1 r.2 _ _ hp]
  have h2 : ∀ (c : StyleContext) (e : Element),
      runPass2 c (p :: q :: post) e = runPass2 c (q :: p :: post) e := by
    intro c e
    simp only [runPass2]
    rw [pass2_of_not_positional c _ _ _ hq, pass2_of_not_positional c _ _ _ hq]
  have e1 : runPass1 (pre ++ p :: q :: post) ctx el = runPass1 (pre ++ q :: p :: post) ctx el := by
    rw [runPass1_append, runPass1_append]
    cases runPass1 pre ctx el with
    | error err => rfl
    | ok r => exact h1 r.1 r.2
  unfold apply
  rw [e1]
  cases runPass1 (pre ++ q :: p :: post) ctx el with
  | error err => rfl
  | ok r => simp only [runPass2_append, h2]

end PropertyDispatcher

/-! ## Lemmas on what pass 1 keeps of the context -/

namespace TransformParser

theorem applyFunction_frame (ctx : StyleContext) (el : Element) (fn arg : Str) (r : Styled)
    (h : applyFunction ctx el fn arg = .ok r) :
    r.1.self = ctx.self ∧ r.1.parentSize = ctx.parentSize ∧ r.1.parentPos = ctx.parentPos ∧
    r.1.windowSize = ctx.windowSize ∧ r.1.box = ctx.box ∧ r.1.flex = ctx.flex ∧
    r.1.positionMode = ctx.positionMode := by
  unfold applyFunction at h
  repeat' split at h
  all_goals first
    | cases h; simp
    | simp at h

theorem applyLoop_frame (fuel : Nat) (ctx : StyleContext) (el : Element) (rest : Str) (r : Styled)
    (h : applyLoop fuel ctx el rest = .ok r) :
    r.1.self = ctx.self ∧ r.1.parentSize = ctx.parentSize ∧ r.1.parentPos = ctx.parentPos ∧
    r.1.windowSize = ctx.windowSize ∧ r.1.box = ctx.box ∧ r.1.flex = ctx.flex ∧
    r.1.positionMode = ctx.positionMode := by
  induction fuel generalizing ctx el rest with
  | zero => simp only [applyLoop, Except.ok.injEq] at h; subst h; simp
  | succ n ih =>
      unfold applyLoop at h
      split at h
      · cases h; simp
      · simp only at h
        split at h
        · cases h; simp
        · split at h
          · cases h; simp
          · split at h
            · cases h
            · rename_i r1 hr1
              have h1 := applyFunction_frame _ _ _ _ _ hr1
              have h2 := ih _ _ _ h
              obtain ⟨a1, a2, a3, a4, a5, a6, a7⟩ := h1
              obtain ⟨b1, b2, b3, b4, b5, b6, b7⟩ := h2
              exact ⟨b1.trans a1, b2.trans a2, b3.trans a3, b4.trans a4, b5.trans a5,
                b6.trans a6, b7.trans a7⟩

end TransformParser

namespace PropertyDispatcher

theorem pass1Position_keeps (ctx : StyleContext) (el : Element) (prop val : Str) (r : Styled)
    (h : pass1Position ctx el prop val = .ok r) : Keeps prop ctx r.1 := by
  unfold pass1Position at h
  split_ifs at h <;> cases h <;> simp_all [Keeps]

theorem pass1Flex_keeps (ctx : StyleContext) (el : Element) (prop val : Str) (r : Styled)
    (h : pass1Flex ctx el prop val = .ok r) : Keeps prop ctx r.1 := by
  unfold pass1Flex at h
  split_ifs at h
  pick_goal -1
  · exact pass1Position_keeps _ _ _ _ _ h
  all_goals (cases h; simp [Keeps])

set_option maxHeartbeats 1600000 in
theorem pass1Box_keeps (ctx : StyleContext) (el : Element) (prop val : Str) (r : Styled)
    (h : pass1Box ctx el prop val = .ok r) : Keeps prop ctx r.1 := by
  unfold pass1Box at h
  split_ifs at h
  pick_goal -1
  · exact pass1Flex_keeps _ _ _ _ _ h
  all_goals
    cases h
    simp [Keeps, StyleContext.setPadding, StyleContext.setMargin, StyleContext.setPaddingTop,
      StyleContext.setPaddingRight, StyleContext.setPaddingBottom, StyleContext.setPaddingLeft,
      StyleContext.setMarginTop, StyleContext.setMarginRight, StyleContext.setMarginBottom,
      StyleContext.setMarginLeft]

theorem pass1Transform_keeps (ctx : StyleContext) (el : Element) (prop val : Str) (r : Styled)
    (h : pass1Transform ctx el prop val = .ok r) : Keeps prop ctx r.1 := by
  unfold pass1Transform at h
  split_ifs at h with h1
  pick_goal -1
  · exact pass1Box_keeps _ _ _ _ _ h
  · have h2 := TransformParser.applyLoop_frame _ _ _ _ _ h
    subst h1
    exact ⟨h2.1, h2.2.1, h2.2.2.1, h2.2.2.2.1, fun _ => h2.2.2.2.2.2.2, fun hne => absurd rfl hne⟩
  all_goals
    try simp only [withStof] at h
    repeat' split at h
    all_goals first
      | (cases h; simp [Keeps])
      | simp at h

theorem pass1Text_keeps (ctx : StyleContext) (el : Element) (prop val : Str) (r : Styled)
    (h : pass1Text ctx el prop val = .ok r) : Keeps prop ctx r.1 := by
  unfold pass1Text at h
  split_ifs at h
  pick_goal -1
  · exact pass1Transform_keeps _ _ _ _ _ h
  all_goals
    try simp only [withStof] at h
    repeat' split at h
    all_goals first
      | (cases h; simp [Keeps])
      | simp at h

theorem pass1Colors_keeps (ctx : StyleContext) (el : Element) (prop val : Str) (r : Styled)
    (h : pass1Colors ctx el prop val = .ok r) : Keeps prop ctx r.1 := by
  unfold pass1Colors at h
  split_ifs at h
  pick_goal -1
  · exact pass1Text_keeps _ _ _ _ _ h
  all_goals
    repeat' split at h
    all_goals first
      | (cases h; simp [Keeps])
      | simp at h

theorem pass1_keeps (ctx : StyleContext) (el : Element) (prop val : Str) (r : Styled)
    (h : pass1 ctx el prop val = .ok r) : Keeps prop ctx r.1 := by
  unfold pass1 at h
  split_ifs at h
  pick_goal -1
  · exact pass1Colors_keeps _ _ _ _ _ h
  all_goals
    repeat' split at h
    all_goals
      cases h
      simp [Keeps]

theorem runPass1_append_ok (a b : List Declaration) (ctx : StyleContext) (el : Element)
    (r : Styled) (h : runPass1 (a ++ b) ctx el = .ok r) :
    ∃ r0, runPass1 a ctx el = .ok r0 ∧ runPass1 b r0.1 r0.2 = .ok r := by
  rw [runPass1_append] at h
  cases h0 : runPass1 a ctx el with
  | error e => rw [h0] at h; cases h
  | ok r0 => rw [h0] at h; exact ⟨r0, rfl, h⟩

theorem runPass1_cons_ok (d : Declaration) (ds : List Declaration) (ctx : StyleContext)
    (el : Element) (r : Styled) (h : runPass1 (d :: ds) ctx el = .ok r) :
    ∃ r0, pass1 ctx el d.property d.value = .ok r0 ∧ runPass1 ds r0.1 r0.2 = .ok r := by
  simp only [runPass1] at h
  cases h0 : pass1 ctx el d.property d.value with
  | error e => rw [h0] at h; cases h
  | ok r0 => rw [h0] at h; exact ⟨r0, rfl, h⟩

/-- What a run of pass 1 keeps of the context: the frame always, the position
mode when no declaration is `position`, the deferred offsets when none is
`transform`. -/
theorem runPass1_keeps (ds : List Declaration) (ctx : StyleContext) (el : Element) (r : Styled)
    (h : runPass1 ds ctx el = .ok r) :
    r.1.self = ctx.self ∧ r.1.parentSize = ctx.parentSize ∧ r.1.parentPos = ctx.parentPos ∧
      r.1.windowSize = ctx.windowSize ∧
      ((∀ d ∈ ds, d.property ≠ lit "position") → r.1.positionMode = ctx.positionMode) ∧
      ((∀ d ∈ ds, d.property ≠ lit "transform") →
        r.1.deferredTranslateXPct = ctx.deferredTranslateXPct ∧
        r.1.deferredTranslateYPct = ctx.deferredTranslateYPct) := by
  induction ds generalizing ctx el with
  | nil =>
      simp only [runPass1, Except.ok.injEq] at h
      subst h
      simp
  | cons d ds ih =>
      obtain ⟨r0, h0, h1⟩ := runPass1_cons_ok d ds ctx el r h
      obtain ⟨a1, a2, a3, a4, a5, a6⟩ := pass1_keeps _ _ _ _ _ h0
      obtain ⟨b1, b2, b3, b4, b5, b6⟩ := ih _ _ h1
      refine ⟨b1.trans a1, b2.trans a2, b3.trans a3, b4.trans a4, ?_, ?_⟩
      · intro hp
        rw [b5 (fun x hx => hp x (List.mem_cons_of_mem _ hx)), a5 (hp d (List.mem_cons_self _ _))]
      · intro hp
        have hb := b6 (fun x hx => hp x (List.mem_cons_of_mem _ hx))
        have ha := a6 (hp d (List.mem_cons_self _ _))
        exact ⟨hb.1.trans ha.1, hb.2.trans ha.2⟩

theorem not_position_of_not_positional (p : Str) (h : p ∉ positional) : p ≠ lit "position" := by
  intro hp
  apply h
  rw [hp]
  decide

theorem flush_of_none (ctx : StyleContext) (el : Element)
    (hx : ctx.deferredTranslateXPct = none) (hy : ctx.deferredTranslateYPct = none) :
    flushDeferredTransforms ctx el = el := by
  simp [flushDeferredTransforms, hx, hy]

/-- C2 (as amended). When `position: center` is the only positional declaration
of the list, pass 1 succeeds and leaves no deferred percentage translation, the
call returns the element of pass 1 moved to `O + (S - Z) / 2` on both axes,
where `O` and `S` are the origin and size of the containing block and `Z` is
the size pass 1 produced; the size is not changed. -/
theorem apply_center (ctx : StyleContext) (el : Element) (pre post : List Declaration)
    (r : Styled)
    (hpre : ∀ d ∈ pre, d.property ∉ positional) (hpost : ∀ d ∈ post, d.property ∉ positional)
    (hrun : runPass1 (pre ++ ⟨lit "position", lit "center"⟩ :: post) ctx el = .ok r)
    (hx : r.1.deferredTranslateXPct = none) (hy : r.1.deferredTranslateYPct = none) :
    apply ctx el (pre ++ ⟨lit "position", lit "center"⟩ :: post) =
      .ok (r.1, r.2.setPosition
        ⟨ctx.parentPos.x + (ctx.parentSize.x - r.2.getSize.x) / 2,
         ctx.parentPos.y + (ctx.parentSize.y - r.2.getSize.y) / 2⟩) ∧
    (r.2.setPosition
        ⟨ctx.parentPos.x + (ctx.parentSize.x - r.2.getSize.x) / 2,
         ctx.parentPos.y + (ctx.parentSize.y - r.2.getSize.y) / 2⟩).getSize = r.2.getSize := by
  refine ⟨?_, rfl⟩
  obtain ⟨r0, h0, h1⟩ := runPass1_append_ok _ _ _ _ _ hrun
  obtain ⟨r1, h2, h3⟩ := runPass1_cons_ok _ _ _ _ _ h1
  have k := runPass1_keeps _ _ _ _ hrun
  have k3 := runPass1_keeps _ _ _ _ h3
  have hmode1 : r1.1.positionMode = .Center := by
    have : pass1 r0.1 r0.2 (lit "position") (lit "center") =
        .ok ({ r0.1 with positionMode := .Center }, r0.2) := rfl
    rw [this] at h2
    cases h2
    rfl
  have hmode : r.1.positionMode = .Center := by
    rw [k3.2.2.2.2.1 (fun d hd => not_position_of_not_positional _ (hpost d hd)), hmode1]
  unfold apply
  rw [hrun]
  simp only [runPass2_append, runPass2]
  rw [runPass2_of_not_positional _ pre _ hpre, runPass2_of_not_positional _ post _ hpost,
    flush_of_none _ _ hx hy]
  have hp2 : pass2 r.1 r.2 (lit "position") (lit "center") =
      r.2.setPosition ⟨(refOrigin r.1).x + ((refSize r.1).x - r.2.getSize.x) / 2,
        (refOrigin r.1).y + ((refSize r.1).y - r.2.getSize.y) / 2⟩ := rfl
  show Except.ok (r.1, pass2 r.1 r.2 (lit "position") (lit "center")) = _
  rw [hp2]
  simp only [refOrigin, refSize, hmode, k.2.1, k.2.2.1]
  rfl

/-- Witness of C1 with `left` and with `right` against `width`: both orders give
the same result, and the position is the one computed from the final width. -/
theorem apply_swap_positional_witness :
    (apply (Scenario.viewportContext 1000 800) (Scenario.rect 0 0)
        [Scenario.decl "left" "10px", Scenario.decl "width" "50px"] =
      apply (Scenario.viewportContext 1000 800) (Scenario.rect 0 0)
        [Scenario.decl "width" "50px", Scenario.decl "left" "10px"]) ∧
    (apply (Scenario.viewportContext 1000 800) (Scenario.rect 0 0)
        [Scenario.decl "right" "10px", Scenario.decl "width" "50px"]).map
        (fun r => r.2.getPosition) = .ok ⟨940, 0⟩ ∧
    (apply (Scenario.viewportContext 1000 800) (Scenario.rect 0 0)
        [Scenario.decl "width" "50px", Scenario.decl "right" "10px"]).map
        (fun r => r.2.getPosition) = .ok ⟨940, 0⟩ := by
  refine ⟨apply_swap_positional _ _ [] [] (Scenario.decl "left" "10px")
    (Scenario.decl "width" "50px") (by decide) (by decide), ?_, ?_⟩
  · refine Eq.trans (congrArg (Except.map fun r => r.2.getPosition)
      (apply_swap_positional (Scenario.viewportContext 1000 800) (Scenario.rect 0 0) [] []
        (Scenario.decl "right" "10px") (Scenario.decl "width" "50px")
        (by decide) (by decide))) ?_
    decide!
  · decide!

/-- Witness of C2: parent origin `{0,0}` and size `{1000,800}`, rules `width:90%`,
`height:90%`, `position:center` give size `{900,720}` and position `{50,40}`, also
through `CSS::Style` on the rule strings. -/
theorem apply_center_witness :
    (apply (Scenario.viewportContext 1000 800) (Scenario.rect 0 0)
        ([Scenario.decl "width" "90%", Scenario.decl "height" "90%"] ++
          Scenario.decl "position" "center" :: [])).map
        (fun r => (r.2.getSize, r.2.getPosition)) = .ok (⟨900, 720⟩, ⟨50, 40⟩) ∧
    (CSS.Style (some ⟨1000, 800⟩) Scenario.scene 0
        [lit "width:90%", lit "height:90%", lit "position:center"] none none).map
        (fun sc => ((sc 0).getSize, (sc 0).getPosition)) = .ok (⟨900, 720⟩, ⟨50, 40⟩) := by
  constructor
  · refine Eq.trans (congrArg (Except.map fun r => (r.2.getSize, r.2.getPosition))
      (apply_center (Scenario.viewportContext 1000 800) (Scenario.rect 0 0)
        [Scenario.decl "width" "90%", Scenario.decl "height" "90%"] []
        ({ Scenario.viewportContext 1000 800 with positionMode := .Center },
          Scenario.rect 900 720)
        (by decide) (by decide) (by decide!) rfl rfl).1) ?_
    decide!
  · decide!

/-- Counterexample to C2 as stated: with `width: 200px`, `height: 100px`,
`transform: translateX(50%)` and `position: center` as the only positional
declaration, in the containing block at `{0,0}` of size `{1000,800}`, the final
size is `{200,100}` and the final position is `{500,350}`, not the centred
`{400,350}`. -/
theorem apply_center_counterexample :
    (∀ d ∈ [Scenario.decl "width" "200px", Scenario.decl "height" "100px",
        Scenario.decl "transform" "translateX(50%)"], d.property ∉ positional) ∧
    (apply (Scenario.viewportContext 1000 800) (Scenario.rect 0 0)
        [Scenario.decl "width" "200px", Scenario.decl "height" "100px",
          Scenario.decl "transform" "translateX(50%)", Scenario.decl "position" "center"]).map
        (fun r => (r.2.getSize, r.2.getPosition)) = .ok (⟨200, 100⟩, ⟨500, 350⟩) ∧
    (⟨500, 350⟩ : Vec2) ≠ ⟨0 + (1000 - 200) / 2, 0 + (800 - 100) / 2⟩ := by
  refine ⟨by decide, by decide!, by decide!⟩

/-- C3. In pass 2, `right: v` sets x to `referenceOrigin.x + referenceSize.x -
resolve(v) - elementWidth - marginRight` and keeps y, and `bottom: v` sets y to
`referenceOrigin.y + referenceSize.y - resolve(v) - elementHeight - marginBottom`
and keeps x; the reference is the window at `(0,0)` for `Absolute` and the
containing block otherwise, and the element size is the one pass 1 left, since
`apply` runs pass 2 on the result of pass 1. Scenario: `right:24px`, `bottom:24px`
on a `{52,52}` element, `Absolute`, viewport `{1280,720}`, gives `{1204,644}`. -/
theorem pass2_right_bottom :
    (∀ (ctx : StyleContext) (el : Element) (v : Str),
      pass2 ctx el (lit "right") v =
        el.setPosition
          ⟨(refOrigin ctx).x + (refSize ctx).x
              - LengthResolver.resolve v (refSize ctx).x ctx.windowSize
              - el.getSize.x - ctx.box.marginRight, el.getPosition.y⟩) ∧
    (∀ (ctx : StyleContext) (el : Element) (v : Str),
      pass2 ctx el (lit "bottom") v =
        el.setPosition
          ⟨el.getPosition.x, (refOrigin ctx).y + (refSize ctx).y
              - LengthResolver.resolve v (refSize ctx).y ctx.windowSize
              - el.getSize.y - ctx.box.marginBottom⟩) ∧
    (∀ ctx : StyleContext, ctx.positionMode = .Absolute →
      refOrigin ctx = ⟨0, 0⟩ ∧ refSize ctx = ctx.windowSize) ∧
    (∀ ctx : StyleContext, ctx.positionMode ≠ .Absolute →
      refOrigin ctx = ctx.parentPos ∧ refSize ctx = ctx.parentSize) ∧
    (∀ (ctx : StyleContext) (el : Element) (decls : List Declaration) (r : Styled),
      runPass1 decls ctx el = .ok r →
        apply ctx el decls = .ok (r.1, flushDeferredTransforms r.1 (runPass2 r.1 decls r.2))) ∧
    (apply { Scenario.viewportContext 1280 720 with positionMode := .Absolute }
        (Scenario.rect 52 52) [Scenario.decl "right" "24px", Scenario.decl "bottom" "24px"]).map
        (fun r => r.2.getPosition) = .ok ⟨1204, 644⟩ ∧
    (apply (Scenario.viewportContext 1280 720) (Scenario.rect 52 52)
        (RuleParser.parse [lit "position: absolute", lit "right:24px", lit "bottom:24px"])).map
        (fun r => r.2.getPosition) = .ok ⟨1204, 644⟩ := by
  refine ⟨fun _ _ _ => rfl, fun _ _ _ => rfl, ?_, ?_, ?_, by decide!, by decide!⟩
  · intro ctx h
    simp [refOrigin, refSize, h]
  · intro ctx h
    simp [refOrigin, refSize, h]
  · intro ctx el decls r h
    simp [apply, h]

/-- Witness of C3 for its conditional parts, in the viewport scenario. -/
theorem pass2_right_bottom_witness :
    refOrigin { Scenario.viewportContext 1280 720 with positionMode := .Absolute } = ⟨0, 0⟩ ∧
    refSize { Scenario.viewportContext 1280 720 with positionMode := .Absolute } = ⟨1280, 720⟩ :=
  pass2_right_bottom.2.2.1 { Scenario.viewportContext 1280 720 with positionMode := .Absolute } rfl

end PropertyDispatcher

/-! ## Lemmas on numeric parsing -/

theorem takeWhile_append_stop {p : Char → Bool} (xs ys : Str) (h1 : ∀ x ∈ xs, p x = true)
    (h2 : ∀ c, ys.head? = some c → p c = false) : (xs ++ ys).takeWhile p = xs := by
  induction xs with
  | nil =>
      cases ys with
      | nil => rfl
      | cons c cs => simp [List.takeWhile, h2 c rfl]
  | cons x xs ih =>
      rw [List.cons_append, List.takeWhile_cons, h1 x (List.mem_cons_self _ _)]
      simp only [if_true]
      rw [ih (fun y hy => h1 y (List.mem_cons_of_mem _ hy))]

theorem dropWhile_append_stop {p : Char → Bool} (xs ys : Str) (h1 : ∀ x ∈ xs, p x = true)
    (h2 : ∀ c, ys.head? = some c → p c = false) : (xs ++ ys).dropWhile p = ys := by
  induction xs with
  | nil =>
      cases ys with
      | nil => rfl
      | cons c cs => simp [List.dropWhile, h2 c rfl]
  | cons x xs ih =>
      rw [List.cons_append, List.dropWhile_cons, h1 x (List.mem_cons_self _ _)]
      simp only [if_true]
      exact ih (fun y hy => h1 y (List.mem_cons_of_mem _ hy))

theorem isdigit_digitChar : ∀ d : Fin 10, cstd.isdigit (digitChar d) = true := by decide

theorem digitVal_digitChar : ∀ d : Fin 10, cstd.digitVal (digitChar d) = d.val := by decide

theorem isspace_digitChar : ∀ d : Fin 10, cstd.isspace (digitChar d) = false := by decide

theorem digitChar_ne_sign : ∀ d : Fin 10, digitChar d ≠ '-' ∧ digitChar d ≠ '+' := by decide

theorem digitChar_ne_x : ∀ d : Fin 10, digitChar d ≠ 'x' ∧ digitChar d ≠ 'X' := by decide

theorem isdigit_map_digitChar (ds : List (Fin 10)) : ∀ c ∈ ds.map digitChar, cstd.isdigit c = true := by
  intro c hc
  obtain ⟨d, _, rfl⟩ := List.mem_map.1 hc
  exact isdigit_digitChar d

theorem natOfDigits_map_digitChar (ds : List (Fin 10)) :
    cstd.natOfDigits 10 (ds.map digitChar) = natValue ds := by
  unfold cstd.natOfDigits natValue
  generalize (0 : Nat) = acc
  induction ds generalizing acc with
  | nil => rfl
  | cons d ds ih => simp only [List.map, List.foldl, digitVal_digitChar]; exact ih _

theorem exponentOf_stop (rest : Str) (h : ∀ c, rest.head? = some c → continuesLiteral c = false) :
    cstd.exponentOf 'e' 'E' rest = 0 := by
  cases rest with
  | nil => rfl
  | cons c cs =>
      have hc := h c rfl
      simp only [continuesLiteral, Bool.or_eq_false_iff, decide_eq_false_iff_not] at hc
      simp [cstd.exponentOf, hc.1.1.1.2, hc.1.1.2]

theorem decimalMagnitude_text (d : Fin 10) (ds fs : List (Fin 10)) (rest : Str)
    (h : ∀ c, rest.head? = some c → continuesLiteral c = false) :
    cstd.decimalMagnitude ((d :: ds).map digitChar ++
        ((if fs = [] then [] else '.' :: fs.map digitChar) ++ rest)) =
      some ((natValue (d :: ds ++ fs) : ℚ) / (10 : ℚ) ^ fs.length) := by
  have hdig : ∀ c, rest.head? = some c → cstd.isdigit c = false := by
    intro c hc
    have := h c hc
    simp only [continuesLiteral, Bool.or_eq_false_iff] at this
    exact this.1.1.1.1.1
  have hdot : rest.head? ≠ some '.' := by
    intro hc
    have := h _ hc
    simp [continuesLiteral] at this
  by_cases hfs : fs = []
  · subst hfs
    have ht : ((d :: ds).map digitChar ++ rest).takeWhile cstd.isdigit = (d :: ds).map digitChar :=
      takeWhile_append_stop _ _ (isdigit_map_digitChar _) hdig
    have hd : ((d :: ds).map digitChar ++ rest).dropWhile cstd.isdigit = rest :=
      dropWhile_append_stop _ _ (isdigit_map_digitChar _) hdig
    simp only [if_true, List.nil_append, cstd.decimalMagnitude, ht, hd, if_neg hdot,
      List.append_nil, List.length_nil, pow_zero, div_one, exponentOf_stop rest h, zpow_zero,
      mul_one, natOfDigits_map_digitChar]
    simp
  · have hstop : ∀ c, ('.' :: (fs.map digitChar ++ rest)).head? = some c → cstd.isdigit c = false := by
      intro c hc
      simp only [List.head?_cons, Option.some.injEq] at hc
      subst hc
      decide
    have ht : ((d :: ds).map digitChar ++ ('.' :: (fs.map digitChar ++ rest))).takeWhile cstd.isdigit
        = (d :: ds).map digitChar := takeWhile_append_stop _ _ (isdigit_map_digitChar _) hstop
    have hd : ((d :: ds).map digitChar ++ ('.' :: (fs.map digitChar ++ rest))).dropWhile cstd.isdigit
        = '.' :: (fs.map digitChar ++ rest) := dropWhile_append_stop _ _ (isdigit_map_digitChar _) hstop
    have ht2 : (fs.map digitChar ++ rest).takeWhile cstd.isdigit = fs.map digitChar :=
      takeWhile_append_stop _ _ (isdigit_map_digitChar _) hdig
    have hd2 : (fs.map digitChar ++ rest).dropWhile cstd.isdigit = rest :=
      dropWhile_append_stop _ _ (isdigit_map_digitChar _) hdig
    simp only [if_neg hfs, List.cons_append, cstd.decimalMagnitude, ht, hd, List.head?_cons,
      if_true, List.tail_cons, ht2, hd2, exponentOf_stop rest h, zpow_zero, mul_one,
      ← List.map_append, natOfDigits_map_digitChar, List.length_map]
    simp

theorem stof_hex_none (d : Fin 10) (t : Str)
    (h : ∀ c, t.head? = some c → c ≠ 'x' ∧ c ≠ 'X') :
    cstd.hexFloat (digitChar d :: t) = none := by
  cases t with
  | nil => rfl
  | cons c cs =>
      have hc := h c rfl
      simp [cstd.hexFloat, hc.1, hc.2]

theorem body_second_ne_x (ds fs : List (Fin 10)) (rest : Str)
    (h : ∀ c, rest.head? = some c → continuesLiteral c = false) :
    ∀ c, (ds.map digitChar ++ ((if fs = [] then [] else '.' :: fs.map digitChar) ++ rest)).head?
      = some c → c ≠ 'x' ∧ c ≠ 'X' := by
  intro c hc
  cases ds with
  | cons d ds =>
      simp only [List.map, List.cons_append, List.head?_cons, Option.some.injEq] at hc
      subst hc
      exact digitChar_ne_x d
  | nil =>
      by_cases hfs : fs = []
      · simp only [hfs, if_true, List.map_nil, List.nil_append] at hc
        have := h c hc
        simp only [continuesLiteral, Bool.or_eq_false_iff, decide_eq_false_iff_not] at this
        exact ⟨this.1.2, this.2⟩
      · simp only [if_neg hfs, List.map_nil, List.nil_append, List.cons_append, List.head?_cons,
          Option.some.injEq] at hc
        subst hc
        decide

/-- The model of `std::stof` on a decimal literal, whatever follows it, as long as
what follows cannot extend the literal: the exact value when the literal is in
the range of `float`, `out_of_range` otherwise. -/
theorem stof_text_eq (L : Decimal) (rest : Str)
    (h : ∀ c, rest.head? = some c → continuesLiteral c = false) :
    cstd.stof (L.text ++ rest) =
      if cstd.outOfFloatRange L.magnitude then .error .outOfRange else .ok L.value := by
  obtain ⟨neg, d, ds, fs⟩ := L
  have hbody := decimalMagnitude_text d ds fs rest h
  have hhex := stof_hex_none d _ (body_second_ne_x ds fs rest h)
  simp only [List.map_cons, List.cons_append] at hbody
  cases neg with
  | true =>
      have hs : (Decimal.text ⟨true, d, ds, fs⟩ ++ rest) =
          '-' :: digitChar d :: (ds.map digitChar ++
            ((if fs = [] then [] else '.' :: fs.map digitChar) ++ rest)) := by
        simp [Decimal.text]
      rw [hs]
      have hsign : cstd.takeSign (('-' :: digitChar d :: (ds.map digitChar ++
            ((if fs = [] then [] else '.' :: fs.map digitChar) ++ rest))).dropWhile cstd.isspace)
          = (true, digitChar d :: (ds.map digitChar ++
            ((if fs = [] then [] else '.' :: fs.map digitChar) ++ rest))) := by
        rw [List.dropWhile_cons]
        simp [cstd.takeSign, cstd.isspace]
      unfold cstd.stof
      simp only [hsign, hhex, hbody, Decimal.value, Decimal.magnitude]
      simp
  | false =>
      have hs : (Decimal.text ⟨false, d, ds, fs⟩ ++ rest) =
          digitChar d :: (ds.map digitChar ++
            ((if fs = [] then [] else '.' :: fs.map digitChar) ++ rest)) := by
        simp [Decimal.text]
      rw [hs]
      have hsign : cstd.takeSign ((digitChar d :: (ds.map digitChar ++
            ((if fs = [] then [] else '.' :: fs.map digitChar) ++ rest))).dropWhile cstd.isspace)
          = (false, digitChar d :: (ds.map digitChar ++
            ((if fs = [] then [] else '.' :: fs.map digitChar) ++ rest))) := by
        rw [List.dropWhile_cons, isspace_digitChar]
        simp [cstd.takeSign, (digitChar_ne_sign d).1, (digitChar_ne_sign d).2]
      unfold cstd.stof
      simp only [hsign, hhex, hbody, Decimal.value, Decimal.magnitude]
      simp

/-- The model of `std::stof` reads a decimal literal in the range of `float`
exactly, whatever follows it, as long as what follows cannot extend the literal. -/
theorem stof_text (L : Decimal) (rest : Str)
    (h : ∀ c, rest.head? = some c → continuesLiteral c = false) (hr : L.InRange) :
    cstd.stof (L.text ++ rest) = .ok L.value := by
  rw [stof_text_eq L rest h, hr]
  rfl

/-- On a decimal literal out of the range of `float`, `std::stof` raises
`out_of_range`. -/
theorem stof_text_out (L : Decimal) (rest : Str)
    (h : ∀ c, rest.head? = some c → continuesLiteral c = false) (hr : ¬ L.InRange) :
    cstd.stof (L.text ++ rest) = .error .outOfRange := by
  have ho : cstd.outOfFloatRange L.magnitude = true := by
    cases hc : cstd.outOfFloatRange L.magnitude with
    | true => rfl
    | false => exact absurd hc hr
  rw [stof_text_eq L rest h, ho]
  rfl

theorem Decimal.not_inRange_of_overflows (L : Decimal) (h : L.Overflows) : ¬ L.InRange := by
  unfold Decimal.Overflows at h
  unfold Decimal.InRange cstd.outOfFloatRange
  simp [h]

/-! ## Lemmas on trimming and on literal texts -/

theorem trim_of_ends (s : Str) (hh : ∀ c, s.head? = some c → StringUtils.isTrimChar c = false)
    (hl : ∀ c, s.getLast? = some c → StringUtils.isTrimChar c = false) :
    StringUtils.trim s = s := by
  cases s with
  | nil => rfl
  | cons c t =>
      unfold StringUtils.trim
      rw [List.dropWhile_cons, hh c rfl]
      simp only [Bool.false_eq_true, if_false]
      rw [List.rdropWhile_eq_self_iff]
      intro hne
      have := hl _ (List.getLast?_eq_getLast _ hne)
      simp [this]

theorem isTrimChar_digitChar : ∀ d : Fin 10, StringUtils.isTrimChar (digitChar d) = false := by
  decide

theorem Decimal.text_eq_cons (L : Decimal) :
    ∃ c t, L.text = c :: t ∧ (c = '-' ∨ ∃ d, c = digitChar d) := by
  obtain ⟨neg, d, ds, fs⟩ := L
  cases neg with
  | true => exact ⟨'-', _, rfl, Or.inl rfl⟩
  | false => exact ⟨digitChar d, _, rfl, Or.inr ⟨d, rfl⟩⟩

theorem Decimal.text_getLast (L : Decimal) : ∃ d, L.text.getLast? = some (digitChar d) := by
  obtain ⟨neg, d, ds, fs⟩ := L
  have hint : ∃ e, ((d :: ds).map digitChar).getLast? = some (digitChar e) := by
    rcases List.eq_nil_or_concat (d :: ds) with h | ⟨l, e, h⟩
    · cases h
    · exact ⟨e, by rw [h]; simp⟩
  by_cases hfs : fs = []
  · obtain ⟨e, he⟩ := hint
    refine ⟨e, ?_⟩
    simp only [Decimal.text, hfs, if_true, List.append_nil]
    rw [List.getLast?_append, he]
    rfl
  · rcases List.eq_nil_or_concat fs with h | ⟨l, e, h⟩
    · exact absurd h hfs
    · refine ⟨e, ?_⟩
      simp only [Decimal.text, if_neg hfs]
      rw [h, List.concat_eq_append, List.map_append]
      show (_ ++ (_ ++ '.' :: (_ ++ [digitChar e]))).getLast? = _
      rw [← List.cons_append, ← List.append_assoc, ← List.append_assoc, List.getLast?_concat]

theorem Decimal.head_not_trim (L : Decimal) (u : Str) :
    ∀ c, (L.text ++ u).head? = some c → StringUtils.isTrimChar c = false := by
  obtain ⟨c0, t, ht, hc0⟩ := L.text_eq_cons
  intro c hc
  rw [ht] at hc
  simp only [List.cons_append, List.head?_cons, Option.some.injEq] at hc
  subst hc
  rcases hc0 with h | ⟨d, h⟩
  · subst h; decide
  · subst h; exact isTrimChar_digitChar d

theorem Decimal.trim_text (L : Decimal) : StringUtils.trim L.text = L.text := by
  apply trim_of_ends
  · have := L.head_not_trim []
    simpa using this
  · intro c hc
    obtain ⟨d, hd⟩ := L.text_getLast
    rw [hd] at hc
    cases hc
    exact isTrimChar_digitChar d

/-- The function `parseNumber` reads a decimal literal in the range of `float`
exactly. -/
theorem parseNumber_text (L : Decimal) (hr : L.InRange) :
    LengthResolver.parseNumber L.text = L.value := by
  unfold LengthResolver.parseNumber
  rw [L.trim_text]
  have := stof_text L [] (by intro c hc; cases hc) hr
  rw [List.append_nil] at this
  rw [this]

/-- On a decimal literal out of the range of `float`, `parseNumber` catches the
exception of `std::stof` and gives 0. -/
theorem parseNumber_text_out (L : Decimal) (hr : ¬ L.InRange) :
    LengthResolver.parseNumber L.text = 0 := by
  unfold LengthResolver.parseNumber
  rw [L.trim_text]
  have := stof_text_out L [] (by intro c hc; cases hc) hr
  rw [List.append_nil] at this
  rw [this]

/-- Leading trim characters do not change what `parseNumber` reads. -/
theorem parseNumber_dropWhile (p : Str) :
    LengthResolver.parseNumber (p.dropWhile StringUtils.isTrimChar) =
      LengthResolver.parseNumber p := by
  unfold LengthResolver.parseNumber StringUtils.trim
  rw [List.dropWhile_idempotent]

theorem Decimal.trim_text_append (L : Decimal) (u : Str) (z : Char)
    (hz : StringUtils.isTrimChar z = false) :
    StringUtils.trim (L.text ++ (u ++ [z])) = L.text ++ (u ++ [z]) := by
  apply trim_of_ends
  · exact L.head_not_trim _
  · intro c hc
    rw [← List.append_assoc, List.getLast?_concat] at hc
    cases hc
    exact hz

theorem Decimal.text_append_ne (L : Decimal) (u : Str) :
    L.text ++ u ≠ [] ∧ L.text ++ u ≠ lit "auto" := by
  obtain ⟨c0, t, ht, hc0⟩ := L.text_eq_cons
  rw [ht]
  refine ⟨by simp, ?_⟩
  intro h
  have h1 : c0 = 'a' := by
    have := congrArg List.head? h
    simpa [lit] using this
  rcases hc0 with h2 | ⟨d, h2⟩
  · rw [h2] at h1; exact absurd h1 (by decide)
  · rw [h2] at h1
    exact absurd h1 ((by decide : ∀ d : Fin 10, digitChar d ≠ 'a') d)

namespace LengthResolver

theorem dropWhile_append_keep (p : Str) (c : Char) (t : Str)
    (hc : StringUtils.isTrimChar c = false) :
    (p ++ c :: t).dropWhile StringUtils.isTrimChar =
      p.dropWhile StringUtils.isTrimChar ++ c :: t := by
  induction p with
  | nil => simp [List.dropWhile, hc]
  | cons a q ih =>
      rw [List.cons_append, List.dropWhile_cons, List.dropWhile_cons]
      cases StringUtils.isTrimChar a with
      | true => simpa using ih
      | false => simp

/-- Trimming a text that ends with a suffix whose first and last characters are
kept removes the leading trim characters only. -/
theorem trim_append_kept (p : Str) (c : Char) (t : Str)
    (hc : StringUtils.isTrimChar c = false)
    (hl : ∀ z, (c :: t).getLast? = some z → StringUtils.isTrimChar z = false) :
    StringUtils.trim (p ++ c :: t) = p.dropWhile StringUtils.isTrimChar ++ c :: t := by
  unfold StringUtils.trim
  rw [dropWhile_append_keep p c t hc, List.rdropWhile_eq_self_iff]
  intro hne
  have hlast : (p.dropWhile StringUtils.isTrimChar ++ c :: t).getLast? = (c :: t).getLast? :=
    List.getLast?_append_of_ne_nil _ (List.cons_ne_nil c t)
  have := hl _ (hlast ▸ List.getLast?_eq_getLast _ hne)
  simpa using this

/-- A percentage is the reference times what `parseNumber` reads before the
sign, over 100: for every text. -/
theorem resolve_percent (p : Str) (r : ℚ) (vp : Vec2) :
    resolve (p ++ lit "%") r vp = r * parseNumber p / 100 := by
  have ht : StringUtils.trim (p ++ lit "%") = p.dropWhile StringUtils.isTrimChar ++ ['%'] :=
    trim_append_kept p '%' [] (by decide) (by intro z hz; cases hz; decide)
  have hne : p.dropWhile StringUtils.isTrimChar ++ ['%'] ≠ [] := by simp
  have hauto : p.dropWhile StringUtils.isTrimChar ++ ['%'] ≠ lit "auto" := by
    intro e
    have := congrArg List.getLast? e
    rw [List.getLast?_concat] at this
    exact absurd this (by decide)
  unfold resolve
  simp only [ht, hne, hauto, or_self, if_false, List.getLast?_concat, if_true,
    List.dropLast_concat, parseNumber_dropWhile]

/-- A text with a two-letter suffix that is kept by `trim`: the viewport units
take what `parseNumber` reads before the suffix, every other suffix goes to
`parseAbsolute`. -/
theorem resolve_viewport (p : Str) (r : ℚ) (vp : Vec2) (x y : Char)
    (hx : StringUtils.isTrimChar x = false) (hy : y ≠ '%')
    (hty : StringUtils.isTrimChar y = false)
    (hauto : p.dropWhile StringUtils.isTrimChar ++ [x, y] ≠ lit "auto") :
    resolve (p ++ [x, y]) r vp =
      if StringUtils.toLower [x, y] = lit "vw" then vp.x * parseNumber p / 100
      else if StringUtils.toLower [x, y] = lit "vh" then vp.y * parseNumber p / 100
      else parseAbsolute (p.dropWhile StringUtils.isTrimChar ++ [x, y]) := by
  have ht : StringUtils.trim (p ++ [x, y]) = p.dropWhile StringUtils.isTrimChar ++ [x, y] :=
    trim_append_kept p x [y] hx (by intro z hz; cases hz; exact hty)
  have hne : p.dropWhile StringUtils.isTrimChar ++ [x, y] ≠ [] := by simp
  have hlast : (p.dropWhile StringUtils.isTrimChar ++ [x, y]).getLast? = some y := by
    rw [show p.dropWhile StringUtils.isTrimChar ++ [x, y] =
      (p.dropWhile StringUtils.isTrimChar ++ [x]) ++ [y] by simp, List.getLast?_concat]
  have hlen : (p.dropWhile StringUtils.isTrimChar ++ [x, y]).length - 2 =
      (p.dropWhile StringUtils.isTrimChar).length := by simp
  have h2 : 2 ≤ (p.dropWhile StringUtils.isTrimChar ++ [x, y]).length := by simp
  unfold resolve
  simp only [ht, hne, hauto, or_self, if_false, hlast, Option.some.injEq, hy, hlen,
    List.drop_left, List.take_left, h2, true_and, parseNumber_dropWhile]

theorem not_auto_of_last (s : Str) (y : Char) (hy : y ≠ 'o') : s ++ [y] ≠ lit "auto" := by
  intro e
  have := congrArg List.getLast? e
  rw [List.getLast?_concat] at this
  have h2 : (lit "auto").getLast? = some 'o' := by decide
  rw [h2] at this
  exact hy (Option.some.inj this)

theorem resolve_percent_text (L : Decimal) (r : ℚ) (vp : Vec2) (hr : L.InRange) :
    resolve (L.text ++ lit "%") r vp = r * L.value / 100 := by
  rw [resolve_percent, parseNumber_text L hr]

theorem resolve_viewport_text (L : Decimal) (r : ℚ) (vp : Vec2) (x y : Char)
    (hy : y ≠ '%') (hty : StringUtils.isTrimChar y = false) :
    resolve (L.text ++ [x, y]) r vp =
      if StringUtils.toLower [x, y] = lit "vw" then vp.x * parseNumber L.text / 100
      else if StringUtils.toLower [x, y] = lit "vh" then vp.y * parseNumber L.text / 100
      else parseAbsolute (L.text ++ [x, y]) := by
  have ht : StringUtils.trim (L.text ++ [x, y]) = L.text ++ [x, y] :=
    L.trim_text_append [x] y hty
  have hne := L.text_append_ne [x, y]
  have hlast : (L.text ++ [x, y]).getLast? = some y := by
    rw [show L.text ++ [x, y] = (L.text ++ [x]) ++ [y] by simp, List.getLast?_concat]
  have hlen : (L.text ++ [x, y]).length - 2 = L.text.length := by simp
  have h2 : 2 ≤ (L.text ++ [x, y]).length := by simp
  unfold resolve
  simp only [ht, hne.1, hne.2, or_self, if_false, hlast, Option.some.injEq, hy, hlen,
    List.drop_left, List.take_left, h2, true_and]

/-- C6 (as amended). A relative length resolves to `base * number / 100`, the
number being what `std::stof` reads: for every text `p`, `resolve(p%)` is
`r * parseNumber(p) / 100`, `resolve(p vw)` is `w * parseNumber(p) / 100` and
`resolve(p vh)` is `h * parseNumber(p) / 100`, the unit `vw`/`vh` written in any
letter case; `parseNumber(p)` is the number `v` whenever `std::stof` reads `v` from
the trimmed `p`, which is the value of `p` for every decimal literal in the range
of `float`, and it is 0 for a decimal literal too large for a `float`, where
`std::stof` raises `out_of_range`; so `0%` gives `0` and `100%` gives `r`. -/
theorem resolve_relative (p : Str) (r : ℚ) (vp : Vec2) (a b : Bool) :
    resolve (p ++ lit "%") r vp = r * parseNumber p / 100 ∧
    resolve (p ++ [cond a 'V' 'v', cond b 'W' 'w']) r vp = vp.x * parseNumber p / 100 ∧
    resolve (p ++ [cond a 'V' 'v', cond b 'H' 'h']) r vp = vp.y * parseNumber p / 100 ∧
    (∀ v : ℚ, cstd.stof (StringUtils.trim p) = .ok v → parseNumber p = v) ∧
    (∀ L : Decimal, L.InRange → parseNumber L.text = L.value) ∧
    (∀ L : Decimal, L.Overflows →
      resolve (L.text ++ lit "%") r vp = 0 ∧
      resolve (L.text ++ [cond a 'V' 'v', cond b 'W' 'w']) r vp = 0 ∧
      resolve (L.text ++ [cond a 'V' 'v', cond b 'H' 'h']) r vp = 0) ∧
    resolve (lit "0%") r vp = 0 ∧ resolve (lit "100%") r vp = r := by
  have hvw : ∀ q : Str, resolve (q ++ [cond a 'V' 'v', cond b 'W' 'w']) r vp =
      vp.x * parseNumber q / 100 := by
    intro q
    rw [resolve_viewport q r vp _ _ (by cases a <;> decide) (by cases b <;> decide)
      (by cases b <;> decide)
      (by
        rw [show q.dropWhile StringUtils.isTrimChar ++ [cond a 'V' 'v', cond b 'W' 'w'] =
          (q.dropWhile StringUtils.isTrimChar ++ [cond a 'V' 'v']) ++ [cond b 'W' 'w'] by simp]
        exact not_auto_of_last _ _ (by cases b <;> decide))]
    rw [if_pos (by cases a <;> cases b <;> decide)]
  have hvh : ∀ q : Str, resolve (q ++ [cond a 'V' 'v', cond b 'H' 'h']) r vp =
      vp.y * parseNumber q / 100 := by
    intro q
    rw [resolve_viewport q r vp _ _ (by cases a <;> decide) (by cases b <;> decide)
      (by cases b <;> decide)
      (by
        rw [show q.dropWhile StringUtils.isTrimChar ++ [cond a 'V' 'v', cond b 'H' 'h'] =
          (q.dropWhile StringUtils.isTrimChar ++ [cond a 'V' 'v']) ++ [cond b 'H' 'h'] by simp]
        exact not_auto_of_last _ _ (by cases b <;> decide))]
    rw [if_neg (by cases a <;> cases b <;> decide), if_pos (by cases a <;> cases b <;> decide)]
  refine ⟨resolve_percent p r vp, hvw p, hvh p, ?_, fun L hr => parseNumber_text L hr, ?_, ?_, ?_⟩
  · intro v hv
    unfold parseNumber
    rw [hv]
  · intro L hr
    have h0 := parseNumber_text_out L (L.not_inRange_of_overflows hr)
    refine ⟨?_, ?_, ?_⟩
    · rw [resolve_percent, h0]
      simp
    · rw [hvw, h0]
      simp
    · rw [hvh, h0]
      simp
  · have h := resolve_percent_text (Decimal.ofDigits 0 []) r vp (by decide!)
    have hv : (Decimal.ofDigits 0 []).value = 0 := by
      simp [Decimal.value, Decimal.ofDigits, natValue]
    rw [hv] at h
    simpa using h
  · have h := resolve_percent_text (Decimal.ofDigits 1 [0, 0]) r vp (by decide!)
    have hv : (Decimal.ofDigits 1 [0, 0]).value = 100 := by
      simp [Decimal.value, Decimal.ofDigits, natValue]
    rw [hv] at h
    have e : r * 100 / 100 = r := by field_simp
    rw [e] at h
    exact h

/-- Witness of C6: `std::stof` reads 50 from `50`, the literal `12.5` is in the
range of `float`, and the literal of `10^39` is too large for a `float`. -/
theorem resolve_relative_witness :
    cstd.stof (StringUtils.trim (lit "50")) = .ok 50 ∧ LengthResolver.parseNumber (lit "50") = 50 ∧
    (⟨false, 1, [2], [5]⟩ : Decimal).InRange ∧
    parseNumber (⟨false, 1, [2], [5]⟩ : Decimal).text = (⟨false, 1, [2], [5]⟩ : Decimal).value ∧
    (Decimal.ofDigits 1 (List.replicate 39 0)).Overflows ∧
    resolve ((Decimal.ofDigits 1 (List.replicate 39 0)).text ++ lit "%") 200 ⟨1280, 720⟩ = 0 :=
  ⟨by decide!,
    (resolve_relative (lit "50") 200 ⟨1280, 720⟩ false false).2.2.2.1 50 (by decide!),
    by decide!,
    (resolve_relative [] 200 ⟨1280, 720⟩ false false).2.2.2.2.1 ⟨false, 1, [2], [5]⟩ (by decide!),
    by decide!,
    ((resolve_relative [] 200 ⟨1280, 720⟩ false false).2.2.2.2.2.1
      (Decimal.ofDigits 1 (List.replicate 39 0)) (by decide!)).1⟩

/-- Counterexample to C6 as stated: for the numeric literal of `10^39`, which is
out of the range of `float`, `resolve(p%)` with the reference 200 is 0 and not
`200 * 10^39 / 100`; likewise for `vw` and `vh` in a `1280 x 720` viewport. -/
theorem resolve_relative_counterexample :
    resolve (lit "1000000000000000000000000000000000000000%") 200 ⟨1280, 720⟩ = 0 ∧
    resolve (lit "1000000000000000000000000000000000000000vw") 200 ⟨1280, 720⟩ = 0 ∧
    resolve (lit "1000000000000000000000000000000000000000vh") 200 ⟨1280, 720⟩ = 0 ∧
    (200 : ℚ) * 1000000000000000000000000000000000000000 / 100 ≠ 0 := by
  refine ⟨by decide!, by decide!, by decide!, by decide!⟩

end LengthResolver

namespace StringUtils

theorem tokenizeLoop_token (a rest cur : Str) (h : ∀ c ∈ a, cstd.isspace c = false) :
    tokenizeLoop (a ++ rest) cur = tokenizeLoop rest (cur ++ a) := by
  induction a generalizing cur with
  | nil => simp
  | cons c cs ih =>
      rw [List.cons_append, tokenizeLoop, h c (List.mem_cons_self _ _)]
      simp only [Bool.false_eq_true, if_false]
      rw [ih _ (fun x hx => h x (List.mem_cons_of_mem _ hx))]
      simp

/-- Tokens without white space, joined by single spaces, are read back by
`tokenize`, each without its trailing comma. -/
theorem tokenize_joinSpaces (toks : List Str)
    (h : ∀ t ∈ toks, t ≠ [] ∧ ∀ c ∈ t, cstd.isspace c = false) :
    tokenize (joinSpaces toks) = toks.map stripComma := by
  unfold tokenize
  induction toks with
  | nil => rfl
  | cons t ts ih =>
      have ht := h t (List.mem_cons_self _ _)
      cases ts with
      | nil =>
          have := tokenizeLoop_token t [] [] ht.2
          simp only [List.append_nil, List.nil_append] at this
          simp [joinSpaces, this, tokenizeLoop, ht.1]
      | cons u us =>
          have := tokenizeLoop_token t (' ' :: joinSpaces (u :: us)) [] ht.2
          simp only [List.nil_append] at this
          rw [joinSpaces, this, tokenizeLoop]
          have hsp : cstd.isspace ' ' = true := by decide
          simp only [hsp, if_true, ht.1, if_false]
          rw [ih (fun x hx => h x (List.mem_cons_of_mem _ hx))]
          rfl

end StringUtils

namespace LengthResolver

/-- A literal with the unit `px` resolves to the number, for every reference and
viewport. -/
theorem resolve_px_text (L : Decimal) (r : ℚ) (vp : Vec2) :
    resolve (L.text ++ lit "px") r vp = parseAbsolute (L.text ++ lit "px") := by
  have h := resolve_viewport_text L r vp 'p' 'x' (by decide) (by decide)
  rw [if_neg (by decide), if_neg (by decide)] at h
  exact h

theorem resolve_sample (r : ℚ) (vp : Vec2) :
    resolve (lit "10px") r vp = 10 ∧ resolve (lit "20px") r vp = 20 ∧
    resolve (lit "5px") r vp = 5 ∧ resolve (lit "15px") r vp = 15 := by
  refine ⟨?_, ?_, ?_, ?_⟩
  · exact (resolve_px_text (Decimal.ofDigits 1 [0]) r vp).trans (by decide!)
  · exact (resolve_px_text (Decimal.ofDigits 2 [0]) r vp).trans (by decide!)
  · exact (resolve_px_text (Decimal.ofDigits 5 []) r vp).trans (by decide!)
  · exact (resolve_px_text (Decimal.ofDigits 1 [5]) r vp).trans (by decide!)

/-- C7. `parseFourSides` expands the shorthand by the number of white-space
tokens: none gives zeros, one gives the same value on all sides, two give
`{v,h,v,h}`, three give `{t,r,b,r}`, four (or more) give `{t,r,b,l}`, every
token resolved by `resolve` against the given reference and viewport; tokens
written with single spaces between them are the tokens `tokenize` finds. -/
theorem parseFourSides_shorthand (val : Str) (r : ℚ) (vp : Vec2) :
    parseFourSides val r vp =
      (match StringUtils.tokenize val with
        | [] => ⟨0, 0, 0, 0⟩
        | [a] => ⟨resolve a r vp, resolve a r vp, resolve a r vp, resolve a r vp⟩
        | [v, h] => ⟨resolve v r vp, resolve h r vp, resolve v r vp, resolve h r vp⟩
        | [t, rt, b] => ⟨resolve t r vp, resolve rt r vp, resolve b r vp, resolve rt r vp⟩
        | t :: rt :: b :: l :: _ =>
            ⟨resolve t r vp, resolve rt r vp, resolve b r vp, resolve l r vp⟩) ∧
    (∀ toks : List Str, (∀ t ∈ toks, t ≠ [] ∧ ∀ c ∈ t, cstd.isspace c = false) →
      StringUtils.tokenize (joinSpaces toks) = toks.map StringUtils.stripComma) ∧
    parseFourSides (lit "") r vp = ⟨0, 0, 0, 0⟩ ∧
    parseFourSides (lit "10px") r vp = ⟨10, 10, 10, 10⟩ ∧
    parseFourSides (lit "10px 20px") r vp = ⟨10, 20, 10, 20⟩ ∧
    parseFourSides (lit "10px 20px 5px") r vp = ⟨10, 20, 5, 20⟩ ∧
    parseFourSides (lit "10px 20px 5px 15px") r vp = ⟨10, 20, 5, 15⟩ := by
  obtain ⟨h10, h20, h5, h15⟩ := resolve_sample r vp
  refine ⟨?_, StringUtils.tokenize_joinSpaces, rfl, ?_, ?_, ?_, ?_⟩
  · unfold parseFourSides
    rfl
  · have ht : StringUtils.tokenize (lit "10px") = [lit "10px"] := by decide
    simp only [parseFourSides, ht, h10]
  · have ht : StringUtils.tokenize (lit "10px 20px") = [lit "10px", lit "20px"] := by decide
    simp only [parseFourSides, ht, h10, h20]
  · have ht : StringUtils.tokenize (lit "10px 20px 5px") = [lit "10px", lit "20px", lit "5px"] := by
      decide
    simp only [parseFourSides, ht, h10, h20, h5]
  · have ht : StringUtils.tokenize (lit "10px 20px 5px 15px") =
        [lit "10px", lit "20px", lit "5px", lit "15px"] := by decide
    simp only [parseFourSides, ht, h10, h20, h5, h15]

/-- Witness of C7: the tokens `10px`, `20px`, `5px`, `15px` joined by spaces are
the text `10px 20px 5px 15px` and are read back as those four tokens. -/
theorem parseFourSides_shorthand_witness :
    joinSpaces [lit "10px", lit "20px", lit "5px", lit "15px"] = lit "10px 20px 5px 15px" ∧
    StringUtils.tokenize (joinSpaces [lit "10px", lit "20px", lit "5px", lit "15px"]) =
      [lit "10px", lit "20px", lit "5px", lit "15px"] := by
  refine ⟨by decide, ?_⟩
  exact ((parseFourSides_shorthand [] 0 ⟨0, 0⟩).2.1
    [lit "10px", lit "20px", lit "5px", lit "15px"] (by decide)).trans (by decide)

end LengthResolver

namespace TransformParser

theorem applyLoop_nil (fuel : Nat) (ctx : StyleContext) (el : Element) :
    applyLoop fuel ctx el [] = .ok (ctx, el) := by
  cases fuel <;> simp [applyLoop]

/-- A value that is the single call `translateX(a)` applies `translatex` to the
trimmed argument. -/
theorem apply_translateX (ctx : StyleContext) (el : Element) (a : Str)
    (ha : ∀ c ∈ a, (c != ')') = true) :
    apply ctx el (lit "translateX(" ++ (a ++ [')'])) =
      applyFunction ctx el (lit "translatex") (StringUtils.trim a) := by
  have hname : (lit "translateX(" ++ (a ++ [')'])).takeWhile (fun c => c != '(') =
      lit "translateX" := by
    simp [lit, List.takeWhile]
  have hinner : (a ++ [')']).takeWhile (fun c => c != ')') = a :=
    takeWhile_append_stop a [')'] ha (by intro c hc; cases hc; decide)
  have hlen : (lit "translateX(" ++ (a ++ [')'])).length = (a.length + 11) + 1 := by
    simp [lit]
  have hne : lit "translateX(" ++ (a ++ [')']) ≠ [] := by simp [lit]
  have hafter : (lit "translateX(" ++ (a ++ [')'])).drop ((lit "translateX").length + 1) =
      a ++ [')'] := by
    simp [lit]
  have hlow : StringUtils.toLower (StringUtils.trim (lit "translateX")) = lit "translatex" := by
    decide
  unfold apply
  rw [hlen, applyLoop]
  simp only [hne, if_false, hname, hafter, hinner, hlow]
  have h1 : ¬ (lit "translateX").length = (lit "translateX(" ++ (a ++ [')'])).length := by
    simp [lit]
  have h2 : ¬ a.length = (a ++ [')']).length := by simp
  simp only [h1, h2, if_false]
  cases applyFunction ctx el (lit "translatex") (StringUtils.trim a) with
  | error e => rfl
  | ok r => simp [applyLoop_nil]

/-- A value that is one call `name(arg)` applies the lowercased, trimmed name to
the trimmed argument. -/
theorem apply_call (ctx : StyleContext) (el : Element) (name a : Str)
    (hn : ∀ c ∈ name, c ≠ '(') (ha : ∀ c ∈ a, c ≠ ')') :
    apply ctx el (name ++ '(' :: (a ++ [')'])) =
      applyFunction ctx el (StringUtils.toLower (StringUtils.trim name)) (StringUtils.trim a) := by
  have hname : (name ++ '(' :: (a ++ [')'])).takeWhile (fun c => c != '(') = name :=
    takeWhile_append_stop name _ (fun c hc => by simpa using hn c hc)
      (by intro c hc; cases hc; decide)
  have hinner : (a ++ [')']).takeWhile (fun c => c != ')') = a :=
    takeWhile_append_stop a [')'] (fun c hc => by simpa using ha c hc)
      (by intro c hc; cases hc; decide)
  have hlen : (name ++ '(' :: (a ++ [')'])).length = (name.length + a.length + 1) + 1 := by
    simp only [List.length_append, List.length_cons, List.length_nil]
    omega
  have hne : name ++ '(' :: (a ++ [')']) ≠ [] := by simp
  have hafter : (name ++ '(' :: (a ++ [')'])).drop (name.length + 1) = a ++ [')'] := by
    rw [show name ++ '(' :: (a ++ [')']) = (name ++ ['(']) ++ (a ++ [')']) by simp]
    rw [show name.length + 1 = (name ++ ['(']).length by simp]
    exact List.drop_left _ _
  unfold apply
  rw [hlen, applyLoop]
  simp only [hne, if_false, hname, hafter, hinner]
  have h1 : ¬ name.length = (name ++ '(' :: (a ++ [')'])).length := by
    simp only [List.length_append, List.length_cons, List.length_nil]
    omega
  have h2 : ¬ a.length = (a ++ [')']).length := by simp
  simp only [h1, h2, if_false]
  cases applyFunction ctx el (StringUtils.toLower (StringUtils.trim name))
      (StringUtils.trim a) with
  | error e => rfl
  | ok r => simp [applyLoop_nil]

theorem percent_no_close (L : Decimal) : ∀ c ∈ L.text ++ ['%'], c ≠ ')' := by
  intro c hc
  rcases List.mem_append.1 hc with h1 | h1
  · obtain ⟨neg, d, ds, fs⟩ := L
    have hdig : ∀ e : Fin 10, digitChar e ≠ ')' := by decide
    simp only [Decimal.text, List.mem_append, List.mem_map, List.mem_cons] at h1
    rcases h1 with h1 | h1 | h1
    · split at h1
      · simp only [List.mem_singleton] at h1; subst h1; decide
      · cases h1
    · rcases h1 with ⟨e, _, rfl⟩
      exact hdig e
    · split at h1
      · cases h1
      · simp only [List.mem_cons, List.mem_map] at h1
        rcases h1 with h1 | ⟨e, _, rfl⟩
        · subst h1; decide
        · exact hdig e
  · simp only [List.mem_singleton] at h1; subst h1; decide

/-- The function `translatex` on `p%` with a decimal literal `p`: it records `p`
as the deferred horizontal percentage when `p` is in the range of `float`, and
the unguarded `std::stof` raises `out_of_range` otherwise. -/
theorem applyFunction_translatex_percent (ctx : StyleContext) (el : Element) (L : Decimal) :
    applyFunction ctx el (lit "translatex") (L.text ++ ['%']) =
      if L.InRange then .ok ({ ctx with deferredTranslateXPct := some L.value }, el)
      else .error .outOfRange := by
  have hne : L.text ++ ['%'] ≠ [] := by simp
  by_cases hr : L.InRange
  · have hs := stof_text L ['%'] (by intro c hc; cases hc; decide) hr
    rw [if_pos hr]
    unfold applyFunction
    simp only [if_true, hne, ne_eq, not_false_eq_true, List.getLast?_concat, and_self, hs]
  · have hs := stof_text_out L ['%'] (by intro c hc; cases hc; decide) hr
    rw [if_neg hr]
    unfold applyFunction
    simp only [if_true, hne, ne_eq, not_false_eq_true, List.getLast?_concat, and_self, hs]

/-- The function `translatey` on `p%`, likewise for the vertical percentage. -/
theorem applyFunction_translatey_percent (ctx : StyleContext) (el : Element) (L : Decimal) :
    applyFunction ctx el (lit "translatey") (L.text ++ ['%']) =
      if L.InRange then .ok ({ ctx with deferredTranslateYPct := some L.value }, el)
      else .error .outOfRange := by
  have hne : L.text ++ ['%'] ≠ [] := by simp
  by_cases hr : L.InRange
  · have hs := stof_text L ['%'] (by intro c hc; cases hc; decide) hr
    rw [if_pos hr]
    unfold applyFunction
    rw [if_neg (by decide), if_pos rfl]
    simp only [hne, ne_eq, not_false_eq_true, List.getLast?_concat, and_self, hs, if_true]
  · have hs := stof_text_out L ['%'] (by intro c hc; cases hc; decide) hr
    rw [if_neg hr]
    unfold applyFunction
    rw [if_neg (by decide), if_pos rfl]
    simp only [hne, ne_eq, not_false_eq_true, List.getLast?_concat, and_self, hs, if_true]

/-- The call `translateX(p%)` with a decimal literal `p` only records `p` as the
deferred horizontal percentage, when `p` is in the range of `float`; otherwise
it raises `out_of_range`. -/
theorem apply_translateX_percent (ctx : StyleContext) (el : Element) (L : Decimal) :
    apply ctx el (lit "translateX(" ++ (L.text ++ lit "%)")) =
      if L.InRange then .ok ({ ctx with deferredTranslateXPct := some L.value }, el)
      else .error .outOfRange := by
  have e1 : lit "translateX(" ++ (L.text ++ lit "%)") =
      lit "translateX" ++ '(' :: ((L.text ++ ['%']) ++ [')']) := by simp [lit]
  have ht : StringUtils.trim (L.text ++ ['%']) = L.text ++ ['%'] :=
    L.trim_text_append [] '%' (by decide)
  rw [e1, apply_call ctx el (lit "translateX") (L.text ++ ['%']) (by decide) (percent_no_close L), ht,
    show StringUtils.toLower (StringUtils.trim (lit "translateX")) = lit "translatex" by decide]
  exact applyFunction_translatex_percent ctx el L

/-- The call `translateY(p%)`, likewise for the vertical percentage. -/
theorem apply_translateY_percent (ctx : StyleContext) (el : Element) (L : Decimal) :
    apply ctx el (lit "translateY(" ++ (L.text ++ lit "%)")) =
      if L.InRange then .ok ({ ctx with deferredTranslateYPct := some L.value }, el)
      else .error .outOfRange := by
  have e1 : lit "translateY(" ++ (L.text ++ lit "%)") =
      lit "translateY" ++ '(' :: ((L.text ++ ['%']) ++ [')']) := by simp [lit]
  have ht : StringUtils.trim (L.text ++ ['%']) = L.text ++ ['%'] :=
    L.trim_text_append [] '%' (by decide)
  rw [e1, apply_call ctx el (lit "translateY") (L.text ++ ['%']) (by decide) (percent_no_close L), ht,
    show StringUtils.toLower (StringUtils.trim (lit "translateY")) = lit "translatey" by decide]
  exact applyFunction_translatey_percent ctx el L

end TransformParser

namespace FlexLayout

theorem getSize_setPosition (e : Element) (p : Vec2) : (e.setPosition p).getSize = e.getSize := by
  unfold Element.getSize Element.setPosition
  cases e.kind <;> rfl

end FlexLayout

namespace PropertyDispatcher

theorem pass2_getSize (ctx : StyleContext) (el : Element) (prop val : Str) :
    (pass2 ctx el prop val).getSize = el.getSize := by
  unfold pass2
  split_ifs <;> rfl

theorem runPass2_getSize (ctx : StyleContext) (ds : List Declaration) (el : Element) :
    (runPass2 ctx ds el).getSize = el.getSize := by
  induction ds generalizing el with
  | nil => rfl
  | cons d ds ih =>
      show (runPass2 ctx ds (pass2 ctx el d.property d.value)).getSize = _
      rw [ih, pass2_getSize]

theorem pass1_transform (ctx : StyleContext) (el : Element) (val : Str) :
    pass1 ctx el (lit "transform") val = TransformParser.apply ctx el val := rfl

/-- The position and size the flush of the deferred percentages leaves. -/
theorem flush_position (ctx : StyleContext) (el : Element) :
    (flushDeferredTransforms ctx el).getPosition.x =
      (match ctx.deferredTranslateXPct with
        | some p => el.getPosition.x + el.getSize.x * (p / 100)
        | none => el.getPosition.x) ∧
    (flushDeferredTransforms ctx el).getPosition.y =
      (match ctx.deferredTranslateYPct with
        | some p => el.getPosition.y + el.getSize.y * (p / 100)
        | none => el.getPosition.y) ∧
    (flushDeferredTransforms ctx el).getSize = el.getSize := by
  unfold flushDeferredTransforms
  split_ifs with h
  · rw [h.1, h.2]
    exact ⟨rfl, rfl, rfl⟩
  · exact ⟨rfl, rfl, FlexLayout.getSize_setPosition _ _⟩

theorem ok_of_ite_ok {c : Prop} [Decidable c] {a r : Styled} {e : Error}
    (h : (if c then Except.ok a else Except.error e) = Except.ok r) : c ∧ a = r := by
  by_cases hc : c
  · rw [if_pos hc] at h
    exact ⟨hc, Except.ok.inj h⟩
  · rw [if_neg hc] at h
    cases h

/-- C4. A percentage `translateX` or `translateY` is not applied when it is
parsed but after both passes, against the final size. For a decimal literal `p`,
pass 1 on `transform: translateX(p%)` (or `translateY(p%)`) only records `p` in
the context and leaves the element as it is, if `p` is in the range of `float`;
if `p` is too large for a `float` it raises `out_of_range`. When that
declaration is the only `transform` of the list, wherever it stands, also
before `width`, and pass 1 succeeds, the call succeeds and the final x is the x
pass 2 left plus `finalWidth * p / 100` (the final y is the y pass 2 left plus
`finalHeight * p / 100` for `translateY`); the other coordinate is as pass 2
left it in a context that came without a deferred percentage on that axis, as
every fresh context does, and the size is as pass 2 left it. -/
theorem apply_translate_deferred (ctx : StyleContext) (el : Element)
    (pre post : List Declaration) (L : Decimal)
    (hpre : ∀ d ∈ pre, d.property ≠ lit "transform")
    (hpost : ∀ d ∈ post, d.property ≠ lit "transform") :
    (L.InRange → ∀ (c : StyleContext) (e0 : Element),
      pass1 c e0 (lit "transform") (lit "translateX(" ++ (L.text ++ lit "%)")) =
        .ok ({ c with deferredTranslateXPct := some L.value }, e0) ∧
      pass1 c e0 (lit "transform") (lit "translateY(" ++ (L.text ++ lit "%)")) =
        .ok ({ c with deferredTranslateYPct := some L.value }, e0)) ∧
    (L.Overflows → ∀ (c : StyleContext) (e0 : Element),
      pass1 c e0 (lit "transform") (lit "translateX(" ++ (L.text ++ lit "%)")) =
        .error .outOfRange ∧
      pass1 c e0 (lit "transform") (lit "translateY(" ++ (L.text ++ lit "%)")) =
        .error .outOfRange) ∧
    (∀ r : Styled,
      runPass1 (pre ++ ⟨lit "transform", lit "translateX(" ++ (L.text ++ lit "%)")⟩ :: post)
        ctx el = .ok r →
      ∃ e : Element,
        apply ctx el
          (pre ++ ⟨lit "transform", lit "translateX(" ++ (L.text ++ lit "%)")⟩ :: post)
          = .ok (r.1, e) ∧
        e.getPosition.x =
          (runPass2 r.1
            (pre ++ ⟨lit "transform", lit "translateX(" ++ (L.text ++ lit "%)")⟩ :: post)
            r.2).getPosition.x + e.getSize.x * L.value / 100 ∧
        e.getPosition.y =
          (match ctx.deferredTranslateYPct with
            | some q => (runPass2 r.1
                (pre ++ ⟨lit "transform", lit "translateX(" ++ (L.text ++ lit "%)")⟩ :: post)
                r.2).getPosition.y + e.getSize.y * (q / 100)
            | none => (runPass2 r.1
                (pre ++ ⟨lit "transform", lit "translateX(" ++ (L.text ++ lit "%)")⟩ :: post)
                r.2).getPosition.y) ∧
        e.getSize =
          (runPass2 r.1
            (pre ++ ⟨lit "transform", lit "translateX(" ++ (L.text ++ lit "%)")⟩ :: post)
            r.2).getSize) ∧
    (∀ r : Styled,
      runPass1 (pre ++ ⟨lit "transform", lit "translateY(" ++ (L.text ++ lit "%)")⟩ :: post)
        ctx el = .ok r →
      ∃ e : Element,
        apply ctx el
          (pre ++ ⟨lit "transform", lit "translateY(" ++ (L.text ++ lit "%)")⟩ :: post)
          = .ok (r.1, e) ∧
        e.getPosition.y =
          (runPass2 r.1
            (pre ++ ⟨lit "transform", lit "translateY(" ++ (L.text ++ lit "%)")⟩ :: post)
            r.2).getPosition.y + e.getSize.y * L.value / 100 ∧
        e.getPosition.x =
          (match ctx.deferredTranslateXPct with
            | some q => (runPass2 r.1
                (pre ++ ⟨lit "transform", lit "translateY(" ++ (L.text ++ lit "%)")⟩ :: post)
                r.2).getPosition.x + e.getSize.x * (q / 100)
            | none => (runPass2 r.1
                (pre ++ ⟨lit "transform", lit "translateY(" ++ (L.text ++ lit "%)")⟩ :: post)
                r.2).getPosition.x) ∧
        e.getSize =
          (runPass2 r.1
            (pre ++ ⟨lit "transform", lit "translateY(" ++ (L.text ++ lit "%)")⟩ :: post)
            r.2).getSize) := by
  have hpx : ∀ (c : StyleContext) (e0 : Element),
      pass1 c e0 (lit "transform") (lit "translateX(" ++ (L.text ++ lit "%)")) =
        if L.InRange then .ok ({ c with deferredTranslateXPct := some L.value }, e0)
        else .error .outOfRange :=
    fun c e0 => (pass1_transform c e0 _).trans (TransformParser.apply_translateX_percent c e0 L)
  have hpy : ∀ (c : StyleContext) (e0 : Element),
      pass1 c e0 (lit "transform") (lit "translateY(" ++ (L.text ++ lit "%)")) =
        if L.InRange then .ok ({ c with deferredTranslateYPct := some L.value }, e0)
        else .error .outOfRange :=
    fun c e0 => (pass1_transform c e0 _).trans (TransformParser.apply_translateY_percent c e0 L)
  refine ⟨fun hr c e0 => ⟨by rw [hpx, if_pos hr], by rw [hpy, if_pos hr]⟩,
    fun ho c e0 => ⟨by rw [hpx, if_neg (L.not_inRange_of_overflows ho)],
      by rw [hpy, if_neg (L.not_inRange_of_overflows ho)]⟩, ?_, ?_⟩
  · intro r hrun
    obtain ⟨r0, h0, h1⟩ := runPass1_append_ok _ _ _ _ _ hrun
    obtain ⟨r1, h2, h3⟩ := runPass1_cons_ok _ _ _ _ _ h1
    have k0 := (runPass1_keeps _ _ _ _ h0).2.2.2.2.2 hpre
    have k3 := (runPass1_keeps _ _ _ _ h3).2.2.2.2.2 hpost
    have h2b : pass1 r0.1 r0.2 (lit "transform") (lit "translateX(" ++ (L.text ++ lit "%)")) =
        .ok r1 := h2
    rw [hpx r0.1 r0.2] at h2b
    obtain ⟨_, hr1⟩ := ok_of_ite_ok h2b
    subst hr1
    have hx : r.1.deferredTranslateXPct = some L.value := k3.1
    have hy : r.1.deferredTranslateYPct = ctx.deferredTranslateYPct := by
      rw [k3.2]
      show r0.1.deferredTranslateYPct = _
      rw [k0.2]
    obtain ⟨f1, f2, f3⟩ := flush_position r.1 (runPass2 r.1
      (pre ++ ⟨lit "transform", lit "translateX(" ++ (L.text ++ lit "%)")⟩ :: post) r.2)
    refine ⟨flushDeferredTransforms r.1 (runPass2 r.1
      (pre ++ ⟨lit "transform", lit "translateX(" ++ (L.text ++ lit "%)")⟩ :: post) r.2),
      ?_, ?_, ?_, f3⟩
    · unfold apply
      rw [hrun]
    · rw [f1, hx, f3]
      simp only
      ring
    · rw [f2, hy, f3]
  · intro r hrun
    obtain ⟨r0, h0, h1⟩ := runPass1_append_ok _ _ _ _ _ hrun
    obtain ⟨r1, h2, h3⟩ := runPass1_cons_ok _ _ _ _ _ h1
    have k0 := (runPass1_keeps _ _ _ _ h0).2.2.2.2.2 hpre
    have k3 := (runPass1_keeps _ _ _ _ h3).2.2.2.2.2 hpost
    have h2b : pass1 r0.1 r0.2 (lit "transform") (lit "translateY(" ++ (L.text ++ lit "%)")) =
        .ok r1 := h2
    rw [hpy r0.1 r0.2] at h2b
    obtain ⟨_, hr1⟩ := ok_of_ite_ok h2b
    subst hr1
    have hy : r.1.deferredTranslateYPct = some L.value := k3.2
    have hx : r.1.deferredTranslateXPct = ctx.deferredTranslateXPct := by
      rw [k3.1]
      show r0.1.deferredTranslateXPct = _
      rw [k0.1]
    obtain ⟨f1, f2, f3⟩ := flush_position r.1 (runPass2 r.1
      (pre ++ ⟨lit "transform", lit "translateY(" ++ (L.text ++ lit "%)")⟩ :: post) r.2)
    refine ⟨flushDeferredTransforms r.1 (runPass2 r.1
      (pre ++ ⟨lit "transform", lit "translateY(" ++ (L.text ++ lit "%)")⟩ :: post) r.2),
      ?_, ?_, ?_, f3⟩
    · unfold apply
      rw [hrun]
    · rw [f2, hy, f3]
      simp only
      ring
    · rw [f1, hx, f3]

/-- Witness of C4: `translateX(50%)` declared before `width: 200px` and
`height: 100px`, with `left: 30px`: the final size is `{200,100}` and x is the
`30` of pass 2 plus exactly `100`, y stays 0; with `translateY(50%)` in its place
y is the `0` of pass 2 plus `50` and x stays 30. -/
theorem apply_translate_deferred_witness :
    (apply (Scenario.viewportContext 1280 720) (Scenario.rect 0 0)
        ([] ++ Scenario.decl "transform" "translateX(50%)" ::
          [Scenario.decl "width" "200px", Scenario.decl "height" "100px",
            Scenario.decl "left" "30px"])).map
        (fun r => (r.2.getSize, r.2.getPosition)) = .ok (⟨200, 100⟩, ⟨130, 0⟩) ∧
    (apply (Scenario.viewportContext 1280 720) (Scenario.rect 0 0)
        ([] ++ Scenario.decl "transform" "translateY(50%)" ::
          [Scenario.decl "width" "200px", Scenario.decl "height" "100px",
            Scenario.decl "left" "30px"])).map
        (fun r => (r.2.getSize, r.2.getPosition)) = .ok (⟨200, 100⟩, ⟨30, 50⟩) ∧
    (runPass2 { Scenario.viewportContext 1280 720 with deferredTranslateXPct := some 50 }
        ([] ++ Scenario.decl "transform" "translateX(50%)" ::
          [Scenario.decl "width" "200px", Scenario.decl "height" "100px",
            Scenario.decl "left" "30px"]) (Scenario.rect 200 100)).getPosition = ⟨30, 0⟩ ∧
    (∃ e : Element,
      apply (Scenario.viewportContext 1280 720) (Scenario.rect 0 0)
        ([] ++ Scenario.decl "transform" "translateX(50%)" ::
          [Scenario.decl "width" "200px", Scenario.decl "height" "100px",
            Scenario.decl "left" "30px"]) =
        .ok ({ Scenario.viewportContext 1280 720 with deferredTranslateXPct := some 50 }, e) ∧
      e.getPosition.x = 30 + e.getSize.x * 50 / 100) ∧
    (∃ e : Element,
      apply (Scenario.viewportContext 1280 720) (Scenario.rect 0 0)
        ([] ++ Scenario.decl "transform" "translateY(50%)" ::
          [Scenario.decl "width" "200px", Scenario.decl "height" "100px",
            Scenario.decl "left" "30px"]) =
        .ok ({ Scenario.viewportContext 1280 720 with deferredTranslateYPct := some 50 }, e) ∧
      e.getPosition.y = 0 + e.getSize.y * 50 / 100) := by
  have hv : (Decimal.ofDigits 5 [0]).value = 50 := by decide!
  refine ⟨by decide!, by decide!, by decide!, ?_, ?_⟩
  · obtain ⟨e, h1, h2, _, _⟩ := (apply_translate_deferred (Scenario.viewportContext 1280 720)
      (Scenario.rect 0 0) []
      [Scenario.decl "width" "200px", Scenario.decl "height" "100px",
        Scenario.decl "left" "30px"]
      (Decimal.ofDigits 5 [0]) (by decide) (by decide)).2.2.1
      ({ Scenario.viewportContext 1280 720 with deferredTranslateXPct := some 50 },
        Scenario.rect 200 100) (by decide!)
    refine ⟨e, h1, ?_⟩
    have hp : (runPass2
        { Scenario.viewportContext 1280 720 with deferredTranslateXPct := some 50 }
        ([] ++ Scenario.decl "transform" "translateX(50%)" ::
          [Scenario.decl "width" "200px", Scenario.decl "height" "100px",
            Scenario.decl "left" "30px"]) (Scenario.rect 200 100)).getPosition.x = 30 := by
      decide!
    rw [hv] at h2
    rw [h2]
    exact congrArg (· + e.getSize.x * 50 / 100) hp
  · obtain ⟨e, h1, h2, _, _⟩ := (apply_translate_deferred (Scenario.viewportContext 1280 720)
      (Scenario.rect 0 0) []
      [Scenario.decl "width" "200px", Scenario.decl "height" "100px",
        Scenario.decl "left" "30px"]
      (Decimal.ofDigits 5 [0]) (by decide) (by decide)).2.2.2
      ({ Scenario.viewportContext 1280 720 with deferredTranslateYPct := some 50 },
        Scenario.rect 200 100) (by decide!)
    refine ⟨e, h1, ?_⟩
    have hp : (runPass2
        { Scenario.viewportContext 1280 720 with deferredTranslateYPct := some 50 }
        ([] ++ Scenario.decl "transform" "translateY(50%)" ::
          [Scenario.decl "width" "200px", Scenario.decl "height" "100px",
            Scenario.decl "left" "30px"]) (Scenario.rect 200 100)).getPosition.y = 0 := by
      decide!
    rw [hv] at h2
    rw [h2]
    exact congrArg (· + e.getSize.y * 50 / 100) hp

end PropertyDispatcher

/-! ## Lemmas on the flex layout -/

namespace FlexLayout

theorem placeChild_cursor (f : Frame) (h : Handle) (c : ℚ) (sc : Scene)
    (ha : f.align ≠ .Stretch) :
    (placeChild f h c sc).2 = c + (mainExtent f.isColumn (sc h) + f.gap + f.between) := by
  unfold placeChild mainExtent
  cases hal : f.align <;> simp_all

theorem placeChild_other (f : Frame) (h k : Handle) (c : ℚ) (sc : Scene)
    (ha : f.align ≠ .Stretch) (hk : k ≠ h) : (placeChild f h c sc).1 k = sc k := by
  unfold placeChild
  cases hal : f.align <;> cases hc : f.isColumn <;> simp_all [Function.update]

theorem placeChild_getSize (f : Frame) (h k : Handle) (c : ℚ) (sc : Scene)
    (ha : f.align ≠ .Stretch) : ((placeChild f h c sc).1 k).getSize = (sc k).getSize := by
  by_cases hk : k = h
  · subst hk
    unfold placeChild
    cases hal : f.align <;> cases hc : f.isColumn <;>
      simp_all [Function.update, getSize_setPosition]
  · rw [placeChild_other f h k c sc ha hk]

theorem placeChild_mainPos (f : Frame) (h : Handle) (c : ℚ) (sc : Scene)
    (ha : f.align ≠ .Stretch) : mainPos f.isColumn ((placeChild f h c sc).1 h) = c := by
  unfold placeChild mainPos
  cases hal : f.align <;> cases hc : f.isColumn <;>
    simp_all [Function.update, Element.getPosition, Element.setPosition]

theorem placeChildren_other (f : Frame) (hs : List Handle) (k : Handle) (c : ℚ) (sc : Scene)
    (ha : f.align ≠ .Stretch) (hk : k ∉ hs) : placeChildren f hs c sc k = sc k := by
  induction hs generalizing c sc with
  | nil => rfl
  | cons h t ih =>
      rw [placeChildren, ih _ _ (fun hm => hk (List.mem_cons_of_mem _ hm))]
      exact placeChild_other f h k c sc ha (fun e => hk (e ▸ List.mem_cons_self _ _))

theorem placeChildren_getSize (f : Frame) (hs : List Handle) (k : Handle) (c : ℚ) (sc : Scene)
    (ha : f.align ≠ .Stretch) : (placeChildren f hs c sc k).getSize = (sc k).getSize := by
  induction hs generalizing c sc with
  | nil => rfl
  | cons h t ih => rw [placeChildren, ih, placeChild_getSize f h k c sc ha]

/-- Without stretching, the last child is put at the start cursor advanced by
the extent, gap and extra spacing of every child before it. -/
theorem placeChildren_last (f : Frame) (hs : List Handle) (last : Handle) (c : ℚ) (sc : Scene)
    (ha : f.align ≠ .Stretch) (hl : hs.getLast? = some last) :
    mainPos f.isColumn (placeChildren f hs c sc last) =
      c + (hs.dropLast.map (fun h => mainExtent f.isColumn (sc h) + f.gap + f.between)).sum := by
  induction hs generalizing c sc with
  | nil => cases hl
  | cons h t ih =>
      cases t with
      | nil =>
          simp only [List.getLast?_singleton, Option.some.injEq] at hl
          subst hl
          simp [placeChildren, placeChild_mainPos f h c sc ha]
      | cons h2 t2 =>
          rw [List.getLast?_cons_cons] at hl
          rw [placeChildren, ih _ _ hl, placeChild_cursor f h c sc ha]
          simp only [List.dropLast_cons₂, List.map_cons, List.sum_cons]
          have hsz : ∀ k, mainExtent f.isColumn ((placeChild f h c sc).1 k) =
              mainExtent f.isColumn (sc k) := by
            intro k
            unfold mainExtent
            rw [placeChild_getSize f h k c sc ha]
          simp only [hsz]
          ring

theorem totalMain_eq_sum (col : Bool) (hs : List Handle) (sc : Scene) :
    totalMain col hs sc = (hs.map (fun h => mainExtent col (sc h))).sum := by
  unfold totalMain
  have : ∀ (acc : ℚ), List.foldl (fun acc h => acc +
      (if col = true then (sc h).getSize.y else (sc h).getSize.x)) acc hs =
      acc + (hs.map (fun h => mainExtent col (sc h))).sum := by
    induction hs with
    | nil => intro acc; simp
    | cons h t ih =>
        intro acc
        simp only [List.foldl, List.map_cons, List.sum_cons, ih]
        unfold mainExtent
        ring
  rw [this 0, zero_add]

theorem sum_dropLast_add (hs : List Handle) (last : Handle) (g : Handle → ℚ) (k : ℚ)
    (hl : hs.getLast? = some last) :
    (hs.dropLast.map (fun h => g h + k)).sum + g last =
      (hs.map g).sum + ((hs.length : ℚ) - 1) * k := by
  rcases List.eq_nil_or_concat hs with h | ⟨l, e, h⟩
  · subst h; cases hl
  · subst h
    rw [List.concat_eq_append, List.getLast?_concat] at hl
    cases hl
    simp only [List.concat_eq_append, List.dropLast_concat, List.map_append, List.map_cons,
      List.map_nil, List.sum_append, List.sum_cons, List.sum_nil, List.length_append,
      List.length_singleton, Nat.cast_add, Nat.cast_one]
    have : (l.map (fun h => g h + k)).sum = (l.map g).sum + (l.length : ℚ) * k := by
      induction l with
      | nil => simp
      | cons a t ih =>
          simp only [List.map_cons, List.sum_cons, ih, List.length_cons, Nat.cast_add,
            Nat.cast_one]
          ring
    rw [this]
    ring

theorem placeChildren_first (f : Frame) (h : Handle) (t : List Handle) (c : ℚ) (sc : Scene)
    (ha : f.align ≠ .Stretch) (hnd : (h :: t).Nodup) :
    mainPos f.isColumn (placeChildren f (h :: t) c sc h) = c := by
  rw [placeChildren, placeChildren_other _ t h _ _ ha (List.nodup_cons.1 hnd).1]
  exact placeChild_mainPos f h c sc ha

/-- The frame and start cursor `applyFlex` hands to its placing loop. -/
theorem applyFlex_frame (ctx : StyleContext) (children : List Handle) (sc : Scene) :
    ∃ (f : Frame) (c : ℚ), applyFlex ctx children sc = placeChildren f children c sc ∧
      f.isColumn = ctx.flex.column ∧ f.gap = ctx.flex.gap ∧ f.align = ctx.flex.align ∧
      f.between = justifyBetween ctx.flex.justify children.length
        (contentExtent ctx sc - totalMain ctx.flex.column children sc -
          ctx.flex.gap * (((max 0 ((children.length : Int) - 1) : Int)) : ℚ)) ∧
      c = contentStart ctx sc + justifyOffset ctx.flex.justify children.length
        (contentExtent ctx sc - totalMain ctx.flex.column children sc -
          ctx.flex.gap * (((max 0 ((children.length : Int) - 1) : Int)) : ℚ)) := by
  refine ⟨_, _, rfl, rfl, rfl, rfl, ?_, ?_⟩
  · simp only [contentExtent]
  · simp only [contentExtent, contentStart, mainPos, Element.getPosition]
    split_ifs <;> rfl

/-- C5. With flex enabled, `justify-content: space-between` and an alignment
other than `stretch`, for every list of more than one distinct children, any gap,
paddings and child sizes: after `FlexLayout::apply` the first child starts at the
start of the content box on the main axis, and the last child ends at the end of
the content box (start plus the main size of the content box). -/
theorem spaceBetween_edges (ctx : StyleContext) (children : List Handle) (sc : Scene)
    (first last : Handle)
    (hen : ctx.flex.enabled = true) (hj : ctx.flex.justify = .SpaceBetween)
    (ha : ctx.flex.align ≠ .Stretch) (hn : 1 < children.length) (hnd : children.Nodup)
    (hf : children.head? = some first) (hl : children.getLast? = some last) :
    mainPos ctx.flex.column (apply ctx children sc first) = contentStart ctx sc ∧
    mainPos ctx.flex.column (apply ctx children sc last) +
        mainExtent ctx.flex.column (apply ctx children sc last) =
      contentStart ctx sc + contentExtent ctx sc := by
  have hne : children ≠ [] := by
    intro h
    rw [h] at hn
    simp at hn
  have hn1 : ((children.length : ℚ) - 1) ≠ 0 := by
    have : (1 : ℚ) < (children.length : ℚ) := by exact_mod_cast hn
    linarith
  have hcast : (((max 0 ((children.length : Int) - 1) : Int)) : ℚ) = (children.length : ℚ) - 1 := by
    have : (0 : Int) ≤ (children.length : Int) - 1 := by omega
    rw [max_eq_right this]
    push_cast
    ring
  have hcast2 : (((children.length - 1 : Nat)) : ℚ) = (children.length : ℚ) - 1 := by
    rw [Nat.cast_sub (by omega)]
    simp
  obtain ⟨f, c, hfe, hcol, hgap, halign, hbet, hc⟩ := applyFlex_frame ctx children sc
  have haf : f.align ≠ .Stretch := by rw [halign]; exact ha
  simp only [hj, justifyOffset, justifyBetween, if_pos hn, add_zero, hcast, hcast2] at hbet hc
  unfold apply
  rw [if_neg hne, if_pos hen, hfe, ← hcol]
  constructor
  · cases children with
    | nil => exact absurd rfl hne
    | cons h t =>
        simp only [List.head?_cons, Option.some.injEq] at hf
        subst hf
        rw [placeChildren_first f h t c sc haf hnd, hc]
  · rw [placeChildren_last f children last c sc haf hl]
    unfold mainExtent
    rw [placeChildren_getSize _ _ _ _ _ haf]
    have hsum := sum_dropLast_add children last (fun h => mainExtent f.isColumn (sc h))
      (f.gap + f.between) hl
    simp only [← add_assoc] at hsum
    unfold mainExtent at hsum
    rw [add_assoc, hsum, hbet, hc, hgap, hcol, totalMain_eq_sum]
    unfold mainExtent
    field_simp

/-- Witness of C5: a `{300,100}` parent at `{10,20}` with padding-left 5 and
padding-right 15, gap 7, and three distinct children of widths 40, 50, 60 in a
row: the first starts at `15`, the last ends at `15 + 280`. -/
theorem spaceBetween_edges_witness :
    mainPos false (apply
        { Scenario.viewportContext 1280 720 with
            box := ⟨0, 15, 0, 5, 0, 0, 0, 0⟩
            flex := ⟨true, false, 7, .SpaceBetween, .Center⟩ }
        [1, 2, 3]
        (fun h => if h = 0 then { Scenario.rect 300 100 with position := ⟨10, 20⟩ }
          else Scenario.rect (30 + 10 * h) 20) 1) = 15 ∧
    mainPos false (apply
        { Scenario.viewportContext 1280 720 with
            box := ⟨0, 15, 0, 5, 0, 0, 0, 0⟩
            flex := ⟨true, false, 7, .SpaceBetween, .Center⟩ }
        [1, 2, 3]
        (fun h => if h = 0 then { Scenario.rect 300 100 with position := ⟨10, 20⟩ }
          else Scenario.rect (30 + 10 * h) 20) 3) +
      mainExtent false (apply
        { Scenario.viewportContext 1280 720 with
            box := ⟨0, 15, 0, 5, 0, 0, 0, 0⟩
            flex := ⟨true, false, 7, .SpaceBetween, .Center⟩ }
        [1, 2, 3]
        (fun h => if h = 0 then { Scenario.rect 300 100 with position := ⟨10, 20⟩ }
          else Scenario.rect (30 + 10 * h) 20) 3) = 15 + 280 := by
  have h := spaceBetween_edges
    { Scenario.viewportContext 1280 720 with
        box := ⟨0, 15, 0, 5, 0, 0, 0, 0⟩
        flex := ⟨true, false, 7, .SpaceBetween, .Center⟩ }
    [1, 2, 3]
    (fun h => if h = 0 then { Scenario.rect 300 100 with position := ⟨10, 20⟩ }
      else Scenario.rect (30 + 10 * h) 20) 1 3 rfl rfl (by decide) (by decide) (by decide) rfl rfl
  have hs : contentStart
    { Scenario.viewportContext 1280 720 with
        box := ⟨0, 15, 0, 5, 0, 0, 0, 0⟩
        flex := ⟨true, false, 7, .SpaceBetween, .Center⟩ }
    (fun h => if h = 0 then { Scenario.rect 300 100 with position := ⟨10, 20⟩ }
      else Scenario.rect (30 + 10 * h) 20) = 15 := by decide!
  have he : contentExtent
    { Scenario.viewportContext 1280 720 with
        box := ⟨0, 15, 0, 5, 0, 0, 0, 0⟩
        flex := ⟨true, false, 7, .SpaceBetween, .Center⟩ }
    (fun h => if h = 0 then { Scenario.rect 300 100 with position := ⟨10, 20⟩ }
      else Scenario.rect (30 + 10 * h) 20) = 280 := by decide!
  rw [hs, he] at h
  exact h

end FlexLayout

/-! ## Lemmas on hexadecimal colours -/

namespace cstd

theorem digitVal_lt (c : Char) : digitVal c < 16 := by
  unfold digitVal isdigit
  split_ifs with h1 h2 h3
  · simp only [Bool.and_eq_true, decide_eq_true_eq] at h1; omega
  · simp only [Bool.and_eq_true, decide_eq_true_eq] at h2; omega
  · simp only [Bool.and_eq_true, decide_eq_true_eq] at h3; omega
  · omega

theorem isxdigit_facts (c : Char) (h : isxdigit c = true) :
    isspace c = false ∧ StringUtils.isTrimChar c = false ∧ c ≠ '-' ∧ c ≠ '+' ∧ c ≠ 'x' ∧
      c ≠ 'X' := by
  have key : ∀ d : Char, isxdigit d = false → c ≠ d := by
    intro d hd hcd
    rw [hcd, hd] at h
    cases h
  have h1 := key ' ' (by decide)
  have h2 := key '\t' (by decide)
  have h3 := key '\n' (by decide)
  have h4 := key (Char.ofNat 11) (by decide)
  have h5 := key (Char.ofNat 12) (by decide)
  have h6 := key '\r' (by decide)
  refine ⟨?_, ?_, key _ (by decide), key _ (by decide), key _ (by decide), key _ (by decide)⟩
  · simp [isspace, h1, h2, h3, h4, h5, h6]
  · simp [StringUtils.isTrimChar, h1, h2, h3, h6]

/-- The model of `stoul` in base 16 reads eight hex digits as their positional value. -/
theorem stoul16_eight (h1 h2 h3 h4 h5 h6 h7 h8 : Char)
    (x1 : isxdigit h1 = true) (x2 : isxdigit h2 = true) (x3 : isxdigit h3 = true)
    (x4 : isxdigit h4 = true) (x5 : isxdigit h5 = true) (x6 : isxdigit h6 = true)
    (x7 : isxdigit h7 = true) (x8 : isxdigit h8 = true) :
    stoul16 [h1, h2, h3, h4, h5, h6, h7, h8] =
      .ok ((16 * digitVal h1 + digitVal h2) * 2 ^ 24 + (16 * digitVal h3 + digitVal h4) * 2 ^ 16
        + (16 * digitVal h5 + digitVal h6) * 2 ^ 8 + (16 * digitVal h7 + digitVal h8)) := by
  obtain ⟨s1, _, m1, p1, _, _⟩ := isxdigit_facts h1 x1
  obtain ⟨_, _, _, _, a2, b2⟩ := isxdigit_facts h2 x2
  have hd : ([h1, h2, h3, h4, h5, h6, h7, h8] : Str).dropWhile isspace =
      [h1, h2, h3, h4, h5, h6, h7, h8] := by
    rw [List.dropWhile_cons, s1]
    rfl
  have hs : takeSign [h1, h2, h3, h4, h5, h6, h7, h8] =
      (false, [h1, h2, h3, h4, h5, h6, h7, h8]) := by
    simp [takeSign, m1, p1]
  have hp : skipHexPrefix [h1, h2, h3, h4, h5, h6, h7, h8] = [h1, h2, h3, h4, h5, h6, h7, h8] := by
    simp [skipHexPrefix, a2, b2]
  have ht : ([h1, h2, h3, h4, h5, h6, h7, h8] : Str).takeWhile isxdigit =
      [h1, h2, h3, h4, h5, h6, h7, h8] := by
    simp [List.takeWhile, x1, x2, x3, x4, x5, x6, x7, x8]
  have v1 := digitVal_lt h1
  have v2 := digitVal_lt h2
  have v3 := digitVal_lt h3
  have v4 := digitVal_lt h4
  have v5 := digitVal_lt h5
  have v6 := digitVal_lt h6
  have v7 := digitVal_lt h7
  have v8 := digitVal_lt h8
  have hv : natOfDigits 16 [h1, h2, h3, h4, h5, h6, h7, h8] =
      (16 * digitVal h1 + digitVal h2) * 2 ^ 24 + (16 * digitVal h3 + digitVal h4) * 2 ^ 16
        + (16 * digitVal h5 + digitVal h6) * 2 ^ 8 + (16 * digitVal h7 + digitVal h8) := by
    simp only [natOfDigits, List.foldl]
    ring
  unfold stoul16
  simp only [hd, hs, hp, ht, hv]
  rw [if_neg (by simp), if_neg (by norm_num; omega)]
  simp

end cstd

namespace ColorParser

theorem channels (a b c d : Nat) (ha : a < 256) (hb : b < 256) (hc : c < 256) (hd : d < 256) :
    (a * 2 ^ 24 + b * 2 ^ 16 + c * 2 ^ 8 + d) / 2 ^ 24 % 256 = a ∧
    (a * 2 ^ 24 + b * 2 ^ 16 + c * 2 ^ 8 + d) / 2 ^ 16 % 256 = b ∧
    (a * 2 ^ 24 + b * 2 ^ 16 + c * 2 ^ 8 + d) / 2 ^ 8 % 256 = c ∧
    (a * 2 ^ 24 + b * 2 ^ 16 + c * 2 ^ 8 + d) % 256 = d := by
  norm_num
  omega

/-- Value of `fromHex` on eight hex digits: each pair of digits is one channel. -/
theorem fromHex_eight (h1 h2 h3 h4 h5 h6 h7 h8 : Char)
    (x1 : cstd.isxdigit h1 = true) (x2 : cstd.isxdigit h2 = true) (x3 : cstd.isxdigit h3 = true)
    (x4 : cstd.isxdigit h4 = true) (x5 : cstd.isxdigit h5 = true) (x6 : cstd.isxdigit h6 = true)
    (x7 : cstd.isxdigit h7 = true) (x8 : cstd.isxdigit h8 = true) :
    fromHex [h1, h2, h3, h4, h5, h6, h7, h8] =
      ⟨16 * cstd.digitVal h1 + cstd.digitVal h2, 16 * cstd.digitVal h3 + cstd.digitVal h4,
       16 * cstd.digitVal h5 + cstd.digitVal h6, 16 * cstd.digitVal h7 + cstd.digitVal h8⟩ := by
  have v1 := cstd.digitVal_lt h1
  have v2 := cstd.digitVal_lt h2
  have v3 := cstd.digitVal_lt h3
  have v4 := cstd.digitVal_lt h4
  have v5 := cstd.digitVal_lt h5
  have v6 := cstd.digitVal_lt h6
  have v7 := cstd.digitVal_lt h7
  have v8 := cstd.digitVal_lt h8
  obtain ⟨c1, c2, c3, c4⟩ := channels (16 * cstd.digitVal h1 + cstd.digitVal h2)
    (16 * cstd.digitVal h3 + cstd.digitVal h4) (16 * cstd.digitVal h5 + cstd.digitVal h6)
    (16 * cstd.digitVal h7 + cstd.digitVal h8) (by omega) (by omega) (by omega) (by omega)
  unfold fromHex
  simp only [List.length_cons, List.length_nil, Nat.reduceAdd, Nat.reduceEqDiff, if_false, if_true,
    cstd.stoul16_eight h1 h2 h3 h4 h5 h6 h7 h8 x1 x2 x3 x4 x5 x6 x7 x8, c1, c2, c3, c4]

/-- Value of `fromHex` on six hex digits: three channels and alpha 255. -/
theorem fromHex_six (h1 h2 h3 h4 h5 h6 : Char)
    (x1 : cstd.isxdigit h1 = true) (x2 : cstd.isxdigit h2 = true) (x3 : cstd.isxdigit h3 = true)
    (x4 : cstd.isxdigit h4 = true) (x5 : cstd.isxdigit h5 = true) (x6 : cstd.isxdigit h6 = true) :
    fromHex [h1, h2, h3, h4, h5, h6] =
      ⟨16 * cstd.digitVal h1 + cstd.digitVal h2, 16 * cstd.digitVal h3 + cstd.digitVal h4,
       16 * cstd.digitVal h5 + cstd.digitVal h6, 255⟩ := by
  have h := fromHex_eight h1 h2 h3 h4 h5 h6 'f' 'f' x1 x2 x3 x4 x5 x6 (by decide) (by decide)
  have e : fromHex [h1, h2, h3, h4, h5, h6] = fromHex [h1, h2, h3, h4, h5, h6, 'f', 'f'] := by
    unfold fromHex
    simp [lit]
  rw [e, h]
  rfl

theorem parse_hash (body : Str)
    (hl : ∀ c, ('#' :: body).getLast? = some c → StringUtils.isTrimChar c = false) :
    parse ('#' :: body) = .ok (fromHex body) := by
  have ht : StringUtils.trim ('#' :: body) = '#' :: body :=
    trim_of_ends _ (by intro c hc; cases hc; decide) hl
  unfold parse
  simp only [ht, List.head?_cons, if_true, List.tail_cons]

/-- C9 (as amended). Hex shorthand is doubled per channel: for all characters
`x`, `y`, `z`, `w`, when the last character of the value is not one that `trim`
removes, `parse("#xyz") = parse("#xxyyzz")` and `parse("#xyzw") = parse("#xxyyzzww")`;
and for hex digits a 6-digit value has its three digit pairs as channels and alpha
255, an 8-digit value has its last digit pair as alpha. -/
theorem parse_hex_shorthand :
    (∀ x y z : Char, StringUtils.isTrimChar z = false →
      parse ['#', x, y, z] = parse ['#', x, x, y, y, z, z]) ∧
    (∀ x y z w : Char, StringUtils.isTrimChar w = false →
      parse ['#', x, y, z, w] = parse ['#', x, x, y, y, z, z, w, w]) ∧
    (∀ h1 h2 h3 h4 h5 h6 : Char, cstd.isxdigit h1 = true → cstd.isxdigit h2 = true →
      cstd.isxdigit h3 = true → cstd.isxdigit h4 = true → cstd.isxdigit h5 = true →
      cstd.isxdigit h6 = true →
      parse ['#', h1, h2, h3, h4, h5, h6] =
        .ok ⟨16 * cstd.digitVal h1 + cstd.digitVal h2, 16 * cstd.digitVal h3 + cstd.digitVal h4,
          16 * cstd.digitVal h5 + cstd.digitVal h6, 255⟩) ∧
    (∀ h1 h2 h3 h4 h5 h6 h7 h8 : Char, cstd.isxdigit h1 = true → cstd.isxdigit h2 = true →
      cstd.isxdigit h3 = true → cstd.isxdigit h4 = true → cstd.isxdigit h5 = true →
      cstd.isxdigit h6 = true → cstd.isxdigit h7 = true → cstd.isxdigit h8 = true →
      parse ['#', h1, h2, h3, h4, h5, h6, h7, h8] =
        .ok ⟨16 * cstd.digitVal h1 + cstd.digitVal h2, 16 * cstd.digitVal h3 + cstd.digitVal h4,
          16 * cstd.digitVal h5 + cstd.digitVal h6, 16 * cstd.digitVal h7 + cstd.digitVal h8⟩) := by
  refine ⟨?_, ?_, ?_, ?_⟩
  · intro x y z hz
    rw [parse_hash [x, y, z] (by intro c hc; simp at hc; subst hc; exact hz),
      parse_hash [x, x, y, y, z, z] (by intro c hc; simp at hc; subst hc; exact hz)]
    simp [fromHex, doubled]
  · intro x y z w hw
    rw [parse_hash [x, y, z, w] (by intro c hc; simp at hc; subst hc; exact hw),
      parse_hash [x, x, y, y, z, z, w, w] (by intro c hc; simp at hc; subst hc; exact hw)]
    simp [fromHex, doubled]
  · intro h1 h2 h3 h4 h5 h6 x1 x2 x3 x4 x5 x6
    rw [parse_hash _ (by
      intro c hc; simp at hc; subst hc; exact (cstd.isxdigit_facts _ x6).2.1),
      fromHex_six h1 h2 h3 h4 h5 h6 x1 x2 x3 x4 x5 x6]
  · intro h1 h2 h3 h4 h5 h6 h7 h8 x1 x2 x3 x4 x5 x6 x7 x8
    rw [parse_hash _ (by
      intro c hc; simp at hc; subst hc; exact (cstd.isxdigit_facts _ x8).2.1),
      fromHex_eight h1 h2 h3 h4 h5 h6 h7 h8 x1 x2 x3 x4 x5 x6 x7 x8]

/-- Witness of C9: `parse("#f00") = parse("#ff0000")`, the opaque red, and
`"#ff000080"` has alpha `0x80`. -/
theorem parse_hex_shorthand_witness :
    parse (lit "#f00") = parse (lit "#ff0000") ∧
    parse (lit "#f008") = parse (lit "#ff000088") ∧
    parse (lit "#ff0000") = .ok ⟨255, 0, 0, 255⟩ ∧
    parse (lit "#ff000080") = .ok ⟨255, 0, 0, 128⟩ :=
  ⟨parse_hex_shorthand.1 'f' '0' '0' (by decide),
   parse_hex_shorthand.2.1 'f' '0' '0' '8' (by decide),
   parse_hex_shorthand.2.2.1 'f' 'f' '0' '0' '0' '0' rfl rfl rfl rfl rfl rfl,
   parse_hex_shorthand.2.2.2 'f' 'f' '0' '0' '0' '0' '8' '0' rfl rfl rfl rfl rfl rfl rfl rfl⟩

/-- Counterexample to C9 as stated, at `x = 'a'`, `y = 'b'`, `z = ' '`: `"#ab "` is
trimmed to `"#ab"` and falls back to white, while `"#aabb  "` is trimmed to
`"#aabb"` and read as the 4-digit shorthand. -/
theorem parse_hex_shorthand_counterexample :
    parse ['#', 'a', 'b', ' '] = .ok ⟨255, 255, 255, 255⟩ ∧
    parse ['#', 'a', 'a', 'b', 'b', ' ', ' '] = .ok ⟨170, 170, 187, 187⟩ ∧
    parse ['#', 'a', 'b', ' '] ≠ parse ['#', 'a', 'a', 'b', 'b', ' ', ' '] := by
  refine ⟨by decide!, by decide!, by decide!⟩

end ColorParser

/-! ## Lemmas on `extractIntegers` -/

namespace cstd

theorem isdigit_facts (c : Char) (h : isdigit c = true) :
    isspace c = false ∧ c ≠ '-' ∧ c ≠ '+' := by
  have hx : isxdigit c = true := by simp [isxdigit, h]
  obtain ⟨a, _, b, d, _, _⟩ := isxdigit_facts c hx
  exact ⟨a, b, d⟩

/-- The model of `stoi` reads a digit string that fits the `int` as its decimal value. -/
theorem stoi_digits (cur : Str) (hne : cur ≠ []) (hd : ∀ c ∈ cur, isdigit c = true)
    (hfit : natOfDigits 10 cur ≤ 2147483647) : stoi cur = .ok (natOfDigits 10 cur : Int) := by
  cases cur with
  | nil => exact absurd rfl hne
  | cons c cs =>
      obtain ⟨s1, m1, p1⟩ := isdigit_facts c (hd c (List.mem_cons_self _ _))
      have hdrop : (c :: cs).dropWhile isspace = c :: cs := by
        rw [List.dropWhile_cons, s1]; rfl
      have hs : takeSign (c :: cs) = (false, c :: cs) := by simp [takeSign, m1, p1]
      have ht : (c :: cs).takeWhile isdigit = c :: cs := by
        have := takeWhile_append_stop (c :: cs) [] hd (by intro x hx; cases hx)
        simpa using this
      unfold stoi
      simp only [hdrop, hs, ht]
      rw [if_neg (by simp), if_neg (by omega)]
      simp

end cstd

namespace StringUtils

theorem pendingRuns_nil (cur : Str) : pendingRuns [] cur = if cur = [] then [] else [cur] := by
  unfold pendingRuns
  by_cases h : cur = [] <;> simp [List.splitOnP_nil, h]

theorem pendingRuns_digit (c : Char) (cs cur : Str) (h : cstd.isdigit c = true) :
    pendingRuns (c :: cs) cur = pendingRuns cs (cur ++ [c]) := by
  unfold pendingRuns
  rw [List.splitOnP_cons]
  simp only [h, Bool.not_true, Bool.false_eq_true, if_false, List.modifyHead_modifyHead]
  congr 2
  funext run
  simp

theorem pendingRuns_other (c : Char) (cs cur : Str) (h : cstd.isdigit c = false) :
    pendingRuns (c :: cs) cur = if cur = [] then pendingRuns cs [] else cur :: pendingRuns cs [] := by
  have hid : (fun run : Str => [] ++ run) = id := by funext run; simp
  unfold pendingRuns
  rw [List.splitOnP_cons]
  simp only [h, Bool.not_false, if_true, List.modifyHead_cons, List.append_nil, hid,
    List.modifyHead_id, id]
  have hid2 : List.modifyHead (fun run : Str => run) = id := List.modifyHead_id
  by_cases hc : cur = [] <;> simp [hc, hid2]

/-- The loop of `extractIntegers` pushes the values of the pending digit runs,
provided each of them fits the `int`. -/
theorem extractIntegersLoop_eq (s cur : Str) (nums : List Int)
    (hcur : ∀ c ∈ cur, cstd.isdigit c = true)
    (hfit : ∀ run ∈ pendingRuns s cur, cstd.natOfDigits 10 run ≤ 2147483647) :
    extractIntegersLoop s cur nums =
      .ok (nums ++ (pendingRuns s cur).map (fun run => (cstd.natOfDigits 10 run : Int))) := by
  induction s generalizing cur nums with
  | nil =>
      rw [pendingRuns_nil] at hfit ⊢
      unfold extractIntegersLoop
      by_cases hc : cur = []
      · simp [hc]
      · rw [if_neg hc] at hfit
        simp only [if_neg hc]
        rw [cstd.stoi_digits cur hc hcur (hfit cur (List.mem_singleton_self _))]
        simp
  | cons c cs ih =>
      unfold extractIntegersLoop
      by_cases hd : cstd.isdigit c = true
      · rw [pendingRuns_digit c cs cur hd] at hfit ⊢
        simp only [hd, if_true]
        exact ih _ _ (by
          intro x hx
          rcases List.mem_append.1 hx with h | h
          · exact hcur x h
          · simp only [List.mem_singleton] at h; subst h; exact hd) hfit
      · have hd' : cstd.isdigit c = false := by simpa using hd
        rw [pendingRuns_other c cs cur hd'] at hfit ⊢
        simp only [hd', Bool.false_eq_true, if_false]
        by_cases hc : cur = []
        · rw [if_pos hc] at hfit ⊢
          rw [if_pos hc]
          exact ih _ _ (by intro x hx; cases hx) hfit
        · rw [if_neg hc] at hfit ⊢
          rw [if_neg hc, cstd.stoi_digits cur hc hcur (hfit cur (List.mem_cons_self _ _))]
          simp only
          rw [ih _ _ (by intro x hx; cases hx)
            (fun run hr => hfit run (List.mem_cons_of_mem _ hr))]
          simp

theorem pendingRuns_empty (s : Str) : pendingRuns s [] = digitRuns s := by
  have hid : (fun run : Str => [] ++ run) = id := by funext run; simp
  unfold pendingRuns digitRuns
  rw [hid, List.modifyHead_id]
  rfl

/-- The function `extractIntegers` returns the values of the digit runs of the text, when each
run fits the `int`. -/
theorem extractIntegers_eq (s : Str)
    (hfit : ∀ run ∈ digitRuns s, cstd.natOfDigits 10 run ≤ 2147483647) :
    extractIntegers s = .ok ((digitRuns s).map (fun run => (cstd.natOfDigits 10 run : Int))) := by
  unfold extractIntegers
  rw [← pendingRuns_empty] at hfit ⊢
  have := extractIntegersLoop_eq s [] [] (by intro c hc; cases hc) hfit
  simpa using this

end StringUtils

theorem digitRuns_cons_other (c : Char) (s : Str) (h : cstd.isdigit c = false) :
    digitRuns (c :: s) = digitRuns s := by
  unfold digitRuns
  rw [List.splitOnP_cons]
  simp [h]

theorem splitOnP_concat_sep (p : Char → Bool) (s : Str) (c : Char) (h : p c = true) :
    (s ++ [c]).splitOnP p = s.splitOnP p ++ [[]] := by
  induction s with
  | nil => simp [List.splitOnP_cons, List.splitOnP_nil, h]
  | cons x xs ih =>
      rw [List.cons_append, List.splitOnP_cons, List.splitOnP_cons, ih]
      by_cases hx : p x = true
      · simp [hx]
      · simp only [hx, Bool.false_eq_true, if_false]
        cases hsp : xs.splitOnP p with
        | nil => exact absurd hsp (List.splitOnP_ne_nil _ _)
        | cons a t => simp

theorem digitRuns_concat_other (c : Char) (s : Str) (h : cstd.isdigit c = false) :
    digitRuns (s ++ [c]) = digitRuns s := by
  unfold digitRuns
  rw [splitOnP_concat_sep _ s c (by simp [h])]
  simp

theorem digitRuns_rdropWhile (p : Char → Bool) (hp : ∀ c, p c = true → cstd.isdigit c = false)
    (s : Str) : digitRuns (s.rdropWhile p) = digitRuns s := by
  induction s using List.reverseRecOn with
  | nil => rfl
  | append_singleton l x ih =>
      rw [List.rdropWhile_concat]
      by_cases hx : p x = true
      · rw [if_pos hx, ih, digitRuns_concat_other x l (hp x hx)]
      · rw [if_neg hx]

theorem rdropWhile_append_keep (p : Char → Bool) (a b : Str)
    (h : ∀ c, a.getLast? = some c → p c = false) :
    (a ++ b).rdropWhile p = a ++ b.rdropWhile p := by
  induction b using List.reverseRecOn with
  | nil =>
      simp only [List.append_nil, List.rdropWhile_nil]
      rw [List.rdropWhile_eq_self_iff]
      intro hne
      have := h _ (List.getLast?_eq_getLast _ hne)
      simp [this]
  | append_singleton l x ih =>
      rw [← List.append_assoc, List.rdropWhile_concat, List.rdropWhile_concat, ih]
      by_cases hx : p x = true
      · simp [hx]
      · simp [hx]

theorem clamp8_natCast (n : Nat) : ColorParser.clamp8 (n : Int) = min n 255 := by
  unfold ColorParser.clamp8
  omega

namespace ColorParser

theorem fromRGB_eq (s : Str)
    (hfit : ∀ run ∈ digitRuns s, cstd.natOfDigits 10 run ≤ 2147483647) :
    fromRGB s = .ok ⟨channelOf (digitRuns s) 0 0, channelOf (digitRuns s) 1 0,
      channelOf (digitRuns s) 2 0, channelOf (digitRuns s) 3 255⟩ := by
  have hch : ∀ (i dflt : Nat),
      (((digitRuns s).map (fun run => (cstd.natOfDigits 10 run : Int))).get? i).elim dflt clamp8
        = channelOf (digitRuns s) i dflt := by
    intro i dflt
    unfold channelOf
    rw [List.get?_eq_getElem?, List.get?_eq_getElem?, List.getElem?_map]
    cases (digitRuns s)[i]? with
    | none => rfl
    | some run => simp [clamp8_natCast]
  unfold fromRGB
  rw [StringUtils.extractIntegers_eq s hfit]
  simp only [hch]

theorem tolower_facts (c t : Char) (h : cstd.tolower c = t) (ht : cstd.isdigit t = false)
    (hs : StringUtils.isTrimChar t = false) (hh : t ≠ '#') :
    cstd.isdigit c = false ∧ StringUtils.isTrimChar c = false ∧ c ≠ '#' := by
  have key : ∀ d : Char, cstd.tolower d = d → (cstd.isdigit d = true ∨
      StringUtils.isTrimChar d = true ∨ d = '#') → c ≠ d := by
    intro d hd hor hcd
    rw [hcd, hd] at h
    subst h
    rcases hor with h1 | h1 | h1
    · rw [h1] at ht; cases ht
    · rw [h1] at hs; cases hs
    · exact hh h1
  refine ⟨?_, ?_, key '#' (by decide) (Or.inr (Or.inr rfl))⟩
  · by_contra hd
    have hd' : cstd.isdigit c = true := by simpa using hd
    have hl : cstd.tolower c = c := by
      unfold cstd.tolower
      unfold cstd.isdigit at hd'
      simp only [Bool.and_eq_true, decide_eq_true_eq] at hd'
      rw [if_neg]
      simp only [Bool.and_eq_true, decide_eq_true_eq]
      omega
    exact key c hl (Or.inl hd') rfl
  · have h1 := key ' ' (by decide) (Or.inr (Or.inl (by decide)))
    have h2 := key '\t' (by decide) (Or.inr (Or.inl (by decide)))
    have h3 := key '\r' (by decide) (Or.inr (Or.inl (by decide)))
    have h4 := key '\n' (by decide) (Or.inr (Or.inl (by decide)))
    simp [StringUtils.isTrimChar, h1, h2, h3, h4]

/-- A value that begins with `rgb` in any letter case is read by `fromRGB` from
its digit runs. -/
theorem parse_of_rgb_start (raw : Str) (hrgb : (StringUtils.toLower raw).take 3 = lit "rgb")
    (hfit : ∀ run ∈ digitRuns raw, cstd.natOfDigits 10 run ≤ 2147483647) :
    parse raw = .ok ⟨channelOf (digitRuns raw) 0 0, channelOf (digitRuns raw) 1 0,
      channelOf (digitRuns raw) 2 0, channelOf (digitRuns raw) 3 255⟩ := by
  match raw, hrgb, hfit with
  | c0 :: c1 :: c2 :: rest, hrgb, hfit =>
      simp only [StringUtils.toLower, List.map_cons, List.take_succ_cons, List.take_zero, lit] at hrgb
      have e0 : cstd.tolower c0 = 'r' := by injection hrgb
      have e1 : cstd.tolower c1 = 'g' := by
        injection hrgb with _ h; injection h
      have e2 : cstd.tolower c2 = 'b' := by
        injection hrgb with _ h; injection h with _ h; injection h
      obtain ⟨d0, t0, n0⟩ := tolower_facts c0 'r' e0 (by decide) (by decide) (by decide)
      obtain ⟨d1, t1, _⟩ := tolower_facts c1 'g' e1 (by decide) (by decide) (by decide)
      obtain ⟨d2, t2, _⟩ := tolower_facts c2 'b' e2 (by decide) (by decide) (by decide)
      have htrim : StringUtils.trim (c0 :: c1 :: c2 :: rest) =
          c0 :: c1 :: c2 :: rest.rdropWhile StringUtils.isTrimChar := by
        unfold StringUtils.trim
        rw [List.dropWhile_cons, t0]
        simp only [Bool.false_eq_true, if_false]
        exact rdropWhile_append_keep _ [c0, c1, c2] rest (by
          intro c hc; simp at hc; subst hc; exact t2)
      have hruns : digitRuns (c0 :: c1 :: c2 :: rest.rdropWhile StringUtils.isTrimChar) =
          digitRuns (c0 :: c1 :: c2 :: rest) := by
        rw [digitRuns_cons_other _ _ d0, digitRuns_cons_other _ _ d1, digitRuns_cons_other _ _ d2,
          digitRuns_cons_other _ _ d0, digitRuns_cons_other _ _ d1, digitRuns_cons_other _ _ d2]
        apply digitRuns_rdropWhile
        intro c hc
        by_contra hd
        have hd' : cstd.isdigit c = true := by simpa using hd
        have := (cstd.isxdigit_facts c (by simp [cstd.isxdigit, hd'])).2.1
        rw [this] at hc
        cases hc
      unfold parse
      simp only [htrim, List.head?_cons, Option.some.injEq, n0, if_false, StringUtils.toLower,
        List.map_cons, List.take_succ_cons, List.take_zero, e0, e1, e2]
      rw [if_pos (Or.inr (by decide : ['r', 'g', 'b'] = lit "rgb"))]
      rw [← hruns] at hfit ⊢
      exact fromRGB_eq _ hfit
  | [], hrgb, _ => exact absurd hrgb (by decide)
  | [_], hrgb, _ => simp [StringUtils.toLower, lit] at hrgb
  | [_, _], hrgb, _ => simp [StringUtils.toLower, lit] at hrgb

/-- C10. For every value that begins with `rgb` in any letter case (so also
`rgba`) and whose digit runs each fit in an `int`, `parse` returns the colour
whose R, G, B, A are the first four maximal runs of decimal digits of the value,
each capped at 255, with 0 for a missing R, G or B and 255 for a missing A; every
channel is within `[0,255]`. -/
theorem parse_rgb (raw : Str) (hrgb : (StringUtils.toLower raw).take 3 = lit "rgb")
    (hfit : ∀ run ∈ digitRuns raw, cstd.natOfDigits 10 run ≤ 2147483647) :
    parse raw = .ok ⟨channelOf (digitRuns raw) 0 0, channelOf (digitRuns raw) 1 0,
      channelOf (digitRuns raw) 2 0, channelOf (digitRuns raw) 3 255⟩ ∧
    channelOf (digitRuns raw) 0 0 ≤ 255 ∧ channelOf (digitRuns raw) 1 0 ≤ 255 ∧
    channelOf (digitRuns raw) 2 0 ≤ 255 ∧ channelOf (digitRuns raw) 3 255 ≤ 255 := by
  have hle : ∀ (i dflt : Nat), dflt ≤ 255 → channelOf (digitRuns raw) i dflt ≤ 255 := by
    intro i dflt hd
    unfold channelOf
    cases (digitRuns raw).get? i with
    | none => exact hd
    | some run => simp
  exact ⟨parse_of_rgb_start raw hrgb hfit, hle 0 0 (by omega), hle 1 0 (by omega),
    hle 2 0 (by omega), hle 3 255 (by omega)⟩

/-- Witness of C10: `"rgb(10)"` gives `(10,0,0,255)` and `"rgba(300,20,0,128)"`
gives `(255,20,0,128)`. -/
theorem parse_rgb_witness :
    parse (lit "rgb(10)") = .ok ⟨10, 0, 0, 255⟩ ∧
    parse (lit "rgba(300,20,0,128)") = .ok ⟨255, 20, 0, 128⟩ ∧
    parse (lit "RGB(1, 2, 3)") = .ok ⟨1, 2, 3, 255⟩ := by
  refine ⟨?_, ?_, ?_⟩
  · exact (parse_rgb (lit "rgb(10)") (by decide) (by decide)).1.trans (by decide)
  · exact (parse_rgb (lit "rgba(300,20,0,128)") (by decide) (by decide)).1.trans (by decide)
  · exact (parse_rgb (lit "RGB(1, 2, 3)") (by decide) (by decide)).1.trans (by decide)

theorem toDigits_facts : ∀ n : Fin 256,
    Nat.toDigits 10 n.val ≠ [] ∧ (∀ c ∈ Nat.toDigits 10 n.val, cstd.isdigit c = true) ∧
      cstd.natOfDigits 10 (Nat.toDigits 10 n.val) = n.val := by
  decide!

theorem hex2_facts : ∀ n : Fin 256,
    cstd.isxdigit (Nat.digitChar (n.val / 16)) = true ∧
    cstd.isxdigit (Nat.digitChar (n.val % 16)) = true ∧
    16 * cstd.digitVal (Nat.digitChar (n.val / 16)) + cstd.digitVal (Nat.digitChar (n.val % 16))
      = n.val := by
  decide!

theorem digitRuns_run (a rest : Str) (c : Char) (ha : ∀ x ∈ a, cstd.isdigit x = true)
    (hne : a ≠ []) (hc : cstd.isdigit c = false) :
    digitRuns (a ++ c :: rest) = a :: digitRuns rest := by
  unfold digitRuns
  rw [List.splitOnP_first (fun c => !cstd.isdigit c) a (by intro x hx; simp [ha x hx]) c
    (by simp [hc])]
  simp [hne]

theorem digitRuns_rgbText (r g b : Fin 256) :
    digitRuns (rgbText r.val g.val b.val) =
      [Nat.toDigits 10 r.val, Nat.toDigits 10 g.val, Nat.toDigits 10 b.val] := by
  obtain ⟨r1, r2, _⟩ := toDigits_facts r
  obtain ⟨g1, g2, _⟩ := toDigits_facts g
  obtain ⟨b1, b2, _⟩ := toDigits_facts b
  have h0 : digitRuns [] = [] := by decide
  have e : rgbText r.val g.val b.val = 'r' :: 'g' :: 'b' :: '(' :: (Nat.toDigits 10 r.val ++
      ',' :: (Nat.toDigits 10 g.val ++ ',' :: (Nat.toDigits 10 b.val ++ ')' :: []))) := rfl
  rw [e, digitRuns_cons_other _ _ (by decide), digitRuns_cons_other _ _ (by decide),
    digitRuns_cons_other _ _ (by decide), digitRuns_cons_other _ _ (by decide),
    digitRuns_run _ _ _ r2 r1 (by decide), digitRuns_run _ _ _ g2 g1 (by decide),
    digitRuns_run _ _ _ b2 b1 (by decide), h0]

/-- C8. The three colour notations agree: for all channel values `r`, `g`, `b` in
`[0,255]`, `parse` of `rgb(r,g,b)` and `parse` of `#` followed by the two-digit
hexadecimal of `r`, `g`, `b` are both the colour `(r,g,b,255)`; and `#ff0000`,
`rgb(255,0,0)` and `red` are all `(255,0,0,255)`. -/
theorem notations_agree (r g b : Fin 256) :
    parse (rgbText r.val g.val b.val) = .ok ⟨r.val, g.val, b.val, 255⟩ ∧
    parse (hexText r.val g.val b.val) = .ok ⟨r.val, g.val, b.val, 255⟩ ∧
    rgbText 255 0 0 = lit "rgb(255,0,0)" ∧ hexText 255 0 0 = lit "#ff0000" ∧
    parse (lit "#ff0000") = .ok ⟨255, 0, 0, 255⟩ ∧
    parse (lit "rgb(255,0,0)") = .ok ⟨255, 0, 0, 255⟩ ∧
    parse (lit "red") = .ok ⟨255, 0, 0, 255⟩ := by
  refine ⟨?_, ?_, by decide, by decide, by decide!, by decide!, by decide!⟩
  · obtain ⟨_, _, r3⟩ := toDigits_facts r
    obtain ⟨_, _, g3⟩ := toDigits_facts g
    obtain ⟨_, _, b3⟩ := toDigits_facts b
    have hr := r.isLt
    have hg := g.isLt
    have hb := b.isLt
    have hruns := digitRuns_rgbText r g b
    rw [parse_of_rgb_start _ (by rfl) (by
      intro run hrun
      rw [hruns] at hrun
      simp only [List.mem_cons, List.mem_singleton, List.not_mem_nil, or_false] at hrun
      rcases hrun with h | h | h <;> subst h <;> omega)]
    rw [hruns]
    simp only [channelOf, List.get?_cons_zero, List.get?_cons_succ, List.get?_nil, Option.elim,
      r3, g3, b3]
    have m1 : min r.val 255 = r.val := by omega
    have m2 : min g.val 255 = g.val := by omega
    have m3 : min b.val 255 = b.val := by omega
    rw [m1, m2, m3]
  · obtain ⟨r1, r2, r3⟩ := hex2_facts r
    obtain ⟨g1, g2, g3⟩ := hex2_facts g
    obtain ⟨b1, b2, b3⟩ := hex2_facts b
    have e : hexText r.val g.val b.val = ['#', Nat.digitChar (r.val / 16),
        Nat.digitChar (r.val % 16), Nat.digitChar (g.val / 16), Nat.digitChar (g.val % 16),
        Nat.digitChar (b.val / 16), Nat.digitChar (b.val % 16)] := rfl
    rw [e, parse_hash _ (by
      intro c hc; simp at hc; subst hc; exact (cstd.isxdigit_facts _ b2).2.1),
      fromHex_six _ _ _ _ _ _ r1 r2 g1 g2 b1 b2, r3, g3, b3]

end ColorParser

/-! ## Colour parsing: exceptions and fallbacks -/

namespace ColorParser

theorem fromHex_bad_length (body : Str) (h3 : body.length ≠ 3) (h4 : body.length ≠ 4)
    (h6 : body.length ≠ 6) (h8 : body.length ≠ 8) : fromHex body = Color.White := by
  unfold fromHex
  simp only [if_neg h3, if_neg h4, if_neg h6, if_neg h8]

theorem take4_of_take3 (s : Str) (h : s.take 3 ≠ lit "rgb") : s.take 4 ≠ lit "rgba" := by
  intro h4
  apply h
  have := congrArg (List.take 3) h4
  rw [List.take_take] at this
  simpa [lit] using this

/-- A value that does not begin with `rgb` after trimming is parsed without an
exception: by `fromHex` after a `#`, by the table of names otherwise. -/
theorem parse_ok_of_not_rgb (raw : Str)
    (h : (StringUtils.toLower (StringUtils.trim raw)).take 3 ≠ lit "rgb") :
    parse raw = .ok (if (StringUtils.trim raw).head? = some '#' then
      fromHex (StringUtils.trim raw).tail
      else fromNamed (StringUtils.toLower (StringUtils.trim raw))) := by
  unfold parse
  by_cases hh : (StringUtils.trim raw).head? = some '#'
  · simp only [hh, if_true]
  · simp only [hh, if_false, h, take4_of_take3 _ h, or_self]

/-- C11, the code at a failing input: `parse` does raise. In `rgb(99999999999,0,0)`
the first digit run does not fit the `int`, `std::stoi` raises `out_of_range` in
`extractIntegers` and nothing on the way out of `parse` catches it; the smallest
such run is `2147483648`. Values that do not begin with `rgb`, hex values with
arbitrary characters included, are parsed without an exception. -/
theorem parse_raises_on_long_run :
    parse (lit "rgb(99999999999,0,0)") = .error .outOfRange ∧
    parse (lit "rgba(0,0,0,2147483648)") = .error .outOfRange ∧
    parse (lit "rgb(2147483647,0,0)") = .ok ⟨255, 0, 0, 255⟩ ∧
    (∀ raw : Str, (StringUtils.toLower (StringUtils.trim raw)).take 3 ≠ lit "rgb" →
      ∃ c, parse raw = .ok c) := by
  refine ⟨by decide!, by decide!, by decide!, ?_⟩
  intro raw h
  exact ⟨_, parse_ok_of_not_rgb raw h⟩

/-- Witness of C11 for the paths that do not raise: a hex value with characters
that are no digits. -/
theorem parse_raises_on_long_run_witness :
    (StringUtils.toLower (StringUtils.trim (lit "#zz!?"))).take 3 ≠ lit "rgb" ∧
    ∃ c, parse (lit "#zz!?") = .ok c :=
  ⟨by decide, parse_raises_on_long_run.2.2.2 (lit "#zz!?") (by decide)⟩

/-- C12 (as amended). Unparsable colours fall back to opaque white: `parse`
returns `(255,255,255,255)` for every value whose trimmed form is `#` followed by
a body of a length other than 3, 4, 6 and 8, and for every value whose trimmed
form does not start with `#`, does not begin with `rgb` in any letter case and
whose lowercase is not a key of the table of names. -/
theorem parse_fallback_white (raw : Str) :
    (∀ body : Str, StringUtils.trim raw = '#' :: body → body.length ≠ 3 → body.length ≠ 4 →
      body.length ≠ 6 → body.length ≠ 8 → parse raw = .ok ⟨255, 255, 255, 255⟩) ∧
    ((StringUtils.trim raw).head? ≠ some '#' →
      (StringUtils.toLower (StringUtils.trim raw)).take 3 ≠ lit "rgb" →
      table.lookup (StringUtils.toLower (StringUtils.trim raw)) = none →
      parse raw = .ok ⟨255, 255, 255, 255⟩) := by
  constructor
  · intro body hb h3 h4 h6 h8
    have hne : (StringUtils.toLower (StringUtils.trim raw)).take 3 ≠ lit "rgb" := by
      rw [hb]
      simp [StringUtils.toLower, lit]
      intro h
      exact absurd h (by decide)
    rw [parse_ok_of_not_rgb raw hne, hb]
    simp only [List.head?_cons, if_true, List.tail_cons, fromHex_bad_length body h3 h4 h6 h8]
    rfl
  · intro hh hrgb hl
    rw [parse_ok_of_not_rgb raw hrgb, if_neg hh]
    unfold fromNamed
    rw [hl]
    rfl

/-- Witness of C12: `"#12345"` (five digits), `"#"`, `"nocolour"` and `""` are white. -/
theorem parse_fallback_white_witness :
    parse (lit "#12345") = .ok ⟨255, 255, 255, 255⟩ ∧
    parse (lit "#") = .ok ⟨255, 255, 255, 255⟩ ∧
    parse (lit " NoColour ") = .ok ⟨255, 255, 255, 255⟩ ∧
    parse (lit "") = .ok ⟨255, 255, 255, 255⟩ :=
  ⟨(parse_fallback_white (lit "#12345")).1 (lit "12345") (by decide) (by decide) (by decide)
      (by decide) (by decide),
   (parse_fallback_white (lit "#")).1 [] (by decide) (by decide) (by decide) (by decide)
      (by decide),
   (parse_fallback_white (lit " NoColour ")).2 (by decide) (by decide) (by decide),
   (parse_fallback_white (lit "")).2 (by decide) (by decide) (by decide)⟩

/-- Counterexample to C12 as stated: `"#ff0000 "` is `#` followed by a body of
seven characters and is parsed as red, because the value is trimmed first; and
`" #ff0000"` does not start with `#`, does not begin with `rgb`, its trimmed
lowercase form is no key of the table, and it is parsed as red too. -/
theorem parse_fallback_white_counterexample :
    (lit "#ff0000 " = '#' :: lit "ff0000 " ∧ (lit "ff0000 ").length = 7 ∧
      parse (lit "#ff0000 ") = .ok ⟨255, 0, 0, 255⟩) ∧
    ((lit " #ff0000").head? ≠ some '#' ∧
      (StringUtils.toLower (lit " #ff0000")).take 3 ≠ lit "rgb" ∧
      table.lookup (StringUtils.toLower (StringUtils.trim (lit " #ff0000"))) = none ∧
      parse (lit " #ff0000") = .ok ⟨255, 0, 0, 255⟩) ∧
    (⟨255, 0, 0, 255⟩ : Color) ≠ ⟨255, 255, 255, 255⟩ := by
  refine ⟨⟨by decide, by decide, by decide!⟩, ⟨by decide, by decide, by decide, by decide!⟩,
    by decide⟩

end ColorParser

/-! ## Property names -/

namespace StringUtils

theorem lookup_mem {k v : Str} : ∀ (l : List (Str × Str)), l.lookup k = some v → (k, v) ∈ l := by
  intro l
  induction l with
  | nil => intro h; cases h
  | cons kv l ih =>
      obtain ⟨a, b⟩ := kv
      intro h
      rw [List.lookup_cons] at h
      by_cases hk : (k == a) = true
      · rw [hk] at h
        simp only [Option.some.injEq] at h
        have : k = a := by simpa using hk
        rw [this, h]
        exact List.mem_cons_self _ _
      · have hk2 : (k == a) = false := by simpa using hk
        rw [hk2] at h
        exact List.mem_cons_of_mem _ (ih h)

theorem lookup_none {k : Str} : ∀ (l : List (Str × Str)), (∀ kv ∈ l, k ≠ kv.1) →
    l.lookup k = none := by
  intro l
  induction l with
  | nil => intro _; rfl
  | cons kv l ih =>
      obtain ⟨a, b⟩ := kv
      intro h
      rw [List.lookup_cons]
      have hk : (k == a) = false := by
        have := h (a, b) (List.mem_cons_self _ _)
        simpa using this
      rw [hk]
      exact ih (fun kv hkv => h kv (List.mem_cons_of_mem _ hkv))

theorem aliases_lookup : ∀ kv ∈ aliases, aliases.lookup kv.1 = some kv.2 := by decide

theorem normaliseProperty_eq (p : Str) :
    normaliseProperty p = match aliases.lookup (stripped p) with
      | some v => v
      | none => toLower (trim p) := rfl

/-- C15. `normaliseProperty` resolves aliases independently of case, hyphens and
surrounding white space: when the trimmed, lowercased, hyphen-free form of `p` is
a key of the alias table the result is the value of that key; when it is no key
the result is the trimmed, lowercased `p`, hyphens kept. -/
theorem normaliseProperty_alias (p : Str) :
    (∀ kv ∈ aliases, stripped p = kv.1 → normaliseProperty p = kv.2) ∧
    ((∀ kv ∈ aliases, stripped p ≠ kv.1) → normaliseProperty p = toLower (trim p)) := by
  constructor
  · intro kv hkv hs
    rw [normaliseProperty_eq, hs, aliases_lookup kv hkv]
  · intro h
    rw [normaliseProperty_eq, lookup_none aliases h]

/-- Witness of C15: three spellings of `background-color`, and a name that is no
alias and keeps its hyphen. -/
theorem normaliseProperty_alias_witness :
    normaliseProperty (lit "backgroundColor") = lit "background-color" ∧
    normaliseProperty (lit "background-color") = lit "background-color" ∧
    normaliseProperty (lit " BACKGROUND-COLOR ") = lit "background-color" ∧
    normaliseProperty (lit " Z-Index ") = lit "z-index" :=
  ⟨(normaliseProperty_alias (lit "backgroundColor")).1 (lit "backgroundcolor", lit "background-color")
      (by decide) (by decide),
   (normaliseProperty_alias (lit "background-color")).1
      (lit "backgroundcolor", lit "background-color") (by decide) (by decide),
   (normaliseProperty_alias (lit " BACKGROUND-COLOR ")).1
      (lit "backgroundcolor", lit "background-color") (by decide) (by decide),
   ((normaliseProperty_alias (lit " Z-Index ")).2 (by decide)).trans (by decide)⟩

end StringUtils

/-! ## Rule parsing -/

theorem upper_cases (c : Char) (h : isUpperAscii c = true) :
    isUpperAscii (cstd.tolower c) = false ∧ isLowerKebab (cstd.tolower c) = true := by
  have hc : 65 ≤ c.toNat ∧ c.toNat ≤ 90 := by
    simpa [isUpperAscii] using h
  rw [← Char.ofNat_toNat c]
  obtain ⟨h1, h2⟩ := hc
  generalize c.toNat = n at h1 h2
  interval_cases n <;> decide

theorem tolower_of_not_upper (c : Char) (h : isUpperAscii c = false) : cstd.tolower c = c := by
  unfold cstd.tolower
  unfold isUpperAscii at h
  rw [h]
  rfl

theorem tolower_not_upper (c : Char) : isUpperAscii (cstd.tolower c) = false := by
  cases h : isUpperAscii c with
  | true => exact (upper_cases c h).1
  | false => rw [tolower_of_not_upper c h]; exact h

theorem tolower_kebab (c : Char) (h : isNameChar c = true) :
    isLowerKebab (cstd.tolower c) = true := by
  cases hu : isUpperAscii c with
  | true => exact (upper_cases c hu).2
  | false =>
      rw [tolower_of_not_upper c hu]
      unfold isNameChar at h
      rw [hu, Bool.or_false] at h
      exact h

namespace StringUtils

theorem aliases_values : ∀ kv ∈ aliases, ∀ c ∈ kv.2,
    isUpperAscii c = false ∧ isLowerKebab c = true := by decide

/-- No property name has an uppercase ASCII letter. -/
theorem normaliseProperty_not_upper (p : Str) :
    ∀ c ∈ normaliseProperty p, isUpperAscii c = false := by
  intro c hc
  rw [normaliseProperty_eq] at hc
  cases hl : aliases.lookup (stripped p) with
  | some v =>
      rw [hl] at hc
      exact (aliases_values _ (lookup_mem _ hl) c hc).1
  | none =>
      rw [hl] at hc
      obtain ⟨d, _, rfl⟩ := List.mem_map.1 hc
      exact tolower_not_upper d

/-- A name typed with letters, digits and hyphens only becomes lowercase-kebab. -/
theorem normaliseProperty_kebab (p : Str) (h : ∀ c ∈ trim p, isNameChar c = true) :
    ∀ c ∈ normaliseProperty p, isLowerKebab c = true := by
  intro c hc
  rw [normaliseProperty_eq] at hc
  cases hl : aliases.lookup (stripped p) with
  | some v =>
      rw [hl] at hc
      exact (aliases_values _ (lookup_mem _ hl) c hc).2
  | none =>
      rw [hl] at hc
      obtain ⟨d, hd, rfl⟩ := List.mem_map.1 hc
      exact tolower_kebab d (h d hd)

end StringUtils

namespace RuleParser

theorem parse_cons_no_colon (rule : Str) (rest : List Str) (h : ':' ∉ rule) :
    parse (rule :: rest) = parse rest := by
  have ht : rule.takeWhile (fun c => c != ':') = rule := by
    rw [List.takeWhile_eq_self_iff]
    intro c hc
    have : c ≠ ':' := fun e => h (e ▸ hc)
    simpa using this
  rw [parse]
  simp only [ht, if_true]

theorem parse_cons_colon (a b : Str) (rest : List Str) (h : ':' ∉ a) :
    parse ((a ++ ':' :: b) :: rest) =
      if StringUtils.normaliseProperty a ≠ [] then
        ⟨StringUtils.normaliseProperty a, StringUtils.trim b⟩ :: parse rest
      else parse rest := by
  have ht : (a ++ ':' :: b).takeWhile (fun c => c != ':') = a := by
    apply takeWhile_append_stop
    · intro c hc
      have : c ≠ ':' := fun e => h (e ▸ hc)
      simpa using this
    · intro c hc
      simp only [List.head?_cons, Option.some.injEq] at hc
      subst hc
      rfl
  have hlen : ¬ a.length = (a ++ ':' :: b).length := by
    simp only [List.length_append, List.length_cons]
    omega
  have hd : (a ++ ':' :: b).drop (a.length + 1) = b := by
    rw [List.drop_append_eq_append_drop]
    simp
  rw [parse]
  simp only [ht, if_neg hlen, hd]

theorem declOf_no_colon (rule : Str) (h : ':' ∉ rule) : declOf rule = none := by
  have hs : rule.splitOn ':' = [rule] := by
    apply List.splitOnP_eq_single
    intro c hc
    have : c ≠ ':' := fun e => h (e ▸ hc)
    simpa using this
  unfold declOf
  rw [hs]

theorem declOf_colon (a b : Str) (h : ':' ∉ a) :
    declOf (a ++ ':' :: b) =
      if StringUtils.normaliseProperty a ≠ [] then
        some ⟨StringUtils.normaliseProperty a, StringUtils.trim b⟩
      else none := by
  have hs : (a ++ ':' :: b).splitOn ':' = a :: b.splitOn ':' := by
    apply List.splitOnP_first
    · intro c hc
      have : c ≠ ':' := fun e => h (e ▸ hc)
      simpa using this
    · rfl
  have hj := List.intercalate_splitOn b ':'
  unfold declOf
  rw [hs]
  cases hb : b.splitOn ':' with
  | nil => exact absurd hb (List.splitOnP_ne_nil _ _)
  | cons after more =>
      rw [hb] at hj
      simp only [hj]
      by_cases hp : StringUtils.normaliseProperty a = []
      · simp only [hp, if_true, ne_eq, not_true_eq_false, if_false]
      · simp only [hp, if_false, ne_eq, not_false_eq_true, if_true]

/-- Every rule either has no colon or is cut by its first colon. -/
theorem first_colon (rule : Str) :
    ':' ∉ rule ∨ ∃ a b, rule = a ++ ':' :: b ∧ ':' ∉ a := by
  induction rule with
  | nil => exact Or.inl (List.not_mem_nil _)
  | cons c t ih =>
      by_cases hc : c = ':'
      · exact Or.inr ⟨[], t, by rw [hc]; rfl, List.not_mem_nil _⟩
      · rcases ih with h | ⟨a, b, hab, ha⟩
        · left
          intro hm
          rcases List.mem_cons.1 hm with e | e
          · exact hc e.symm
          · exact h e
        · right
          refine ⟨c :: a, b, by rw [hab]; rfl, ?_⟩
          intro hm
          rcases List.mem_cons.1 hm with e | e
          · exact hc e.symm
          · exact ha e

theorem parse_eq_filterMap (rules : List Str) : parse rules = rules.filterMap declOf := by
  induction rules with
  | nil => rfl
  | cons rule rest ih =>
      rcases first_colon rule with h | ⟨a, b, rfl, ha⟩
      · rw [parse_cons_no_colon rule rest h, List.filterMap_cons, declOf_no_colon rule h, ih]
      · rw [parse_cons_colon a b rest ha, List.filterMap_cons, declOf_colon a b ha, ih]
        by_cases hp : StringUtils.normaliseProperty a = []
        · simp only [hp, ne_eq, not_true_eq_false, if_false]
        · simp only [hp, ne_eq, not_false_eq_true, if_true]

theorem declOf_some (rule : Str) (d : Declaration) (h : declOf rule = some d) :
    ∃ a b, rule = a ++ ':' :: b ∧ ':' ∉ a ∧ StringUtils.normaliseProperty a ≠ [] ∧
      d = ⟨StringUtils.normaliseProperty a, StringUtils.trim b⟩ := by
  rcases first_colon rule with hn | ⟨a, b, rfl, ha⟩
  · rw [declOf_no_colon rule hn] at h
    cases h
  · rw [declOf_colon a b ha] at h
    by_cases hp : StringUtils.normaliseProperty a = []
    · simp only [hp, ne_eq, not_true_eq_false, if_false] at h
      cases h
    · simp only [hp, ne_eq, not_false_eq_true, if_true, Option.some.injEq] at h
      exact ⟨a, b, rfl, ha, hp, h.symm⟩

/-- C13. `RuleParser::parse` maps the rule list, in order, to declarations: a
rule with no colon, or whose normalised property is empty, produces nothing; every
other rule produces exactly one declaration, of `normaliseProperty` of the text
before the first colon and of the trim of everything after it. The output is the
image, in order, of the rules that produce something, and is never longer than
the input. -/
theorem parse_spec (rules : List Str) :
    (∀ rule rest, ':' ∉ rule → parse (rule :: rest) = parse rest) ∧
    (∀ a b rest, ':' ∉ a → StringUtils.normaliseProperty a = [] →
      parse ((a ++ ':' :: b) :: rest) = parse rest) ∧
    (∀ a b rest, ':' ∉ a → StringUtils.normaliseProperty a ≠ [] →
      parse ((a ++ ':' :: b) :: rest) =
        ⟨StringUtils.normaliseProperty a, StringUtils.trim b⟩ :: parse rest) ∧
    parse rules = rules.filterMap declOf ∧
    (∃ kept : List Str, kept.Sublist rules ∧ parse rules = kept.filterMap declOf ∧
      (parse rules).length = kept.length) ∧
    (parse rules).length ≤ rules.length := by
  refine ⟨parse_cons_no_colon, ?_, ?_, parse_eq_filterMap rules, ?_, ?_⟩
  · intro a b rest ha hp
    rw [parse_cons_colon a b rest ha, if_neg (not_not.2 hp)]
  · intro a b rest ha hp
    rw [parse_cons_colon a b rest ha, if_pos hp]
  · refine ⟨rules.filter (fun r => (declOf r).isSome), List.filter_sublist _, ?_, ?_⟩
    · rw [parse_eq_filterMap, List.filterMap_filter]
      congr 1
      funext r
      cases declOf r <;> rfl
    · rw [parse_eq_filterMap]
      induction rules with
      | nil => rfl
      | cons r rs ih =>
          rw [List.filterMap_cons, List.filter_cons]
          cases declOf r with
          | none => exact ih
          | some d => simp only [Option.isSome_some, if_true, List.length_cons, ih]
  · rw [parse_eq_filterMap]
    exact List.length_filterMap_le _ _

/-- Witness of C13: the value keeps its later colon and its letter case; the rule
without a colon and the rule with an empty property produce nothing. -/
theorem parse_spec_witness :
    parse [lit "Width: 10px : X", lit "no colon", lit " : 5", lit "backgroundColor:#FFF"] =
      [⟨lit "width", lit "10px : X"⟩, ⟨lit "background-color", lit "#FFF"⟩] :=
  ((parse_spec [lit "Width: 10px : X", lit "no colon", lit " : 5",
    lit "backgroundColor:#FFF"]).2.2.2.1).trans (by decide)

/-- C14 (as amended). Every declaration returned by `RuleParser::parse` has a
property that is non-empty and has no uppercase ASCII letter; it comes from a rule
of the input, and it consists only of lowercase ASCII letters, digits and hyphens
whenever the trimmed text before the first colon of that rule consists only of
ASCII letters, digits and hyphens. -/
theorem parse_property_shape (rules : List Str) (d : Declaration) (hd : d ∈ parse rules) :
    d.property ≠ [] ∧ (∀ c ∈ d.property, isUpperAscii c = false) ∧
    ∃ a b, a ++ ':' :: b ∈ rules ∧ ':' ∉ a ∧ d.property = StringUtils.normaliseProperty a ∧
      ((∀ c ∈ StringUtils.trim a, isNameChar c = true) →
        ∀ c ∈ d.property, isLowerKebab c = true) := by
  rw [parse_eq_filterMap, List.mem_filterMap] at hd
  obtain ⟨rule, hr, hrd⟩ := hd
  obtain ⟨a, b, rfl, ha, hp, rfl⟩ := declOf_some rule d hrd
  exact ⟨hp, StringUtils.normaliseProperty_not_upper a, a, b, hr, ha, rfl,
    StringUtils.normaliseProperty_kebab a⟩

/-- Witness of C14: the declaration of `"Font-Size: 12"`. -/
theorem parse_property_shape_witness :
    (⟨lit "font-size", lit "12"⟩ : Declaration) ∈ parse [lit "x", lit "Font-Size: 12"] ∧
    lit "font-size" ≠ [] ∧ (∀ c ∈ lit "font-size", isUpperAscii c = false) ∧
    ∃ a b, a ++ ':' :: b ∈ [lit "x", lit "Font-Size: 12"] ∧ ':' ∉ a ∧
      lit "font-size" = StringUtils.normaliseProperty a ∧
      ((∀ c ∈ StringUtils.trim a, isNameChar c = true) →
        ∀ c ∈ lit "font-size", isLowerKebab c = true) :=
  ⟨by decide, parse_property_shape [lit "x", lit "Font-Size: 12"] ⟨lit "font-size", lit "12"⟩
    (by decide)⟩

/-- Counterexample to C14 as stated: the rules `"font size: 12px"` and
`"my_prop: 1"` give the properties `font size` and `my_prop`, which have a blank
and an underscore. -/
theorem parse_property_shape_counterexample :
    parse [lit "font size: 12px", lit "my_prop: 1"] =
      [⟨lit "font size", lit "12px"⟩, ⟨lit "my_prop", lit "1"⟩] ∧
    isLowerKebab ' ' = false ∧ ' ' ∈ lit "font size" ∧
    isLowerKebab '_' = false ∧ '_' ∈ lit "my_prop" := by
  refine ⟨by decide, by decide, by decide, by decide, by decide⟩

end RuleParser

/-! ## The dispatcher on unparsable numbers and unknown properties -/

namespace PropertyDispatcher

/-- C18, the code at failing inputs: `apply` does not complete on a declaration
whose value is not a number. `opacity`, `rotation`, `letter-spacing`, `scale` and
the `rotate()` function of `transform` hand the value to `std::stof`, whose
`invalid_argument` leaves `apply`, whatever the context and the element; a valid
declaration before it does not help. `border-width`, which goes through
`LengthResolver::parseNumber`, does treat the same value as 0. -/
theorem apply_raises_on_bad_number (ctx : StyleContext) (el : Element) :
    apply ctx el [⟨lit "opacity", lit "abc"⟩] = .error .invalidArgument ∧
    apply ctx el [⟨lit "rotation", lit "x"⟩] = .error .invalidArgument ∧
    apply ctx el [⟨lit "letter-spacing", lit "wide"⟩] = .error .invalidArgument ∧
    apply ctx el [⟨lit "transform", lit "rotate(abc)"⟩] = .error .invalidArgument ∧
    apply ctx el [⟨lit "scale", lit "big"⟩] = .error .invalidArgument ∧
    apply ctx el (RuleParser.parse [lit "width: 10px", lit "opacity: abc"]) =
      .error .invalidArgument ∧
    apply ctx el [⟨lit "border-width", lit "abc"⟩] =
      .ok (ctx, flushDeferredTransforms ctx (el.setOutlineThickness 0)) :=
  ⟨rfl, rfl, rfl, rfl, rfl, rfl, rfl⟩

theorem pass1_of_not_recognised (ctx : StyleContext) (el : Element) (prop val : Str)
    (h : prop ∉ recognised) : pass1 ctx el prop val = .ok (ctx, el) := by
  simp only [recognised, List.mem_cons, List.mem_singleton, List.not_mem_nil, or_false,
    not_or] at h
  obtain ⟨h1, h2, h3, h4, h5, h6, h7, h8, h9, h10, h11, h12, h13, h14, h15, h16, h17, h18, h19,
    h20, h21, h22, h23, h24, h25, h26, h27, h28, h29, h30, h31, h32, h33, h34, h35, h36, h37,
    h38, h39, h40, h41, h42, h43, h44, h45, h46, -⟩ := h
  have e1 : pass1 ctx el prop val = pass1Colors ctx el prop val := by
    simp only [pass1, h1, h2, h3, h4, h5, h6, h7, h8, if_false]
  have e2 : pass1Colors ctx el prop val = pass1Text ctx el prop val := by
    simp only [pass1Colors, h9, h10, h11, h12, h13, h14, h15, h16, h17, or_self, if_false]
  have e3 : pass1Text ctx el prop val = pass1Transform ctx el prop val := by
    simp only [pass1Text, h18, h19, h20, h21, h22, or_self, if_false]
  have e4 : pass1Transform ctx el prop val = pass1Box ctx el prop val := by
    simp only [pass1Transform, h23, h24, h25, h26, h27, h28, or_self, if_false]
  have e5 : pass1Box ctx el prop val = pass1Flex ctx el prop val := by
    simp only [pass1Box, h29, h30, h31, h32, h33, h34, h35, h36, h37, h38, or_self, if_false]
  have e6 : pass1Flex ctx el prop val = pass1Position ctx el prop val := by
    simp only [pass1Flex, h39, h40, h41, h42, h43, h44, h45, or_self, if_false]
  rw [e1, e2, e3, e4, e5, e6]
  simp only [pass1Position, h46, if_false]

theorem not_positional_of_not_recognised (prop : Str) (h : prop ∉ recognised) :
    prop ∉ positional := by
  intro hp
  apply h
  simp only [positional, pass2Only, List.mem_cons, List.mem_singleton, List.not_mem_nil, or_false,
    List.cons_append, List.nil_append] at hp
  rcases hp with e | e | e | e | e | e | e <;> subst e <;> decide

/-- Pass 1 skips the declarations of unknown properties. -/
theorem runPass1_filter (decls : List Declaration) (ctx : StyleContext) (el : Element) :
    runPass1 decls ctx el =
      runPass1 (decls.filter (fun d => decide (d.property ∈ recognised))) ctx el := by
  induction decls generalizing ctx el with
  | nil => rfl
  | cons d ds ih =>
      by_cases hd : d.property ∈ recognised
      · rw [List.filter_cons_of_pos (by simpa using hd)]
        simp only [runPass1]
        cases pass1 ctx el d.property d.value with
        | error e => rfl
        | ok r => exact ih r.1 r.2
      · rw [List.filter_cons_of_neg (by simpa using hd)]
        simp only [runPass1]
        rw [pass1_of_not_recognised ctx el _ _ hd]
        exact ih ctx el

/-- Pass 2 skips the declarations of unknown properties. -/
theorem runPass2_filter (ctx : StyleContext) (decls : List Declaration) (el : Element) :
    runPass2 ctx decls el =
      runPass2 ctx (decls.filter (fun d => decide (d.property ∈ recognised))) el := by
  induction decls generalizing el with
  | nil => rfl
  | cons d ds ih =>
      by_cases hd : d.property ∈ recognised
      · rw [List.filter_cons_of_pos (by simpa using hd)]
        simp only [runPass2]
        exact ih _
      · rw [List.filter_cons_of_neg (by simpa using hd)]
        simp only [runPass2]
        rw [pass2_of_not_positional ctx el _ _ (not_positional_of_not_recognised _ hd)]
        exact ih el

theorem apply_filter (ctx : StyleContext) (el : Element) (decls : List Declaration) :
    apply ctx el decls =
      apply ctx el (decls.filter (fun d => decide (d.property ∈ recognised))) := by
  unfold apply
  rw [← runPass1_filter]
  cases runPass1 decls ctx el with
  | error e => rfl
  | ok r => simp only [← runPass2_filter]

theorem filter_unknown (us : List Declaration) (h : ∀ d ∈ us, d.property ∉ recognised) :
    us.filter (fun d => decide (d.property ∈ recognised)) = [] := by
  rw [List.filter_eq_nil_iff]
  intro d hd
  simpa using h d hd

/-- C19. Unknown properties are ignored in both passes. On a list in which no
property is one the dispatcher compares with, `apply` raises nothing and returns
the context as it was and the element as the deferred-transform step leaves it,
which is the element as it was for a context without deferred offsets, such as
every context of `ContextBuilder::build`. Declarations of unknown properties
added anywhere in a list do not change the result of `apply` on that list, which
is its result on the declarations of recognised properties alone. -/
theorem apply_ignores_unknown (ctx : StyleContext) (el : Element) (us : List Declaration)
    (hus : ∀ d ∈ us, d.property ∉ recognised) :
    apply ctx el us = .ok (ctx, flushDeferredTransforms ctx el) ∧
    (ctx.deferredTranslateXPct = none → ctx.deferredTranslateYPct = none →
      apply ctx el us = .ok (ctx, el)) ∧
    (∀ (self : Handle) (parent : Option Handle) (window : Window) (sc : Scene),
      apply (ContextBuilder.build self parent window sc) el us =
        .ok (ContextBuilder.build self parent window sc, el)) ∧
    (∀ pre post : List Declaration,
      apply ctx el (pre ++ us ++ post) = apply ctx el (pre ++ post)) ∧
    (∀ decls : List Declaration, apply ctx el decls =
      apply ctx el (decls.filter (fun d => decide (d.property ∈ recognised)))) := by
  have key : ∀ c : StyleContext, apply c el us = .ok (c, flushDeferredTransforms c el) := by
    intro c
    rw [apply_filter, filter_unknown us hus]
    rfl
  refine ⟨key ctx, ?_, ?_, ?_, apply_filter ctx el⟩
  · intro hx hy
    rw [key ctx, flush_of_none ctx el hx hy]
  · intro self parent window sc
    rw [key, flush_of_none _ el rfl rfl]
  · intro pre post
    rw [apply_filter ctx el (pre ++ us ++ post), apply_filter ctx el (pre ++ post)]
    simp only [List.filter_append, filter_unknown us hus, List.append_nil]

/-- Witness of C19: two unknown declarations, alone and inside the list of the
viewport scenario. -/
theorem apply_ignores_unknown_witness :
    apply (Scenario.viewportContext 1280 720) (Scenario.rect 52 52)
        [Scenario.decl "z-index" "3", Scenario.decl "cursor" "pointer"] =
      .ok (Scenario.viewportContext 1280 720, Scenario.rect 52 52) ∧
    apply (Scenario.viewportContext 1280 720) (Scenario.rect 52 52)
        ([Scenario.decl "position" "absolute"] ++
          [Scenario.decl "z-index" "3", Scenario.decl "cursor" "pointer"] ++
          [Scenario.decl "right" "24px"]) =
      apply (Scenario.viewportContext 1280 720) (Scenario.rect 52 52)
        ([Scenario.decl "position" "absolute"] ++ [Scenario.decl "right" "24px"]) :=
  ⟨(apply_ignores_unknown (Scenario.viewportContext 1280 720) (Scenario.rect 52 52)
      [Scenario.decl "z-index" "3", Scenario.decl "cursor" "pointer"] (by decide)).2.1 rfl rfl,
   (apply_ignores_unknown (Scenario.viewportContext 1280 720) (Scenario.rect 52 52)
      [Scenario.decl "z-index" "3", Scenario.decl "cursor" "pointer"] (by decide)).2.2.2.1
      [Scenario.decl "position" "absolute"] [Scenario.decl "right" "24px"]⟩

/-- C20. In pass 2, `left: v` (or `x`) sets x to `referenceOrigin.x + resolve(v
against referenceSize.x) + marginLeft` and keeps y, and `top: v` (or `y`) sets y
to `referenceOrigin.y + resolve(v against referenceSize.y) + marginTop` and keeps
x; the reference is the window at `(0,0)` when the position mode is `Absolute`
and the containing block otherwise. With `Absolute` the element these
declarations give does not depend on the position and size of the parent, and
`apply` on `position: absolute; left: v; top: w`, from a context without deferred
offsets, puts the element at the two resolved offsets plus margins. -/
theorem pass2_left_top (ctx : StyleContext) (el : Element) (v w : Str) :
    (∀ prop : Str, prop = lit "left" ∨ prop = lit "x" →
      pass2 ctx el prop v =
        el.setPosition ⟨(refOrigin ctx).x + LengthResolver.resolve v (refSize ctx).x ctx.windowSize
          + ctx.box.marginLeft, el.getPosition.y⟩) ∧
    (∀ prop : Str, prop = lit "top" ∨ prop = lit "y" →
      pass2 ctx el prop w =
        el.setPosition ⟨el.getPosition.x,
          (refOrigin ctx).y + LengthResolver.resolve w (refSize ctx).y ctx.windowSize
            + ctx.box.marginTop⟩) ∧
    (ctx.positionMode = .Absolute → refOrigin ctx = ⟨0, 0⟩ ∧ refSize ctx = ctx.windowSize) ∧
    (ctx.positionMode ≠ .Absolute →
      refOrigin ctx = ctx.parentPos ∧ refSize ctx = ctx.parentSize) ∧
    (ctx.positionMode = .Absolute → ∀ (P S : Vec2) (prop val : Str),
      prop ∈ [lit "left", lit "x", lit "top", lit "y"] →
      pass2 { ctx with parentPos := P, parentSize := S } el prop val = pass2 ctx el prop val) ∧
    (ctx.deferredTranslateXPct = none → ctx.deferredTranslateYPct = none →
      apply ctx el [⟨lit "position", lit "absolute"⟩, ⟨lit "left", v⟩, ⟨lit "top", w⟩] =
        .ok ({ ctx with positionMode := .Absolute },
          el.setPosition
            ⟨0 + LengthResolver.resolve v ctx.windowSize.x ctx.windowSize + ctx.box.marginLeft,
             0 + LengthResolver.resolve w ctx.windowSize.y ctx.windowSize + ctx.box.marginTop⟩)) := by
  refine ⟨?_, ?_, ?_, ?_, ?_, ?_⟩
  · intro prop h
    rcases h with h | h <;> subst h <;> rfl
  · intro prop h
    rcases h with h | h <;> subst h <;> rfl
  · intro h
    simp [refOrigin, refSize, h]
  · intro h
    simp [refOrigin, refSize, h]
  · intro h P S prop val hp
    simp only [List.mem_cons, List.mem_singleton, List.not_mem_nil, or_false] at hp
    have ho : refOrigin { ctx with parentPos := P, parentSize := S } = refOrigin ctx := by
      simp [refOrigin, h]
    have hs : refSize { ctx with parentPos := P, parentSize := S } = refSize ctx := by
      simp [refSize, h]
    rcases hp with e | e | e | e <;> subst e <;>
      simp only [pass2, ho, hs]
  · intro hx hy
    have h1 : runPass1 [⟨lit "position", lit "absolute"⟩, ⟨lit "left", v⟩, ⟨lit "top", w⟩] ctx el =
        .ok ({ ctx with positionMode := .Absolute }, el) := rfl
    unfold apply
    rw [h1]
    simp only
    rw [flush_of_none { ctx with positionMode := .Absolute } _ hx hy]
    rfl

/-- Witness of C20: a child of a parent at `(100,50)` of size `{400,300}` in a
window `{1280,720}`; with `Absolute` the parent does not count. -/
theorem pass2_left_top_witness :
    apply { Scenario.viewportContext 1280 720 with parentPos := ⟨100, 50⟩, parentSize := ⟨400, 300⟩ }
        (Scenario.rect 52 52)
        [⟨lit "position", lit "absolute"⟩, ⟨lit "left", lit "10%"⟩, ⟨lit "top", lit "24px"⟩] =
      .ok ({ Scenario.viewportContext 1280 720 with
              parentPos := ⟨100, 50⟩, parentSize := ⟨400, 300⟩, positionMode := .Absolute },
        (Scenario.rect 52 52).setPosition ⟨128, 24⟩) :=
  ((pass2_left_top
      { Scenario.viewportContext 1280 720 with parentPos := ⟨100, 50⟩, parentSize := ⟨400, 300⟩ }
      (Scenario.rect 52 52) (lit "10%") (lit "24px")).2.2.2.2.2 rfl rfl).trans (by decide!)

end PropertyDispatcher

namespace LengthResolver

theorem endsWithUnit_append_self (a w : Str) : endsWithUnit (a ++ w) w = true := by
  simp [endsWithUnit]

theorem endsWithUnit_of_last (low w : Str) (z y : Char) (hz : low.getLast? = some z)
    (hy : w.getLast? = some y) (hzy : z ≠ y) : endsWithUnit low w = false := by
  cases h : endsWithUnit low w with
  | false => rfl
  | true =>
      exfalso
      simp only [endsWithUnit, Bool.and_eq_true, decide_eq_true_eq] at h
      have hw : w ≠ [] := by
        intro e
        rw [e] at hy
        cases hy
      have hsplit : low = low.take (low.length - w.length) ++ w := by
        conv_lhs => rw [← List.take_append_drop (low.length - w.length) low]
        rw [h.2]
      rw [hsplit, List.getLast?_append_of_ne_nil _ hw, hy] at hz
      exact hzy (Option.some.inj hz).symm

theorem stripUnit_lower (s low : Str) (h : StringUtils.toLower s = low) :
    stripUnit units s =
      if endsWithUnit low (lit "px") then s.take (s.length - 2)
      else if endsWithUnit low (lit "em") then s.take (s.length - 2)
      else if endsWithUnit low (lit "rem") then s.take (s.length - 3)
      else if endsWithUnit low (lit "pt") then s.take (s.length - 2)
      else if endsWithUnit low (lit "dp") then s.take (s.length - 2)
      else s := by
  subst h
  rfl

/-- What is known of a character that `tolower` sends to a given lowercase
letter other than `e` and `x`. -/
theorem unit_char (c t : Char) (h : cstd.tolower c = t) (ht : continuesLiteral t = false)
    (hs : StringUtils.isTrimChar t = false) (hp : t ≠ '%') (he : t ≠ 'e') (hx : t ≠ 'x') :
    continuesLiteral c = false ∧ StringUtils.isTrimChar c = false ∧ c ≠ '%' := by
  cases hu : isUpperAscii c with
  | false =>
      rw [tolower_of_not_upper c hu] at h
      subst h
      exact ⟨ht, hs, hp⟩
  | true =>
      have hc : 65 ≤ c.toNat ∧ c.toNat ≤ 90 := by
        simpa [isUpperAscii] using hu
      have hlow : cstd.tolower c = Char.ofNat (c.toNat + 32) := by
        unfold cstd.tolower
        unfold isUpperAscii at hu
        rw [hu]
        rfl
      rw [hlow] at h
      rw [← Char.ofNat_toNat c]
      obtain ⟨h1, h2⟩ := hc
      generalize c.toNat = n at h1 h2 h
      subst h
      interval_cases n <;> first | decide | exact absurd rfl he | exact absurd rfl hx

theorem toLower_text (L : Decimal) : StringUtils.toLower L.text = L.text := by
  have hd : ∀ ds : List (Fin 10), (ds.map digitChar).map cstd.tolower = ds.map digitChar := by
    intro ds
    rw [List.map_map]
    apply List.map_congr_left
    intro d _
    exact (by decide : ∀ d : Fin 10, cstd.tolower (digitChar d) = digitChar d) d
  obtain ⟨neg, d, ds, fs⟩ := L
  unfold StringUtils.toLower Decimal.text
  simp only [List.map_append, hd]
  congr 1
  · cases neg <;> rfl
  · congr 1
    by_cases hf : fs = []
    · simp [hf]
    · simp only [hf, if_false, List.map_cons, hd]
      rfl

/-- After a decimal literal, one character that cannot continue a number, or
nothing, does not change what `parseNumber` reads. -/
theorem parseNumber_text_char (L : Decimal) (c : Char) (hc : continuesLiteral c = false)
    (ht : StringUtils.isTrimChar c = false) :
    parseNumber (L.text ++ [c]) = parseNumber L.text := by
  unfold parseNumber
  have e : StringUtils.trim (L.text ++ [c]) = L.text ++ [c] := by
    have := L.trim_text_append [] c ht
    simpa using this
  have h0 := stof_text_eq L [] (by intro x hx; cases hx)
  rw [List.append_nil] at h0
  rw [e, stof_text_eq L [c] (by intro x hx; cases hx; exact hc), L.trim_text, h0]

/-- The text `resolve` hands to `parseAbsolute`: a literal followed by letters that
are neither `%` nor a viewport unit. -/
theorem resolve_letters_text (L : Decimal) (r : ℚ) (vp : Vec2) (u : Str) (x y : Char)
    (hy : y ≠ '%') (hty : StringUtils.isTrimChar y = false)
    (hw : StringUtils.toLower [x, y] ≠ lit "vw") (hh : StringUtils.toLower [x, y] ≠ lit "vh") :
    resolve (L.text ++ (u ++ [x, y])) r vp =
      parseNumber (stripUnit units (L.text ++ (u ++ [x, y]))) := by
  have ht : StringUtils.trim (L.text ++ (u ++ [x, y])) = L.text ++ (u ++ [x, y]) := by
    have := L.trim_text_append (u ++ [x]) y hty
    simpa using this
  have hne := L.text_append_ne (u ++ [x, y])
  have hlast : (L.text ++ (u ++ [x, y])).getLast? = some y := by
    rw [show L.text ++ (u ++ [x, y]) = (L.text ++ u ++ [x]) ++ [y] by simp, List.getLast?_concat]
  have hdrop : (L.text ++ (u ++ [x, y])).drop ((L.text ++ (u ++ [x, y])).length - 2) = [x, y] := by
    rw [show L.text ++ (u ++ [x, y]) = (L.text ++ u) ++ [x, y] by simp]
    rw [show ((L.text ++ u) ++ [x, y]).length - 2 = (L.text ++ u).length by
      simp only [List.length_append, List.length_cons, List.length_nil]
      omega]
    exact List.drop_left _ _
  unfold resolve parseAbsolute
  simp only [ht, hne.1, hne.2, or_self, if_false, hlast, Option.some.injEq, hy, hdrop, hw, hh,
    and_false]

theorem unit_char_last (c t : Char) (h : cstd.tolower c = t)
    (hs : StringUtils.isTrimChar t = false) (hp : t ≠ '%') :
    StringUtils.isTrimChar c = false ∧ c ≠ '%' := by
  cases hu : isUpperAscii c with
  | false =>
      rw [tolower_of_not_upper c hu] at h
      subst h
      exact ⟨hs, hp⟩
  | true =>
      have hc : 65 ≤ c.toNat ∧ c.toNat ≤ 90 := by
        simpa [isUpperAscii] using hu
      rw [← Char.ofNat_toNat c]
      obtain ⟨h1, h2⟩ := hc
      generalize c.toNat = n at h1 h2
      interval_cases n <;> decide

theorem toLower_two (u : Str) (p q : Char) (h : StringUtils.toLower u = [p, q]) :
    ∃ a b, u = [a, b] ∧ cstd.tolower a = p ∧ cstd.tolower b = q := by
  match u, h with
  | [a, b], h =>
      simp only [StringUtils.toLower, List.map_cons, List.map_nil, List.cons.injEq, and_true] at h
      exact ⟨a, b, rfl, h.1, h.2⟩

theorem toLower_three (u : Str) (p q s : Char) (h : StringUtils.toLower u = [p, q, s]) :
    ∃ a b c, u = [a, b, c] ∧ cstd.tolower a = p ∧ cstd.tolower b = q ∧ cstd.tolower c = s := by
  match u, h with
  | [a, b, c], h =>
      simp only [StringUtils.toLower, List.map_cons, List.map_nil, List.cons.injEq, and_true] at h
      exact ⟨a, b, c, rfl, h.1, h.2.1, h.2.2⟩

theorem last_append (a w : Str) (z : Char) (h : w.getLast? = some z) :
    (a ++ w).getLast? = some z := by
  have hw : w ≠ [] := by
    intro e
    rw [e] at h
    cases h
  rw [List.getLast?_append_of_ne_nil _ hw, h]

theorem toLower_text_append (L : Decimal) (u : Str) :
    StringUtils.toLower (L.text ++ u) = L.text ++ StringUtils.toLower u := by
  have := toLower_text L
  unfold StringUtils.toLower at this ⊢
  rw [List.map_append, this]

theorem take_text (L : Decimal) (u v : Str) (n : Nat) (hn : n = v.length) :
    (L.text ++ (u ++ v)).take ((L.text ++ (u ++ v)).length - n) = L.text ++ u := by
  subst hn
  rw [← List.append_assoc]
  rw [show (L.text ++ u ++ v).length - v.length = (L.text ++ u).length by
    simp only [List.length_append]
    omega]
  exact List.take_left _ _

/-- A literal followed by a two-letter unit other than `px`. -/
theorem resolve_two (L : Decimal) (r : ℚ) (vp : Vec2) (a b : Char) (w : Str) (y : Char)
    (hab : StringUtils.toLower [a, b] = w) (hl : w.getLast? = some y)
    (hw : w = lit "px" ∨ w = lit "em" ∨ w = lit "pt" ∨ w = lit "dp") :
    resolve (L.text ++ [a, b]) r vp = parseNumber L.text := by
  have hb : cstd.tolower b = y := by
    subst hab
    simpa [StringUtils.toLower] using hl
  have hy : StringUtils.isTrimChar y = false ∧ y ≠ '%' := by
    rcases hw with e | e | e | e <;> subst e <;> cases hl <;> decide
  obtain ⟨hbt, hbp⟩ := unit_char_last b y hb hy.1 hy.2
  have hvw : StringUtils.toLower [a, b] ≠ lit "vw" ∧ StringUtils.toLower [a, b] ≠ lit "vh" := by
    rw [hab]
    rcases hw with e | e | e | e <;> subst e <;> decide
  have h1 := resolve_letters_text L r vp [] a b hbp hbt hvw.1 hvw.2
  simp only [List.nil_append] at h1
  rw [h1, stripUnit_lower _ (L.text ++ w) (by rw [toLower_text_append, hab])]
  have ht := take_text L [] [a, b] 2 rfl
  simp only [List.nil_append, List.append_nil] at ht
  rcases hw with e | e | e | e <;> subst e
  · rw [if_pos (endsWithUnit_append_self _ _), ht]
  · rw [if_neg (by rw [endsWithUnit_of_last _ _ 'm' 'x' (last_append _ _ _ (by decide))
      (by decide) (by decide)]; decide), if_pos (endsWithUnit_append_self _ _), ht]
  · rw [if_neg (by rw [endsWithUnit_of_last _ _ 't' 'x' (last_append _ _ _ (by decide))
      (by decide) (by decide)]; decide),
      if_neg (by rw [endsWithUnit_of_last _ _ 't' 'm' (last_append _ _ _ (by decide))
      (by decide) (by decide)]; decide),
      if_neg (by rw [endsWithUnit_of_last _ _ 't' 'm' (last_append _ _ _ (by decide))
      (by decide) (by decide)]; decide), if_pos (endsWithUnit_append_self _ _), ht]
  · rw [if_neg (by rw [endsWithUnit_of_last _ _ 'p' 'x' (last_append _ _ _ (by decide))
      (by decide) (by decide)]; decide),
      if_neg (by rw [endsWithUnit_of_last _ _ 'p' 'm' (last_append _ _ _ (by decide))
      (by decide) (by decide)]; decide),
      if_neg (by rw [endsWithUnit_of_last _ _ 'p' 'm' (last_append _ _ _ (by decide))
      (by decide) (by decide)]; decide),
      if_neg (by rw [endsWithUnit_of_last _ _ 'p' 't' (last_append _ _ _ (by decide))
      (by decide) (by decide)]; decide), if_pos (endsWithUnit_append_self _ _), ht]

/-- A literal followed by `rem` in any letter case: the loop cuts `em` off and
`std::stof` stops at the `r`. -/
theorem resolve_rem (L : Decimal) (r : ℚ) (vp : Vec2) (a b c : Char)
    (ha : cstd.tolower a = 'r') (hb : cstd.tolower b = 'e') (hc : cstd.tolower c = 'm') :
    resolve (L.text ++ [a, b, c]) r vp = parseNumber L.text := by
  obtain ⟨hct, hcp⟩ := unit_char_last c 'm' hc (by decide) (by decide)
  obtain ⟨hal, hat, _⟩ := unit_char a 'r' ha (by decide) (by decide) (by decide) (by decide)
    (by decide)
  have hbc : StringUtils.toLower [b, c] = lit "em" := by
    simp only [StringUtils.toLower, List.map_cons, List.map_nil, hb, hc]
    rfl
  have h1 := resolve_letters_text L r vp [a] b c hcp hct (by rw [hbc]; decide)
    (by rw [hbc]; decide)
  have hlow : StringUtils.toLower (L.text ++ [a, b, c]) = (L.text ++ ['r']) ++ lit "em" := by
    rw [toLower_text_append]
    simp only [StringUtils.toLower, List.map_cons, List.map_nil, ha, hb, hc]
    simp [lit]
  have ht := take_text L [a] [b, c] 2 rfl
  simp only [List.singleton_append] at h1 ht
  rw [h1, stripUnit_lower _ _ hlow]
  rw [if_neg (by rw [endsWithUnit_of_last _ _ 'm' 'x' (last_append _ _ _ (by decide))
      (by decide) (by decide)]; decide), if_pos (endsWithUnit_append_self _ _), ht,
      parseNumber_text_char L a hal hat]

theorem digit_last_facts : ∀ d : Fin 10, digitChar d ≠ '%' ∧ cstd.tolower (digitChar d) ≠ 'w' ∧
    cstd.tolower (digitChar d) ≠ 'h' ∧ digitChar d ≠ 'x' ∧ digitChar d ≠ 'm' ∧
    digitChar d ≠ 't' ∧ digitChar d ≠ 'p' := by decide

theorem last_of_lower_drop (s : Str) (z p q : Char) (hz : s.getLast? = some z)
    (h : StringUtils.toLower (s.drop (s.length - 2)) = [p, q]) : cstd.tolower z = q := by
  have h1 := congrArg List.getLast? h
  unfold StringUtils.toLower at h1
  rw [List.getLast?_map, List.getLast?_drop] at h1
  by_cases hl : s.length ≤ s.length - 2
  · rw [if_pos hl] at h1
    cases h1
  · rw [if_neg hl, hz] at h1
    simpa using h1

/-- A literal without a unit resolves to the number. -/
theorem resolve_text (L : Decimal) (r : ℚ) (vp : Vec2) :
    resolve L.text r vp = parseNumber L.text := by
  obtain ⟨d, hd⟩ := L.text_getLast
  obtain ⟨f1, f2, f3, f4, f5, f6, f7⟩ := digit_last_facts d
  have hne := L.text_append_ne []
  rw [List.append_nil] at hne
  have hp : ¬ L.text.getLast? = some '%' := by
    rw [hd]
    intro e
    exact f1 (Option.some.inj e)
  have hw : ¬ (2 ≤ L.text.length ∧
      StringUtils.toLower (L.text.drop (L.text.length - 2)) = lit "vw") := by
    rintro ⟨_, e⟩
    exact f2 (last_of_lower_drop _ _ 'v' 'w' hd e)
  have hh : ¬ (2 ≤ L.text.length ∧
      StringUtils.toLower (L.text.drop (L.text.length - 2)) = lit "vh") := by
    rintro ⟨_, e⟩
    exact f3 (last_of_lower_drop _ _ 'v' 'h' hd e)
  unfold resolve parseAbsolute
  simp only [L.trim_text, hne.1, hne.2, or_self, if_false, hp, hw, hh]
  rw [stripUnit_lower _ _ (toLower_text L)]
  rw [if_neg (by rw [endsWithUnit_of_last _ _ _ 'x' hd (by decide) f4]; decide),
    if_neg (by rw [endsWithUnit_of_last _ _ _ 'm' hd (by decide) f5]; decide),
    if_neg (by rw [endsWithUnit_of_last _ _ _ 'm' hd (by decide) f5]; decide),
    if_neg (by rw [endsWithUnit_of_last _ _ _ 't' hd (by decide) f6]; decide),
    if_neg (by rw [endsWithUnit_of_last _ _ _ 'p' hd (by decide) f7]; decide)]

/-- With a unit among `px`, `em`, `rem`, `pt`, `dp` in any letter case, a literal
resolves to what `parseNumber` reads from the literal. -/
theorem resolve_unit_text (L : Decimal) (u : Str) (hu : StringUtils.toLower u ∈ units)
    (r : ℚ) (vp : Vec2) : resolve (L.text ++ u) r vp = parseNumber L.text := by
  simp only [units, List.mem_cons, List.mem_singleton, List.not_mem_nil, or_false] at hu
  rcases hu with h | h | h | h | h
  · obtain ⟨a, b, rfl, _, _⟩ := toLower_two u 'p' 'x' h
    exact resolve_two L r vp a b _ 'x' h (by decide) (Or.inl rfl)
  · obtain ⟨a, b, rfl, _, _⟩ := toLower_two u 'e' 'm' h
    exact resolve_two L r vp a b _ 'm' h (by decide) (Or.inr (Or.inl rfl))
  · obtain ⟨a, b, c, rfl, ha, hb, hc⟩ := toLower_three u 'r' 'e' 'm' h
    exact resolve_rem L r vp a b c ha hb hc
  · obtain ⟨a, b, rfl, _, _⟩ := toLower_two u 'p' 't' h
    exact resolve_two L r vp a b _ 't' h (by decide) (Or.inr (Or.inr (Or.inl rfl)))
  · obtain ⟨a, b, rfl, _, _⟩ := toLower_two u 'd' 'p' h
    exact resolve_two L r vp a b _ 'p' h (by decide) (Or.inr (Or.inr (Or.inr rfl)))

/-- C16 (as amended). All absolute units are pixel-equivalent: for every decimal
literal `n` and every unit among `px`, `em`, `rem`, `pt`, `dp` in any letter case
(a text `u` that `toLower` sends to the unit), `resolve(n + u, r, vp)` equals
`resolve(n, r, vp)` without a unit, for every reference and viewport; both are
the number `n` when `n` is in the range of `float`, and both are 0 when `n` is
too large for a `float`, because `std::stof` raises `out_of_range` and
`parseNumber` catches it. -/
theorem resolve_absolute_unit (L : Decimal) (u : Str) (hu : StringUtils.toLower u ∈ units)
    (r : ℚ) (vp : Vec2) :
    resolve (L.text ++ u) r vp = resolve L.text r vp ∧
    (L.InRange → resolve (L.text ++ u) r vp = L.value ∧ resolve L.text r vp = L.value) ∧
    (L.Overflows → resolve (L.text ++ u) r vp = 0 ∧ resolve L.text r vp = 0) := by
  have h1 := resolve_unit_text L u hu r vp
  have h2 := resolve_text L r vp
  refine ⟨h1.trans h2.symm, ?_, ?_⟩
  · intro hr
    rw [h1, h2, parseNumber_text L hr]
    exact ⟨rfl, rfl⟩
  · intro hr
    rw [h1, h2, parseNumber_text_out L (L.not_inRange_of_overflows hr)]
    exact ⟨rfl, rfl⟩

/-- Witness of C16: `resolve("10rem")` is 10, although the suffix loop tries `em`
before `rem`; and `-2.5Pt` is `-5/2`. -/
theorem resolve_absolute_unit_witness :
    StringUtils.toLower (lit "rem") ∈ units ∧ (Decimal.ofDigits 1 [0]).InRange ∧
    resolve (lit "10rem") 640 ⟨1280, 720⟩ = 10 ∧
    resolve (lit "-2.5Pt") 640 ⟨1280, 720⟩ = -5 / 2 ∧
    (Decimal.ofDigits 1 (List.replicate 39 0)).Overflows ∧
    resolve ((Decimal.ofDigits 1 (List.replicate 39 0)).text ++ lit "px") 640 ⟨1280, 720⟩ = 0 :=
  ⟨by decide, by decide!,
   ((resolve_absolute_unit (Decimal.ofDigits 1 [0]) (lit "rem") (by decide) 640
    ⟨1280, 720⟩).2.1 (by decide!)).1.trans (by decide!),
   ((resolve_absolute_unit ⟨true, 2, [], [5]⟩ (lit "Pt") (by decide) 640
    ⟨1280, 720⟩).2.1 (by decide!)).1.trans (by decide!),
   by decide!,
   ((resolve_absolute_unit (Decimal.ofDigits 1 (List.replicate 39 0)) (lit "px") (by decide) 640
    ⟨1280, 720⟩).2.2 (by decide!)).1⟩

/-- Counterexample to C16 as stated: the decimal literal of `10^39` is out of the
range of `float`, and with the unit `px`, or without a unit, it resolves to 0,
not to `10^39`. -/
theorem resolve_absolute_unit_counterexample :
    resolve (lit "1000000000000000000000000000000000000000px") 640 ⟨1280, 720⟩ = 0 ∧
    resolve (lit "1000000000000000000000000000000000000000") 640 ⟨1280, 720⟩ = 0 ∧
    (Decimal.ofDigits 1 (List.replicate 39 0)).text =
      lit "1000000000000000000000000000000000000000" ∧
    (Decimal.ofDigits 1 (List.replicate 39 0)).value = 10 ^ 39 := by
  refine ⟨by decide!, by decide!, by decide!, by decide!⟩

end LengthResolver

/-! ## Texts that are no number -/

theorem startsLiteral_eq (s : Str) :
    startsLiteral s = (match (cstd.takeSign (s.dropWhile cstd.isspace)).2 with
      | [] => false
      | c :: rest =>
          cstd.isdigit c || (c = '.' && (match rest with
            | [] => false
            | d :: _ => cstd.isdigit d)) || cstd.startsNonFinite (c :: rest)) := rfl

/-- The C library function `strtof` finds no number where no literal starts. -/
theorem stof_no_literal (t : Str) (h : startsLiteral t = false) :
    cstd.stof t = .error .invalidArgument := by
  rw [startsLiteral_eq] at h
  unfold cstd.stof
  generalize (cstd.takeSign (t.dropWhile cstd.isspace)) = p at h ⊢
  obtain ⟨neg, q⟩ := p
  simp only at h ⊢
  cases q with
  | nil => rfl
  | cons c rest =>
      simp only [Bool.or_eq_false_iff, Bool.and_eq_false_imp, decide_eq_true_eq] at h
      obtain ⟨⟨hd, hdot⟩, hnf⟩ := h
      have hc0 : c ≠ '0' := by
        intro e
        rw [e] at hd
        exact absurd hd (by decide)
      have hhex : cstd.hexFloat (c :: rest) = none := by
        cases rest with
        | nil => rfl
        | cons c1 r => simp [cstd.hexFloat, hc0]
      have hdec : cstd.decimalMagnitude (c :: rest) = none := by
        unfold cstd.decimalMagnitude
        simp only [List.takeWhile_cons, List.dropWhile_cons, hd, Bool.false_eq_true, if_false,
          List.head?_cons, Option.some.injEq, List.tail_cons, true_and]
        by_cases hp : c = '.'
        · have := hdot hp
          cases rest with
          | nil => simp [hp]
          | cons d r =>
              simp only at this
              simp [hp, List.takeWhile_cons, this]
        · simp [hp]
      simp only [hhex, hdec, hnf, Bool.false_eq_true, if_false]

theorem dropWhile_isspace_trimChars (t : Str) :
    (t.dropWhile StringUtils.isTrimChar).dropWhile cstd.isspace = t.dropWhile cstd.isspace := by
  induction t with
  | nil => rfl
  | cons c cs ih =>
      by_cases hc : StringUtils.isTrimChar c = true
      · have hs : cstd.isspace c = true := by
          simp only [StringUtils.isTrimChar, Bool.or_eq_true, decide_eq_true_eq] at hc
          rcases hc with ((h | h) | h) | h <;> subst h <;> decide
        rw [List.dropWhile_cons, if_pos hc, ih, List.dropWhile_cons, if_pos hs]
      · rw [List.dropWhile_cons, if_neg hc]

theorem takeSign_append (a rest : Str) (ha : a ≠ []) :
    (cstd.takeSign (a ++ rest)).2 = (cstd.takeSign a).2 ++ rest := by
  cases a with
  | nil => exact absurd rfl ha
  | cons c cs =>
      unfold cstd.takeSign
      simp only [List.cons_append, List.head?_cons, Option.some.injEq, List.tail_cons]
      by_cases h1 : c = '-'
      · simp only [h1, if_true]
      · by_cases h2 : c = '+'
        · simp only [h2, if_true]
          rfl
        · simp only [h1, h2, if_false]
          rfl

/-- A literal that starts a prefix starts the whole text. -/
theorem startsLiteral_of_start (t s : Str) (hp : t <+: s) (h : startsLiteral t = true) :
    startsLiteral s = true := by
  obtain ⟨rest, rfl⟩ := hp
  rw [startsLiteral_eq] at h ⊢
  have hne : t.dropWhile cstd.isspace ≠ [] := by
    intro e
    rw [e] at h
    cases h
  have hd : (t ++ rest).dropWhile cstd.isspace = t.dropWhile cstd.isspace ++ rest := by
    rw [List.dropWhile_append]
    simp [hne]
  rw [hd, takeSign_append _ _ hne]
  generalize (cstd.takeSign (t.dropWhile cstd.isspace)).2 = q at h ⊢
  cases q with
  | nil => cases h
  | cons c q1 =>
      simp only [List.cons_append]
      simp only [Bool.or_eq_true, Bool.and_eq_true, decide_eq_true_eq] at h ⊢
      rcases h with (h | h) | h
      · exact Or.inl (Or.inl h)
      · cases q1 with
        | nil => exact absurd h.2 (by simp)
        | cons d q2 => exact Or.inl (Or.inr h)
      · right
        unfold cstd.startsNonFinite at h ⊢
        have hlen : 3 ≤ (c :: q1).length := by
          by_contra hl
          have hl2 : ((c :: q1).take 3).length < 3 := by
            rw [List.length_take]
            omega
          simp only [Bool.or_eq_true, decide_eq_true_eq] at h
          rcases h with h | h <;>
            · have := congrArg List.length h
              rw [List.length_map] at this
              rw [this] at hl2
              exact absurd hl2 (by decide)
        have ht : ((c :: q1) ++ rest).take 3 = (c :: q1).take 3 := by
          rw [List.take_append_of_le_length hlen]
        rw [← List.cons_append, ht]
        exact h

theorem startsLiteral_trim (t : Str) (h : startsLiteral (StringUtils.trim t) = true) :
    startsLiteral t = true := by
  have h1 := startsLiteral_of_start _ _ ( List.rdropWhile_prefix _ _) h
  rw [startsLiteral_eq] at h1 ⊢
  rw [dropWhile_isspace_trimChars] at h1
  exact h1

namespace LengthResolver

/-- The function `parseNumber` gives 0 on every prefix of a text in which no literal starts. -/
theorem parseNumber_no_literal (s t : Str) (hs : startsLiteral s = false) (ht : t <+: s) :
    parseNumber t = 0 := by
  have h : startsLiteral (StringUtils.trim t) = false := by
    cases h1 : startsLiteral (StringUtils.trim t) with
    | false => rfl
    | true =>
        rw [startsLiteral_of_start t s ht (startsLiteral_trim t h1)] at hs
        cases hs
  unfold parseNumber
  rw [stof_no_literal _ h]

theorem stripUnit_start (us : List Str) (s : Str) : stripUnit us s <+: s := by
  induction us with
  | nil => exact List.prefix_refl s
  | cons u us ih =>
      unfold stripUnit
      split
      · exact List.take_prefix _ _
      · exact ih

theorem parseAbsolute_no_literal (s : Str) (hs : startsLiteral s = false) :
    parseAbsolute s = 0 := by
  have h : startsLiteral (StringUtils.trim s) = false := by
    cases h1 : startsLiteral (StringUtils.trim s) with
    | false => rfl
    | true =>
        rw [startsLiteral_trim s h1] at hs
        cases hs
  unfold parseAbsolute
  exact parseNumber_no_literal _ _ h (stripUnit_start _ _)

theorem resolve_no_literal (val : Str) (r : ℚ) (vp : Vec2)
    (h : startsLiteral (StringUtils.trim val) = false) : resolve val r vp = 0 := by
  unfold resolve
  simp only
  split_ifs
  · rfl
  · rw [parseNumber_no_literal _ _ h ( List.dropLast_prefix _)]
    simp
  · rw [parseNumber_no_literal _ _ h ( List.take_prefix _ _)]
    simp
  · rw [parseNumber_no_literal _ _ h ( List.take_prefix _ _)]
    simp
  · exact parseAbsolute_no_literal _ h

end LengthResolver

theorem Decimal.no_letter (L : Decimal) : 'a' ∉ L.text := by
  have hd : ∀ ds : List (Fin 10), 'a' ∉ ds.map digitChar := by
    intro ds hm
    obtain ⟨d, _, hd⟩ := List.mem_map.1 hm
    exact (by decide : ∀ d : Fin 10, digitChar d ≠ 'a') d hd
  obtain ⟨neg, d, ds, fs⟩ := L
  intro h
  unfold Decimal.text at h
  rcases List.mem_append.1 h with h | h
  · cases neg
    · cases h
    · simp at h
  · rcases List.mem_append.1 h with h | h
    · exact hd _ h
    · by_cases hf : fs = []
      · simp [hf] at h
      · simp only [hf, if_false, List.mem_cons] at h
        rcases h with h | h
        · exact absurd h (by decide)
        · exact hd _ h

namespace LengthResolver

/-- C17 (as amended). `resolve` is fail-soft: an exception of `std::stof`,
`invalid_argument` or `out_of_range`, becomes the number 0 in `parseNumber`;
`resolve` returns 0 for a value that is empty or `auto` once trimmed, so for a
value of white space only, and returns 0 whenever the trimmed value does not
begin, after white space and an optional sign, with a digit, with a point
followed by a digit, or with `inf` or `nan` in any letter case (which `std::stof`
reads as a non-finite number), whatever its unit suffix. -/
theorem resolve_fail_soft (val : Str) (r : ℚ) (vp : Vec2) :
    (StringUtils.trim val = [] ∨ StringUtils.trim val = lit "auto" → resolve val r vp = 0) ∧
    ((∀ c ∈ val, StringUtils.isTrimChar c = true) → resolve val r vp = 0) ∧
    (startsLiteral (StringUtils.trim val) = false → resolve val r vp = 0) ∧
    (∀ t : Str, cstd.stof (StringUtils.trim t) = .error .invalidArgument ∨
      cstd.stof (StringUtils.trim t) = .error .outOfRange → parseNumber t = 0) := by
  have h1 : StringUtils.trim val = [] ∨ StringUtils.trim val = lit "auto" →
      resolve val r vp = 0 := by
    intro h
    unfold resolve
    simp only [h, if_true]
  refine ⟨h1, ?_, resolve_no_literal val r vp, ?_⟩
  · intro h
    apply h1
    left
    unfold StringUtils.trim
    rw [List.dropWhile_eq_nil_iff.2 h]
    rfl
  · intro t h
    unfold parseNumber
    rcases h with h | h <;> rw [h]

/-- Witness of C17: the empty text, white space, `auto`, three texts in which
no number starts, and a literal out of the range of `float`. -/
theorem resolve_fail_soft_witness :
    resolve (lit "") 100 ⟨800, 600⟩ = 0 ∧ resolve (lit " \t ") 100 ⟨800, 600⟩ = 0 ∧
    resolve (lit " auto ") 100 ⟨800, 600⟩ = 0 ∧ resolve (lit "abc") 100 ⟨800, 600⟩ = 0 ∧
    resolve (lit "px") 100 ⟨800, 600⟩ = 0 ∧ resolve (lit "%") 100 ⟨800, 600⟩ = 0 ∧
    resolve (lit "-vw") 100 ⟨800, 600⟩ = 0 ∧
    parseNumber (lit "1000000000000000000000000000000000000000") = 0 ∧
    parseNumber (lit "abc") = 0 :=
  ⟨(resolve_fail_soft (lit "") 100 ⟨800, 600⟩).1 (Or.inl (by decide)),
   (resolve_fail_soft (lit " \t ") 100 ⟨800, 600⟩).2.1 (by decide),
   (resolve_fail_soft (lit " auto ") 100 ⟨800, 600⟩).1 (Or.inr (by decide)),
   (resolve_fail_soft (lit "abc") 100 ⟨800, 600⟩).2.2.1 (by decide),
   (resolve_fail_soft (lit "px") 100 ⟨800, 600⟩).2.2.1 (by decide),
   (resolve_fail_soft (lit "%") 100 ⟨800, 600⟩).2.2.1 (by decide),
   (resolve_fail_soft (lit "-vw") 100 ⟨800, 600⟩).2.2.1 (by decide),
   (resolve_fail_soft [] 100 ⟨800, 600⟩).2.2.2
     (lit "1000000000000000000000000000000000000000") (Or.inr (by decide!)),
   (resolve_fail_soft [] 100 ⟨800, 600⟩).2.2.2 (lit "abc") (Or.inl (by decide!))⟩

/-- Counterexample to C17 as stated: `12abc` has no unit suffix to remove and is
no numeric literal as a whole, yet `resolve` returns 12, the number `std::stof`
reads at its start; likewise `1.5e3xyz` and `7 px`. -/
theorem resolve_fail_soft_counterexample :
    stripUnit units (lit "12abc") = lit "12abc" ∧ (∀ L : Decimal, L.text ≠ lit "12abc") ∧
    resolve (lit "12abc") 100 ⟨800, 600⟩ = 12 ∧ (12 : ℚ) ≠ 0 ∧
    resolve (lit "7 px") 100 ⟨800, 600⟩ = 7 ∧ resolve (lit "3x%") 100 ⟨800, 600⟩ = 3 := by
  refine ⟨by decide, ?_, by decide!, by decide!, by decide!, by decide!⟩
  intro L h
  exact L.no_letter (h ▸ (by decide))

end LengthResolver

/-! ## The box model -/

namespace PropertyDispatcher

/-- C21. Box-model writes are destructive and side-local. Whatever the box of
the context was, `padding` replaces the four paddings by `parseFourSides` of its
value and keeps the four margins, `margin` replaces the four margins and keeps
the paddings, and each of the eight longhands replaces its one field by the
resolved value and keeps the other seven; the new values are computed from the
value, the containing block and the viewport alone, and nothing else of the
context or of the element changes. -/
theorem pass1_box_writes (ctx : StyleContext) (el : Element) (val : Str) (b : BoxModel) :
    pass1 { ctx with box := b } el (lit "padding") val =
      .ok ({ ctx with box :=
        ⟨(LengthResolver.parseFourSides val ctx.parentSize.x ctx.windowSize).top,
         (LengthResolver.parseFourSides val ctx.parentSize.x ctx.windowSize).right,
         (LengthResolver.parseFourSides val ctx.parentSize.x ctx.windowSize).bottom,
         (LengthResolver.parseFourSides val ctx.parentSize.x ctx.windowSize).left,
         b.marginTop, b.marginRight, b.marginBottom, b.marginLeft⟩ }, el) ∧
    pass1 { ctx with box := b } el (lit "margin") val =
      .ok ({ ctx with box :=
        ⟨b.paddingTop, b.paddingRight, b.paddingBottom, b.paddingLeft,
         (LengthResolver.parseFourSides val ctx.parentSize.x ctx.windowSize).top,
         (LengthResolver.parseFourSides val ctx.parentSize.x ctx.windowSize).right,
         (LengthResolver.parseFourSides val ctx.parentSize.x ctx.windowSize).bottom,
         (LengthResolver.parseFourSides val ctx.parentSize.x ctx.windowSize).left⟩ }, el) ∧
    pass1 { ctx with box := b } el (lit "padding-top") val =
      .ok ({ ctx with box := { b with
        paddingTop := LengthResolver.resolve val ctx.parentSize.y ctx.windowSize } }, el) ∧
    pass1 { ctx with box := b } el (lit "padding-right") val =
      .ok ({ ctx with box := { b with
        paddingRight := LengthResolver.resolve val ctx.parentSize.x ctx.windowSize } }, el) ∧
    pass1 { ctx with box := b } el (lit "padding-bottom") val =
      .ok ({ ctx with box := { b with
        paddingBottom := LengthResolver.resolve val ctx.parentSize.y ctx.windowSize } }, el) ∧
    pass1 { ctx with box := b } el (lit "padding-left") val =
      .ok ({ ctx with box := { b with
        paddingLeft := LengthResolver.resolve val ctx.parentSize.x ctx.windowSize } }, el) ∧
    pass1 { ctx with box := b } el (lit "margin-top") val =
      .ok ({ ctx with box := { b with
        marginTop := LengthResolver.resolve val ctx.parentSize.y ctx.windowSize } }, el) ∧
    pass1 { ctx with box := b } el (lit "margin-right") val =
      .ok ({ ctx with box := { b with
        marginRight := LengthResolver.resolve val ctx.parentSize.x ctx.windowSize } }, el) ∧
    pass1 { ctx with box := b } el (lit "margin-bottom") val =
      .ok ({ ctx with box := { b with
        marginBottom := LengthResolver.resolve val ctx.parentSize.y ctx.windowSize } }, el) ∧
    pass1 { ctx with box := b } el (lit "margin-left") val =
      .ok ({ ctx with box := { b with
        marginLeft := LengthResolver.resolve val ctx.parentSize.x ctx.windowSize } }, el) :=
  ⟨rfl, rfl, rfl, rfl, rfl, rfl, rfl, rfl, rfl, rfl⟩

end PropertyDispatcher
namespace PropertyDispatcher

theorem pass1Position_box (ctx : StyleContext) (el : Element) (prop val : Str) (r : Styled)
    (h : pass1Position ctx el prop val = .ok r) : r.1.box = ctx.box := by
  unfold pass1Position at h
  split_ifs at h <;> cases h <;> rfl

theorem pass1Flex_box (ctx : StyleContext) (el : Element) (prop val : Str) (r : Styled)
    (h : pass1Flex ctx el prop val = .ok r) : r.1.box = ctx.box := by
  unfold pass1Flex at h
  split_ifs at h
  pick_goal -1
  · exact pass1Position_box _ _ _ _ _ h
  all_goals (cases h; rfl)

set_option maxHeartbeats 1600000 in
theorem pass1Box_box (ctx : StyleContext) (el : Element) (prop val : Str) (r : Styled)
    (hp : prop ∉ boxProperties) (h : pass1Box ctx el prop val = .ok r) : r.1.box = ctx.box := by
  simp only [boxProperties, List.mem_cons, List.mem_singleton, List.not_mem_nil, or_false,
    not_or] at hp
  obtain ⟨h1, h2, h3, h4, h5, h6, h7, h8, h9, h10⟩ := hp
  simp only [pass1Box, h1, h2, h3, h4, h5, h6, h7, h8, h9, h10, if_false] at h
  exact pass1Flex_box _ _ _ _ _ h

theorem pass1Transform_box (ctx : StyleContext) (el : Element) (prop val : Str) (r : Styled)
    (hp : prop ∉ boxProperties) (h : pass1Transform ctx el prop val = .ok r) :
    r.1.box = ctx.box := by
  unfold pass1Transform at h
  split_ifs at h with h1
  pick_goal -1
  · exact pass1Box_box _ _ _ _ _ hp h
  · exact (TransformParser.applyLoop_frame _ _ _ _ _ h).2.2.2.2.1
  all_goals
    try simp only [withStof] at h
    repeat' split at h
    all_goals first
      | (cases h; rfl)
      | simp at h

theorem pass1Text_box (ctx : StyleContext) (el : Element) (prop val : Str) (r : Styled)
    (hp : prop ∉ boxProperties) (h : pass1Text ctx el prop val = .ok r) : r.1.box = ctx.box := by
  unfold pass1Text at h
  split_ifs at h
  pick_goal -1
  · exact pass1Transform_box _ _ _ _ _ hp h
  all_goals
    try simp only [withStof] at h
    repeat' split at h
    all_goals first
      | (cases h; rfl)
      | simp at h

theorem pass1Colors_box (ctx : StyleContext) (el : Element) (prop val : Str) (r : Styled)
    (hp : prop ∉ boxProperties) (h : pass1Colors ctx el prop val = .ok r) :
    r.1.box = ctx.box := by
  unfold pass1Colors at h
  split_ifs at h
  pick_goal -1
  · exact pass1Text_box _ _ _ _ _ hp h
  all_goals
    repeat' split at h
    all_goals first
      | (cases h; rfl)
      | simp at h

/-- A declaration of a property outside the box model leaves the box as it was. -/
theorem pass1_box_other (ctx : StyleContext) (el : Element) (prop val : Str) (r : Styled)
    (hp : prop ∉ boxProperties) (h : pass1 ctx el prop val = .ok r) : r.1.box = ctx.box := by
  unfold pass1 at h
  split_ifs at h
  pick_goal -1
  · exact pass1Colors_box _ _ _ _ _ hp h
  all_goals
    repeat' split at h
    all_goals
      cases h
      rfl

end PropertyDispatcher
namespace PropertyDispatcher

/-- One step of pass 1 keeps the box non-negative when the lengths it is asked to
store are. -/
theorem pass1_nonneg (ctx : StyleContext) (el : Element) (prop val : Str) (r : Styled)
    (h0 : ctx.box.NonNeg) (hw : ∀ v ∈ boxWrites ctx ⟨prop, val⟩, 0 ≤ v)
    (h : pass1 ctx el prop val = .ok r) : r.1.box.NonNeg := by
  by_cases hp : prop ∈ boxProperties
  · obtain ⟨a1, a2, a3, a4, a5, a6, a7, a8⟩ := h0
    simp only [boxProperties, List.mem_cons, List.mem_singleton, List.not_mem_nil, or_false] at hp
    rcases hp with e | e | e | e | e | e | e | e | e | e <;> subst e
    · have hv : ∀ v ∈ [(LengthResolver.parseFourSides val ctx.parentSize.x ctx.windowSize).top,
          (LengthResolver.parseFourSides val ctx.parentSize.x ctx.windowSize).right,
          (LengthResolver.parseFourSides val ctx.parentSize.x ctx.windowSize).bottom,
          (LengthResolver.parseFourSides val ctx.parentSize.x ctx.windowSize).left], 0 ≤ v := hw
      have e : pass1 ctx el (lit "padding") val = .ok (ctx.setPadding
        (LengthResolver.parseFourSides val ctx.parentSize.x ctx.windowSize), el) := rfl
      rw [e] at h
      cases h
      simp only [List.mem_cons, List.mem_singleton, List.not_mem_nil, or_false,
        forall_eq_or_imp, forall_eq] at hv
      exact ⟨hv.1, hv.2.1, hv.2.2.1, hv.2.2.2, a5, a6, a7, a8⟩
    · have hv : ∀ v ∈ [LengthResolver.resolve val ctx.parentSize.y ctx.windowSize], 0 ≤ v := hw
      have e : pass1 ctx el (lit "padding-top") val = .ok (ctx.setPaddingTop
        (resolveV val ctx), el) := rfl
      rw [e] at h
      cases h
      exact ⟨hv _ (List.mem_singleton_self _), a2, a3, a4, a5, a6, a7, a8⟩
    · have hv : ∀ v ∈ [LengthResolver.resolve val ctx.parentSize.x ctx.windowSize], 0 ≤ v := hw
      have e : pass1 ctx el (lit "padding-right") val = .ok (ctx.setPaddingRight
        (resolveH val ctx), el) := rfl
      rw [e] at h
      cases h
      exact ⟨a1, hv _ (List.mem_singleton_self _), a3, a4, a5, a6, a7, a8⟩
    · have hv : ∀ v ∈ [LengthResolver.resolve val ctx.parentSize.y ctx.windowSize], 0 ≤ v := hw
      have e : pass1 ctx el (lit "padding-bottom") val = .ok (ctx.setPaddingBottom
        (resolveV val ctx), el) := rfl
      rw [e] at h
      cases h
      exact ⟨a1, a2, hv _ (List.mem_singleton_self _), a4, a5, a6, a7, a8⟩
    · have hv : ∀ v ∈ [LengthResolver.resolve val ctx.parentSize.x ctx.windowSize], 0 ≤ v := hw
      have e : pass1 ctx el (lit "padding-left") val = .ok (ctx.setPaddingLeft
        (resolveH val ctx), el) := rfl
      rw [e] at h
      cases h
      exact ⟨a1, a2, a3, hv _ (List.mem_singleton_self _), a5, a6, a7, a8⟩
    · have hv : ∀ v ∈ [(LengthResolver.parseFourSides val ctx.parentSize.x ctx.windowSize).top,
          (LengthResolver.parseFourSides val ctx.parentSize.x ctx.windowSize).right,
          (LengthResolver.parseFourSides val ctx.parentSize.x ctx.windowSize).bottom,
          (LengthResolver.parseFourSides val ctx.parentSize.x ctx.windowSize).left], 0 ≤ v := hw
      have e : pass1 ctx el (lit "margin") val = .ok (ctx.setMargin
        (LengthResolver.parseFourSides val ctx.parentSize.x ctx.windowSize), el) := rfl
      rw [e] at h
      cases h
      simp only [List.mem_cons, List.mem_singleton, List.not_mem_nil, or_false,
        forall_eq_or_imp, forall_eq] at hv
      exact ⟨a1, a2, a3, a4, hv.1, hv.2.1, hv.2.2.1, hv.2.2.2⟩
    · have hv : ∀ v ∈ [LengthResolver.resolve val ctx.parentSize.y ctx.windowSize], 0 ≤ v := hw
      have e : pass1 ctx el (lit "margin-top") val = .ok (ctx.setMarginTop
        (resolveV val ctx), el) := rfl
      rw [e] at h
      cases h
      exact ⟨a1, a2, a3, a4, hv _ (List.mem_singleton_self _), a6, a7, a8⟩
    · have hv : ∀ v ∈ [LengthResolver.resolve val ctx.parentSize.x ctx.windowSize], 0 ≤ v := hw
      have e : pass1 ctx el (lit "margin-right") val = .ok (ctx.setMarginRight
        (resolveH val ctx), el) := rfl
      rw [e] at h
      cases h
      exact ⟨a1, a2, a3, a4, a5, hv _ (List.mem_singleton_self _), a7, a8⟩
    · have hv : ∀ v ∈ [LengthResolver.resolve val ctx.parentSize.y ctx.windowSize], 0 ≤ v := hw
      have e : pass1 ctx el (lit "margin-bottom") val = .ok (ctx.setMarginBottom
        (resolveV val ctx), el) := rfl
      rw [e] at h
      cases h
      exact ⟨a1, a2, a3, a4, a5, a6, hv _ (List.mem_singleton_self _), a8⟩
    · have hv : ∀ v ∈ [LengthResolver.resolve val ctx.parentSize.x ctx.windowSize], 0 ≤ v := hw
      have e : pass1 ctx el (lit "margin-left") val = .ok (ctx.setMarginLeft
        (resolveH val ctx), el) := rfl
      rw [e] at h
      cases h
      exact ⟨a1, a2, a3, a4, a5, a6, a7, hv _ (List.mem_singleton_self _)⟩
  · rw [pass1_box_other ctx el prop val r hp h]
    exact h0

theorem boxWrites_frame (a b : StyleContext) (d : Declaration) (hs : b.parentSize = a.parentSize)
    (hw : b.windowSize = a.windowSize) : boxWrites b d = boxWrites a d := by
  unfold boxWrites
  rw [hs, hw]

theorem runPass1_nonneg (decls : List Declaration) (ctx : StyleContext) (el : Element)
    (r : Styled) (h0 : ctx.box.NonNeg) (hw : ∀ d ∈ decls, ∀ v ∈ boxWrites ctx d, 0 ≤ v)
    (h : runPass1 decls ctx el = .ok r) : r.1.box.NonNeg := by
  induction decls generalizing ctx el with
  | nil =>
      simp only [runPass1, Except.ok.injEq] at h
      subst h
      exact h0
  | cons d ds ih =>
      obtain ⟨r0, h1, h2⟩ := runPass1_cons_ok d ds ctx el r h
      have hk := pass1_keeps ctx el d.property d.value r0 h1
      apply ih r0.1 r0.2 (pass1_nonneg ctx el d.property d.value r0 h0
        (hw d (List.mem_cons_self _ _)) h1) _ h2
      intro x hx
      rw [boxWrites_frame ctx r0.1 x hk.2.1 hk.2.2.2.1]
      exact hw x (List.mem_cons_of_mem _ hx)

/-- C22 (as amended). Starting from a box of non-negative values, such as the
all-zero box of a fresh context, after `apply` on a declaration list all four
paddings and all four margins are non-negative, provided every length that a
padding or margin declaration of the list resolves to is non-negative. -/
theorem apply_box_nonneg (ctx : StyleContext) (el : Element) (decls : List Declaration)
    (r : Styled) (h0 : ctx.box.NonNeg) (hw : ∀ d ∈ decls, ∀ v ∈ boxWrites ctx d, 0 ≤ v)
    (h : apply ctx el decls = .ok r) : r.1.box.NonNeg := by
  unfold apply at h
  cases h1 : runPass1 decls ctx el with
  | error e => rw [h1] at h; cases h
  | ok r0 =>
      rw [h1] at h
      cases h
      exact runPass1_nonneg decls ctx el r0 h0 hw h1

/-- Witness of C22: `padding: 10px 20px`, `margin-left: 5%` and `width: 50%` in a
window `{1280,720}`. -/
theorem apply_box_nonneg_witness :
    BoxModel.NonNeg ⟨10, 20, 10, 20, 0, 0, 0, 64⟩ :=
  apply_box_nonneg (Scenario.viewportContext 1280 720) (Scenario.rect 52 52)
    [Scenario.decl "padding" "10px 20px", Scenario.decl "margin-left" "5%",
      Scenario.decl "width" "50%"]
    ({ Scenario.viewportContext 1280 720 with box := ⟨10, 20, 10, 20, 0, 0, 0, 64⟩ },
      Scenario.rect 640 52)
    (by unfold BoxModel.NonNeg; decide!) (by decide!) (by decide!)

/-- Counterexample to C22 as stated: from the all-zero box of a fresh context,
`padding: -5px` leaves four paddings of `-5` and `margin-left: -10%` in a window
`{1280,720}` leaves a left margin of `-128`; nothing clamps the values. -/
theorem apply_box_nonneg_counterexample :
    (Scenario.viewportContext 1280 720).box = ⟨0, 0, 0, 0, 0, 0, 0, 0⟩ ∧
    (apply (Scenario.viewportContext 1280 720) (Scenario.rect 52 52)
      [Scenario.decl "padding" "-5px", Scenario.decl "margin-left" "-10%"]).map
        (fun r => r.1.box) = .ok ⟨-5, -5, -5, -5, 0, 0, 0, -128⟩ ∧
    ¬ BoxModel.NonNeg ⟨-5, -5, -5, -5, 0, 0, 0, -128⟩ := by
  refine ⟨by decide, by decide!, ?_⟩
  intro h
  exact absurd h.1 (by decide!)

end PropertyDispatcher

/-! ## One-sided clamps -/

namespace PropertyDispatcher

theorem rect_getSize_setSize (el : Element) (hk : el.kind = .rectangle) (sz : Vec2) :
    (el.setSize sz).getSize = sz := by
  unfold Element.setSize Element.getSize
  simp only [hk]

/-- C30. The properties `min-*` and `max-*` are one-sided clamps: on a rectangle
of size `(w, h)`, with `m` the resolved bound, `min-width` leaves the width at
`max(w, m)`, `max-width` at `min(w, m)`, `min-height` leaves the height at
`max(h, m)` and `max-height` at `min(h, m)`; the other axis keeps its value, the
context is unchanged, and the element is not written at all when the bound
already holds. -/
theorem pass1_clamp (ctx : StyleContext) (el : Element) (val : Str)
    (hk : el.kind = .rectangle) :
    (∃ e, pass1 ctx el (lit "min-width") val = .ok (ctx, e) ∧
      e.getSize = ⟨max el.getSize.x (LengthResolver.resolve val ctx.parentSize.x ctx.windowSize),
        el.getSize.y⟩ ∧
      (LengthResolver.resolve val ctx.parentSize.x ctx.windowSize ≤ el.getSize.x → e = el)) ∧
    (∃ e, pass1 ctx el (lit "max-width") val = .ok (ctx, e) ∧
      e.getSize = ⟨min el.getSize.x (LengthResolver.resolve val ctx.parentSize.x ctx.windowSize),
        el.getSize.y⟩ ∧
      (el.getSize.x ≤ LengthResolver.resolve val ctx.parentSize.x ctx.windowSize → e = el)) ∧
    (∃ e, pass1 ctx el (lit "min-height") val = .ok (ctx, e) ∧
      e.getSize = ⟨el.getSize.x,
        max el.getSize.y (LengthResolver.resolve val ctx.parentSize.y ctx.windowSize)⟩ ∧
      (LengthResolver.resolve val ctx.parentSize.y ctx.windowSize ≤ el.getSize.y → e = el)) ∧
    (∃ e, pass1 ctx el (lit "max-height") val = .ok (ctx, e) ∧
      e.getSize = ⟨el.getSize.x,
        min el.getSize.y (LengthResolver.resolve val ctx.parentSize.y ctx.windowSize)⟩ ∧
      (el.getSize.y ≤ LengthResolver.resolve val ctx.parentSize.y ctx.windowSize → e = el)) := by
  refine ⟨⟨_, rfl, ?_, ?_⟩, ⟨_, rfl, ?_, ?_⟩, ⟨_, rfl, ?_, ?_⟩, ⟨_, rfl, ?_, ?_⟩⟩
  · show (if el.getSize.x < resolveH val ctx then _ else el).getSize = _
    unfold resolveH
    split_ifs with h
    · rw [rect_getSize_setSize el hk, max_eq_right (le_of_lt h)]
    · rw [max_eq_left (not_lt.1 h)]
  · intro h
    show (if el.getSize.x < resolveH val ctx then _ else el) = el
    exact if_neg (not_lt.2 h)
  · show (if el.getSize.x > resolveH val ctx then _ else el).getSize = _
    unfold resolveH
    split_ifs with h
    · rw [rect_getSize_setSize el hk, min_eq_right (le_of_lt h)]
    · rw [min_eq_left (not_lt.1 h)]
  · intro h
    show (if el.getSize.x > resolveH val ctx then _ else el) = el
    exact if_neg (not_lt.2 h)
  · show (if el.getSize.y < resolveV val ctx then _ else el).getSize = _
    unfold resolveV
    split_ifs with h
    · rw [rect_getSize_setSize el hk, max_eq_right (le_of_lt h)]
    · rw [max_eq_left (not_lt.1 h)]
  · intro h
    show (if el.getSize.y < resolveV val ctx then _ else el) = el
    exact if_neg (not_lt.2 h)
  · show (if el.getSize.y > resolveV val ctx then _ else el).getSize = _
    unfold resolveV
    split_ifs with h
    · rw [rect_getSize_setSize el hk, min_eq_right (le_of_lt h)]
    · rw [min_eq_left (not_lt.1 h)]
  · intro h
    show (if el.getSize.y > resolveV val ctx then _ else el) = el
    exact if_neg (not_lt.2 h)

/-- Witness of C30: on a `{100,40}` rectangle `min-width: 150px` gives width 150
and `max-width: 150px` writes nothing. -/
theorem pass1_clamp_witness :
    (∃ e, pass1 (Scenario.viewportContext 1280 720) (Scenario.rect 100 40) (lit "min-width")
        (lit "150px") = .ok (Scenario.viewportContext 1280 720, e) ∧
      e.getSize = ⟨max (Scenario.rect 100 40).getSize.x
        (LengthResolver.resolve (lit "150px") (Scenario.viewportContext 1280 720).parentSize.x
          (Scenario.viewportContext 1280 720).windowSize), (Scenario.rect 100 40).getSize.y⟩ ∧
      (LengthResolver.resolve (lit "150px") (Scenario.viewportContext 1280 720).parentSize.x
          (Scenario.viewportContext 1280 720).windowSize ≤ (Scenario.rect 100 40).getSize.x →
        e = Scenario.rect 100 40)) ∧
    max (Scenario.rect 100 40).getSize.x
        (LengthResolver.resolve (lit "150px") (Scenario.viewportContext 1280 720).parentSize.x
          (Scenario.viewportContext 1280 720).windowSize) = 150 ∧
    pass1 (Scenario.viewportContext 1280 720) (Scenario.rect 100 40) (lit "max-width")
        (lit "150px") = .ok (Scenario.viewportContext 1280 720, Scenario.rect 100 40) :=
  ⟨(pass1_clamp (Scenario.viewportContext 1280 720) (Scenario.rect 100 40) (lit "150px") rfl).1,
    by decide!, by decide!⟩

end PropertyDispatcher

/-! ## Layout without flex -/

namespace FlexLayout

theorem offsetChildren_other (origin : Vec2) (hs : List Handle) (k : Handle) (sc : Scene)
    (hk : k ∉ hs) : offsetChildren origin hs sc k = sc k := by
  induction hs generalizing sc with
  | nil => rfl
  | cons h t ih =>
      rw [offsetChildren, ih _ (fun hm => hk (List.mem_cons_of_mem _ hm))]
      exact Function.update_noteq (fun e : k = h => hk (e ▸ List.mem_cons_self _ _)) _ _

theorem offsetChildren_mem (origin : Vec2) (hs : List Handle) (k : Handle) (sc : Scene)
    (hnd : hs.Nodup) (hk : k ∈ hs) :
    offsetChildren origin hs sc k =
      (sc k).setPosition ⟨origin.x + (sc k).getPosition.x, origin.y + (sc k).getPosition.y⟩ := by
  induction hs generalizing sc with
  | nil => cases hk
  | cons h t ih =>
      obtain ⟨hnot, hnd2⟩ := List.nodup_cons.1 hnd
      rw [offsetChildren]
      by_cases e : k = h
      · subst e
        rw [offsetChildren_other _ _ _ _ hnot, Function.update_same]
      · have hkt : k ∈ t := by
          rcases List.mem_cons.1 hk with h1 | h1
          · exact absurd h1 e
          · exact h1
        rw [ih _ hnd2 hkt, Function.update_noteq e]

/-- C25. `FlexLayout::apply` does nothing for an empty child list. When flex is
not enabled, for every list of distinct children it moves each child from its
position `p` to the parent position plus `(paddingLeft, paddingTop)` plus `p`,
changes nothing else of the child, no size and no other element, and the result
is the same for every context with the same parent, left and top padding,
whatever its direction, gap, justify, align and right and bottom paddings. -/
theorem apply_without_flex (ctx : StyleContext) (children : List Handle) (sc : Scene) :
    apply ctx [] sc = sc ∧
    (ctx.flex.enabled = false → children.Nodup →
      (∀ k ∈ children, apply ctx children sc k =
        (sc k).setPosition
          ⟨(sc ctx.self).getPosition.x + ctx.box.paddingLeft + (sc k).getPosition.x,
           (sc ctx.self).getPosition.y + ctx.box.paddingTop + (sc k).getPosition.y⟩) ∧
      (∀ k, k ∉ children → apply ctx children sc k = sc k) ∧
      (∀ k, (apply ctx children sc k).getSize = (sc k).getSize) ∧
      (∀ other : StyleContext, other.flex.enabled = false → other.self = ctx.self →
        other.box.paddingLeft = ctx.box.paddingLeft → other.box.paddingTop = ctx.box.paddingTop →
        apply other children sc = apply ctx children sc)) := by
  refine ⟨rfl, ?_⟩
  intro hen hnd
  have happ : apply ctx children sc = applyPaddingOffset ctx children sc := by
    unfold apply
    by_cases hc : children = []
    · subst hc
      rfl
    · rw [if_neg hc, hen]
      rfl
  have hmem : ∀ k ∈ children, apply ctx children sc k =
      (sc k).setPosition
        ⟨(sc ctx.self).getPosition.x + ctx.box.paddingLeft + (sc k).getPosition.x,
         (sc ctx.self).getPosition.y + ctx.box.paddingTop + (sc k).getPosition.y⟩ := by
    intro k hk
    rw [happ]
    exact offsetChildren_mem _ children k sc hnd hk
  have hother : ∀ k, k ∉ children → apply ctx children sc k = sc k := by
    intro k hk
    rw [happ]
    exact offsetChildren_other _ children k sc hk
  refine ⟨hmem, hother, ?_, ?_⟩
  · intro k
    by_cases hk : k ∈ children
    · rw [hmem k hk, getSize_setPosition]
    · rw [hother k hk]
  · intro other ho hs hl ht
    have happ2 : apply other children sc = applyPaddingOffset other children sc := by
      unfold apply
      by_cases hc : children = []
      · subst hc
        rfl
      · rw [if_neg hc, ho]
        rfl
    rw [happ, happ2]
    unfold applyPaddingOffset
    rw [hs, hl, ht]

/-- Witness of C25: a parent at `{10,20}` with padding-left 5 and padding-top 3
and two children at `{1,2}` and `{7,0}`; the first child ends at `{16,25}`. -/
theorem apply_without_flex_witness :
    apply { Scenario.viewportContext 1280 720 with box := ⟨3, 15, 9, 5, 0, 0, 0, 0⟩ } [1, 2]
        (fun h => if h = 0 then { Scenario.rect 300 100 with position := ⟨10, 20⟩ }
          else if h = 1 then { Scenario.rect 40 20 with position := ⟨1, 2⟩ }
          else { Scenario.rect 50 20 with position := ⟨7, 0⟩ }) 1 =
      { Scenario.rect 40 20 with position := ⟨16, 25⟩ } :=
  (((apply_without_flex
      { Scenario.viewportContext 1280 720 with box := ⟨3, 15, 9, 5, 0, 0, 0, 0⟩ } [1, 2]
      (fun h => if h = 0 then { Scenario.rect 300 100 with position := ⟨10, 20⟩ }
        else if h = 1 then { Scenario.rect 40 20 with position := ⟨1, 2⟩ }
        else { Scenario.rect 50 20 with position := ⟨7, 0⟩ })).2 rfl (by decide)).1 1
    (by decide)).trans (by decide!)

end FlexLayout

/-! ## Order of the positional declarations, and the deferred state -/

namespace PropertyDispatcher

theorem pass2_eq_setPosition (ctx : StyleContext) (el : Element) (prop val : Str) :
    pass2 ctx el prop val = el.setPosition (pass2 ctx el prop val).getPosition := by
  unfold pass2
  split_ifs <;> rfl

/-- Pass 2 changes nothing of the element but its position. -/
theorem runPass2_eq_setPosition (ctx : StyleContext) (ds : List Declaration) (el : Element) :
    runPass2 ctx ds el = el.setPosition (runPass2 ctx ds el).getPosition := by
  induction ds generalizing el with
  | nil => rfl
  | cons d ds ih =>
      show runPass2 ctx ds (pass2 ctx el d.property d.value) =
        el.setPosition (runPass2 ctx ds (pass2 ctx el d.property d.value)).getPosition
      rw [ih (pass2 ctx el d.property d.value)]
      generalize (runPass2 ctx ds (pass2 ctx el d.property d.value)).getPosition = p
      rw [pass2_eq_setPosition]
      rfl

theorem runPass2_center (ctx : StyleContext) (pre post : List Declaration) (el : Element)
    (hpost : ∀ d ∈ post, d.property ∉ positional) :
    runPass2 ctx (pre ++ ⟨lit "position", lit "center"⟩ :: post) el =
      el.setPosition ⟨(refOrigin ctx).x + ((refSize ctx).x - el.getSize.x) / 2,
        (refOrigin ctx).y + ((refSize ctx).y - el.getSize.y) / 2⟩ := by
  rw [runPass2_append]
  show runPass2 ctx post (pass2 ctx (runPass2 ctx pre el) (lit "position") (lit "center")) = _
  rw [runPass2_of_not_positional ctx post _ hpost]
  have e : pass2 ctx (runPass2 ctx pre el) (lit "position") (lit "center") =
      (runPass2 ctx pre el).setPosition
        ⟨(refOrigin ctx).x + ((refSize ctx).x - (runPass2 ctx pre el).getSize.x) / 2,
          (refOrigin ctx).y + ((refSize ctx).y - (runPass2 ctx pre el).getSize.y) / 2⟩ := rfl
  rw [e, runPass2_getSize, runPass2_eq_setPosition ctx pre el]
  rfl

theorem runPass2_center_left (ctx : StyleContext) (pre mid post : List Declaration)
    (v : Str) (el : Element) (hmid : ∀ d ∈ mid, d.property ∉ positional)
    (hpost : ∀ d ∈ post, d.property ∉ positional) :
    runPass2 ctx (pre ++ ⟨lit "position", lit "center"⟩ :: (mid ++ ⟨lit "left", v⟩ :: post)) el =
      el.setPosition
        ⟨(refOrigin ctx).x + LengthResolver.resolve v (refSize ctx).x ctx.windowSize
          + ctx.box.marginLeft,
         (refOrigin ctx).y + ((refSize ctx).y - el.getSize.y) / 2⟩ := by
  have h1 : pre ++ ⟨lit "position", lit "center"⟩ :: (mid ++ ⟨lit "left", v⟩ :: post) =
      (pre ++ ⟨lit "position", lit "center"⟩ :: mid) ++ ⟨lit "left", v⟩ :: post := by simp
  rw [h1, runPass2_append, runPass2_center ctx pre mid el hmid]
  show runPass2 ctx post (pass2 ctx _ (lit "left") v) = _
  rw [runPass2_of_not_positional ctx post _ hpost]
  rfl

/-- C26 (as amended). Between `position: center` and the offset declarations the
last one applied in declaration order wins per axis, when pass 1 succeeds and
leaves no deferred percentage translation: if `position: center` comes after
all other positional declarations the element ends at the centred position on
both axes; if `left: v` comes after `position: center`, with no other positional
declaration after the centring, the final x is `referenceOrigin.x + resolve(v) +
marginLeft` and y stays centred. -/
theorem center_order (ctx : StyleContext) (el : Element) (pre mid post : List Declaration)
    (v : Str) (hmid : ∀ d ∈ mid, d.property ∉ positional)
    (hpost : ∀ d ∈ post, d.property ∉ positional) :
    (∀ r : Styled, runPass1 (pre ++ ⟨lit "position", lit "center"⟩ :: post) ctx el = .ok r →
      r.1.deferredTranslateXPct = none → r.1.deferredTranslateYPct = none →
      apply ctx el (pre ++ ⟨lit "position", lit "center"⟩ :: post) =
        .ok (r.1, r.2.setPosition
          ⟨(refOrigin r.1).x + ((refSize r.1).x - r.2.getSize.x) / 2,
           (refOrigin r.1).y + ((refSize r.1).y - r.2.getSize.y) / 2⟩)) ∧
    (∀ r : Styled,
      runPass1 (pre ++ ⟨lit "position", lit "center"⟩ :: (mid ++ ⟨lit "left", v⟩ :: post)) ctx el
        = .ok r →
      r.1.deferredTranslateXPct = none → r.1.deferredTranslateYPct = none →
      apply ctx el (pre ++ ⟨lit "position", lit "center"⟩ :: (mid ++ ⟨lit "left", v⟩ :: post)) =
        .ok (r.1, r.2.setPosition
          ⟨(refOrigin r.1).x + LengthResolver.resolve v (refSize r.1).x r.1.windowSize
            + r.1.box.marginLeft,
           (refOrigin r.1).y + ((refSize r.1).y - r.2.getSize.y) / 2⟩)) := by
  constructor
  · intro r hrun hx hy
    unfold apply
    rw [hrun]
    simp only
    rw [flush_of_none r.1 _ hx hy, runPass2_center r.1 pre post r.2 hpost]
  · intro r hrun hx hy
    unfold apply
    rw [hrun]
    simp only
    rw [flush_of_none r.1 _ hx hy, runPass2_center_left r.1 pre mid post v r.2 hmid hpost]

/-- Witness of C26: a `{200,100}` element in a window `{1000,800}`; with
`position: center` last it ends at `{400,350}`, with `left: 10px` after the
centring at `{10,350}`. -/
theorem center_order_witness :
    apply (Scenario.viewportContext 1000 800) (Scenario.rect 200 100)
        ([Scenario.decl "left" "10px", Scenario.decl "top" "20px"] ++
          Scenario.decl "position" "center" :: [Scenario.decl "opacity" "1"]) =
      .ok ({ Scenario.viewportContext 1000 800 with positionMode := .Center },
        { Scenario.rect 200 100 with position := ⟨400, 350⟩ }) ∧
    apply (Scenario.viewportContext 1000 800) (Scenario.rect 200 100)
        ([Scenario.decl "top" "20px"] ++
          Scenario.decl "position" "center" :: ([Scenario.decl "opacity" "1"] ++
            Scenario.decl "left" "10px" :: [Scenario.decl "opacity" "1"])) =
      .ok ({ Scenario.viewportContext 1000 800 with positionMode := .Center },
        { Scenario.rect 200 100 with position := ⟨10, 350⟩ }) :=
  ⟨((center_order (Scenario.viewportContext 1000 800) (Scenario.rect 200 100)
      [Scenario.decl "left" "10px", Scenario.decl "top" "20px"] [] [Scenario.decl "opacity" "1"]
      (lit "10px") (by decide) (by decide)).1
      ({ Scenario.viewportContext 1000 800 with positionMode := .Center }, Scenario.rect 200 100)
      (by decide!) rfl rfl).trans (by decide!),
   ((center_order (Scenario.viewportContext 1000 800) (Scenario.rect 200 100)
      [Scenario.decl "top" "20px"] [Scenario.decl "opacity" "1"] [Scenario.decl "opacity" "1"]
      (lit "10px") (by decide) (by decide)).2
      ({ Scenario.viewportContext 1000 800 with positionMode := .Center }, Scenario.rect 200 100)
      (by decide!) rfl rfl).trans (by decide!)⟩

/-- Counterexample to C26 as stated: with `left: 10px`, `transform:
translateX(50%)` and `position: center` last, on a `{200,100}` element in a window
`{1000,800}`, the final position is `{500,350}`, not the centred `{400,350}`: the
deferred percentage is added after pass 2. -/
theorem center_order_counterexample :
    (apply (Scenario.viewportContext 1000 800) (Scenario.rect 200 100)
        [Scenario.decl "left" "10px", Scenario.decl "transform" "translateX(50%)",
          Scenario.decl "position" "center"]).map (fun r => (r.2.getSize, r.2.getPosition)) =
      .ok (⟨200, 100⟩, ⟨500, 350⟩) ∧
    (⟨500, 350⟩ : Vec2) ≠ ⟨0 + (1000 - 200) / 2, 0 + (800 - 100) / 2⟩ := by
  refine ⟨by decide!, by decide!⟩

end PropertyDispatcher

/-! ## The flex cursor -/

namespace FlexLayout

/-- Without stretching, a child of a list of distinct children is put at the
start cursor advanced by the extent, gap and extra spacing of every child
before it. -/
theorem placeChildren_at (f : Frame) (pre post : List Handle) (k : Handle) (c : ℚ) (sc : Scene)
    (ha : f.align ≠ .Stretch) (hnd : (pre ++ k :: post).Nodup) :
    mainPos f.isColumn (placeChildren f (pre ++ k :: post) c sc k) =
      c + (pre.map (fun h => mainExtent f.isColumn (sc h) + f.gap + f.between)).sum := by
  induction pre generalizing c sc with
  | nil =>
      simp only [List.nil_append, List.map_nil, List.sum_nil, add_zero]
      exact placeChildren_first f k post c sc ha hnd
  | cons h t ih =>
      have hnd2 : (t ++ k :: post).Nodup := (List.nodup_cons.1 hnd).2
      rw [List.cons_append, placeChildren, ih _ _ hnd2, placeChild_cursor f h c sc ha]
      simp only [List.map_cons, List.sum_cons]
      have hsz : ∀ j, mainExtent f.isColumn ((placeChild f h c sc).1 j) =
          mainExtent f.isColumn (sc j) := by
        intro j
        unfold mainExtent
        rw [placeChild_getSize f h j c sc ha]
      simp only [hsz]
      ring

theorem remaining_eq (ctx : StyleContext) (children : List Handle) (sc : Scene)
    (hne : children ≠ []) :
    contentExtent ctx sc - totalMain ctx.flex.column children sc -
        ctx.flex.gap * (((max 0 ((children.length : Int) - 1) : Int)) : ℚ) =
      remaining ctx children sc := by
  have hpos : 0 < children.length := List.length_pos.2 hne
  have hcast : (((max 0 ((children.length : Int) - 1) : Int)) : ℚ) =
      (children.length : ℚ) - 1 := by
    have : (0 : Int) ≤ (children.length : Int) - 1 := by omega
    rw [max_eq_right this]
    push_cast
    ring
  unfold remaining
  rw [hcast, totalMain_eq_sum]

theorem spacing_eq (j : Justify) (n : Nat) (rem : ℚ) (hn : 0 < n) :
    justifyOffset j n rem = (spacing j n rem).1 ∧ justifyBetween j n rem = (spacing j n rem).2 := by
  have hq : (n : ℚ) ≠ 0 := by exact_mod_cast (Nat.pos_iff_ne_zero.1 hn)
  cases j
  · exact ⟨rfl, rfl⟩
  · exact ⟨rfl, rfl⟩
  · exact ⟨rfl, rfl⟩
  · refine ⟨rfl, ?_⟩
    simp only [justifyBetween, spacing]
    by_cases h1 : 1 < n
    · rw [if_pos h1, if_neg (by omega), Nat.cast_sub (by omega)]
      simp
    · rw [if_neg h1, if_pos (by omega)]
  · simp only [justifyOffset, justifyBetween, spacing, if_pos hn, and_true]
    rw [div_div, mul_comm]
  · simp only [justifyOffset, justifyBetween, spacing, if_pos hn]
    push_cast
    exact ⟨rfl, rfl⟩

/-- C23. With flex enabled and an alignment other than `stretch`, the children,
taken distinct, are placed by one running cursor: with `remaining` the main size
of the content box minus the main extents of the children and minus `gap * (n-1)`,
and `(offset, between)` the pair of the justify policy, the first child is at
`contentStart + offset` on the main axis, each next child is at the position of
the child before it plus that child's main extent plus `gap` plus `between`, and
no size changes. -/
theorem flex_cursor (ctx : StyleContext) (children : List Handle) (sc : Scene)
    (hen : ctx.flex.enabled = true) (ha : ctx.flex.align ≠ .Stretch) (hnd : children.Nodup) :
    (∀ first rest, children = first :: rest →
      mainPos ctx.flex.column (apply ctx children sc first) =
        contentStart ctx sc +
          (spacing ctx.flex.justify children.length (remaining ctx children sc)).1) ∧
    (∀ pre a b post, children = pre ++ a :: b :: post →
      mainPos ctx.flex.column (apply ctx children sc b) =
        mainPos ctx.flex.column (apply ctx children sc a) +
          mainExtent ctx.flex.column (apply ctx children sc a) + ctx.flex.gap +
          (spacing ctx.flex.justify children.length (remaining ctx children sc)).2) ∧
    (∀ k, (apply ctx children sc k).getSize = (sc k).getSize) := by
  by_cases hne : children = []
  · subst hne
    refine ⟨?_, ?_, fun k => rfl⟩
    · intro first rest h
      cases h
    · intro pre a b post h
      exact absurd h (by simp)
  obtain ⟨f, c, hfe, hcol, hgap, halign, hbet, hc⟩ := applyFlex_frame ctx children sc
  have haf : f.align ≠ .Stretch := by rw [halign]; exact ha
  have hsp := spacing_eq ctx.flex.justify children.length (remaining ctx children sc)
    (List.length_pos.2 hne)
  rw [remaining_eq ctx children sc hne] at hbet hc
  rw [hsp.2] at hbet
  rw [hsp.1] at hc
  have happ : apply ctx children sc = placeChildren f children c sc := by
    unfold apply
    rw [if_neg hne, if_pos hen, hfe]
  have hsize : ∀ k, (apply ctx children sc k).getSize = (sc k).getSize := by
    intro k
    rw [happ]
    exact placeChildren_getSize f children k c sc haf
  refine ⟨?_, ?_, hsize⟩
  · intro first rest h
    subst h
    rw [happ, ← hcol, placeChildren_first f first rest c sc haf hnd, hc]
  · intro pre a b post h
    have hb : children = (pre ++ [a]) ++ b :: post := by rw [h]; simp
    have hx : mainExtent ctx.flex.column (apply ctx children sc a) =
        mainExtent ctx.flex.column (sc a) := by
      unfold mainExtent
      rw [hsize a]
    rw [hx, happ, ← hcol]
    have h1 := placeChildren_at f pre (b :: post) a c sc haf (h ▸ hnd)
    have h2 := placeChildren_at f (pre ++ [a]) post b c sc haf (hb ▸ hnd)
    rw [← h] at h1
    rw [← hb] at h2
    rw [h1, h2, ← hbet, ← hgap]
    simp only [List.map_append, List.map_cons, List.map_nil, List.sum_append, List.sum_cons,
      List.sum_nil]
    ring

/-- Witness of C23: a `{300,100}` parent at `{10,20}` with padding-left 5 and
padding-right 15, gap 7, `space-around`, and three children of widths 40, 50, 60
in a row: the free space is 116, the first child starts at `15 + 116/6` and the
second one `40 + 7 + 116/3` further. -/
theorem flex_cursor_witness :
    mainPos false (apply
        { Scenario.viewportContext 1280 720 with
            box := ⟨0, 15, 0, 5, 0, 0, 0, 0⟩
            flex := ⟨true, false, 7, .SpaceAround, .Center⟩ }
        [1, 2, 3]
        (fun h => if h = 0 then { Scenario.rect 300 100 with position := ⟨10, 20⟩ }
          else Scenario.rect (30 + 10 * h) 20) 1) = 15 + 116 / 6 ∧
    mainPos false (apply
        { Scenario.viewportContext 1280 720 with
            box := ⟨0, 15, 0, 5, 0, 0, 0, 0⟩
            flex := ⟨true, false, 7, .SpaceAround, .Center⟩ }
        [1, 2, 3]
        (fun h => if h = 0 then { Scenario.rect 300 100 with position := ⟨10, 20⟩ }
          else Scenario.rect (30 + 10 * h) 20) 2) = 15 + 116 / 6 + 40 + 7 + 116 / 3 :=
  ⟨((flex_cursor
      { Scenario.viewportContext 1280 720 with
          box := ⟨0, 15, 0, 5, 0, 0, 0, 0⟩
          flex := ⟨true, false, 7, .SpaceAround, .Center⟩ }
      [1, 2, 3]
      (fun h => if h = 0 then { Scenario.rect 300 100 with position := ⟨10, 20⟩ }
        else Scenario.rect (30 + 10 * h) 20) rfl (by decide) (by decide)).1 1 [2, 3] rfl).trans
      (by decide!),
   ((flex_cursor
      { Scenario.viewportContext 1280 720 with
          box := ⟨0, 15, 0, 5, 0, 0, 0, 0⟩
          flex := ⟨true, false, 7, .SpaceAround, .Center⟩ }
      [1, 2, 3]
      (fun h => if h = 0 then { Scenario.rect 300 100 with position := ⟨10, 20⟩ }
        else Scenario.rect (30 + 10 * h) 20) rfl (by decide) (by decide)).2.1 [] 1 2 [3]
      rfl).trans (by decide!)⟩

end FlexLayout

/-! ## Cross-axis alignment -/

namespace FlexLayout

theorem kind_setPosition (e : Element) (p : Vec2) : (e.setPosition p).kind = e.kind := rfl

theorem kind_setSize (e : Element) (sz : Vec2) : (e.setSize sz).kind = e.kind := by
  unfold Element.setSize
  cases h : e.kind <;> simp only [] <;> (try split_ifs) <;> (try exact h) <;> rfl

theorem placeChild_apart (f : Frame) (h k : Handle) (c : ℚ) (sc : Scene) (hk : k ≠ h) :
    (placeChild f h c sc).1 k = sc k := by
  unfold placeChild
  cases hal : f.align <;> cases hc : f.isColumn <;> simp_all [Function.update]

/-- The element a placement leaves behind the placed handle. -/
theorem placeChild_self (f : Frame) (h : Handle) (c : ℚ) (sc : Scene) :
    ∃ e : Element, (placeChild f h c sc).1 h = e ∧
      crossPos f.isColumn e = crossTarget f (sc h).getSize ∧
      (f.align ≠ .Stretch → e.getSize = (sc h).getSize) ∧
      (f.align = .Stretch → e.getSize = (((sc h).setSize (sizeTarget f (sc h).getSize))).getSize) ∧
      e.kind = (sc h).kind := by
  refine ⟨_, rfl, ?_, ?_, ?_, ?_⟩
  · unfold placeChild crossPos crossTarget
    cases hal : f.align <;> cases hc : f.isColumn <;>
      simp [Function.update, Element.getPosition, Element.setPosition]
  · intro ha
    unfold placeChild
    cases hal : f.align <;> cases hc : f.isColumn <;>
      simp_all [Function.update, getSize_setPosition]
  · intro ha
    unfold placeChild sizeTarget
    cases hc : f.isColumn <;> simp [ha, Function.update, getSize_setPosition]
  · unfold placeChild
    cases hal : f.align <;> cases hc : f.isColumn <;>
      simp [Function.update, kind_setPosition, kind_setSize]

theorem crossTarget_sizeTarget (f : Frame) (sz : Vec2) :
    crossTarget f (sizeTarget f sz) = crossTarget f sz := by
  unfold crossTarget sizeTarget
  cases f.align <;> rfl

theorem sizeTarget_sizeTarget (f : Frame) (sz : Vec2) :
    sizeTarget f (sizeTarget f sz) = sizeTarget f sz := by
  unfold sizeTarget
  cases f.align <;> simp only []
  cases f.isColumn <;> rfl

theorem sizeTarget_of_not_stretch (f : Frame) (sz : Vec2) (ha : f.align ≠ .Stretch) :
    sizeTarget f sz = sz := by
  unfold sizeTarget
  cases hal : f.align <;> simp_all

/-- The size of the placed element is the target size of the element before. -/
theorem placeChild_size (f : Frame) (h : Handle) (c : ℚ) (sc : Scene) (s0 : Vec2)
    (hr : CrossReady f s0 (sc h)) :
    ((placeChild f h c sc).1 h).getSize = sizeTarget f s0 := by
  obtain ⟨e, he, _, h2, h3, _⟩ := placeChild_self f h c sc
  rw [he]
  by_cases ha : f.align = .Stretch
  · rw [h3 ha, PropertyDispatcher.rect_getSize_setSize _ (hr.2.2 ha), hr.2.1]
  · have h4 := hr.2.1
    rw [sizeTarget_of_not_stretch f _ ha] at h4
    rw [h2 ha]
    exact h4

theorem placeChild_ready (f : Frame) (h k : Handle) (c : ℚ) (sc : Scene) (s0 : Vec2)
    (hr : CrossReady f s0 (sc k)) : CrossReady f s0 ((placeChild f h c sc).1 k) := by
  by_cases hk : k = h
  · subst hk
    have hs := placeChild_size f k c sc s0 hr
    obtain ⟨e, he, _, _, _, h4⟩ := placeChild_self f k c sc
    refine ⟨?_, ?_, ?_⟩
    · rw [hs, crossTarget_sizeTarget]
    · rw [hs, sizeTarget_sizeTarget]
    · intro ha
      rw [he, h4]
      exact hr.2.2 ha
  · rw [placeChild_apart f h k c sc hk]
    exact hr

theorem placeChild_placed (f : Frame) (k : Handle) (c : ℚ) (sc : Scene) (s0 : Vec2)
    (hr : CrossReady f s0 (sc k)) : CrossPlaced f s0 ((placeChild f k c sc).1 k) := by
  refine ⟨?_, placeChild_size f k c sc s0 hr⟩
  obtain ⟨e, he, h1, _, _, _⟩ := placeChild_self f k c sc
  rw [he, h1, hr.1]

theorem placeChildren_keeps_placed (f : Frame) (hs : List Handle) (k : Handle) (c : ℚ)
    (sc : Scene) (s0 : Vec2) (hr : CrossReady f s0 (sc k)) (hp : CrossPlaced f s0 (sc k)) :
    CrossPlaced f s0 (placeChildren f hs c sc k) := by
  induction hs generalizing c sc with
  | nil => exact hp
  | cons h t ih =>
      rw [placeChildren]
      apply ih _ _ (placeChild_ready f h k c sc s0 hr)
      by_cases hk : k = h
      · subst hk
        exact placeChild_placed f k c sc s0 hr
      · rw [placeChild_apart f h k c sc hk]
        exact hp

/-- Every child of the list ends placed on the cross axis, also a child that
stands in the list more than once. -/
theorem placeChildren_placed (f : Frame) (hs : List Handle) (k : Handle) (c : ℚ) (sc : Scene)
    (s0 : Vec2) (hr : CrossReady f s0 (sc k)) (hk : k ∈ hs) :
    CrossPlaced f s0 (placeChildren f hs c sc k) := by
  induction hs generalizing c sc with
  | nil => cases hk
  | cons h t ih =>
      rw [placeChildren]
      by_cases e : k = h
      · subst e
        exact placeChildren_keeps_placed f t k _ _ s0 (placeChild_ready f k k c sc s0 hr)
          (placeChild_placed f k c sc s0 hr)
      · have hkt : k ∈ t := by
          rcases List.mem_cons.1 hk with h1 | h1
          · exact absurd h1 e
          · exact h1
        exact ih _ _ (placeChild_ready f h k c sc s0 hr) hkt

/-- The frame of `applyFlex` in the words of the content box. -/
theorem applyFlex_cross (ctx : StyleContext) (children : List Handle) (sc : Scene) :
    ∃ (f : Frame) (c : ℚ), applyFlex ctx children sc = placeChildren f children c sc ∧
      f.isColumn = ctx.flex.column ∧ f.align = ctx.flex.align ∧
      (if f.isColumn then f.innerX else f.innerY) = crossStart ctx sc ∧
      (if f.isColumn then f.innerW else f.innerH) = crossAvail ctx sc := by
  refine ⟨_, _, rfl, rfl, rfl, ?_, ?_⟩
  · simp only [crossStart, crossPos, Element.getPosition]
    split_ifs <;> rfl
  · simp only [crossAvail]

/-- C24. With flex enabled, the cross-axis position of each child depends only
on that child and the content box: `Start` gives the near edge of the content
box, `End` the near edge plus the cross extent of the content box minus the
cross extent of the child, `Center` the near edge plus half of that difference,
and for these three the size of the child is unchanged; `Stretch`, on a
rectangle, gives the near edge and sets the cross-axis size of the child to the
cross extent of the content box, keeping its main-axis size. -/
theorem flex_cross (ctx : StyleContext) (children : List Handle) (sc : Scene) (k : Handle)
    (hen : ctx.flex.enabled = true) (hk : k ∈ children) :
    (ctx.flex.align = .Start →
      crossPos ctx.flex.column (apply ctx children sc k) = crossStart ctx sc ∧
      (apply ctx children sc k).getSize = (sc k).getSize) ∧
    (ctx.flex.align = .End →
      crossPos ctx.flex.column (apply ctx children sc k) =
        crossStart ctx sc + crossAvail ctx sc - crossExtent ctx.flex.column (sc k) ∧
      (apply ctx children sc k).getSize = (sc k).getSize) ∧
    (ctx.flex.align = .Center →
      crossPos ctx.flex.column (apply ctx children sc k) =
        crossStart ctx sc + (crossAvail ctx sc - crossExtent ctx.flex.column (sc k)) / 2 ∧
      (apply ctx children sc k).getSize = (sc k).getSize) ∧
    (ctx.flex.align = .Stretch → (sc k).kind = .rectangle →
      crossPos ctx.flex.column (apply ctx children sc k) = crossStart ctx sc ∧
      crossExtent ctx.flex.column (apply ctx children sc k) = crossAvail ctx sc ∧
      mainExtent ctx.flex.column (apply ctx children sc k) =
        mainExtent ctx.flex.column (sc k)) := by
  have hne : children ≠ [] := by
    intro e
    rw [e] at hk
    cases hk
  obtain ⟨f, c, hfe, hcol, halign, hstart, havail⟩ := applyFlex_cross ctx children sc
  have happ : apply ctx children sc = placeChildren f children c sc := by
    unfold apply
    rw [if_neg hne, if_pos hen, hfe]
  have key : (ctx.flex.align = .Stretch → (sc k).kind = .rectangle) →
      CrossPlaced f (sc k).getSize (apply ctx children sc k) := by
    intro hrect
    rw [happ]
    exact placeChildren_placed f children k c sc _ ⟨rfl, rfl, fun ha => hrect (halign ▸ ha)⟩ hk
  refine ⟨?_, ?_, ?_, ?_⟩
  · intro ha
    obtain ⟨h1, h2⟩ := key (fun h => by rw [ha] at h; cases h)
    rw [← hcol, h1, h2, ← hstart]
    unfold crossTarget sizeTarget
    rw [halign, ha]
    exact ⟨rfl, rfl⟩
  · intro ha
    obtain ⟨h1, h2⟩ := key (fun h => by rw [ha] at h; cases h)
    rw [← hcol, h1, h2, ← hstart, ← havail]
    unfold crossTarget sizeTarget crossExtent
    rw [halign, ha]
    exact ⟨rfl, rfl⟩
  · intro ha
    obtain ⟨h1, h2⟩ := key (fun h => by rw [ha] at h; cases h)
    rw [← hcol, h1, h2, ← hstart, ← havail]
    unfold crossTarget sizeTarget crossExtent
    rw [halign, ha]
    exact ⟨rfl, rfl⟩
  · intro ha hrect
    obtain ⟨h1, h2⟩ := key (fun _ => hrect)
    unfold crossExtent mainExtent
    rw [← hcol, h1, h2, ← hstart, ← havail]
    unfold crossTarget sizeTarget
    rw [halign, ha]
    cases f.isColumn <;> exact ⟨rfl, rfl, rfl⟩

/-- Witness of C24: a `{300,100}` parent at `{10,20}` with padding-top 4 and
padding-bottom 6, `align-items: center`, and a child of height 20 in a row: the
child is put at `y = 24 + (90 - 20) / 2`. -/
theorem flex_cross_witness :
    crossPos false (apply
        { Scenario.viewportContext 1280 720 with
            box := ⟨4, 15, 6, 5, 0, 0, 0, 0⟩
            flex := ⟨true, false, 7, .Start, .Center⟩ }
        [1, 2]
        (fun h => if h = 0 then { Scenario.rect 300 100 with position := ⟨10, 20⟩ }
          else Scenario.rect (30 + 10 * h) 20) 2) = 24 + (90 - 20) / 2 :=
  (((flex_cross
      { Scenario.viewportContext 1280 720 with
          box := ⟨4, 15, 6, 5, 0, 0, 0, 0⟩
          flex := ⟨true, false, 7, .Start, .Center⟩ }
      [1, 2]
      (fun h => if h = 0 then { Scenario.rect 300 100 with position := ⟨10, 20⟩ }
        else Scenario.rect (30 + 10 * h) 20) 2 rfl (by decide)).2.2.1 rfl).1).trans (by decide!)

end FlexLayout

/-! ## Lemmas on function calls of a transform value -/

/-- What is known of a character that `tolower` sends to a lowercase letter. -/
theorem letter_facts (c t : Char) (h : cstd.tolower c = t)
    (ht : 97 ≤ t.toNat ∧ t.toNat ≤ 122) :
    cstd.isspace c = false ∧ StringUtils.isTrimChar c = false ∧ c ≠ '(' ∧ c ≠ ')' ∧ c ≠ ',' ∧
      c ≠ '%' := by
  cases hu : isUpperAscii c with
  | false =>
      rw [tolower_of_not_upper c hu] at h
      subst h
      rw [← Char.ofNat_toNat c]
      obtain ⟨h1, h2⟩ := ht
      generalize c.toNat = n at h1 h2
      interval_cases n <;> decide
  | true =>
      have hc : 65 ≤ c.toNat ∧ c.toNat ≤ 90 := by
        simpa [isUpperAscii] using hu
      rw [← Char.ofNat_toNat c]
      obtain ⟨h1, h2⟩ := hc
      generalize c.toNat = n at h1 h2
      interval_cases n <;> decide

/-- The characters of a word that `toLower` sends to a word of lowercase letters. -/
theorem word_facts (name w : Str) (h : StringUtils.toLower name = w)
    (hw : ∀ t ∈ w, 97 ≤ t.toNat ∧ t.toNat ≤ 122) :
    ∀ c ∈ name, cstd.isspace c = false ∧ StringUtils.isTrimChar c = false ∧ c ≠ '(' ∧ c ≠ ')' ∧
      c ≠ ',' ∧ c ≠ '%' := by
  intro c hc
  apply letter_facts c (cstd.tolower c) rfl
  apply hw
  rw [← h]
  exact List.mem_map.2 ⟨c, hc, rfl⟩

theorem Decimal.text_chars (L : Decimal) :
    ∀ c ∈ L.text, cstd.isspace c = false ∧ StringUtils.isTrimChar c = false ∧ c ≠ '(' ∧
      c ≠ ')' ∧ c ≠ ',' ∧ c ≠ '%' := by
  have hdig : ∀ e : Fin 10, cstd.isspace (digitChar e) = false ∧
      StringUtils.isTrimChar (digitChar e) = false ∧ digitChar e ≠ '(' ∧ digitChar e ≠ ')' ∧
      digitChar e ≠ ',' ∧ digitChar e ≠ '%' := by decide
  obtain ⟨neg, d, ds, fs⟩ := L
  intro c h1
  simp only [Decimal.text, List.mem_append, List.mem_map, List.mem_cons] at h1
  rcases h1 with h1 | h1 | h1
  · split at h1
    · simp only [List.mem_singleton] at h1
      subst h1
      decide
    · cases h1
  · rcases h1 with ⟨e, _, rfl⟩
    exact hdig e
  · split at h1
    · cases h1
    · simp only [List.mem_cons, List.mem_map] at h1
      rcases h1 with h1 | ⟨e, _, rfl⟩
      · subst h1
        decide
      · exact hdig e

namespace StringUtils

theorem tokenizeLoop_blank (ws rest : Str) (h : ∀ c ∈ ws, cstd.isspace c = true) :
    tokenizeLoop (ws ++ rest) [] = tokenizeLoop rest [] := by
  induction ws with
  | nil => rfl
  | cons c cs ih =>
      rw [List.cons_append, tokenizeLoop, if_pos (h c (List.mem_cons_self _ _)), if_pos rfl]
      exact ih (fun x hx => h x (List.mem_cons_of_mem _ hx))

/-- A token followed by white space is read as one token, a trailing comma
removed. -/
theorem tokenizeLoop_word (t ws rest : Str) (ht : t ≠ [])
    (hs : ∀ c ∈ t, cstd.isspace c = false) (hb : isBlank ws) :
    tokenizeLoop (t ++ (ws ++ rest)) [] = stripComma t :: tokenizeLoop rest [] := by
  rw [tokenizeLoop_token t _ [] hs, List.nil_append]
  obtain ⟨hne, hall⟩ := hb
  cases ws with
  | nil => exact absurd rfl hne
  | cons w ws1 =>
      rw [List.cons_append, tokenizeLoop, if_pos (hall w (List.mem_cons_self _ _)), if_neg ht]
      rw [tokenizeLoop_blank ws1 rest (fun x hx => hall x (List.mem_cons_of_mem _ hx))]

/-- A text without white space is one token. -/
theorem tokenizeLoop_last (t : Str) (ht : t ≠ []) (hs : ∀ c ∈ t, cstd.isspace c = false) :
    tokenizeLoop t [] = [stripComma t] := by
  have h := tokenizeLoop_token t [] [] hs
  rw [List.append_nil, List.nil_append] at h
  rw [h, tokenizeLoop, if_neg ht]

theorem stripComma_keep (t : Str) (h : t.getLast? ≠ some ',') : stripComma t = t := by
  unfold stripComma
  rw [if_neg h]

theorem stripComma_concat (t : Str) : stripComma (t ++ [',']) = t := by
  unfold stripComma
  rw [List.getLast?_concat, if_pos rfl, List.dropLast_concat]

end StringUtils

/-! ## Lengths as arguments -/

namespace LengthResolver

/-- On a literal followed by a unit, `parseAbsolute` gives what `resolve` gives. -/
theorem parseAbsolute_unit (L : Decimal) (u : Str) (hu : StringUtils.toLower u ∈ units) :
    parseAbsolute (L.text ++ u) = parseNumber L.text := by
  have key : ∀ (pre : Str) (x y t : Char) (w : Str), StringUtils.toLower [x, y] = w →
      cstd.tolower y = t → StringUtils.isTrimChar t = false → t ≠ '%' → w ≠ lit "vw" →
      w ≠ lit "vh" →
      parseAbsolute (L.text ++ (pre ++ [x, y])) = resolve (L.text ++ (pre ++ [x, y])) 0 ⟨0, 0⟩ := by
    intro pre x y t w hxy hy ht hp hw hh
    obtain ⟨hyt, hyp⟩ := unit_char_last y t hy ht hp
    rw [resolve_letters_text L 0 ⟨0, 0⟩ pre x y hyp hyt (by rw [hxy]; exact hw)
      (by rw [hxy]; exact hh)]
    unfold parseAbsolute
    have htr : StringUtils.trim (L.text ++ (pre ++ [x, y])) = L.text ++ (pre ++ [x, y]) := by
      have := L.trim_text_append (pre ++ [x]) y hyt
      simpa using this
    rw [htr]
  simp only [units, List.mem_cons, List.mem_singleton, List.not_mem_nil, or_false] at hu
  rcases hu with h | h | h | h | h
  · obtain ⟨a, b, rfl, _, hb⟩ := toLower_two u 'p' 'x' h
    have := key [] a b 'x' _ h hb (by decide) (by decide) (by decide) (by decide)
    rw [List.nil_append] at this
    rw [this]
    exact resolve_two L 0 ⟨0, 0⟩ a b _ 'x' h (by decide) (Or.inl rfl)
  · obtain ⟨a, b, rfl, _, hb⟩ := toLower_two u 'e' 'm' h
    have := key [] a b 'm' _ h hb (by decide) (by decide) (by decide) (by decide)
    rw [List.nil_append] at this
    rw [this]
    exact resolve_two L 0 ⟨0, 0⟩ a b _ 'm' h (by decide) (Or.inr (Or.inl rfl))
  · obtain ⟨a, b, c, rfl, ha, hb, hc⟩ := toLower_three u 'r' 'e' 'm' h
    have hbc : StringUtils.toLower [b, c] = lit "em" := by
      simp only [StringUtils.toLower, List.map_cons, List.map_nil, hb, hc]
      rfl
    have := key [a] b c 'm' _ hbc hc (by decide) (by decide) (by decide) (by decide)
    rw [List.singleton_append] at this
    rw [this]
    exact resolve_rem L 0 ⟨0, 0⟩ a b c ha hb hc
  · obtain ⟨a, b, rfl, _, hb⟩ := toLower_two u 'p' 't' h
    have := key [] a b 't' _ h hb (by decide) (by decide) (by decide) (by decide)
    rw [List.nil_append] at this
    rw [this]
    exact resolve_two L 0 ⟨0, 0⟩ a b _ 't' h (by decide) (Or.inr (Or.inr (Or.inl rfl)))
  · obtain ⟨a, b, rfl, _, hb⟩ := toLower_two u 'd' 'p' h
    have := key [] a b 'p' _ h hb (by decide) (by decide) (by decide) (by decide)
    rw [List.nil_append] at this
    rw [this]
    exact resolve_two L 0 ⟨0, 0⟩ a b _ 'p' h (by decide) (Or.inr (Or.inr (Or.inr rfl)))

end LengthResolver

namespace Length

theorem units_letters : ∀ w ∈ LengthResolver.units, w ≠ [] ∧
    ∀ t ∈ w, 97 ≤ t.toNat ∧ t.toNat ≤ 122 := by decide

theorem unit_ne_nil (l : Length) (h : l.Valid) : l.unit ≠ [] := by
  rcases h with h | h
  · rw [h]
    decide
  · intro e
    rw [e] at h
    exact absurd h (by decide)

/-- The characters of a length: no white space, parenthesis or comma. -/
theorem chars_of_text (l : Length) (h : l.Valid) :
    ∀ c ∈ l.text, cstd.isspace c = false ∧ StringUtils.isTrimChar c = false ∧ c ≠ '(' ∧
      c ≠ ')' ∧ c ≠ ',' := by
  intro c hc
  rcases List.mem_append.1 hc with h1 | h1
  · obtain ⟨a, b, c1, d, e, _⟩ := l.number.text_chars c h1
    exact ⟨a, b, c1, d, e⟩
  · rcases h with h | h
    · rw [h] at h1
      simp only [lit, String.toList, List.mem_singleton] at h1
      have h2 : c = '%' := by simpa using h1
      subst h2
      decide
    · obtain ⟨a, b, c1, d, e, _⟩ :=
        word_facts l.unit _ rfl (units_letters _ h).2 c h1
      exact ⟨a, b, c1, d, e⟩

theorem text_ne_nil (l : Length) : l.text ≠ [] := by
  unfold text
  exact (l.number.text_append_ne l.unit).1

/-- The last character of a length is the last character of its unit. -/
theorem last_of_text (l : Length) (h : l.Valid) :
    l.text.getLast? = l.unit.getLast? ∧ l.text.getLast? ≠ some ',' ∧
      ∀ c, l.text.getLast? = some c → StringUtils.isTrimChar c = false := by
  have h1 : l.text.getLast? = l.unit.getLast? := by
    unfold text
    exact List.getLast?_append_of_ne_nil _ (l.unit_ne_nil h)
  have hm : ∀ c, l.text.getLast? = some c → c ∈ l.text := by
    intro c hc
    exact List.mem_of_getLast?_eq_some hc
  refine ⟨h1, ?_, ?_⟩
  · intro e
    exact (l.chars_of_text h _ (hm _ e)).2.2.2.2 rfl
  · intro c hc
    exact (l.chars_of_text h _ (hm _ hc)).2.1

/-- The component `translate` computes from the text of a length whose number is
in the range of `float`. -/
theorem component (l : Length) (h : l.Valid) (hr : l.number.InRange) (extent : ℚ) :
    (if l.text.getLast? = some '%' then
        match cstd.stof l.text with
        | .ok v => Except.ok (extent * v / 100)
        | .error e => Except.error e
      else Except.ok (LengthResolver.parseAbsolute l.text)) = Except.ok (l.value extent) := by
  rcases h with h | h
  · have ht : l.text = l.number.text ++ ['%'] := by
      unfold text
      rw [h]
      rfl
    have hs := stof_text l.number ['%'] (by intro c hc; cases hc; decide) hr
    rw [ht, List.getLast?_concat, if_pos rfl, hs]
    unfold value
    rw [if_pos h]
  · have hne : l.unit ≠ lit "%" := by
      intro e
      rw [e] at h
      exact absurd h (by decide)
    have hl : ¬ l.text.getLast? = some '%' := by
      intro e
      have hm : '%' ∈ l.unit := by
        rw [(l.last_of_text (Or.inr h)).1] at e
        exact List.mem_of_getLast?_eq_some e
      exact (word_facts l.unit _ rfl (units_letters _ h).2 '%' hm).2.2.2.2.2 rfl
    rw [if_neg hl]
    unfold value text
    rw [if_neg hne, LengthResolver.parseAbsolute_unit _ _ h, parseNumber_text _ hr]

end Length

/-! ## The translate function on two arguments -/

namespace TransformParser

/-- A function name in any letter case has no parenthesis and is read as its
lowercase form. -/
theorem name_facts (n w : Str) (h : StringUtils.toLower n = w)
    (hw : ∀ t ∈ w, 97 ≤ t.toNat ∧ t.toNat ≤ 122) :
    (∀ c ∈ n, c ≠ '(') ∧ StringUtils.toLower (StringUtils.trim n) = w := by
  have hf := word_facts n w h hw
  refine ⟨fun c hc => (hf c hc).2.2.1, ?_⟩
  rw [trim_of_ends n (fun c hc => (hf c (List.mem_of_mem_head? hc)).2.1)
    (fun c hc => (hf c (List.mem_of_getLast?_eq_some hc)).2.1), h]

theorem blank_chars (ws : Str) (h : isBlank ws) : ∀ c ∈ ws, c ≠ ')' := by
  intro c hc e
  have := h.2 c hc
  rw [e] at this
  exact absurd this (by decide)

/-- The function `translate` on two tokens that are lengths. -/
theorem applyFunction_translate (ctx : StyleContext) (el : Element) (x y : Length)
    (hx : x.Valid) (hy : y.Valid) (hxr : x.number.InRange) (hyr : y.number.InRange)
    (arg : Str) (rest : List Str)
    (htok : StringUtils.tokenize arg = x.text :: y.text :: rest) :
    applyFunction ctx el (lit "translate") arg =
      .ok (ctx, el.move ⟨x.value el.getSize.x, y.value el.getSize.y⟩) := by
  unfold applyFunction
  rw [if_neg (by decide), if_neg (by decide), if_pos rfl, htok]
  simp only [if_neg x.text_ne_nil, if_neg y.text_ne_nil]
  rw [x.component hx hxr el.getSize.x, y.component hy hyr el.getSize.y]

theorem not_trim_of_not_space (c : Char) (h : cstd.isspace c = false) :
    StringUtils.isTrimChar c = false := by
  cases ht : StringUtils.isTrimChar c with
  | false => rfl
  | true =>
      have hs : cstd.isspace c = true := by
        simp only [StringUtils.isTrimChar, Bool.or_eq_true, decide_eq_true_eq] at ht
        rcases ht with ((e | e) | e) | e <;> subst e <;> decide
      rw [hs] at h
      cases h

/-- The tokens of two arguments in the three spellings of the comma between
them: followed by white space, bare, and with white space on both sides. -/
theorem pair_tokens (a b ws : Str) (ha : a ≠ []) (hb : b ≠ [])
    (has : ∀ c ∈ a, cstd.isspace c = false) (hbs : ∀ c ∈ b, cstd.isspace c = false)
    (hal : a.getLast? ≠ some ',') (hbl : b.getLast? ≠ some ',') (hws : isBlank ws) :
    (StringUtils.tokenize (StringUtils.trim (a ++ ',' :: (ws ++ b))) = [a, b]) ∧
    (StringUtils.tokenize (StringUtils.trim (a ++ ',' :: b)) = [a ++ ',' :: b]) ∧
    (StringUtils.tokenize (StringUtils.trim (a ++ (ws ++ ',' :: (ws ++ b)))) = [a, [], b]) := by
  have hlast : ∀ (p : Str) c, (p ++ b).getLast? = some c →
      StringUtils.isTrimChar c = false := by
    intro p c hc
    rw [List.getLast?_append_of_ne_nil _ hb] at hc
    exact not_trim_of_not_space c (hbs c (List.mem_of_getLast?_eq_some hc))
  have hhead : ∀ (q : Str) c, (a ++ q).head? = some c →
      StringUtils.isTrimChar c = false := by
    intro q c hc
    rw [List.head?_append_of_ne_nil _ ha] at hc
    exact not_trim_of_not_space c (has c (List.mem_of_mem_head? hc))
  have hblast : StringUtils.tokenizeLoop b [] = [b] := by
    rw [StringUtils.tokenizeLoop_last b hb hbs, StringUtils.stripComma_keep _ hbl]
  refine ⟨?_, ?_, ?_⟩
  · rw [trim_of_ends _ (hhead _) (fun c hc => hlast (a ++ ',' :: ws) c (by simpa using hc))]
    unfold StringUtils.tokenize
    have h1 := StringUtils.tokenizeLoop_word (a ++ [',']) ws b (by simp)
      (by
        intro c hc
        rcases List.mem_append.1 hc with h | h
        · exact has c h
        · simp only [List.mem_singleton] at h
          subst h
          decide) hws
    simp only [List.append_assoc, List.singleton_append] at h1
    rw [h1, StringUtils.stripComma_concat, hblast]
  · rw [trim_of_ends _ (hhead _) (fun c hc => hlast (a ++ [',']) c (by simpa using hc))]
    unfold StringUtils.tokenize
    rw [StringUtils.tokenizeLoop_last _ (by simp) (by
      intro c hc
      rcases List.mem_append.1 hc with h | h
      · exact has c h
      · rcases List.mem_cons.1 h with h | h
        · subst h
          decide
        · exact hbs c h)]
    rw [StringUtils.stripComma_keep]
    rw [show a ++ ',' :: b = (a ++ [',']) ++ b by simp, List.getLast?_append_of_ne_nil _ hb]
    exact hbl
  · rw [trim_of_ends _ (hhead _)
      (fun c hc => hlast (a ++ (ws ++ ',' :: ws)) c (by simpa using hc))]
    unfold StringUtils.tokenize
    rw [StringUtils.tokenizeLoop_word a ws _ ha has hws, StringUtils.stripComma_keep _ hal]
    have h2 := StringUtils.tokenizeLoop_word [','] ws b (by simp)
      (by
        intro c hc
        simp only [List.mem_singleton] at hc
        subst hc
        decide) hws
    simp only [List.singleton_append] at h2
    rw [h2, hblast]
    rfl

/-- The argument texts of the three spellings of two lengths, trimmed and
tokenized. -/
theorem translate_tokens (x y : Length) (hx : x.Valid) (hy : y.Valid) (ws : Str)
    (hws : isBlank ws) :
    (StringUtils.tokenize (StringUtils.trim (x.text ++ ',' :: (ws ++ y.text))) =
      [x.text, y.text]) ∧
    (∃ t, StringUtils.tokenize (StringUtils.trim (x.text ++ ',' :: y.text)) = [t]) ∧
    (StringUtils.tokenize (StringUtils.trim (x.text ++ (ws ++ ',' :: (ws ++ y.text)))) =
      [x.text, [], y.text]) := by
  obtain ⟨h1, h2, h3⟩ := pair_tokens x.text y.text ws x.text_ne_nil y.text_ne_nil
    (fun c hc => (x.chars_of_text hx c hc).1) (fun c hc => (y.chars_of_text hy c hc).1)
    (x.last_of_text hx).2.1 (y.last_of_text hy).2.1 hws
  exact ⟨h1, ⟨_, h2⟩, h3⟩

/-- C28, the code on the spellings of `translate(x,y)`, for lengths whose
numbers are decimal literals in the range of `float`. With white space after
the comma the element is displaced at once by both components, each resolved
on its own: an absolute length by its number, a percentage `p%` by
`currentSize * p / 100` on its axis. Without white space after the comma the
argument is one token and the element is not displaced at all; with white
space before the comma the comma is a token of its own, which becomes empty,
and reading its last character is undefined. -/
theorem translate_spellings (ctx : StyleContext) (el : Element) (n : Str) (x y : Length) (ws : Str)
    (hn : StringUtils.toLower n = lit "translate") (hx : x.Valid) (hy : y.Valid)
    (hxr : x.number.InRange) (hyr : y.number.InRange) (hws : isBlank ws) :
    apply ctx el (n ++ '(' :: ((x.text ++ ',' :: (ws ++ y.text)) ++ [')'])) =
      .ok (ctx, el.move ⟨x.value el.getSize.x, y.value el.getSize.y⟩) ∧
    apply ctx el (n ++ '(' :: ((x.text ++ ',' :: y.text) ++ [')'])) = .ok (ctx, el) ∧
    apply ctx el (n ++ '(' :: ((x.text ++ (ws ++ ',' :: (ws ++ y.text))) ++ [')'])) =
      .error .undefinedBehaviour := by
  obtain ⟨hn1, hn2⟩ := name_facts n _ hn (by decide)
  obtain ⟨t1, t2, t3⟩ := translate_tokens x y hx hy ws hws
  have hxc : ∀ c ∈ x.text, c ≠ ')' := fun c hc => (x.chars_of_text hx c hc).2.2.2.1
  have hyc : ∀ c ∈ y.text, c ≠ ')' := fun c hc => (y.chars_of_text hy c hc).2.2.2.1
  have hwc := blank_chars ws hws
  refine ⟨?_, ?_, ?_⟩
  · rw [apply_call ctx el n _ hn1 (by
      intro c hc
      rcases List.mem_append.1 hc with h | h
      · exact hxc c h
      · rcases List.mem_cons.1 h with h | h
        · subst h
          decide
        · rcases List.mem_append.1 h with h | h
          · exact hwc c h
          · exact hyc c h), hn2]
    exact applyFunction_translate ctx el x y hx hy hxr hyr _ [] t1
  · rw [apply_call ctx el n _ hn1 (by
      intro c hc
      rcases List.mem_append.1 hc with h | h
      · exact hxc c h
      · rcases List.mem_cons.1 h with h | h
        · subst h
          decide
        · exact hyc c h), hn2]
    obtain ⟨t, ht⟩ := t2
    unfold applyFunction
    rw [if_neg (by decide), if_neg (by decide), if_pos rfl, ht]
  · rw [apply_call ctx el n _ hn1 (by
      intro c hc
      rcases List.mem_append.1 hc with h | h
      · exact hxc c h
      · rcases List.mem_append.1 h with h | h
        · exact hwc c h
        · rcases List.mem_cons.1 h with h | h
          · subst h
            decide
          · rcases List.mem_append.1 h with h | h
            · exact hwc c h
            · exact hyc c h), hn2]
    unfold applyFunction
    rw [if_neg (by decide), if_neg (by decide), if_pos rfl, t3]
    simp only [if_neg x.text_ne_nil]
    rw [x.component hx hxr el.getSize.x]
    simp only [if_true]

/-- Witness of C28 on a `{200,100}` rectangle: `translate(10px, 50%)` displaces it
by `(10, 50)`, `translate(10px,50%)` does not displace it, and
`translate(10px , 50%)` is undefined. -/
theorem translate_spellings_witness :
    apply (Scenario.viewportContext 1280 720) (Scenario.rect 200 100)
        (lit "translate(10px, 50%)") =
      .ok (Scenario.viewportContext 1280 720, (Scenario.rect 200 100).move ⟨10, 50⟩) ∧
    apply (Scenario.viewportContext 1280 720) (Scenario.rect 200 100)
        (lit "translate(10px,50%)") =
      .ok (Scenario.viewportContext 1280 720, Scenario.rect 200 100) ∧
    apply (Scenario.viewportContext 1280 720) (Scenario.rect 200 100)
        (lit "translate(10px , 50%)") = .error .undefinedBehaviour := by
  have h := translate_spellings (Scenario.viewportContext 1280 720) (Scenario.rect 200 100)
    (lit "translate") ⟨Decimal.ofDigits 1 [0], lit "px"⟩ ⟨Decimal.ofDigits 5 [0], lit "%"⟩
    (lit " ") (by decide) (Or.inr (by decide)) (Or.inl rfl) (by decide!) (by decide!)
    ⟨by decide, by decide⟩
  exact ⟨h.1.trans (by decide!), h.2.1, h.2.2⟩

end TransformParser

/-! ## The scale functions -/

namespace TransformParser

theorem Decimal_token (L : Decimal) (hr : L.InRange) :
    L.text ≠ [] ∧ (∀ c ∈ L.text, cstd.isspace c = false) ∧ (∀ c ∈ L.text, c ≠ ')') ∧
      L.text.getLast? ≠ some ',' ∧ cstd.stof L.text = .ok L.value ∧
      StringUtils.trim L.text = L.text := by
  have hs := stof_text L [] (by intro c hc; cases hc) hr
  rw [List.append_nil] at hs
  refine ⟨?_, fun c hc => (L.text_chars c hc).1, fun c hc => (L.text_chars c hc).2.2.2.1, ?_, hs,
    L.trim_text⟩
  · have := (L.text_append_ne []).1
    rwa [List.append_nil] at this
  · intro e
    exact (L.text_chars _ (List.mem_of_getLast?_eq_some e)).2.2.2.2.1 rfl

/-- C29, the code on the scale functions. For decimal literals `sx` and `sy` in
the range of `float` and function names in any letter case: `scale(sx, sy)`,
with white space after the comma, sets the scale to `(sx, sy)`; `scale(sx)` sets
it to `(sx, sx)`; `scaleX(sx)` sets the x scale and keeps the y scale,
`scaleY(sy)` sets the y scale and keeps the x scale. But `scale(sx,sy)` without
white space after the comma is one token, of which `std::stof` reads `sx`, and
sets the scale to `(sx, sx)`. -/
theorem apply_scale (ctx : StyleContext) (el : Element) (n : Str) (X Y : Decimal) (ws : Str)
    (hX : X.InRange) (hY : Y.InRange) (hws : isBlank ws) :
    (StringUtils.toLower n = lit "scale" →
      apply ctx el (n ++ '(' :: ((X.text ++ ',' :: (ws ++ Y.text)) ++ [')'])) =
        .ok (ctx, el.setScale ⟨X.value, Y.value⟩)) ∧
    (StringUtils.toLower n = lit "scale" →
      apply ctx el (n ++ '(' :: (X.text ++ [')'])) = .ok (ctx, el.setScale ⟨X.value, X.value⟩)) ∧
    (StringUtils.toLower n = lit "scalex" →
      apply ctx el (n ++ '(' :: (X.text ++ [')'])) =
        .ok (ctx, el.setScale ⟨X.value, el.getScale.y⟩)) ∧
    (StringUtils.toLower n = lit "scaley" →
      apply ctx el (n ++ '(' :: (Y.text ++ [')'])) =
        .ok (ctx, el.setScale ⟨el.getScale.x, Y.value⟩)) ∧
    (StringUtils.toLower n = lit "scale" →
      apply ctx el (n ++ '(' :: ((X.text ++ ',' :: Y.text) ++ [')'])) =
        .ok (ctx, el.setScale ⟨X.value, X.value⟩)) := by
  obtain ⟨xne, xs, xc, xl, xv, xt⟩ := Decimal_token X hX
  obtain ⟨yne, ys, yc, yl, yv, yt⟩ := Decimal_token Y hY
  obtain ⟨t1, t2, _⟩ := pair_tokens X.text Y.text ws xne yne xs ys xl yl hws
  have hwc := blank_chars ws hws
  have tx : StringUtils.tokenize X.text = [X.text] := by
    unfold StringUtils.tokenize
    rw [StringUtils.tokenizeLoop_last X.text xne xs, StringUtils.stripComma_keep _ xl]
  refine ⟨?_, ?_, ?_, ?_, ?_⟩
  · intro hn
    obtain ⟨hn1, hn2⟩ := name_facts n _ hn (by decide)
    rw [apply_call ctx el n _ hn1 (by
      intro c hc
      rcases List.mem_append.1 hc with h | h
      · exact xc c h
      · rcases List.mem_cons.1 h with h | h
        · subst h
          decide
        · rcases List.mem_append.1 h with h | h
          · exact hwc c h
          · exact yc c h), hn2]
    unfold applyFunction
    rw [if_neg (by decide), if_neg (by decide), if_neg (by decide), if_neg (by decide),
      if_pos rfl, t1]
    simp only [xv, yv]
  · intro hn
    obtain ⟨hn1, hn2⟩ := name_facts n _ hn (by decide)
    rw [apply_call ctx el n _ hn1 xc, hn2, xt]
    unfold applyFunction
    rw [if_neg (by decide), if_neg (by decide), if_neg (by decide), if_neg (by decide),
      if_pos rfl, tx]
    simp only [xv]
  · intro hn
    obtain ⟨hn1, hn2⟩ := name_facts n _ hn (by decide)
    rw [apply_call ctx el n _ hn1 xc, hn2, xt]
    unfold applyFunction
    rw [if_neg (by decide), if_neg (by decide), if_neg (by decide), if_neg (by decide),
      if_neg (by decide), if_pos rfl, xv]
  · intro hn
    obtain ⟨hn1, hn2⟩ := name_facts n _ hn (by decide)
    rw [apply_call ctx el n _ hn1 yc, hn2, yt]
    unfold applyFunction
    rw [if_neg (by decide), if_neg (by decide), if_neg (by decide), if_neg (by decide),
      if_neg (by decide), if_neg (by decide), if_pos rfl, yv]
  · intro hn
    obtain ⟨hn1, hn2⟩ := name_facts n _ hn (by decide)
    rw [apply_call ctx el n _ hn1 (by
      intro c hc
      rcases List.mem_append.1 hc with h | h
      · exact xc c h
      · rcases List.mem_cons.1 h with h | h
        · subst h
          decide
        · exact yc c h), hn2]
    unfold applyFunction
    rw [if_neg (by decide), if_neg (by decide), if_neg (by decide), if_neg (by decide),
      if_pos rfl, t2]
    have hs := stof_text X (',' :: Y.text) (by intro c hc; cases hc; decide) hX
    simp only [hs]

/-- Witness of C29: `scale(2, 3)` sets `(2, 3)`, `SCALE(2,3)` sets `(2, 2)`. -/
theorem apply_scale_witness :
    apply (Scenario.viewportContext 1280 720) (Scenario.rect 200 100) (lit "scale(2, 3)") =
      .ok (Scenario.viewportContext 1280 720, (Scenario.rect 200 100).setScale ⟨2, 3⟩) ∧
    apply (Scenario.viewportContext 1280 720) (Scenario.rect 200 100) (lit "SCALE(2,3)") =
      .ok (Scenario.viewportContext 1280 720, (Scenario.rect 200 100).setScale ⟨2, 2⟩) ∧
    (⟨2, 2⟩ : Vec2) ≠ ⟨2, 3⟩ :=
  ⟨((apply_scale (Scenario.viewportContext 1280 720) (Scenario.rect 200 100) (lit "scale")
      (Decimal.ofDigits 2 []) (Decimal.ofDigits 3 []) (lit " ") (by decide!) (by decide!)
      ⟨by decide, by decide⟩).1
      (by decide)).trans (by decide!),
   ((apply_scale (Scenario.viewportContext 1280 720) (Scenario.rect 200 100) (lit "SCALE")
      (Decimal.ofDigits 2 []) (Decimal.ofDigits 3 []) (lit " ") (by decide!) (by decide!)
      ⟨by decide, by decide⟩).2.2.2.2
      (by decide)).trans (by decide!),
   by decide⟩

end TransformParser

/-! ## Idempotence of the property normalisation -/

namespace StringUtils

/-- The ends of a trimmed text are not characters that `trim` removes. -/
theorem trim_ends (s : Str) :
    (∀ c, (trim s).head? = some c → isTrimChar c = false) ∧
    (∀ c, (trim s).getLast? = some c → isTrimChar c = false) := by
  constructor
  · intro c hc
    unfold trim at hc
    obtain ⟨t, ht⟩ := List.rdropWhile_prefix isTrimChar (s.dropWhile isTrimChar)
    have hne : (s.dropWhile isTrimChar).rdropWhile isTrimChar ≠ [] := by
      intro e
      rw [e] at hc
      cases hc
    have h1 : (s.dropWhile isTrimChar).head? = some c := by
      rw [← ht, List.head?_append_of_ne_nil _ hne]
      exact hc
    have h2 := List.head?_dropWhile_not isTrimChar s
    rw [h1] at h2
    exact h2
  · intro c hc
    unfold trim at hc
    have hne : (s.dropWhile isTrimChar).rdropWhile isTrimChar ≠ [] := by
      intro e
      rw [e] at hc
      cases hc
    have h1 := List.rdropWhile_last_not isTrimChar (s.dropWhile isTrimChar) hne
    rw [List.getLast?_eq_getLast _ hne] at hc
    cases hc
    simpa using h1

theorem tolower_keeps_not_trim (c : Char) (h : isTrimChar c = false) :
    isTrimChar (cstd.tolower c) = false := by
  cases hu : isUpperAscii c with
  | false => rw [tolower_of_not_upper c hu]; exact h
  | true =>
      have hc : 65 ≤ c.toNat ∧ c.toNat ≤ 90 := by
        simpa [isUpperAscii] using hu
      rw [← Char.ofNat_toNat c]
      obtain ⟨h1, h2⟩ := hc
      generalize c.toNat = n at h1 h2
      interval_cases n <;> decide

theorem toLower_toLower (s : Str) : toLower (toLower s) = toLower s := by
  unfold toLower
  rw [List.map_map]
  apply List.map_congr_left
  intro c _
  exact tolower_of_not_upper _ (tolower_not_upper c)

/-- The lowercase of a trimmed text is a trimmed lowercase text. -/
theorem lower_trim_fixed (p : Str) : toLower (trim (toLower (trim p))) = toLower (trim p) := by
  have he := trim_ends p
  have ht : trim (toLower (trim p)) = toLower (trim p) := by
    apply trim_of_ends
    · intro c hc
      unfold toLower at hc
      rw [List.head?_map] at hc
      cases hh : (trim p).head? with
      | none => rw [hh] at hc; cases hc
      | some d =>
          rw [hh] at hc
          cases hc
          exact tolower_keeps_not_trim d (he.1 d hh)
    · intro c hc
      unfold toLower at hc
      rw [List.getLast?_map] at hc
      cases hh : (trim p).getLast? with
      | none => rw [hh] at hc; cases hc
      | some d =>
          rw [hh] at hc
          cases hc
          exact tolower_keeps_not_trim d (he.2 d hh)
  rw [ht, toLower_toLower]

theorem aliases_fixed : ∀ kv ∈ aliases, normaliseProperty kv.2 = kv.2 := by decide

/-- C39. `normaliseProperty` is idempotent: normalising a normalised property
gives it again, for every text; and the list of the values of the alias table
is mapped to itself. -/
theorem normaliseProperty_idempotent (p : Str) :
    normaliseProperty (normaliseProperty p) = normaliseProperty p ∧
    aliases.map (fun kv => normaliseProperty kv.2) = aliases.map (fun kv => kv.2) := by
  constructor
  · cases hl : aliases.lookup (stripped p) with
    | some v =>
        have hv : normaliseProperty p = v := by
          rw [normaliseProperty_eq, hl]
        rw [hv]
        exact aliases_fixed _ (lookup_mem _ hl)
    | none =>
        have hv : normaliseProperty p = toLower (trim p) := by
          rw [normaliseProperty_eq, hl]
        have hs : stripped (toLower (trim p)) = stripped p := by
          unfold stripped
          rw [lower_trim_fixed]
        rw [hv, normaliseProperty_eq, hs, hl]
        exact lower_trim_fixed p
  · exact List.map_congr_left aliases_fixed

end StringUtils

/-! ## Opacity, unguarded reads and hexadecimal digits -/

namespace PropertyDispatcher

theorem pass1_opacity (ctx : StyleContext) (el : Element) (val : Str) :
    pass1 ctx el (lit "opacity") val =
      match cstd.stof val with
      | .error e => .error e
      | .ok v =>
          match truncToInt (if v ≤ 1 then v * 255 else v) with
          | .error e => .error e
          | .ok i => .ok (ctx, el.setFillColor { el.getFillColor with a := ColorParser.clamp8 i }) :=
  rfl

theorem truncToInt_eq (q : ℚ) :
    truncToInt q = if truncate q < -2147483648 ∨ 2147483647 < truncate q
      then .error .undefinedBehaviour else .ok (truncate q) := by
  have h : (if 0 ≤ q then ⌊q⌋ else -⌊-q⌋) = truncate q := by
    unfold truncate
    split_ifs
    · rfl
    · rw [Int.floor_neg, neg_neg]
  unfold truncToInt
  simp only [h]

/-- C31, the code on `opacity`. For a decimal literal `v` that is a `float`
exactly, whose scaled value `a` (`v * 255` if `v <= 1`, `v` otherwise) is a `float`
exactly as well, so that nothing is rounded: when the truncation of `a` fits the
`int`, `opacity: v` writes only the alpha of the fill colour, which becomes
`clamp(trunc(a), 0, 255)`, while red, green, blue, the outline colour, the rest
of the element and the context are unchanged; when it does not fit, the value is
cast all the same, before the clamp, which is undefined, as for `3000000000`.
A literal too large for a `float` raises `out_of_range`. The values `0.5`,
`1`, `2`, `300` and `-1` give the alphas 127, 255, 2, 255 and 0. -/
theorem opacity_alpha (ctx : StyleContext) (el : Element) (L : Decimal) :
    (L.InRange → cstd.IsFloat L.value → (L.value ≤ 1 → cstd.IsFloat (L.value * 255)) →
      -2147483648 ≤ truncate (if L.value ≤ 1 then L.value * 255 else L.value) →
      truncate (if L.value ≤ 1 then L.value * 255 else L.value) ≤ 2147483647 →
      pass1 ctx el (lit "opacity") L.text =
        .ok (ctx, { el with fillColor := { el.fillColor with a := opacityAlpha L.value } })) ∧
    (L.InRange → cstd.IsFloat L.value → (L.value ≤ 1 → cstd.IsFloat (L.value * 255)) →
      (truncate (if L.value ≤ 1 then L.value * 255 else L.value) < -2147483648 ∨
        2147483647 < truncate (if L.value ≤ 1 then L.value * 255 else L.value)) →
      pass1 ctx el (lit "opacity") L.text = .error .undefinedBehaviour) ∧
    (L.Overflows → pass1 ctx el (lit "opacity") L.text = .error .outOfRange) ∧
    pass1 ctx el (lit "opacity") (lit "0.5") =
      .ok (ctx, { el with fillColor := { el.fillColor with a := 127 } }) ∧
    pass1 ctx el (lit "opacity") (lit "1") =
      .ok (ctx, { el with fillColor := { el.fillColor with a := 255 } }) ∧
    pass1 ctx el (lit "opacity") (lit "2") =
      .ok (ctx, { el with fillColor := { el.fillColor with a := 2 } }) ∧
    pass1 ctx el (lit "opacity") (lit "300") =
      .ok (ctx, { el with fillColor := { el.fillColor with a := 255 } }) ∧
    pass1 ctx el (lit "opacity") (lit "-1") =
      .ok (ctx, { el with fillColor := { el.fillColor with a := 0 } }) ∧
    pass1 ctx el (lit "opacity") (lit "3000000000") = .error .undefinedBehaviour := by
  have hgen : ∀ M : Decimal, M.InRange →
      -2147483648 ≤ truncate (if M.value ≤ 1 then M.value * 255 else M.value) →
      truncate (if M.value ≤ 1 then M.value * 255 else M.value) ≤ 2147483647 →
      pass1 ctx el (lit "opacity") M.text =
        .ok (ctx, { el with fillColor := { el.fillColor with a := opacityAlpha M.value } }) := by
    intro M hr h1 h2
    have hs := stof_text M [] (by intro c hc; cases hc) hr
    rw [List.append_nil] at hs
    rw [pass1_opacity, hs]
    simp only [truncToInt_eq]
    rw [if_neg (by omega)]
    rfl
  have hub : ∀ M : Decimal, M.InRange →
      (truncate (if M.value ≤ 1 then M.value * 255 else M.value) < -2147483648 ∨
        2147483647 < truncate (if M.value ≤ 1 then M.value * 255 else M.value)) →
      pass1 ctx el (lit "opacity") M.text = .error .undefinedBehaviour := by
    intro M hr h
    have hs := stof_text M [] (by intro c hc; cases hc) hr
    rw [List.append_nil] at hs
    rw [pass1_opacity, hs]
    simp only [truncToInt_eq]
    rw [if_pos h]
  refine ⟨fun hr _ _ h1 h2 => hgen L hr h1 h2, fun hr _ _ h => hub L hr h, ?_, ?_, ?_, ?_, ?_,
    ?_, ?_⟩
  · intro hr
    have hs := stof_text_out L [] (by intro c hc; cases hc) (L.not_inRange_of_overflows hr)
    rw [List.append_nil] at hs
    rw [pass1_opacity, hs]
  · have h := hgen ⟨false, 0, [], [5]⟩ (by decide!) (by decide!) (by decide!)
    have ha : opacityAlpha (⟨false, 0, [], [5]⟩ : Decimal).value = 127 := by decide!
    rw [ha] at h
    exact h
  · have h := hgen (Decimal.ofDigits 1 []) (by decide!) (by decide!) (by decide!)
    have ha : opacityAlpha (Decimal.ofDigits 1 []).value = 255 := by decide!
    rw [ha] at h
    exact h
  · have h := hgen (Decimal.ofDigits 2 []) (by decide!) (by decide!) (by decide!)
    have ha : opacityAlpha (Decimal.ofDigits 2 []).value = 2 := by decide!
    rw [ha] at h
    exact h
  · have h := hgen (Decimal.ofDigits 3 [0, 0]) (by decide!) (by decide!) (by decide!)
    have ha : opacityAlpha (Decimal.ofDigits 3 [0, 0]).value = 255 := by decide!
    rw [ha] at h
    exact h
  · have h := hgen ⟨true, 1, [], []⟩ (by decide!) (by decide!) (by decide!)
    have ha : opacityAlpha (⟨true, 1, [], []⟩ : Decimal).value = 0 := by decide!
    rw [ha] at h
    exact h
  · exact hub (Decimal.ofDigits 3 [0, 0, 0, 0, 0, 0, 0, 0, 0]) (by decide!)
      (Or.inr (by decide!))

/-- Witness of C31: the literal `0.5` is the `float` `1 * 2^-1`, its scaled value
`127.5` is the `float` `255 * 2^-1`, and `opacity: 0.5` writes the alpha 127 on a
rectangle; the literal `3000000000` is the `float` `5859375 * 2^9` and its
cast is undefined. -/
theorem opacity_alpha_witness :
    opacityAlpha (⟨false, 0, [], [5]⟩ : Decimal).value = 127 ∧
    pass1 (Scenario.viewportContext 1280 720) (Scenario.rect 52 52) (lit "opacity")
        (⟨false, 0, [], [5]⟩ : Decimal).text =
      .ok (Scenario.viewportContext 1280 720,
        { Scenario.rect 52 52 with fillColor := ⟨255, 255, 255, 127⟩ }) ∧
    pass1 (Scenario.viewportContext 1280 720) (Scenario.rect 52 52) (lit "opacity")
        (Decimal.ofDigits 3 [0, 0, 0, 0, 0, 0, 0, 0, 0]).text = .error .undefinedBehaviour :=
  ⟨by decide!,
    ((opacity_alpha (Scenario.viewportContext 1280 720) (Scenario.rect 52 52)
      ⟨false, 0, [], [5]⟩).1 (by decide!)
      ⟨1, -1, by decide!, by decide, by decide, by decide⟩
      (fun _ => ⟨255, -1, by decide!, by decide, by decide, by decide⟩)
      (by decide!) (by decide!)).trans (by decide!),
    (opacity_alpha (Scenario.viewportContext 1280 720) (Scenario.rect 52 52)
      (Decimal.ofDigits 3 [0, 0, 0, 0, 0, 0, 0, 0, 0])).2.1 (by decide!)
      ⟨5859375, 9, by decide!, by decide, by decide, by decide⟩
      (fun h => absurd h (by decide!))
      (Or.inr (by decide!))⟩

end PropertyDispatcher

namespace TransformParser

/-- C32, the code at failing inputs: transform parsing is not index-safe.
`scale()` reads the first element of an empty token list, and `translate(, 5px)`
and `translate(5px ,)` read the last character of an empty token, whatever the
context and the element; `translateX()` and `translate()`, whose reads are
guarded, do complete. -/
theorem apply_unguarded_reads (ctx : StyleContext) (el : Element) :
    apply ctx el (lit "scale()") = .error .undefinedBehaviour ∧
    apply ctx el (lit "translate(, 5px)") = .error .undefinedBehaviour ∧
    apply ctx el (lit "translate(5px ,)") = .error .undefinedBehaviour ∧
    PropertyDispatcher.apply ctx el (RuleParser.parse [lit "transform: scale()"]) =
      .error .undefinedBehaviour ∧
    apply ctx el (lit "translateX()") = .ok (ctx, el.move ⟨0, 0⟩) ∧
    apply ctx el (lit "translate()") = .ok (ctx, el) :=
  ⟨rfl, rfl, rfl, rfl, rfl, rfl⟩

end TransformParser

namespace ColorParser

/-- The C library function `strtoul` finds no number in a text that starts with a
character that is no hexadecimal digit, sign or white space. -/
theorem stoul16_bad_first (c : Char) (t : Str) (hx : cstd.isxdigit c = false)
    (hs : cstd.isspace c = false) (hm : c ≠ '-') (hp : c ≠ '+') :
    cstd.stoul16 (c :: t) = .error .invalidArgument := by
  have h0 : c ≠ '0' := by
    intro e
    rw [e] at hx
    exact absurd hx (by decide)
  have hskip : cstd.skipHexPrefix (c :: t) = c :: t := by
    cases t with
    | nil => rfl
    | cons c1 t1 =>
        cases t1 with
        | nil => rfl
        | cons c2 t2 => simp [cstd.skipHexPrefix, h0]
  unfold cstd.stoul16
  simp only [List.dropWhile_cons, hs, Bool.false_eq_true, if_false, cstd.takeSign,
    List.head?_cons, Option.some.injEq, hm, hp, hskip, List.takeWhile_cons, hx, if_true]

/-- A hex body whose first character is no hexadecimal digit, sign or white space
falls back to white. -/
theorem fromHex_bad_first (c : Char) (t : Str) (hx : cstd.isxdigit c = false)
    (hs : cstd.isspace c = false) (hm : c ≠ '-') (hp : c ≠ '+') :
    fromHex (c :: t) = Color.White := by
  have key : ∀ s : Str, s.head? = some c → cstd.stoul16 s = .error .invalidArgument := by
    intro s h
    cases s with
    | nil => cases h
    | cons d s1 =>
        simp only [List.head?_cons, Option.some.injEq] at h
        subst h
        exact stoul16_bad_first d s1 hx hs hm hp
  unfold fromHex
  simp only
  split_ifs <;> first
    | rfl
    | (rw [key _ (by simp [doubled])])

/-- C33, the code on hex colours with a bad digit. The function `std::stoul`
reads the hexadecimal digits it finds at the start, after white space, a sign
and a `0x` prefix, and ignores what follows: `#12gggg` is `(0,0,0,18)`,
`#0x123456` is `(0,18,52,86)` and `#-1234567` is `(254,220,186,153)`, none of
them white. A body falls back to white when its first character is no
hexadecimal digit, sign or white space, as in `#gggggg`. -/
theorem parse_bad_hex_digit :
    parse (lit "#12gggg") = .ok ⟨0, 0, 0, 18⟩ ∧
    parse (lit "#0x123456") = .ok ⟨0, 18, 52, 86⟩ ∧
    parse (lit "#-1234567") = .ok ⟨254, 220, 186, 153⟩ ∧
    parse (lit "#gggggg") = .ok ⟨255, 255, 255, 255⟩ ∧
    (∀ (c : Char) (t : Str), cstd.isxdigit c = false → cstd.isspace c = false → c ≠ '-' →
      c ≠ '+' → fromHex (c :: t) = ⟨255, 255, 255, 255⟩) := by
  refine ⟨by decide!, by decide!, by decide!, by decide!, ?_⟩
  intro c t hx hs hm hp
  exact fromHex_bad_first c t hx hs hm hp

/-- Witness of C33 for its fallback part: the body `gggggg`. -/
theorem parse_bad_hex_digit_witness : fromHex (lit "gggggg") = ⟨255, 255, 255, 255⟩ :=
  parse_bad_hex_digit.2.2.2.2 'g' (lit "ggggg") (by decide) (by decide) (by decide) (by decide)

end ColorParser

/-! ## Circles, and the reference of the box shorthands -/

namespace PropertyDispatcher

theorem circle_getSize_setSize (el : Element) (hk : el.kind = .circle) (sz : Vec2) :
    (el.setSize sz).getSize = ⟨min sz.x sz.y, min sz.x sz.y⟩ := by
  unfold Element.setSize Element.getSize
  simp only [hk]
  have h : min sz.x sz.y / 2 * 2 = min sz.x sz.y := by ring
  rw [h]

/-- C35. On a circle a single-axis size cannot grow the circle: with `d` the
current diameter, `width: w` and `height: w` leave the size at `(min(w,d),
min(w,d))`, `w` being the resolved length; so the rules `["width: 52px"]` leave a
freshly constructed circle at `{0,0}`, whereas `size: 52px` gives `{52,52}`. -/
theorem circle_single_axis (ctx : StyleContext) (el : Element) (val : Str)
    (hk : el.kind = .circle) :
    (∃ e, pass1 ctx el (lit "width") val = .ok (ctx, e) ∧
      e.getSize = ⟨min (LengthResolver.resolve val ctx.parentSize.x ctx.windowSize) el.getSize.x,
        min (LengthResolver.resolve val ctx.parentSize.x ctx.windowSize) el.getSize.x⟩) ∧
    (∃ e, pass1 ctx el (lit "height") val = .ok (ctx, e) ∧
      e.getSize = ⟨min (LengthResolver.resolve val ctx.parentSize.y ctx.windowSize) el.getSize.x,
        min (LengthResolver.resolve val ctx.parentSize.y ctx.windowSize) el.getSize.x⟩) ∧
    el.getSize.y = el.getSize.x ∧
    (apply (Scenario.viewportContext 1280 720) (Element.fresh .circle)
        (RuleParser.parse [lit "width: 52px"])).map (fun r => r.2.getSize) = .ok ⟨0, 0⟩ ∧
    (apply (Scenario.viewportContext 1280 720) (Element.fresh .circle)
        (RuleParser.parse [lit "size: 52px"])).map (fun r => r.2.getSize) = .ok ⟨52, 52⟩ ∧
    (apply (Scenario.viewportContext 1280 720) (Element.fresh .circle)
        (RuleParser.parse [lit "width: 52px", lit "background-color: #a6e3a1",
          lit "border-color: #40a02b", lit "border-width: 2px", lit "position: absolute",
          lit "right: 24px", lit "bottom: 24px"])).map
        (fun r => (r.2.getSize, r.2.getPosition)) = .ok (⟨0, 0⟩, ⟨1256, 696⟩) := by
  have hy : el.getSize.y = el.getSize.x := by
    unfold Element.getSize
    simp only [hk]
  refine ⟨⟨_, rfl, ?_⟩, ⟨_, rfl, ?_⟩, hy, by decide!, by decide!, by decide!⟩
  · rw [circle_getSize_setSize el hk, hy]
    rfl
  · rw [circle_getSize_setSize el hk]
    simp only [min_comm el.getSize.x]
    rfl

/-- Witness of C35: `width: 80px` on a circle of diameter 52 leaves `{52,52}`. -/
theorem circle_single_axis_witness :
    ∃ e, pass1 (Scenario.viewportContext 1280 720) { Element.fresh .circle with radius := 26 }
        (lit "width") (lit "80px") = .ok (Scenario.viewportContext 1280 720, e) ∧
      e.getSize = ⟨min (LengthResolver.resolve (lit "80px")
          (Scenario.viewportContext 1280 720).parentSize.x
          (Scenario.viewportContext 1280 720).windowSize)
          ({ Element.fresh .circle with radius := 26 } : Element).getSize.x,
        min (LengthResolver.resolve (lit "80px")
          (Scenario.viewportContext 1280 720).parentSize.x
          (Scenario.viewportContext 1280 720).windowSize)
          ({ Element.fresh .circle with radius := 26 } : Element).getSize.x⟩ :=
  (circle_single_axis (Scenario.viewportContext 1280 720)
    { Element.fresh .circle with radius := 26 } (lit "80px") rfl).1

end PropertyDispatcher

/-! ## Termination of the transform scanning loop -/

theorem takeWhile_split {p : Char → Bool} (l : Str)
    (h : (l.takeWhile p).length ≠ l.length) :
    ∃ x rem, p x = false ∧ l = l.takeWhile p ++ x :: rem ∧
      l.drop ((l.takeWhile p).length + 1) = rem := by
  induction l with
  | nil => exact absurd rfl h
  | cons a t ih =>
      cases hp : p a with
      | false =>
          refine ⟨a, t, hp, ?_, ?_⟩
          · simp [List.takeWhile, hp]
          · simp [List.takeWhile, hp]
      | true =>
          have ht : (t.takeWhile p).length ≠ t.length := by
            intro e
            apply h
            simp [List.takeWhile, hp, e]
          obtain ⟨x, rem, hx, h1, h2⟩ := ih ht
          refine ⟨x, rem, hx, ?_, ?_⟩
          · simp only [List.takeWhile, hp, List.cons_append]
            rw [← h1]
          · simp only [List.takeWhile, hp, List.length_cons, List.drop_succ_cons]
            exact h2

theorem takeWhile_whole {p : Char → Bool} (l : Str) (h : ∀ c ∈ l, p c = true) :
    l.takeWhile p = l := by
  induction l with
  | nil => rfl
  | cons a t ih =>
      rw [List.takeWhile_cons, h a (List.mem_cons_self _ _)]
      simp only [if_true]
      rw [ih (fun c hc => h c (List.mem_cons_of_mem _ hc))]

theorem takeWhile_all_of_length {p : Char → Bool} (l : Str)
    (h : (l.takeWhile p).length = l.length) : ∀ c ∈ l, p c = true := by
  induction l with
  | nil => intro c hc; cases hc
  | cons a t ih =>
      cases hp : p a with
      | false => simp [List.takeWhile, hp] at h
      | true =>
          have ht : (t.takeWhile p).length = t.length := by
            simpa [List.takeWhile, hp] using h
          intro c hc
          rcases List.mem_cons.1 hc with e | e
          · rw [e]; exact hp
          · exact ih ht c e

theorem takeWhile_sat {p : Char → Bool} (l : Str) : ∀ c ∈ l.takeWhile p, p c = true := by
  induction l with
  | nil => intro c hc; cases hc
  | cons a t ih =>
      intro c hc
      cases hp : p a with
      | false => simp [List.takeWhile, hp] at hc
      | true =>
          simp only [List.takeWhile, hp, List.mem_cons] at hc
          rcases hc with e | e
          · rw [e]; exact hp
          · exact ih c e

theorem takeWhile_length_le {p : Char → Bool} (l : Str) : (l.takeWhile p).length ≤ l.length := by
  induction l with
  | nil => exact le_rfl
  | cons a t ih =>
      cases hp : p a with
      | false => simp [List.takeWhile, hp]
      | true => simpa [List.takeWhile, hp] using ih

theorem ne_close_iff (c : Char) : (c != ')') = true ↔ c ≠ ')' := by simp

theorem ne_open_false (x : Char) (h : (x != '(') = false) : x = '(' := by simpa using h

theorem ne_close_false (x : Char) (h : (x != ')') = false) : x = ')' := by simpa using h

namespace TransformParser

theorem applyLoop_succ (n : Nat) (ctx : StyleContext) (el : Element) (rest : Str) :
    applyLoop (n + 1) ctx el rest =
      if rest = [] then .ok (ctx, el)
      else if (rest.takeWhile (fun c => c != '(')).length = rest.length then .ok (ctx, el)
      else if ((rest.drop ((rest.takeWhile (fun c => c != '(')).length + 1)).takeWhile
          (fun c => c != ')')).length =
          (rest.drop ((rest.takeWhile (fun c => c != '(')).length + 1)).length then .ok (ctx, el)
      else
        match applyFunction ctx el
            (StringUtils.toLower (StringUtils.trim (rest.takeWhile (fun c => c != '('))))
            (StringUtils.trim ((rest.drop ((rest.takeWhile (fun c => c != '(')).length + 1)).takeWhile
              (fun c => c != ')'))) with
        | .error e => .error e
        | .ok r => applyLoop n r.1 r.2
            ((rest.drop ((rest.takeWhile (fun c => c != '(')).length + 1)).drop
              (((rest.drop ((rest.takeWhile (fun c => c != '(')).length + 1)).takeWhile
                (fun c => c != ')')).length + 1)) := rfl

/-- One round that does not stop: the text is `name ( inner ) remaining`. -/
theorem round_shape (rest : Str)
    (h1 : (rest.takeWhile (fun c => c != '(')).length ≠ rest.length)
    (h2 : ((rest.drop ((rest.takeWhile (fun c => c != '(')).length + 1)).takeWhile
          (fun c => c != ')')).length ≠
          (rest.drop ((rest.takeWhile (fun c => c != '(')).length + 1)).length) :
    rest = rest.takeWhile (fun c => c != '(') ++ '(' ::
      ((rest.drop ((rest.takeWhile (fun c => c != '(')).length + 1)).takeWhile
          (fun c => c != ')') ++ ')' ::
        (rest.drop ((rest.takeWhile (fun c => c != '(')).length + 1)).drop
          (((rest.drop ((rest.takeWhile (fun c => c != '(')).length + 1)).takeWhile
            (fun c => c != ')')).length + 1)) := by
  obtain ⟨x, rem, hx, e1, e2⟩ := takeWhile_split rest h1
  rw [e2] at h2 ⊢
  obtain ⟨y, rem2, hy, e3, e4⟩ := takeWhile_split rem h2
  have hx2 := ne_open_false x hx
  have hy2 := ne_close_false y hy
  subst hx2
  subst hy2
  rw [e4, ← e3]
  exact e1

theorem round_progress (rest : Str)
    (h1 : (rest.takeWhile (fun c => c != '(')).length ≠ rest.length)
    (h2 : ((rest.drop ((rest.takeWhile (fun c => c != '(')).length + 1)).takeWhile
          (fun c => c != ')')).length ≠
          (rest.drop ((rest.takeWhile (fun c => c != '(')).length + 1)).length) :
    ((rest.drop ((rest.takeWhile (fun c => c != '(')).length + 1)).drop
          (((rest.drop ((rest.takeWhile (fun c => c != '(')).length + 1)).takeWhile
            (fun c => c != ')')).length + 1)).length + 2 ≤ rest.length ∧
    ((rest.drop ((rest.takeWhile (fun c => c != '(')).length + 1)).drop
          (((rest.drop ((rest.takeWhile (fun c => c != '(')).length + 1)).takeWhile
            (fun c => c != ')')).length + 1)).count ')' + 1 ≤ rest.count ')' := by
  have h := round_shape rest h1 h2
  generalize (rest.drop ((rest.takeWhile (fun c => c != '(')).length + 1)).drop
          (((rest.drop ((rest.takeWhile (fun c => c != '(')).length + 1)).takeWhile
            (fun c => c != ')')).length + 1) = rem at h ⊢
  generalize (rest.drop ((rest.takeWhile (fun c => c != '(')).length + 1)).takeWhile
          (fun c => c != ')') = inner at h
  generalize rest.takeWhile (fun c => c != '(') = name at h
  constructor
  · have := congrArg List.length h
    simp only [List.length_append, List.length_cons] at this
    omega
  · have := congrArg (List.count ')') h
    simp only [List.count_append, List.count_cons_self, List.count_cons] at this
    omega

theorem applyLoop_no_close (n : Nat) (ctx : StyleContext) (el : Element) (rest : Str)
    (h : rest.count ')' = 0) : applyLoop n ctx el rest = .ok (ctx, el) := by
  cases n with
  | zero => rfl
  | succ n =>
      rw [applyLoop_succ]
      split_ifs with h0 h1 h2
      · rfl
      · rfl
      · rfl
      · have := (round_progress rest h1 h2).2
        omega

/-- The fuel is never exhausted: any two budgets of at least one round per `)`
give the same result. -/
theorem applyLoop_fuel (n : Nat) : ∀ (m : Nat) (ctx : StyleContext) (el : Element) (rest : Str),
    rest.count ')' ≤ n → rest.count ')' ≤ m →
    applyLoop n ctx el rest = applyLoop m ctx el rest := by
  induction n with
  | zero =>
      intro m ctx el rest hn _
      rw [applyLoop_no_close 0 ctx el rest (by omega), applyLoop_no_close m ctx el rest (by omega)]
  | succ n ih =>
      intro m ctx el rest hn hm
      cases m with
      | zero =>
          rw [applyLoop_no_close (n + 1) ctx el rest (by omega),
            applyLoop_no_close 0 ctx el rest (by omega)]
      | succ m =>
          rw [applyLoop_succ, applyLoop_succ]
          split_ifs with h0 h1 h2
          · rfl
          · rfl
          · rfl
          · have hp := (round_progress rest h1 h2).2
            cases applyFunction ctx el
              (StringUtils.toLower (StringUtils.trim (rest.takeWhile (fun c => c != '('))))
              (StringUtils.trim ((rest.drop ((rest.takeWhile (fun c => c != '(')).length + 1)).takeWhile
                (fun c => c != ')'))) with
            | error e => rfl
            | ok r => exact ih m r.1 r.2 _ (by omega) (by omega)

theorem count_zero_of_not_mem (tail : Str) (h : ')' ∉ tail) : tail.count ')' = 0 :=
  List.count_eq_zero_of_not_mem h

/-- Text without a `)` after the scanned text does not change the result. -/
theorem applyLoop_tail (tail : Str) (ht : ')' ∉ tail) (n : Nat) :
    ∀ (ctx : StyleContext) (el : Element) (r : Str),
      applyLoop n ctx el (r ++ tail) = applyLoop n ctx el r := by
  have hall : ∀ t : Str, ')' ∉ t → ∀ c ∈ t, (c != ')') = true := by
    intro t h c hc
    rw [ne_close_iff]
    intro e
    exact h (e ▸ hc)
  induction n with
  | zero => intro ctx el r; rfl
  | succ n ih =>
      intro ctx el r
      by_cases h1 : (r.takeWhile (fun c => c != '(')).length = r.length
      · -- no `(` in `r`: the scanned text stops at once, and the longer text stops too
        have hr : applyLoop (n + 1) ctx el r = .ok (ctx, el) := by
          rw [applyLoop_succ]
          split_ifs <;> rfl
        rw [hr, applyLoop_succ]
        split_ifs with g0 g1 g2
        · rfl
        · rfl
        · rfl
        · exfalso
          apply g2
          have hsub : ((r ++ tail).drop (((r ++ tail).takeWhile (fun c => c != '(')).length + 1)).Sublist
              tail := by
            have hname : ((r ++ tail).takeWhile (fun c => c != '(')).length + 1 =
                r.length + ((tail.takeWhile (fun c => c != '(')).length + 1) := by
              rw [List.takeWhile_append_of_pos (takeWhile_all_of_length r h1)]
              simp only [List.length_append]
              omega
            rw [hname, ← List.drop_drop, List.drop_left]
            exact List.drop_sublist _ _
          have hno : ')' ∉ (r ++ tail).drop
              (((r ++ tail).takeWhile (fun c => c != '(')).length + 1) :=
            fun hc => ht (hsub.subset hc)
          rw [takeWhile_whole _ (hall _ hno)]
      · obtain ⟨x, after, hx, e1, e2⟩ := takeWhile_split r h1
        have hx2 := ne_open_false x hx
        subst hx2
        have e1t : r ++ tail = r.takeWhile (fun c => c != '(') ++ '(' :: (after ++ tail) := by
          conv_lhs => rw [e1]
          simp
        have hname : (r ++ tail).takeWhile (fun c => c != '(') =
            r.takeWhile (fun c => c != '(') := by
          rw [e1t]
          exact takeWhile_append_stop _ _ (takeWhile_sat r)
            (by intro c hc; cases hc; decide)
        have hafter : (r ++ tail).drop ((r.takeWhile (fun c => c != '(')).length + 1) =
            after ++ tail := by
          rw [e1t]
          rw [show r.takeWhile (fun c => c != '(') ++ '(' :: (after ++ tail) =
            (r.takeWhile (fun c => c != '(') ++ ['(']) ++ (after ++ tail) by simp]
          rw [show (r.takeWhile (fun c => c != '(')).length + 1 =
            (r.takeWhile (fun c => c != '(') ++ ['(']).length by simp]
          exact List.drop_left _ _
        have hne : r ≠ [] := by
          intro e
          apply h1
          rw [e]
          rfl
        have hne2 : r ++ tail ≠ [] := by simp [hne]
        have hlen : ¬ (r.takeWhile (fun c => c != '(')).length = (r ++ tail).length := by
          intro e
          have := @takeWhile_length_le (fun c => c != '(') r
          simp only [List.length_append] at e
          omega
        rw [applyLoop_succ, applyLoop_succ]
        simp only [hname, hafter, e2, if_neg hne, if_neg hne2, if_neg h1, if_neg hlen]
        by_cases h2 : (after.takeWhile (fun c => c != ')')).length = after.length
        · have hno : ∀ c ∈ after ++ tail, (c != ')') = true := by
            intro c hc
            rcases List.mem_append.1 hc with g | g
            · exact takeWhile_all_of_length after h2 c g
            · exact hall tail ht c g
          rw [if_pos h2, takeWhile_whole _ hno, if_pos rfl]
        · obtain ⟨y, rem, hy, e3, e4⟩ := takeWhile_split after h2
          have hy2 := ne_close_false y hy
          subst hy2
          have e3t : after ++ tail =
              after.takeWhile (fun c => c != ')') ++ ')' :: (rem ++ tail) := by
            conv_lhs => rw [e3]
            simp
          have hinner : (after ++ tail).takeWhile (fun c => c != ')') =
              after.takeWhile (fun c => c != ')') := by
            rw [e3t]
            exact takeWhile_append_stop _ _ (takeWhile_sat after)
              (by intro c hc; cases hc; decide)
          have hrem : (after ++ tail).drop ((after.takeWhile (fun c => c != ')')).length + 1) =
              rem ++ tail := by
            rw [e3t]
            rw [show after.takeWhile (fun c => c != ')') ++ ')' :: (rem ++ tail) =
              (after.takeWhile (fun c => c != ')') ++ [')']) ++ (rem ++ tail) by simp]
            rw [show (after.takeWhile (fun c => c != ')')).length + 1 =
              (after.takeWhile (fun c => c != ')') ++ [')']).length by simp]
            exact List.drop_left _ _
          have hlen2 : ¬ (after.takeWhile (fun c => c != ')')).length = (after ++ tail).length := by
            intro e
            have := @takeWhile_length_le (fun c => c != ')') after
            have h3 : (after.takeWhile (fun c => c != ')')).length < after.length :=
              lt_of_le_of_ne this h2
            simp only [List.length_append] at e
            omega
          simp only [hinner, hrem, e4, if_neg h2, if_neg hlen2]
          cases applyFunction ctx el
            (StringUtils.toLower (StringUtils.trim (r.takeWhile (fun c => c != '('))))
            (StringUtils.trim (after.takeWhile (fun c => c != ')'))) with
          | error e => rfl
          | ok q => exact ih q.1 q.2 rem

/-- C40. `TransformParser::apply` terminates on every input: a budget of one
round per `)` of the value already gives its result (so at most one function is
applied per `)`), every round that does not stop leaves a remaining text that
is shorter and holds one `)` less, and text without `)` after the value, hence
after the last complete `name(args)`, is ignored. -/
theorem apply_terminates (ctx : StyleContext) (el : Element) (val : Str) :
    (∀ n, val.count ')' ≤ n → applyLoop n ctx el val = apply ctx el val) ∧
    ((val.takeWhile (fun c => c != '(')).length ≠ val.length →
      ((val.drop ((val.takeWhile (fun c => c != '(')).length + 1)).takeWhile
          (fun c => c != ')')).length ≠
        (val.drop ((val.takeWhile (fun c => c != '(')).length + 1)).length →
      ((val.drop ((val.takeWhile (fun c => c != '(')).length + 1)).drop
          (((val.drop ((val.takeWhile (fun c => c != '(')).length + 1)).takeWhile
            (fun c => c != ')')).length + 1)).length + 2 ≤ val.length ∧
      ((val.drop ((val.takeWhile (fun c => c != '(')).length + 1)).drop
          (((val.drop ((val.takeWhile (fun c => c != '(')).length + 1)).takeWhile
            (fun c => c != ')')).length + 1)).count ')' + 1 ≤ val.count ')') ∧
    (∀ tail : Str, ')' ∉ tail → apply ctx el (val ++ tail) = apply ctx el val) := by
  refine ⟨?_, round_progress val, ?_⟩
  · intro n hn
    exact applyLoop_fuel n val.length ctx el val hn (List.count_le_length _ _)
  · intro tail ht
    unfold apply
    have hc : (val ++ tail).count ')' = val.count ')' := by
      rw [List.count_append, count_zero_of_not_mem tail ht, Nat.add_zero]
    rw [applyLoop_fuel (val ++ tail).length (val.count ')') ctx el (val ++ tail)
        (List.count_le_length _ _) (le_of_eq hc),
      applyLoop_tail tail ht,
      applyLoop_fuel (val.count ')') val.length ctx el val le_rfl (List.count_le_length _ _)]

/-- Witness of C40: on `translateX(10px) rotate(` one round suffices, the
remaining text ` rotate(` is shorter, and the unfinished call is ignored. -/
theorem apply_terminates_witness :
    (lit "translateX(10px)").count ')' ≤ 1 ∧
    applyLoop 1 (Scenario.viewportContext 1280 720) (Scenario.rect 52 52)
        (lit "translateX(10px)") =
      apply (Scenario.viewportContext 1280 720) (Scenario.rect 52 52) (lit "translateX(10px)") ∧
    ')' ∉ lit " rotate(" ∧
    apply (Scenario.viewportContext 1280 720) (Scenario.rect 52 52)
        (lit "translateX(10px)" ++ lit " rotate(") =
      apply (Scenario.viewportContext 1280 720) (Scenario.rect 52 52) (lit "translateX(10px)") :=
  ⟨by decide,
    (apply_terminates (Scenario.viewportContext 1280 720) (Scenario.rect 52 52)
      (lit "translateX(10px)")).1 1 (by decide), by decide,
    (apply_terminates (Scenario.viewportContext 1280 720) (Scenario.rect 52 52)
      (lit "translateX(10px)")).2.2 (lit " rotate(") (by decide)⟩

end TransformParser

/-! ## An absolute translation and a later `left` -/

namespace TransformParser

theorem applyFunction_ctx (ctx : StyleContext) (el el' : Element) (fn arg : Str) :
    (applyFunction ctx el fn arg).map Prod.fst = (applyFunction ctx el' fn arg).map Prod.fst := by
  unfold applyFunction
  split_ifs
  · cases cstd.stof arg <;> rfl
  · rfl
  · cases cstd.stof arg <;> rfl
  · rfl
  · cases StringUtils.tokenize arg with
    | nil => rfl
    | cons p0 t =>
        cases t with
        | nil => rfl
        | cons p1 t2 =>
            simp only
            split_ifs <;> first
              | rfl
              | (cases cstd.stof p0 <;> cases cstd.stof p1 <;> rfl)
  · cases cstd.stof arg <;> rfl
  · cases StringUtils.tokenize arg with
    | nil => rfl
    | cons p0 t =>
        cases t with
        | nil =>
            dsimp only
            cases cstd.stof p0 <;> rfl
        | cons p1 t2 =>
            dsimp only
            cases cstd.stof p0 <;> cases cstd.stof p1 <;> rfl
  · cases cstd.stof arg <;> rfl
  · cases cstd.stof arg <;> rfl
  · rfl

theorem applyLoop_ctx (n : Nat) : ∀ (ctx : StyleContext) (el el' : Element) (rest : Str),
    (applyLoop n ctx el rest).map Prod.fst = (applyLoop n ctx el' rest).map Prod.fst := by
  induction n with
  | zero => intro ctx el el' rest; rfl
  | succ n ih =>
      intro ctx el el' rest
      rw [applyLoop_succ, applyLoop_succ]
      split_ifs
      · rfl
      · rfl
      · rfl
      · have h := applyFunction_ctx ctx el el'
          (StringUtils.toLower (StringUtils.trim (rest.takeWhile (fun c => c != '('))))
          (StringUtils.trim ((rest.drop ((rest.takeWhile (fun c => c != '(')).length + 1)).takeWhile
            (fun c => c != ')')))
        revert h
        cases applyFunction ctx el
          (StringUtils.toLower (StringUtils.trim (rest.takeWhile (fun c => c != '('))))
          (StringUtils.trim ((rest.drop ((rest.takeWhile (fun c => c != '(')).length + 1)).takeWhile
            (fun c => c != ')'))) with
        | error e =>
            cases applyFunction ctx el'
              (StringUtils.toLower (StringUtils.trim (rest.takeWhile (fun c => c != '('))))
              (StringUtils.trim ((rest.drop ((rest.takeWhile (fun c => c != '(')).length + 1)).takeWhile
                (fun c => c != ')'))) with
            | error e' => exact fun h => h
            | ok q => intro h; cases h
        | ok r =>
            cases applyFunction ctx el'
              (StringUtils.toLower (StringUtils.trim (rest.takeWhile (fun c => c != '('))))
              (StringUtils.trim ((rest.drop ((rest.takeWhile (fun c => c != '(')).length + 1)).takeWhile
                (fun c => c != ')'))) with
            | error e' => intro h; cases h
            | ok q =>
                intro h
                have hq : r.1 = q.1 := by
                  simpa [Except.map] using h
                show (applyLoop n r.1 r.2 _).map Prod.fst = (applyLoop n q.1 q.2 _).map Prod.fst
                rw [hq]
                exact ih q.1 r.2 q.2 _

end TransformParser

namespace PropertyDispatcher

theorem withStof_ctx (val : Str) (f g : ℚ → Styled) (h : ∀ v, (f v).1 = (g v).1) :
    (withStof val f).map Prod.fst = (withStof val g).map Prod.fst := by
  unfold withStof
  cases cstd.stof val with
  | error e => rfl
  | ok v => simp [Except.map, h v]

theorem map_ite_congr {c : Prop} [Decidable c] {a a' b b' : Except Error Styled}
    (h1 : a.map Prod.fst = a'.map Prod.fst) (h2 : b.map Prod.fst = b'.map Prod.fst) :
    (if c then a else b).map Prod.fst = (if c then a' else b').map Prod.fst := by
  split_ifs
  · exact h1
  · exact h2

theorem pass1Position_ctx (ctx : StyleContext) (el el' : Element) (prop val : Str) :
    (pass1Position ctx el prop val).map Prod.fst =
      (pass1Position ctx el' prop val).map Prod.fst := by
  unfold pass1Position
  repeat' first
    | rfl
    | apply map_ite_congr

theorem pass1Flex_ctx (ctx : StyleContext) (el el' : Element) (prop val : Str) :
    (pass1Flex ctx el prop val).map Prod.fst = (pass1Flex ctx el' prop val).map Prod.fst := by
  unfold pass1Flex
  repeat' first
    | exact pass1Position_ctx _ _ _ _ _
    | rfl
    | apply map_ite_congr

theorem pass1Box_ctx (ctx : StyleContext) (el el' : Element) (prop val : Str) :
    (pass1Box ctx el prop val).map Prod.fst = (pass1Box ctx el' prop val).map Prod.fst := by
  unfold pass1Box
  repeat' first
    | exact pass1Flex_ctx _ _ _ _ _
    | rfl
    | apply map_ite_congr

theorem pass1Transform_ctx (ctx : StyleContext) (el el' : Element) (prop val : Str) :
    (pass1Transform ctx el prop val).map Prod.fst =
      (pass1Transform ctx el' prop val).map Prod.fst := by
  unfold pass1Transform
  apply map_ite_congr
  · exact TransformParser.applyLoop_ctx _ _ _ _ _
  apply map_ite_congr
  · exact withStof_ctx _ _ _ (fun _ => rfl)
  apply map_ite_congr
  · cases StringUtils.tokenize val with
    | nil => exact withStof_ctx _ _ _ (fun _ => rfl)
    | cons p0 t =>
        cases t with
        | nil => exact withStof_ctx _ _ _ (fun _ => rfl)
        | cons p1 t2 =>
            dsimp only
            cases cstd.stof p0 <;> cases cstd.stof p1 <;> rfl
  apply map_ite_congr
  · exact withStof_ctx _ _ _ (fun _ => rfl)
  apply map_ite_congr
  · exact withStof_ctx _ _ _ (fun _ => rfl)
  apply map_ite_congr
  · cases StringUtils.tokenize val with
    | nil => rfl
    | cons p0 t =>
        cases t with
        | nil => rfl
        | cons p1 t2 => rfl
  · exact pass1Box_ctx _ _ _ _ _

theorem pass1Text_ctx (ctx : StyleContext) (el el' : Element) (prop val : Str) :
    (pass1Text ctx el prop val).map Prod.fst = (pass1Text ctx el' prop val).map Prod.fst := by
  unfold pass1Text
  apply map_ite_congr
  · cases truncToUnsigned (LengthResolver.resolve val ctx.parentSize.y ctx.windowSize) <;> rfl
  apply map_ite_congr
  · exact withStof_ctx _ _ _ (fun _ => rfl)
  apply map_ite_congr
  · exact withStof_ctx _ _ _ (fun _ => rfl)
  apply map_ite_congr
  · rfl
  · exact pass1Transform_ctx _ _ _ _ _

theorem pass1Colors_ctx (ctx : StyleContext) (el el' : Element) (prop val : Str) :
    (pass1Colors ctx el prop val).map Prod.fst =
      (pass1Colors ctx el' prop val).map Prod.fst := by
  unfold pass1Colors
  apply map_ite_congr
  · cases ColorParser.parse val <;> rfl
  apply map_ite_congr
  · cases ColorParser.parse val <;> rfl
  apply map_ite_congr
  · cases ColorParser.parse val <;> rfl
  apply map_ite_congr
  · rfl
  apply map_ite_congr
  · cases cstd.stof val with
    | error e => rfl
    | ok v =>
        dsimp only
        cases truncToInt (if v ≤ 1 then v * 255 else v) <;> rfl
  apply map_ite_congr
  · cases ColorParser.parse val <;> rfl
  · exact pass1Text_ctx _ _ _ _ _

/-- The context pass 1 leaves, and whether it raises, do not depend on the
element. -/
theorem pass1_ctx (ctx : StyleContext) (el el' : Element) (prop val : Str) :
    (pass1 ctx el prop val).map Prod.fst = (pass1 ctx el' prop val).map Prod.fst := by
  unfold pass1
  apply map_ite_congr
  · rfl
  apply map_ite_congr
  · rfl
  apply map_ite_congr
  · cases StringUtils.tokenize val with
    | nil => rfl
    | cons p0 t =>
        cases t with
        | nil => rfl
        | cons p1 t2 => rfl
  apply map_ite_congr
  · rfl
  apply map_ite_congr
  · rfl
  apply map_ite_congr
  · rfl
  apply map_ite_congr
  · rfl
  apply map_ite_congr
  · rfl
  · exact pass1Colors_ctx _ _ _ _ _

theorem runPass1_ctx (ds : List Declaration) : ∀ (ctx : StyleContext) (el el' : Element),
    (runPass1 ds ctx el).map Prod.fst = (runPass1 ds ctx el').map Prod.fst := by
  induction ds with
  | nil => intro ctx el el'; rfl
  | cons d ds ih =>
      intro ctx el el'
      simp only [runPass1]
      have h := pass1_ctx ctx el el' d.property d.value
      revert h
      cases pass1 ctx el d.property d.value with
      | error e =>
          cases pass1 ctx el' d.property d.value with
          | error e' => exact fun h => h
          | ok q => intro h; cases h
      | ok r =>
          cases pass1 ctx el' d.property d.value with
          | error e' => intro h; cases h
          | ok q =>
              intro h
              have hq : r.1 = q.1 := by
                simpa [Except.map] using h
              show (runPass1 ds r.1 r.2).map Prod.fst = (runPass1 ds q.1 q.2).map Prod.fst
              rw [hq]
              exact ih q.1 r.2 q.2

theorem Length.text_trimmed (d : Length) (h : d.Valid) : StringUtils.trim d.text = d.text := by
  apply trim_of_ends
  · intro c hc
    exact (d.chars_of_text h c (List.mem_of_mem_head? hc)).2.1
  · intro c hc
    exact (d.last_of_text h).2.2 c hc

theorem Length.last_not_percent (d : Length) (h : StringUtils.toLower d.unit ∈ LengthResolver.units) :
    d.text.getLast? ≠ some '%' := by
  rw [(d.last_of_text (Or.inr h)).1]
  intro e
  have hm : '%' ∈ d.unit := List.mem_of_getLast?_eq_some e
  have hm2 : cstd.tolower '%' ∈ StringUtils.toLower d.unit := List.mem_map_of_mem _ hm
  have := (Length.units_letters _ h).2 _ hm2
  revert this
  decide

/-- Pass 1 on `transform: translateX(d)` with an absolute length `d` moves the
element by what `parseNumber` reads from the number of `d` and leaves the
context as it is. -/
theorem pass1_translateX_abs (c : StyleContext) (e : Element) (d : Length)
    (h : StringUtils.toLower d.unit ∈ LengthResolver.units) :
    pass1 c e (lit "transform") (lit "translateX(" ++ (d.text ++ [')'])) =
      .ok (c, e.move ⟨LengthResolver.parseNumber d.number.text, 0⟩) := by
  rw [pass1_transform, TransformParser.apply_translateX c e d.text
    (fun x hx => by simpa using (d.chars_of_text (Or.inr h) x hx).2.2.2.1)]
  unfold TransformParser.applyFunction
  rw [if_pos rfl, Length.text_trimmed d (Or.inr h),
    if_neg (fun k => Length.last_not_percent d h k.2)]
  show Except.ok (c, e.move ⟨LengthResolver.parseAbsolute (d.number.text ++ d.unit), 0⟩) = _
  rw [LengthResolver.parseAbsolute_unit d.number d.unit h]

theorem pass2_keeps_x (ctx : StyleContext) (el : Element) (prop val : Str)
    (h : prop ∉ horizontal) : (pass2 ctx el prop val).getPosition.x = el.getPosition.x := by
  have h1 : prop ≠ lit "left" := fun e => h (by rw [e]; decide)
  have h2 : prop ≠ lit "x" := fun e => h (by rw [e]; decide)
  have h3 : prop ≠ lit "right" := fun e => h (by rw [e]; decide)
  have h4 : prop ≠ lit "position" := fun e => h (by rw [e]; decide)
  unfold pass2
  simp only [h1, h2, h3, h4, or_self, if_false]
  split_ifs <;> rfl

theorem runPass2_keeps_x (ctx : StyleContext) (ds : List Declaration) (el : Element)
    (h : ∀ d ∈ ds, d.property ∉ horizontal) :
    (runPass2 ctx ds el).getPosition.x = el.getPosition.x := by
  induction ds generalizing el with
  | nil => rfl
  | cons d ds ih =>
      show (runPass2 ctx ds (pass2 ctx el d.property d.value)).getPosition.x = _
      rw [ih _ (fun x hx => h x (List.mem_cons_of_mem _ hx)),
        pass2_keeps_x ctx el _ _ (h d (List.mem_cons_self _ _))]

theorem flush_keeps_x (ctx : StyleContext) (el : Element)
    (hx : ctx.deferredTranslateXPct = none) :
    (flushDeferredTransforms ctx el).getPosition.x = el.getPosition.x := by
  unfold flushDeferredTransforms
  split_ifs
  · rfl
  · rw [hx]
    rfl

/-- After `left: v` with no later declaration that writes x, and no deferred
horizontal percentage, the final x is the one `left` gives. -/
theorem apply_left_last (ctx : StyleContext) (el : Element) (A post : List Declaration)
    (v : Str) (hpost : ∀ x ∈ post, x.property ∉ horizontal) (r : Styled)
    (h : apply ctx el (A ++ ⟨lit "left", v⟩ :: post) = .ok r)
    (hx : r.1.deferredTranslateXPct = none) :
    r.2.getPosition.x = (refOrigin r.1).x +
      LengthResolver.resolve v (refSize r.1).x r.1.windowSize + r.1.box.marginLeft := by
  unfold apply at h
  cases h0 : runPass1 (A ++ ⟨lit "left", v⟩ :: post) ctx el with
  | error e => rw [h0] at h; cases h
  | ok r0 =>
      rw [h0] at h
      simp only [Except.ok.injEq] at h
      subst h
      rw [flush_keeps_x _ _ hx, runPass2_append]
      show (runPass2 r0.1 post (pass2 r0.1 _ (lit "left") v)).getPosition.x = _
      rw [runPass2_keeps_x _ _ _ hpost]
      rfl

theorem apply_map_fst (ctx : StyleContext) (el : Element) (ds : List Declaration) :
    (apply ctx el ds).map Prod.fst = (runPass1 ds ctx el).map Prod.fst := by
  unfold apply
  cases runPass1 ds ctx el <;> rfl

/-- The context a call leaves, and whether it raises, do not depend on the
absolute length of a `translateX`. -/
theorem apply_ctx_translateX (ctx : StyleContext) (el : Element) (X Y : List Declaration)
    (d d' : Length) (h : StringUtils.toLower d.unit ∈ LengthResolver.units)
    (h' : StringUtils.toLower d'.unit ∈ LengthResolver.units) :
    (apply ctx el (X ++ ⟨lit "transform", lit "translateX(" ++ (d.text ++ [')'])⟩ :: Y)).map
        Prod.fst =
      (apply ctx el (X ++ ⟨lit "transform", lit "translateX(" ++ (d'.text ++ [')'])⟩ :: Y)).map
        Prod.fst := by
  rw [apply_map_fst, apply_map_fst, runPass1_append, runPass1_append]
  cases runPass1 X ctx el with
  | error e => rfl
  | ok r0 =>
      simp only [runPass1]
      rw [pass1_translateX_abs r0.1 r0.2 d h, pass1_translateX_abs r0.1 r0.2 d' h']
      exact runPass1_ctx Y _ _ _

theorem ok_of_map_fst (a b : Except Error Styled) (r : Styled) (h : a = .ok r)
    (hab : a.map Prod.fst = b.map Prod.fst) : ∃ r', b = .ok r' ∧ r'.1 = r.1 := by
  subst h
  cases b with
  | error e => cases hab
  | ok q =>
      refine ⟨q, rfl, ?_⟩
      have : r.1 = q.1 := by simpa [Except.map] using hab
      exact this.symm

/-- C34 (as amended). An absolute `translateX` is overwritten by `left` of the
same call: when the list holds `transform: translateX(d)` with an absolute
length `d` and `left: v`, in either order, no declaration after `left: v` writes
x (`left`, `x`, `right`, `position`), the call succeeds and leaves no deferred
horizontal percentage, the final x is `referenceOrigin.x + resolve(v) +
marginLeft`, and the call with any other absolute length `d'` in place of `d`
succeeds with the same context and the same final x. A percentage in the same
place does shift the final x: on a `{200,100}` element `translateX(50%)` before
`left: 10px` ends at x = 110, `translateX(50px)` at x = 10. -/
theorem left_overrides_translateX (ctx : StyleContext) (el : Element)
    (pre mid post : List Declaration) (d d' : Length) (v : Str)
    (hd : StringUtils.toLower d.unit ∈ LengthResolver.units)
    (hd' : StringUtils.toLower d'.unit ∈ LengthResolver.units)
    (hpost : ∀ x ∈ post, x.property ∉ horizontal) :
    (∀ r : Styled,
      apply ctx el (pre ++ ⟨lit "transform", lit "translateX(" ++ (d.text ++ [')'])⟩ ::
        (mid ++ ⟨lit "left", v⟩ :: post)) = .ok r →
      r.1.deferredTranslateXPct = none →
      r.2.getPosition.x = (refOrigin r.1).x +
        LengthResolver.resolve v (refSize r.1).x r.1.windowSize + r.1.box.marginLeft ∧
      ∃ r' : Styled,
        apply ctx el (pre ++ ⟨lit "transform", lit "translateX(" ++ (d'.text ++ [')'])⟩ ::
          (mid ++ ⟨lit "left", v⟩ :: post)) = .ok r' ∧
        r'.1 = r.1 ∧ r'.2.getPosition.x = r.2.getPosition.x) ∧
    ((∀ x ∈ mid, x.property ∉ horizontal) → ∀ r : Styled,
      apply ctx el (pre ++ ⟨lit "left", v⟩ ::
        (mid ++ ⟨lit "transform", lit "translateX(" ++ (d.text ++ [')'])⟩ :: post)) = .ok r →
      r.1.deferredTranslateXPct = none →
      r.2.getPosition.x = (refOrigin r.1).x +
        LengthResolver.resolve v (refSize r.1).x r.1.windowSize + r.1.box.marginLeft ∧
      ∃ r' : Styled,
        apply ctx el (pre ++ ⟨lit "left", v⟩ ::
          (mid ++ ⟨lit "transform", lit "translateX(" ++ (d'.text ++ [')'])⟩ :: post)) = .ok r' ∧
        r'.1 = r.1 ∧ r'.2.getPosition.x = r.2.getPosition.x) ∧
    (apply (Scenario.viewportContext 1280 720) (Scenario.rect 200 100)
        [Scenario.decl "transform" "translateX(50%)", Scenario.decl "left" "10px"]).map
        (fun r => r.2.getPosition.x) = .ok 110 ∧
    (apply (Scenario.viewportContext 1280 720) (Scenario.rect 200 100)
        [Scenario.decl "transform" "translateX(50px)", Scenario.decl "left" "10px"]).map
        (fun r => r.2.getPosition.x) = .ok 10 := by
  have e1 : ∀ t : Declaration, pre ++ t :: (mid ++ ⟨lit "left", v⟩ :: post) =
      (pre ++ t :: mid) ++ ⟨lit "left", v⟩ :: post := by
    intro t
    simp
  have e2 : ∀ t : Declaration, pre ++ ⟨lit "left", v⟩ :: (mid ++ t :: post) =
      (pre ++ ⟨lit "left", v⟩ :: mid) ++ t :: post := by
    intro t
    simp
  refine ⟨?_, ?_, by decide!, by decide!⟩
  · intro r hr hx
    have f1 := apply_left_last ctx el _ post v hpost r (by rw [← e1]; exact hr) hx
    obtain ⟨r', hr', hc⟩ := ok_of_map_fst _ _ r hr
      (apply_ctx_translateX ctx el pre (mid ++ ⟨lit "left", v⟩ :: post) d d' hd hd')
    have f2 := apply_left_last ctx el _ post v hpost r' (by rw [← e1]; exact hr')
      (by rw [hc]; exact hx)
    exact ⟨f1, r', hr', hc, by rw [f1, f2, hc]⟩
  · intro hmid r hr hx
    have hpost2 : ∀ (t : Declaration), t.property = lit "transform" →
        ∀ x ∈ mid ++ t :: post, x.property ∉ horizontal := by
      intro t ht x hxm
      rcases List.mem_append.1 hxm with g | g
      · exact hmid x g
      · rcases List.mem_cons.1 g with g | g
        · rw [g, ht]
          decide
        · exact hpost x g
    have f1 := apply_left_last ctx el pre _ v
      (hpost2 ⟨lit "transform", lit "translateX(" ++ (d.text ++ [')'])⟩ rfl) r hr hx
    have hind := apply_ctx_translateX ctx el (pre ++ ⟨lit "left", v⟩ :: mid) post d d' hd hd'
    rw [← e2, ← e2] at hind
    obtain ⟨r', hr', hc⟩ := ok_of_map_fst _ _ r hr hind
    have f2 := apply_left_last ctx el pre _ v
      (hpost2 ⟨lit "transform", lit "translateX(" ++ (d'.text ++ [')'])⟩ rfl) r' hr'
      (by rw [hc]; exact hx)
    exact ⟨f1, r', hr', hc, by rw [f1, f2, hc]⟩

/-- Witness of C34: `translateX(5px)` then `left: 10px` on a `{200,100}`
element in a window `{1280,720}` ends at x = 10, and so does `translateX(50px)`. -/
theorem left_overrides_translateX_witness :
    ({ Scenario.rect 200 100 with position := ⟨10, 0⟩ } : Element).getPosition.x =
      (refOrigin (Scenario.viewportContext 1280 720)).x +
        LengthResolver.resolve (lit "10px") (refSize (Scenario.viewportContext 1280 720)).x
          (Scenario.viewportContext 1280 720).windowSize +
        (Scenario.viewportContext 1280 720).box.marginLeft :=
  ((left_overrides_translateX (Scenario.viewportContext 1280 720) (Scenario.rect 200 100)
      [] [] [] ⟨Decimal.ofDigits 5 [], lit "px"⟩ ⟨Decimal.ofDigits 5 [0], lit "px"⟩ (lit "10px")
      (by decide) (by decide) (by decide)).1
      (Scenario.viewportContext 1280 720, { Scenario.rect 200 100 with position := ⟨10, 0⟩ })
      (by decide!) rfl).1

/-- Counterexample to C34 as stated: lists that hold `transform:
translateX(5px)` and `left: 10px` and end elsewhere than at x = 0 + 10 + 0, on a
`{200,100}` element in a window `{1280,720}`: a later `right: 0px` ends at
x = 1080, a later `transform: translateX(50%)` at x = 110. -/
theorem left_overrides_translateX_counterexample :
    (apply (Scenario.viewportContext 1280 720) (Scenario.rect 200 100)
        [Scenario.decl "transform" "translateX(5px)", Scenario.decl "left" "10px",
          Scenario.decl "right" "0px"]).map (fun r => r.2.getPosition.x) = .ok 1080 ∧
    (apply (Scenario.viewportContext 1280 720) (Scenario.rect 200 100)
        [Scenario.decl "transform" "translateX(5px)", Scenario.decl "left" "10px",
          Scenario.decl "transform" "translateX(50%)"]).map (fun r => r.2.getPosition.x) =
      .ok 110 ∧
    (refOrigin (Scenario.viewportContext 1280 720)).x +
        LengthResolver.resolve (lit "10px") (refSize (Scenario.viewportContext 1280 720)).x
          (Scenario.viewportContext 1280 720).windowSize +
        (Scenario.viewportContext 1280 720).box.marginLeft = 10 := by
  refine ⟨by decide!, by decide!, by decide!⟩

end PropertyDispatcher

/-! ## Repeating the layout -/

namespace FlexLayout

theorem setSize_setPosition (e : Element) (p : Vec2) (sz : Vec2) :
    (e.setPosition p).setSize sz = (e.setSize sz).setPosition p := by
  rcases e with ⟨k, _, _, _, _, _, _, _, _, _, _, _, _, _, _⟩
  cases k <;> simp only [Element.setSize, Element.setPosition, Element.getSize] <;>
    (try split_ifs) <;> rfl

theorem setPosition_setPosition (e : Element) (p q : Vec2) :
    (e.setPosition p).setPosition q = e.setPosition q := rfl

/-- The body of the placing loop puts the placed child in the scene and advances
the cursor by its main extent, the gap and the extra spacing. -/
theorem placeChild_eq (f : Frame) (h : Handle) (c : ℚ) (sc : Scene) :
    placeChild f h c sc =
      (Function.update sc h (placed f c (sc h)),
        c + (mainExtent f.isColumn (placed f c (sc h)) + f.gap + f.between)) := by
  unfold placeChild placed placeChild mainExtent
  cases f.align <;> cases f.isColumn <;> simp [Function.update, getSize_setPosition]

theorem placeChildren_cons (f : Frame) (h : Handle) (t : List Handle) (c : ℚ) (sc : Scene) :
    placeChildren f (h :: t) c sc =
      placeChildren f t (c + (mainExtent f.isColumn (placed f c (sc h)) + f.gap + f.between))
        (Function.update sc h (placed f c (sc h))) := by
  rw [placeChildren, placeChild_eq]

theorem placeChildren_apart (f : Frame) (hs : List Handle) (k : Handle) (c : ℚ) (sc : Scene)
    (hk : k ∉ hs) : placeChildren f hs c sc k = sc k := by
  induction hs generalizing c sc with
  | nil => rfl
  | cons h t ih =>
      rw [placeChildren_cons, ih _ _ (fun hm => hk (List.mem_cons_of_mem _ hm))]
      exact Function.update_noteq (fun e : k = h => hk (e ▸ List.mem_cons_self _ _)) _ _

theorem placed_setPosition (f : Frame) (c : ℚ) (e : Element) (p : Vec2) :
    placed f c (e.setPosition p) = placed f c e := by
  unfold placed placeChild
  cases f.align <;> cases f.isColumn <;>
    simp [Function.update, getSize_setPosition, setSize_setPosition, setPosition_setPosition]

theorem kind_placed (f : Frame) (c : ℚ) (e : Element) : (placed f c e).kind = e.kind := by
  unfold placed placeChild
  cases f.align <;> cases f.isColumn <;>
    simp [Function.update, kind_setPosition, kind_setSize]

/-- Placing an element that has been placed, by a frame of the same direction
and policy, gives what placing the element itself gives, when the element is a
rectangle or nothing is stretched. -/
theorem placed_placed (f g : Frame) (c c' : ℚ) (e : Element)
    (hcol : g.isColumn = f.isColumn) (hal : g.align = f.align)
    (hk : f.align = .Stretch → e.kind = .rectangle) :
    placed g c' (placed f c e) = placed g c' e := by
  unfold placed placeChild
  rw [hcol, hal]
  cases ha : f.align <;> cases f.isColumn <;>
    simp [Function.update, getSize_setPosition, setSize_setPosition, setPosition_setPosition]
  all_goals
    have hr := hk ha
    unfold Element.setSize Element.getSize
    simp only [hr]

theorem mainExtent_placed (f : Frame) (c : ℚ) (e : Element)
    (hk : f.align = .Stretch → e.kind = .rectangle) :
    mainExtent f.isColumn (placed f c e) = mainExtent f.isColumn e := by
  unfold placed placeChild mainExtent
  cases ha : f.align <;> cases hc : f.isColumn <;>
    simp [Function.update, getSize_setPosition]
  all_goals
    have hr := hk ha
    unfold Element.setSize Element.getSize
    simp only [hr]

/-- The placing loop gives the same scene on two scenes that agree outside the
children and whose children are placed alike. -/
theorem placeChildren_congr (f : Frame) (hs : List Handle) :
    ∀ (c : ℚ) (sc sc' : Scene),
      (∀ h ∈ hs, ∀ c', placed f c' (sc h) = placed f c' (sc' h)) →
      (∀ k, k ∉ hs → sc k = sc' k) →
      placeChildren f hs c sc = placeChildren f hs c sc' := by
  induction hs with
  | nil =>
      intro c sc sc' _ h2
      funext k
      exact h2 k (List.not_mem_nil k)
  | cons h t ih =>
      intro c sc sc' h1 h2
      rw [placeChildren_cons, placeChildren_cons, h1 h (List.mem_cons_self _ _) c]
      apply ih
      · intro j hj c'
        by_cases e : j = h
        · subst e
          rw [Function.update_same, Function.update_same]
        · rw [Function.update_noteq e, Function.update_noteq e]
          exact h1 j (List.mem_cons_of_mem _ hj) c'
      · intro k hk
        by_cases e : k = h
        · subst e
          rw [Function.update_same, Function.update_same]
        · rw [Function.update_noteq e, Function.update_noteq e]
          exact h2 k (fun hm => by
            rcases List.mem_cons.1 hm with g | g
            · exact e g
            · exact hk g)

/-- What the placing loop leaves of a child is placed like the child, by every
frame of the same direction and policy. -/
theorem placeChildren_placed_alike (f g : Frame) (hcol : g.isColumn = f.isColumn)
    (hal : g.align = f.align) (hs : List Handle) :
    ∀ (c : ℚ) (sc : Scene) (k : Handle),
      (f.align = .Stretch → (sc k).kind = .rectangle) →
      ∀ c', placed g c' (placeChildren f hs c sc k) = placed g c' (sc k) := by
  induction hs with
  | nil =>
      intro c sc k hk c'
      rfl
  | cons h t ih =>
      intro c sc k hk c'
      rw [placeChildren_cons]
      have hk1 : f.align = .Stretch →
          (Function.update sc h (placed f c (sc h)) k).kind = .rectangle := by
        intro ha
        by_cases e : k = h
        · subst e
          rw [Function.update_same, kind_placed]
          exact hk ha
        · rw [Function.update_noteq e]
          exact hk ha
      rw [ih (c + (mainExtent f.isColumn (placed f c (sc h)) + f.gap + f.between))
        (Function.update sc h (placed f c (sc h))) k hk1 c']
      by_cases e : k = h
      · subst e
        rw [Function.update_same, placed_placed f g c c' _ hcol hal hk]
      · rw [Function.update_noteq e]

theorem kind_placeChildren (f : Frame) (hs : List Handle) :
    ∀ (c : ℚ) (sc : Scene) (k : Handle), (placeChildren f hs c sc k).kind = (sc k).kind := by
  induction hs with
  | nil => intro c sc k; rfl
  | cons h t ih =>
      intro c sc k
      rw [placeChildren_cons, ih]
      by_cases e : k = h
      · subst e
        rw [Function.update_same, kind_placed]
      · rw [Function.update_noteq e]

/-- The frame and the start cursor of `applyFlex` are read from the parent and
from the sum of the main extents only. -/
theorem applyFlex_congr (ctx : StyleContext) (hs : List Handle) (sc sc' : Scene)
    (hself : sc' ctx.self = sc ctx.self)
    (htotal : totalMain ctx.flex.column hs sc' = totalMain ctx.flex.column hs sc)
    (h1 : ∀ h ∈ hs, ∀ (f : Frame) (c' : ℚ), f.isColumn = ctx.flex.column →
      f.align = ctx.flex.align → placed f c' (sc' h) = placed f c' (sc h))
    (h2 : ∀ k, k ∉ hs → sc' k = sc k) :
    applyFlex ctx hs sc' = applyFlex ctx hs sc := by
  unfold applyFlex
  simp only [hself, htotal]
  apply placeChildren_congr
  · intro h hh c'
    exact h1 h hh _ c' rfl rfl
  · exact h2

theorem applyFlex_eq_placeChildren (ctx : StyleContext) (hs : List Handle) (sc : Scene) :
    ∃ (f : Frame) (c : ℚ), applyFlex ctx hs sc = placeChildren f hs c sc ∧
      f.isColumn = ctx.flex.column ∧ f.align = ctx.flex.align :=
  ⟨_, _, rfl, rfl, rfl⟩

/-- C37. Flex-enabled layout is idempotent: when flex is enabled, the parent is
not among the children, and the children are rectangles (which is needed only
when the alignment is `stretch`), a second call of `FlexLayout::apply` leaves the
scene, hence the position and size of every child, as the first call left it,
for every justify, align, direction, gap and padding. The flex-disabled path is
not idempotent: on distinct children each call adds the content-box origin, the
parent position plus `(paddingLeft, paddingTop)`, to the position of every
child again. -/
theorem flex_idempotent (ctx : StyleContext) (children : List Handle) (sc : Scene)
    (hself : ctx.self ∉ children) :
    (ctx.flex.enabled = true →
      (∀ h ∈ children, ctx.flex.align = .Stretch → (sc h).kind = .rectangle) →
      apply ctx children (apply ctx children sc) = apply ctx children sc ∧
      ∀ k, (apply ctx children (apply ctx children sc) k).getPosition =
          (apply ctx children sc k).getPosition ∧
        (apply ctx children (apply ctx children sc) k).getSize =
          (apply ctx children sc k).getSize) ∧
    (ctx.flex.enabled = false → children.Nodup → ∀ k ∈ children,
      (apply ctx children (apply ctx children sc) k).getPosition =
        ⟨(sc ctx.self).getPosition.x + ctx.box.paddingLeft +
            (apply ctx children sc k).getPosition.x,
         (sc ctx.self).getPosition.y + ctx.box.paddingTop +
            (apply ctx children sc k).getPosition.y⟩ ∧
      (apply ctx children sc k).getPosition =
        ⟨(sc ctx.self).getPosition.x + ctx.box.paddingLeft + (sc k).getPosition.x,
         (sc ctx.self).getPosition.y + ctx.box.paddingTop + (sc k).getPosition.y⟩) := by
  constructor
  · intro hen hrect
    have key : apply ctx children (apply ctx children sc) = apply ctx children sc := by
      by_cases hne : children = []
      · subst hne
        rfl
      · have happ : ∀ s : Scene, apply ctx children s = applyFlex ctx children s := by
          intro s
          unfold apply
          rw [if_neg hne, if_pos hen]
        rw [happ, happ]
        obtain ⟨f, c, hf, hcol, hal⟩ := applyFlex_eq_placeChildren ctx children sc
        have hrel : ∀ h ∈ children, ∀ (g : Frame) (c' : ℚ), g.isColumn = ctx.flex.column →
            g.align = ctx.flex.align →
            placed g c' (applyFlex ctx children sc h) = placed g c' (sc h) := by
          intro h hh g c' gcol gal
          rw [hf]
          exact placeChildren_placed_alike f g (gcol.trans hcol.symm) (gal.trans hal.symm)
            children c sc h (fun ha => hrect h hh (hal ▸ ha)) c'
        have hout : ∀ k, k ∉ children → applyFlex ctx children sc k = sc k := by
          intro k hk
          rw [hf]
          exact placeChildren_apart f children k c sc hk
        have hext : ∀ h ∈ children, mainExtent ctx.flex.column (applyFlex ctx children sc h) =
            mainExtent ctx.flex.column (sc h) := by
          intro h hh
          have hk : f.align = .Stretch → (sc h).kind = .rectangle :=
            fun ha => hrect h hh (hal ▸ ha)
          have hk1 : f.align = .Stretch → (applyFlex ctx children sc h).kind = .rectangle := by
            intro ha
            rw [hf, kind_placeChildren]
            exact hk ha
          have e1 := mainExtent_placed f 0 (applyFlex ctx children sc h) hk1
          have e2 := mainExtent_placed f 0 (sc h) hk
          rw [hrel h hh f 0 hcol hal, e2, hcol] at e1
          exact e1.symm
        have htotal : totalMain ctx.flex.column children (applyFlex ctx children sc) =
            totalMain ctx.flex.column children sc := by
          rw [totalMain_eq_sum, totalMain_eq_sum]
          exact congrArg List.sum (List.map_congr_left hext)
        have step := applyFlex_congr ctx children sc (applyFlex ctx children sc)
          (hout ctx.self hself) htotal hrel hout
        rw [step]
    exact ⟨key, fun k => by rw [key]; exact ⟨rfl, rfl⟩⟩
  · intro hen hnd k hk
    have happ : ∀ s : Scene, apply ctx children s = applyPaddingOffset ctx children s := by
      intro s
      unfold apply
      have hne : children ≠ [] := List.ne_nil_of_mem hk
      rw [if_neg hne, hen]
      rfl
    have hparent : applyPaddingOffset ctx children sc ctx.self = sc ctx.self :=
      offsetChildren_other _ children ctx.self sc hself
    rw [happ, happ]
    constructor
    · unfold applyPaddingOffset
      rw [offsetChildren_mem _ children k _ hnd hk]
      have hp : offsetChildren
          ⟨(sc ctx.self).getPosition.x + ctx.box.paddingLeft,
            (sc ctx.self).getPosition.y + ctx.box.paddingTop⟩ children sc ctx.self =
          sc ctx.self := offsetChildren_other _ children ctx.self sc hself
      rw [hp]
      rfl
    · unfold applyPaddingOffset
      rw [offsetChildren_mem _ children k _ hnd hk]
      rfl

/-- Witness of C37: a `{300,100}` parent at `{10,20}` with padding, gap 7,
`space-around` and `stretch`, and two rectangular children in a row; without
flex the second call moves child 1 by the content-box origin `{15,20}` again. -/
theorem flex_idempotent_witness :
    apply
        { Scenario.viewportContext 1280 720 with
            box := ⟨0, 15, 0, 5, 0, 0, 0, 0⟩
            flex := ⟨true, false, 7, .SpaceAround, .Stretch⟩ }
        [1, 2]
        (apply
          { Scenario.viewportContext 1280 720 with
              box := ⟨0, 15, 0, 5, 0, 0, 0, 0⟩
              flex := ⟨true, false, 7, .SpaceAround, .Stretch⟩ }
          [1, 2]
          (fun h => if h = 0 then { Scenario.rect 300 100 with position := ⟨10, 20⟩ }
            else Scenario.rect 40 20)) =
      apply
        { Scenario.viewportContext 1280 720 with
            box := ⟨0, 15, 0, 5, 0, 0, 0, 0⟩
            flex := ⟨true, false, 7, .SpaceAround, .Stretch⟩ }
        [1, 2]
        (fun h => if h = 0 then { Scenario.rect 300 100 with position := ⟨10, 20⟩ }
          else Scenario.rect 40 20) ∧
    (apply
        { Scenario.viewportContext 1280 720 with box := ⟨0, 15, 0, 5, 0, 0, 0, 0⟩ }
        [1, 2]
        (apply
          { Scenario.viewportContext 1280 720 with box := ⟨0, 15, 0, 5, 0, 0, 0, 0⟩ }
          [1, 2]
          (fun h => if h = 0 then { Scenario.rect 300 100 with position := ⟨10, 20⟩ }
            else Scenario.rect 40 20)) 1).getPosition = ⟨30, 40⟩ ∧
    (apply
        { Scenario.viewportContext 1280 720 with box := ⟨0, 15, 0, 5, 0, 0, 0, 0⟩ }
        [1, 2]
        (fun h => if h = 0 then { Scenario.rect 300 100 with position := ⟨10, 20⟩ }
          else Scenario.rect 40 20) 1).getPosition = ⟨15, 20⟩ :=
  ⟨((flex_idempotent
      { Scenario.viewportContext 1280 720 with
          box := ⟨0, 15, 0, 5, 0, 0, 0, 0⟩
          flex := ⟨true, false, 7, .SpaceAround, .Stretch⟩ }
      [1, 2]
      (fun h => if h = 0 then { Scenario.rect 300 100 with position := ⟨10, 20⟩ }
        else Scenario.rect 40 20) (by decide)).1 rfl (by decide)).1,
    by decide!, by decide!⟩

end FlexLayout

/-! ## Rows and columns -/

namespace FlexLayout

theorem getSize_transpose (e : Element) : e.transpose.getSize = e.getSize.swap := by
  rcases e with ⟨k, _, _, _, _, _, _, _, _, _, _, _, _, _, _⟩
  cases k <;> rfl

theorem getPosition_transpose (e : Element) : e.transpose.getPosition = e.getPosition.swap := by
  rcases e with ⟨k, _, _, _, _, _, _, _, _, _, _, _, _, _, _⟩
  cases k <;> rfl

theorem setPosition_transpose (e : Element) (p : Vec2) :
    (e.setPosition p).transpose = e.transpose.setPosition p.swap := by
  rcases e with ⟨k, _, _, _, _, _, _, _, _, _, _, _, _, _, _⟩
  cases k <;> rfl

theorem setSize_transpose (e : Element) (sz : Vec2) :
    (e.setSize sz).transpose = e.transpose.setSize sz.swap := by
  rcases e with ⟨k, pos, org, scl, rot, size, rad, lb, _, _, _, _, _, _, _⟩
  cases k
  · rfl
  · simp only [Element.setSize, Element.transpose, Vec2.swap, min_comm sz.y sz.x]
  · simp only [Element.setSize, Element.transpose, Element.getSize, Vec2.swap]
    by_cases h : 0 < lb.x ∧ 0 < lb.y
    · rw [if_pos h, if_pos ⟨h.2, h.1⟩]
    · rw [if_neg h, if_neg (fun g => h ⟨g.2, g.1⟩)]
  · rfl
  · simp only [Element.setSize, Element.transpose, Element.getSize, Vec2.swap]
    by_cases h : 0 < lb.x ∧ 0 < lb.y
    · rw [if_pos h, if_pos ⟨h.2, h.1⟩]
    · rw [if_neg h, if_neg (fun g => h ⟨g.2, g.1⟩)]

theorem swap_swap (v : Vec2) : v.swap.swap = v := rfl

theorem transpose_transpose (e : Element) : e.transpose.transpose = e := by
  rcases e with ⟨k, _, _, _, _, _, _, _, _, _, _, _, _, _, _⟩
  cases k <;> rfl

theorem mainExtent_transpose (col : Bool) (e : Element) :
    mainExtent (!col) e.transpose = mainExtent col e := by
  unfold mainExtent
  rw [getSize_transpose]
  cases col <;> rfl

/-- Placing commutes with the exchange of the axes. -/
theorem placed_transpose (f : Frame) (c : ℚ) (e : Element) :
    placed f.transpose c e.transpose = (placed f c e).transpose := by
  unfold placed placeChild Frame.transpose
  cases f.align <;> cases f.isColumn <;>
    simp [Function.update, getSize_transpose, setPosition_transpose, setSize_transpose,
      Vec2.swap]

theorem placeChildren_transpose (f : Frame) (hs : List Handle) :
    ∀ (c : ℚ) (sc : Scene),
      placeChildren f.transpose hs c (fun k => (sc k).transpose) =
        fun k => (placeChildren f hs c sc k).transpose := by
  induction hs with
  | nil => intro c sc; rfl
  | cons h t ih =>
      intro c sc
      rw [placeChildren_cons, placeChildren_cons, placed_transpose]
      have hcur : mainExtent f.transpose.isColumn (placed f c (sc h)).transpose =
          mainExtent f.isColumn (placed f c (sc h)) := mainExtent_transpose _ _
      have hsc : Function.update (fun k => (sc k).transpose) h (placed f c (sc h)).transpose =
          fun k => (Function.update sc h (placed f c (sc h)) k).transpose := by
        funext k
        by_cases e : k = h
        · subst e
          rw [Function.update_same, Function.update_same]
        · rw [Function.update_noteq e, Function.update_noteq e]
      rw [hcur, hsc]
      exact ih _ _

theorem totalMain_transpose (col : Bool) (hs : List Handle) (sc : Scene) :
    totalMain (!col) hs (fun k => (sc k).transpose) = totalMain col hs sc := by
  rw [totalMain_eq_sum, totalMain_eq_sum]
  exact congrArg List.sum (List.map_congr_left (fun h _ => mainExtent_transpose col (sc h)))

/-- The layout of the transposed input in the other direction is the transpose
of the layout. -/
theorem applyFlex_transpose (ctx : StyleContext) (hs : List Handle) (sc : Scene) :
    applyFlex (transposeContext ctx) hs (fun k => (sc k).transpose) =
      fun k => (applyFlex ctx hs sc k).transpose := by
  unfold applyFlex
  rw [← placeChildren_transpose]
  have ht := totalMain_transpose ctx.flex.column hs sc
  simp only [transposeContext, getSize_transpose, getPosition_transpose, Vec2.swap,
    Frame.transpose, ht]
  cases ctx.flex.column <;> rfl

/-- C38. Row and column flex layout are one algorithm up to the exchange of the
axes: with flex enabled, laying out in the flipped direction the transposed
input (x and y exchanged in the parent position and size and in every child
size, the children standing anywhere, and paddingLeft exchanged with paddingTop,
paddingRight with paddingBottom) gives the transpose of laying out the input: x
and y are exchanged in the position and the size of every element. -/
theorem flex_transpose (ctx : StyleContext) (children : List Handle) (sc scT : Scene)
    (hen : ctx.flex.enabled = true)
    (hT : ∀ k, scT k = (sc k).transpose ∨
      (k ∈ children ∧ k ≠ ctx.self ∧ ∃ p, scT k = (sc k).transpose.setPosition p)) :
    apply (transposeContext ctx) children scT = (fun k => (apply ctx children sc k).transpose) ∧
    (∀ k, (apply (transposeContext ctx) children scT k).getPosition =
        (apply ctx children sc k).getPosition.swap ∧
      (apply (transposeContext ctx) children scT k).getSize =
        (apply ctx children sc k).getSize.swap) ∧
    (transposeContext ctx).flex.column = (!ctx.flex.column) ∧
    (transposeContext ctx).box.paddingLeft = ctx.box.paddingTop ∧
    (transposeContext ctx).box.paddingTop = ctx.box.paddingLeft ∧
    (transposeContext ctx).box.paddingRight = ctx.box.paddingBottom ∧
    (transposeContext ctx).box.paddingBottom = ctx.box.paddingRight := by
  have hout : ∀ k, k ∉ children → scT k = (sc k).transpose := by
    intro k hk
    rcases hT k with h | h
    · exact h
    · exact absurd h.1 hk
  have hselfT : scT ctx.self = (sc ctx.self).transpose := by
    rcases hT ctx.self with h | h
    · exact h
    · exact absurd rfl h.2.1
  have key : apply (transposeContext ctx) children scT =
      (fun k => (apply ctx children sc k).transpose) := by
    by_cases hne : children = []
    · subst hne
      funext k
      exact hout k (List.not_mem_nil k)
    · have happ : ∀ (c : StyleContext) (s : Scene), c.flex.enabled = true →
          apply c children s = applyFlex c children s := by
        intro c s hc
        unfold apply
        rw [if_neg hne, if_pos hc]
      rw [happ _ _ hen, happ (transposeContext ctx) scT hen, ← applyFlex_transpose]
      apply applyFlex_congr
      · exact hselfT
      · rw [totalMain_eq_sum, totalMain_eq_sum]
        refine congrArg List.sum (List.map_congr_left ?_)
        intro h _
        rcases hT h with g | ⟨_, _, p, g⟩
        · rw [g]
        · rw [g]
          unfold mainExtent
          rw [getSize_setPosition]
      · intro h _ f c' _ _
        rcases hT h with g | ⟨_, _, p, g⟩
        · rw [g]
        · rw [g, placed_setPosition]
      · exact hout
  refine ⟨key, ?_, rfl, rfl, rfl, rfl, rfl⟩
  intro k
  rw [key]
  exact ⟨getPosition_transpose _, getSize_transpose _⟩

/-- Witness of C38: a `{300,100}` parent at `{10,20}` with padding-left 5 and
padding-right 15, gap 7, `space-around`, `center`, and two children `{40,20}`
and `{60,30}`: the column layout of the transposed scene, with child 1 standing
at `{7,9}`, puts child 2 where the row layout puts it, x and y exchanged. -/
theorem flex_transpose_witness :
    (apply
        (transposeContext
          { Scenario.viewportContext 1280 720 with
              box := ⟨0, 15, 0, 5, 0, 0, 0, 0⟩
              flex := ⟨true, false, 7, .SpaceAround, .Center⟩ })
        [1, 2]
        (fun k => if k = 1 then (Scenario.rect 20 40).setPosition ⟨7, 9⟩
          else if k = 0 then { Scenario.rect 100 300 with position := ⟨20, 10⟩ }
          else Scenario.rect 30 60) 2).getPosition =
      (apply
        { Scenario.viewportContext 1280 720 with
            box := ⟨0, 15, 0, 5, 0, 0, 0, 0⟩
            flex := ⟨true, false, 7, .SpaceAround, .Center⟩ }
        [1, 2]
        (fun k => if k = 1 then Scenario.rect 40 20
          else if k = 0 then { Scenario.rect 300 100 with position := ⟨10, 20⟩ }
          else Scenario.rect 60 30) 2).getPosition.swap :=
  ((flex_transpose
      { Scenario.viewportContext 1280 720 with
          box := ⟨0, 15, 0, 5, 0, 0, 0, 0⟩
          flex := ⟨true, false, 7, .SpaceAround, .Center⟩ }
      [1, 2]
      (fun k => if k = 1 then Scenario.rect 40 20
        else if k = 0 then { Scenario.rect 300 100 with position := ⟨10, 20⟩ }
        else Scenario.rect 60 30)
      (fun k => if k = 1 then (Scenario.rect 20 40).setPosition ⟨7, 9⟩
        else if k = 0 then { Scenario.rect 100 300 with position := ⟨20, 10⟩ }
        else Scenario.rect 30 60)
      rfl
      (fun k =>
        if h1 : k = 1 then
          Or.inr ⟨by rw [h1]; decide, by rw [h1]; decide, ⟨7, 9⟩, by
            subst h1
            rfl⟩
        else if h0 : k = 0 then Or.inl (by
          subst h0
          rfl)
        else Or.inl (by
          beta_reduce
          rw [if_neg h1, if_neg h1, if_neg h0, if_neg h0]
          rfl))).2.1 2).1

end FlexLayout
